import Mathlib

/-!
# wget2: a shallow embedding of the downloader core

The C sources embedded here are `libwget/http.c`, `libwget/utils.c`,
`src/wget.c` and `src/blacklist.c`.

Conventions of the embedding:

* A C string (`const char *` pointing at NUL-terminated bytes) is a
  `List Char` holding the bytes before the terminating NUL; the byte at the
  pointer is `cur s`, which is NUL (`Char.ofNat 0`) at the end of the string.
  A pointer that may be `NULL` is an `Option (List Char)`.
* A function that advances a `const char *s` returns the remaining string.
* `int`, `long long`, `time_t` are `Int`; `size_t` is `Nat`. Wrap-around is
  written out where the code can reach it.
* Code outside the repository sources (libc, gnulib, the hash map, the buffer
  and vector containers) is modelled from its documented behaviour; every such
  definition says so in its comment.
-/

namespace Wget2

/-! ## C strings and `c-ctype` -/

/-- The NUL byte. -/
def NUL : Char := Char.ofNat 0

/-- Byte at a `const char *`: the head of the remaining string, NUL at its end. -/
def cur : List Char → Char
  | [] => NUL
  | c :: _ => c

/-- Pointer increment `s + 1` (only used where `*s` is not NUL). -/
def adv : List Char → List Char
  | [] => []
  | _ :: s => s

/-- gnulib `c_isblank`: space or horizontal tab. -/
def c_isblank (c : Char) : Bool := c == ' ' || c == '\t'

/-- gnulib `c_isspace`: space, `\t`, `\n`, `\v`, `\f`, `\r`. -/
def c_isspace (c : Char) : Bool :=
  c == ' ' || c == '\t' || c == '\n' || c == Char.ofNat 11 || c == Char.ofNat 12 || c == '\r'

/-- gnulib `c_isdigit`. -/
def c_isdigit (c : Char) : Bool := decide ('0'.toNat ≤ c.toNat ∧ c.toNat ≤ '9'.toNat)

/-- gnulib `c_isalpha` (ASCII letters). -/
def c_isalpha (c : Char) : Bool :=
  decide (('a'.toNat ≤ c.toNat ∧ c.toNat ≤ 'z'.toNat) ∨ ('A'.toNat ≤ c.toNat ∧ c.toNat ≤ 'Z'.toNat))

/-- gnulib `c_tolower`: maps `A`..`Z` to `a`..`z`, every other byte to itself. -/
def c_tolower (c : Char) : Char :=
  if 'A'.toNat ≤ c.toNat ∧ c.toNat ≤ 'Z'.toNat then Char.ofNat (c.toNat + 32) else c

/-- gnulib `c_strcasecmp`: difference of the first pair of bytes that differ
after `c_tolower`, 0 when the strings are equal up to ASCII case. -/
def c_strcasecmp : List Char → List Char → Int
  | [], [] => 0
  | [], c :: _ => - ((c_tolower c).toNat : Int)
  | c :: _, [] => ((c_tolower c).toNat : Int)
  | a :: s, b :: t =>
    if c_tolower a = c_tolower b then c_strcasecmp s t
    else ((c_tolower a).toNat : Int) - ((c_tolower b).toNat : Int)

/-- gnulib `c_strncasecmp`: as `c_strcasecmp`, looking at no more than `n` bytes. -/
def c_strncasecmp : List Char → List Char → Nat → Int
  | _, _, 0 => 0
  | [], [], _ + 1 => 0
  | [], c :: _, _ + 1 => - ((c_tolower c).toNat : Int)
  | c :: _, [], _ + 1 => ((c_tolower c).toNat : Int)
  | a :: s, b :: t, n + 1 =>
    if c_tolower a = c_tolower b then c_strncasecmp s t n
    else ((c_tolower a).toNat : Int) - ((c_tolower b).toNat : Int)

/-- `wget_strcasecmp_ascii` (utils.c): NULL-tolerant `c_strcasecmp`. -/
def wget_strcasecmp_ascii : Option (List Char) → Option (List Char) → Int
  | none, none => 0
  | none, some _ => -1
  | some _, none => 1
  | some s1, some s2 => c_strcasecmp s1 s2

/-- `wget_strncasecmp_ascii` (utils.c): NULL-tolerant `c_strncasecmp`. -/
def wget_strncasecmp_ascii : Option (List Char) → Option (List Char) → Nat → Int
  | none, none, _ => 0
  | none, some _, _ => -1
  | some _, none, _ => 1
  | some s1, some s2, n => c_strncasecmp s1 s2 n

/-- libc `strcmp`, as the difference of the first pair of bytes that differ. -/
def strcmp : List Char → List Char → Int
  | [], [] => 0
  | [], c :: _ => - (c.toNat : Int)
  | c :: _, [] => (c.toNat : Int)
  | a :: s, b :: t => if a = b then strcmp s t else (a.toNat : Int) - (b.toNat : Int)

/-- `wget_match_tail` (utils.c): `p = s + strlen(s) - strlen(tail)`;
`p >= s && !strcmp(p, tail)`. -/
def wget_match_tail (s tail : List Char) : Bool :=
  decide (tail.length ≤ s.length) && decide (strcmp (s.drop (s.length - tail.length)) tail = 0)

/-- `wget_match_tail_nocase` (utils.c). -/
def wget_match_tail_nocase (s tail : List Char) : Bool :=
  decide (tail.length ≤ s.length) &&
    decide (wget_strcasecmp_ascii (some (s.drop (s.length - tail.length))) (some tail) = 0)

/-- libc `strpbrk(s, accept) != NULL`. -/
def strpbrk_found (s accept : List Char) : Bool := s.any (fun c => accept.contains c)

/-! ## `src/wget.c`: configuration, quota, `_save_file` -/

/-- The fields of the global `config` that the embedded functions read. -/
structure Config where
  spider : Bool
  quota : Int
  save_headers : Bool
  output_document : Option (List Char)
  delete_after : Bool
  adjust_extension : Bool
  accept_patterns : Option (List (List Char))
  reject_patterns : Option (List (List Char))
  ignore_case : Bool
  timestamping : Bool
  clobber : Bool
  recursive : Bool
  directories : Bool
  backups : Int
  deriving DecidableEq, Repr

/-- `in_pattern_list` (wget.c). libc `fnmatch` is passed in as
`fnmatch pattern url casefold`, true when the pattern matches. -/
def in_pattern_list (fnmatch : List Char → List Char → Bool → Bool) (config : Config) :
    List (List Char) → List Char → Bool
  | [], _ => false
  | pattern :: v, url =>
    if strpbrk_found pattern "*?[]".toList then
      if fnmatch pattern url config.ignore_case then true
      else in_pattern_list fnmatch config v url
    else if config.ignore_case then
      if wget_match_tail_nocase url pattern then true
      else in_pattern_list fnmatch config v url
    else if wget_match_tail url pattern then true
    else in_pattern_list fnmatch config v url

/-- Conversion of a mathematical integer to `long long` (two's complement, 64 bit). -/
def toLongLong (x : Int) : Int := (x + 2 ^ 63) % 2 ^ 64 - 2 ^ 63

/-- `_fetch_and_add_longlong` (wget.c): returns the old value and the new
content of `*p`. -/
def _fetch_and_add_longlong (p : Int) (n : Int) : Int × Int := (p, toLongLong (p + n))

/-- `quota_modify_read` (wget.c) on the static counter `quota`: the old
value and the updated counter. -/
def quota_modify_read (quota : Int) (nbytes : Nat) : Int × Int :=
  _fetch_and_add_longlong quota (toLongLong (nbytes : Int))

/-- The `open(2)` mode bit that `_save_file` passes next to `O_WRONLY | O_CREAT`. -/
inductive OFlag
  | O_TRUNC
  | O_APPEND
  | O_EXCL
  deriving DecidableEq, Repr

/-- The `fname` argument of `_save_file`: `NULL`, the very pointer
`config.output_document`, or any other string. -/
inductive FileArg
  | null
  | output_document
  | path (s : List Char)
  deriving DecidableEq, Repr

/-- What `_save_file` sees of the response. -/
structure SavedResponse where
  header_length : Nat
  body_length : Nat
  content_type : Option (List Char)
  last_modified : Int
  deriving DecidableEq, Repr

/-- Why `_save_file` returns without output (its `debug_printf` messages). -/
inductive SkipReason
  /-- `fname` is `NULL` -/
  | no_name
  /-- spider mode enabled -/
  | spider
  /-- file is a directory -/
  | directory
  /-- quota reached -/
  | quota
  /-- `--delete-after` with an output document -/
  | delete_after
  /-- doesn't match accept pattern -/
  | accept
  /-- matches reject pattern -/
  | reject
  deriving DecidableEq, Repr

/-- What one call of `_save_file` does with the file system. -/
inductive SaveAction
  /-- returned before any output was attempted -/
  | not_saved (why : SkipReason)
  /-- `fwrite` of header and body to `stdout` -/
  | to_stdout
  /-- the `rename` calls of the backup rotation, then
  `open(fname, O_WRONLY | flag | O_CREAT, 0644)`; `multiple` allows the `.N` retries -/
  | open_file (renames : List (List Char × List Char)) (fname : List Char) (flag : OFlag)
      (multiple : Bool)
  deriving DecidableEq, Repr

/-- Number of bytes handed to `quota_modify_read`. -/
def responseSize (config : Config) (resp : SavedResponse) : Nat :=
  if config.save_headers then resp.header_length + resp.body_length else resp.body_length

/-- The extension chosen by `--adjust-extension` for a content type. -/
def adjustExt (content_type : List Char) : Option (List Char) :=
  if wget_strcasecmp_ascii (some content_type) (some "text/html".toList) = 0
      ∨ wget_strcasecmp_ascii (some content_type) (some "application/xhtml+xml".toList) = 0 then
    some ".html".toList
  else if wget_strcasecmp_ascii (some content_type) (some "text/css".toList) = 0 then
    some ".css".toList
  else if wget_strcasecmp_ascii (some content_type) (some "application/atom+xml".toList) = 0 then
    some ".atom".toList
  else if wget_strcasecmp_ascii (some content_type) (some "application/rss+xml".toList) = 0 then
    some ".rss".toList
  else none

/-- The `config.adjust_extension` block of `_save_file`: the file name used from there on. -/
def adjustedName (config : Config) (resp : SavedResponse) (fname : List Char) : List Char :=
  if config.adjust_extension then
    match resp.content_type with
    | none => fname
    | some ct =>
      match adjustExt ct with
      | none => fname
      | some ext =>
        if ext.length ≤ fname.length ∧
            wget_strcasecmp_ascii (some (fname.drop (fname.length - ext.length))) (some ext) ≠ 0 then
          fname ++ ext
        else fname
  else fname

/-- Decimal digits of a natural number, most significant first (`%d`). -/
def natDigits (n : Nat) : List Char := (Nat.toDigits 10 n)

/-- `snprintf(dst, ..., "%s.%d", fname, n)` for `n >= 0` (the buffers of
`_save_file` are 16 bytes longer than the name, so nothing is cut). -/
def dotNum (fname : List Char) (n : Nat) : List Char := fname ++ '.' :: natDigits n

/-- The backup rotation of `_save_file`: for `it = backups .. 1` rename
`fname.(it-1)` (or `fname` for `it = 1`) to `fname.it`. -/
def backupRenames (fname : List Char) : Nat → List (List Char × List Char)
  | 0 => []
  | it + 1 =>
    ((if it + 1 > 1 then dotNum fname it else fname), dotNum fname (it + 1)) :: backupRenames fname it

/-- The mode selection of `_save_file` behind `wget_thread_mutex_lock`:
from the caller's flag `oflag` and the current `flag` to the flag given to
`open`, the `multiple` switch and the renames. -/
def selectMode (config : Config) (fname : List Char) (oflag flag : OFlag) :
    OFlag × Bool × List (List Char × List Char) :=
  if config.timestamping then
    if oflag = OFlag.O_TRUNC then (OFlag.O_TRUNC, false, []) else (flag, false, [])
  else if !config.clobber || (config.recursive && config.directories) then
    if oflag = OFlag.O_TRUNC ∧ ¬ (config.recursive && config.directories) then
      (OFlag.O_EXCL, false, [])
    else (flag, false, [])
  else if flag ≠ OFlag.O_APPEND then
    (OFlag.O_EXCL, true,
      if config.backups ≠ 0 then backupRenames fname config.backups.toNat else [])
  else (flag, false, [])

/-- `_save_file` (wget.c) up to and including its first `open`: the new
value of the static counter `quota` and what is done. `quota` is the
counter before the call; `flag` is `O_TRUNC` (`save_file`) or `O_APPEND`
(`append_file`). -/
def _save_file (fnmatch : List Char → List Char → Bool → Bool) (config : Config) (quota : Int)
    (resp : SavedResponse) (fname : FileArg) (flag : OFlag) : Int × SaveAction :=
  let name : Option (List Char) :=
    match fname with
    | FileArg.null => none
    | FileArg.output_document => config.output_document
    | FileArg.path s => some s
  match name with
  | none => (quota, SaveAction.not_saved SkipReason.no_name)
  | some fname_s =>
    if config.spider then (quota, SaveAction.not_saved SkipReason.spider)
    -- do not save into directories
    else if fname_s.getLast? = some '/' then (quota, SaveAction.not_saved SkipReason.directory)
    else
      let (old, quota1) := quota_modify_read quota (responseSize config resp)
      if config.quota ≠ 0 ∧ old ≥ config.quota then (quota1, SaveAction.not_saved SkipReason.quota)
      else
        let is_od : Bool := decide (fname = FileArg.output_document)
        if is_od ∧ fname_s = "-".toList then (quota1, SaveAction.to_stdout)
        else if is_od ∧ config.delete_after then
          (quota1, SaveAction.not_saved SkipReason.delete_after)
        else
          let flag1 := if is_od then OFlag.O_APPEND else flag
          let fname1 := adjustedName config resp fname_s
          if config.accept_patterns.isSome ∧
              in_pattern_list fnmatch config (config.accept_patterns.getD []) fname1 = false then
            (quota1, SaveAction.not_saved SkipReason.accept)
          else if config.reject_patterns.isSome ∧
              in_pattern_list fnmatch config (config.reject_patterns.getD []) fname1 = true then
            (quota1, SaveAction.not_saved SkipReason.reject)
          else
            let (flag2, multiple, renames) := selectMode config fname1 flag flag1
            (quota1, SaveAction.open_file renames fname1 flag2 multiple)

/-- A sequence of `_save_file` calls on the shared counter: the action and
the response size of every call, in order. -/
def saveAll (fnmatch : List Char → List Char → Bool → Bool) (config : Config) :
    Int → List (SavedResponse × FileArg × OFlag) → List (Nat × SaveAction)
  | _, [] => []
  | quota, (resp, fname, flag) :: calls =>
    let r := _save_file fnmatch config quota resp fname flag
    (responseSize config resp, r.2) :: saveAll fnmatch config r.1 calls

/-- A call that got as far as writing (to `stdout` or to a file it opens). -/
def SaveAction.writes : SaveAction → Bool
  | SaveAction.not_saved _ => false
  | SaveAction.to_stdout => true
  | SaveAction.open_file _ _ _ _ => true

/-- A call that went on behind the quota test: `quota_modify_read` was
called and the old counter value it returned did not stop the call. -/
def SaveAction.passedQuota : SaveAction → Bool
  | SaveAction.not_saved SkipReason.no_name => false
  | SaveAction.not_saved SkipReason.spider => false
  | SaveAction.not_saved SkipReason.directory => false
  | SaveAction.not_saved SkipReason.quota => false
  | _ => true

/-- Sum of the sizes of the responses of the calls selected by `cnt`. -/
def bytesOf (cnt : SaveAction → Bool) : List (Nat × SaveAction) → Nat
  | [] => 0
  | (n, a) :: rs => (if cnt a then n else 0) + bytesOf cnt rs

/-- Size of the response of the last call selected by `cnt` (0 when there is none). -/
def lastOf (cnt : SaveAction → Bool) : List (Nat × SaveAction) → Nat
  | [] => 0
  | (n, a) :: rs => if (rs.any fun r => cnt r.2) then lastOf cnt rs
                    else if cnt a then n else 0

/-- The configuration of the counterexample to C4: `--no-clobber` with `--timestamping`. -/
def cfgNoClobberTimestamping : Config :=
  { spider := false, quota := 0, save_headers := false, output_document := none,
    delete_after := false, adjust_extension := false, accept_patterns := none,
    reject_patterns := none, ignore_case := false, timestamping := true, clobber := false,
    recursive := false, directories := true, backups := 0 }

/-- The second counterexample to C4: `--no-clobber` in recursive mode with directories. -/
def cfgNoClobberRecursive : Config :=
  { cfgNoClobberTimestamping with timestamping := false, recursive := true }

/-- The configuration of the C4 witness: `--no-clobber`, nothing else. -/
def cfgNoClobber : Config :=
  { cfgNoClobberTimestamping with timestamping := false }

/-- A configuration with a quota of 10 bytes (C5 witness). -/
def cfgQuota10 : Config := { cfgNoClobber with quota := 10, clobber := true }

/-- Three `save_file` calls with bodies of 6, 7 and 5 bytes (C5 witness). -/
def callsQuota : List (SavedResponse × FileArg × OFlag) :=
  [({ header_length := 0, body_length := 6, content_type := none, last_modified := 0 },
      FileArg.path "a".toList, OFlag.O_TRUNC),
   ({ header_length := 0, body_length := 7, content_type := none, last_modified := 0 },
      FileArg.path "b".toList, OFlag.O_TRUNC),
   ({ header_length := 0, body_length := 5, content_type := none, last_modified := 0 },
      FileArg.path "c".toList, OFlag.O_TRUNC)]

/-! ## `libwget/http.c`: request emission -/

/-- The `scheme` pointer of a request. The code compares it by address with
the constants `WGET_IRI_SCHEME_HTTP` ("http") and `WGET_IRI_SCHEME_HTTPS`
("https"); `other` is any other pointer, with the string it points to. -/
inductive IriScheme
  | http
  | https
  | other (s : List Char)
  deriving DecidableEq, Repr

/-- The string a scheme pointer points to. -/
def IriScheme.str : IriScheme → List Char
  | IriScheme.http => "http".toList
  | IriScheme.https => "https".toList
  | IriScheme.other s => s

/-- `wget_http_request_t`: method, scheme, escaped host, escaped resource and
the vector of header name/value pairs. -/
structure Request where
  method : List Char
  scheme : IriScheme
  esc_host : List Char
  esc_resource : List Char
  headers : List (List Char × List Char)
  deriving DecidableEq, Repr

/-- One round of the header loop of `wget_http_request_to_buffer`: append
`name`, `": "`, `value`, then CRLF unless the last byte of the buffer is LF. -/
def appendHeader (buf : List Char) (param : List Char × List Char) : List Char :=
  let buf1 := buf ++ param.1 ++ ": ".toList ++ param.2
  if buf1.getLast? ≠ some '\n' then buf1 ++ "\r\n".toList else buf1

/-- `wget_http_request_to_buffer` (http.c). `http_proxies` and `https_proxies`
are the two static proxy vectors; `buf` is the buffer passed in, whose old
content `wget_buffer_strcpy` replaces. Returns the buffer and `buf->length`. -/
def wget_http_request_to_buffer (http_proxies https_proxies : List (List Char))
    (req : Request) (_buf : List Char) : List Char × Int :=
  let buf := req.method
  let buf := buf ++ " ".toList
  let use_proxy : Bool :=
    (req.scheme = IriScheme.http ∧ http_proxies.length > 0) ∨
    (req.scheme = IriScheme.https ∧ https_proxies.length > 0)
  let buf := if use_proxy then buf ++ req.scheme.str ++ "://".toList ++ req.esc_host else buf
  let buf := buf ++ "/".toList
  let buf := buf ++ req.esc_resource
  let buf := buf ++ " HTTP/1.1\r\n".toList
  let buf := buf ++ "Host: ".toList
  let buf := buf ++ req.esc_host
  let buf := buf ++ "\r\n".toList
  let buf := req.headers.foldl appendHeader buf
  let buf := if use_proxy then buf ++ "Proxy-Connection: keep-alive\r\n".toList else buf
  let buf := buf ++ "\r\n".toList
  (buf, (buf.length : Int))

/-- The request line target of the claim C6: `/path`, or `scheme://host/path`
when the proxy list of the request's scheme is not empty. -/
def requestTarget (http_proxies https_proxies : List (List Char)) (req : Request) : List Char :=
  if (req.scheme = IriScheme.http ∧ http_proxies ≠ []) ∨
      (req.scheme = IriScheme.https ∧ https_proxies ≠ []) then
    req.scheme.str ++ "://".toList ++ req.esc_host ++ "/".toList ++ req.esc_resource
  else "/".toList ++ req.esc_resource

/-- A header line of the claim C6: `name: value`, followed by CRLF unless it
already ends in LF. -/
def headerLine (param : List Char × List Char) : List Char :=
  let l := param.1 ++ ": ".toList ++ param.2
  if l.getLast? = some '\n' then l else l ++ "\r\n".toList

/-- The proxy header of the claim C6. -/
def proxyLine (http_proxies https_proxies : List (List Char)) (req : Request) : List Char :=
  if (req.scheme = IriScheme.http ∧ http_proxies ≠ []) ∨
      (req.scheme = IriScheme.https ∧ https_proxies ≠ []) then
    "Proxy-Connection: keep-alive\r\n".toList
  else []

/-! ## `src/blacklist.c` -/

/-- The fields of `wget_iri_t` that the blacklist reads. `scheme` is a pointer
to one of the scheme constants; the other parts may be `NULL`. -/
structure Iri where
  uri : List Char
  scheme : IriScheme
  port : Option (List Char)
  host : Option (List Char)
  path : Option (List Char)
  query : Option (List Char)
  fragment : Option (List Char)
  deriving DecidableEq, Repr

/-- One loop of `hash_iri`: `for (p = part; p && *p; p++) h = h * 101 + *p;`
in `unsigned int` arithmetic. -/
def hashPart (h : Nat) (part : Option (List Char)) : Nat :=
  (part.getD []).foldl (fun h c => (h * 101 + c.toNat) % 2 ^ 32) h

/-- `hash_iri` (blacklist.c): scheme, port, host, path, query, starting from 0. -/
def hash_iri (iri : Iri) : Nat :=
  hashPart (hashPart (hashPart (hashPart (hashPart 0 (some iri.scheme.str)) iri.port) iri.host)
    iri.path) iri.query

/-- Modelled from the spec: `wget_iri_supported` (libwget/iri.c is not part of
the sources). "Only `http` and `https` are accepted". -/
def wget_iri_supported (iri : Iri) : Bool :=
  decide (iri.scheme = IriScheme.http) || decide (iri.scheme = IriScheme.https)

/-- Modelled from the spec: `wget_iri_compare` (libwget/iri.c is not part of
the sources). "Equality: scheme, host (lower-cased), numeric port, path, query;
fragment ignored": 0 when these five parts agree, 1 otherwise. -/
def wget_iri_compare (a b : Iri) : Int :=
  if a.scheme = b.scheme ∧ a.host = b.host ∧ a.port = b.port ∧ a.path = b.path ∧ a.query = b.query
  then 0 else 1

/-- Modelled from the spec: `wget_hashmap_contains` (libwget/hashmap.c is not
part of the sources) for a map created with hash function `hash_iri` and
comparison `cmp`: a key is found when an entry has the same hash value and
compares equal. The map is the list of its keys. -/
def wget_hashmap_contains (cmp : Iri → Iri → Int) (h : List Iri) (key : Iri) : Bool :=
  h.any fun e => decide (hash_iri key = hash_iri e) && decide (cmp key e = 0)

/-- Modelled from the spec: `wget_hashmap_put_noalloc` with a `NULL` value:
the key replaces an entry it is equal to, or is added. -/
def wget_hashmap_put_noalloc (cmp : Iri → Iri → Int) (h : List Iri) (key : Iri) : List Iri :=
  if wget_hashmap_contains cmp h key then
    h.map fun e => if hash_iri key = hash_iri e ∧ cmp key e = 0 then key else e
  else h ++ [key]

/-- `blacklist_size` (blacklist.c). -/
def blacklist_size (blacklist : List Iri) : Int := (blacklist.length : Int)

/-- `blacklist_add` (blacklist.c) on the static map `blacklist`, created with
`hash_iri` and the comparison `cmp` (`wget_iri_compare`): the returned pointer
and the map afterwards. -/
def blacklist_add (cmp : Iri → Iri → Int) (blacklist : List Iri) (iri : Option Iri) :
    Option Iri × List Iri :=
  match iri with
  | none => (none, blacklist)
  | some iri =>
    if wget_iri_supported iri then
      if !wget_hashmap_contains cmp blacklist iri then
        (some iri, wget_hashmap_put_noalloc cmp blacklist iri)
      else (none, blacklist)
    else (none, blacklist)

/-- A sequence of `blacklist_add` calls: every argument with the value
returned for it, and the map afterwards. -/
def blacklistRun (cmp : Iri → Iri → Int) :
    List Iri → List (Option Iri) → List (Option Iri × Option Iri) × List Iri
  | blacklist, [] => ([], blacklist)
  | blacklist, iri :: calls =>
    let r := blacklist_add cmp blacklist iri
    let rest := blacklistRun cmp r.2 calls
    ((iri, r.1) :: rest.1, rest.2)

/-- The equality of the blacklist set: same hash value and equal under `cmp`. -/
def setEq (cmp : Iri → Iri → Int) (a b : Iri) : Prop :=
  hash_iri a = hash_iri b ∧ cmp a b = 0

instance (cmp : Iri → Iri → Int) (a b : Iri) : Decidable (setEq cmp a b) := by
  unfold setEq; infer_instance

/-- A call of the run that was made with an IRI equal to `u` and returned non-NULL. -/
def addedAs (cmp : Iri → Iri → Int) (u : Iri) (call : Option Iri × Option Iri) : Bool :=
  match call with
  | (some x, some _) => decide (setEq cmp x u)
  | _ => false

/-- Example IRI `http://example.com/a` (C3 witness). -/
def iriA : Iri :=
  { uri := "http://example.com/a".toList, scheme := IriScheme.http, port := none,
    host := some "example.com".toList, path := some "a".toList, query := none, fragment := none }

/-! ## `libwget/http.c`: HTTP dates -/

/-- `leap_days` (http.c), with C's truncating `int` division. -/
def leap_days (y1 y2 : Int) : Int :=
  let y1 := y1 - 1
  let y2 := y2 - 1
  (y2.tdiv 4 - y1.tdiv 4) - (y2.tdiv 100 - y1.tdiv 100) + (y2.tdiv 400 - y1.tdiv 400)

/-- libc `sscanf`, white-space directive: skips any run of `isspace` bytes. -/
def skipSpace : List Char → List Char
  | [] => []
  | c :: s => if c_isspace c then skipSpace s else c :: s

/-- libc `sscanf`, ordinary character in the format: the next input byte must be it. -/
def matchChar (c : Char) : List Char → Option (List Char)
  | [] => none
  | d :: s => if d = c then some s else none

/-- The longest prefix of at most `width` bytes that satisfy `p`, and the rest. -/
def takeWhileN (p : Char → Bool) : Nat → List Char → List Char × List Char
  | 0, s => ([], s)
  | _ + 1, [] => ([], [])
  | n + 1, c :: s =>
    if p c then ((c :: (takeWhileN p n s).1), (takeWhileN p n s).2) else ([], c :: s)

/-- Value of a string of decimal digits. -/
def digitsValue (ds : List Char) : Nat :=
  ds.foldl (fun v c => 10 * v + (c.toNat - '0'.toNat)) 0

/-- libc `sscanf`, `%<width>d`: skips white space, takes an optional sign and
decimal digits, `width` bytes at most; fails when there is no digit. -/
def scanInt (width : Nat) (s : List Char) : Option (Int × List Char) :=
  match skipSpace s with
  | [] => none
  | c :: t =>
    let signed : Bool := c == '-' || c == '+'
    let r := if signed then takeWhileN c_isdigit (width - 1) t
             else takeWhileN c_isdigit width (c :: t)
    if r.1 = [] then none
    else some (if c = '-' then - (digitsValue r.1 : Int) else (digitsValue r.1 : Int), r.2)

/-- libc `sscanf`, `%<width>s`: skips white space, takes up to `width`
bytes that are not white space; fails at the end of the input. -/
def scanStr (width : Nat) (s : List Char) : Option (List Char × List Char) :=
  let r := takeWhileN (fun c => !c_isspace c) width (skipSpace s)
  if r.1 = [] then none else some r

/-- libc `sscanf`, `%<width>[set]`: takes up to `width` bytes of the set,
without skipping white space; fails when the first byte is not in the set. -/
def scanSet (p : Char → Bool) (width : Nat) (s : List Char) : Option (List Char × List Char) :=
  let r := takeWhileN p width s
  if r.1 = [] then none else some r

/-- `sscanf(s, " %*[a-zA-Z], %02d %3s %4d %2d:%2d:%2d", &day, mname, &year, &hour, &min, &sec) >= 6`:
the six converted values (day, mname, year, hour, min, sec). -/
def sscanf_rfc1123 (s : List Char) : Option (Int × List Char × Int × Int × Int × Int) := do
  let s := skipSpace s
  let (_, s) ← scanSet c_isalpha s.length s
  let s ← matchChar ',' s
  let s := skipSpace s
  let (day, s) ← scanInt 2 s
  let s := skipSpace s
  let (mname, s) ← scanStr 3 s
  let s := skipSpace s
  let (year, s) ← scanInt 4 s
  let s := skipSpace s
  let (hour, s) ← scanInt 2 s
  let s ← matchChar ':' s
  let (min, s) ← scanInt 2 s
  let s ← matchChar ':' s
  let (sec, _) ← scanInt 2 s
  pure (day, mname, year, hour, min, sec)

/-- `sscanf(s, " %*[a-zA-Z], %2d-%3s-%4d %2d:%2d:%2d", ...) >= 6`. -/
def sscanf_rfc850 (s : List Char) : Option (Int × List Char × Int × Int × Int × Int) := do
  let s := skipSpace s
  let (_, s) ← scanSet c_isalpha s.length s
  let s ← matchChar ',' s
  let s := skipSpace s
  let (day, s) ← scanInt 2 s
  let s ← matchChar '-' s
  let (mname, s) ← scanStr 3 s
  let s ← matchChar '-' s
  let (year, s) ← scanInt 4 s
  let s := skipSpace s
  let (hour, s) ← scanInt 2 s
  let s ← matchChar ':' s
  let (min, s) ← scanInt 2 s
  let s ← matchChar ':' s
  let (sec, _) ← scanInt 2 s
  pure (day, mname, year, hour, min, sec)

/-- `sscanf(s, " %*[a-zA-Z] %3s %2d %2d:%2d:%2d %4d", mname, &day, &hour, &min, &sec, &year) >= 6`. -/
def sscanf_asctime (s : List Char) : Option (Int × List Char × Int × Int × Int × Int) := do
  let s := skipSpace s
  let (_, s) ← scanSet c_isalpha s.length s
  let s := skipSpace s
  let (mname, s) ← scanStr 3 s
  let s := skipSpace s
  let (day, s) ← scanInt 2 s
  let s := skipSpace s
  let (hour, s) ← scanInt 2 s
  let s ← matchChar ':' s
  let (min, s) ← scanInt 2 s
  let s ← matchChar ':' s
  let (sec, s) ← scanInt 2 s
  let s := skipSpace s
  let (year, _) ← scanInt 4 s
  pure (day, mname, year, hour, min, sec)

/-- The table `mnames` of http.c. -/
def mnames : List (List Char) :=
  ["Jan".toList, "Feb".toList, "Mar".toList, "Apr".toList, "May".toList, "Jun".toList,
   "Jul".toList, "Aug".toList, "Sep".toList, "Oct".toList, "Nov".toList, "Dec".toList]

/-- The table `days_per_month` of `wget_http_parse_full_date`. -/
def days_per_month : List Int := [31, 28, 31, 30, 31, 30, 31, 31, 30, 31, 30, 31]

/-- The table `sum_of_days` of `wget_http_parse_full_date`. -/
def sum_of_days : List Int := [0, 31, 59, 90, 120, 151, 181, 212, 243, 273, 304, 334]

/-- The month loop of `wget_http_parse_full_date`: `it + 1` for the first
`it` with `!wget_strcasecmp_ascii(mname, mnames[it])`, else the initial 0. -/
def monthLookup (mname : List Char) : List (List Char) → Int → Int
  | [], _ => 0
  | m :: ms, it =>
    if wget_strcasecmp_ascii (some mname) (some m) = 0 then it + 1
    else monthLookup mname ms (it + 1)

/-- `wget_http_parse_full_date` (http.c). -/
def wget_http_parse_full_date (s : List Char) : Int :=
  match (sscanf_rfc1123 s <|> sscanf_rfc850 s <|> sscanf_asctime s) with
  | none => 0
  | some (day, mname, year, hour, min, sec) =>
    let mon : Int := if mname ≠ [] then monthLookup mname mnames 0 else 0
    let year := if year < 70 ∧ year ≥ 0 then year + 2000
                else if year ≥ 70 ∧ year ≤ 99 then year + 1900 else year
    let year := if year < 1970 then 1970 else year
    let leap_year : Bool := year.tmod 4 = 0 ∧ (year.tmod 100 ≠ 0 ∨ year.tmod 400 = 0)
    let leap_month : Bool := mon = 2 ∧ leap_year
    if mon < 1 ∨ mon > 12 ∨ day < 1 ∨
        day > days_per_month.getD (mon - 1).toNat 0 + (if leap_month then 1 else 0) ∨
        hour < 0 ∨ hour > 23 ∨ min < 0 ∨ min > 60 ∨ sec < 0 ∨ sec > 60 then 0
    else
      let days := 365 * (year - 1970) + leap_days 1970 year
      let days := days + (sum_of_days.getD (mon - 1).toNat 0
        + (if mon > 2 ∧ leap_year then 1 else 0))
      let days := days + (day - 1)
      ((days * 24 + hour) * 60 + min) * 60 + sec

/-- The fields of `struct tm` that `wget_http_print_date` prints. -/
structure Tm where
  tm_sec : Int
  tm_min : Int
  tm_hour : Int
  tm_mday : Int
  tm_mon : Int
  tm_year : Int
  tm_wday : Int
  deriving DecidableEq, Repr

/-- Gregorian leap year. -/
def isLeapYear (y : Nat) : Bool := y % 4 == 0 && (y % 100 != 0 || y % 400 == 0)

/-- Number of days of a Gregorian year. -/
def yearLength (y : Nat) : Nat := if isLeapYear y then 366 else 365

/-- Number of days of month `m` (0 = January). -/
def monthLength (leap : Bool) (m : Nat) : Nat :=
  if m = 1 then (if leap then 29 else 28)
  else if m = 3 ∨ m = 5 ∨ m = 8 ∨ m = 10 then 30 else 31

/-- Year and day of the year of the day that lies `d` days after 1 January of year `y`. -/
def yearOfDays : Nat → Nat → Nat → Nat × Nat
  | 0, y, d => (y, d)
  | fuel + 1, y, d =>
    if d < yearLength y then (y, d) else yearOfDays fuel (y + 1) (d - yearLength y)

/-- Month (0 = January) and day of the month (0 = the first) of day `d` of a
year, counting from month `m`. -/
def monthOfDays (leap : Bool) : Nat → Nat → Nat → Nat × Nat
  | 0, m, d => (m, d)
  | fuel + 1, m, d =>
    if d < monthLength leap m then (m, d) else monthOfDays leap fuel (m + 1) (d - monthLength leap m)

/-- Modelled from POSIX: libc `gmtime_r`, the broken-down UTC time of
`t` seconds since 1970-01-01T00:00:00Z in the proleptic Gregorian calendar;
`none` when the year does not fit `int`. Instants before 1970 are moved
forward by whole 400-year cycles (146097 days) first. -/
def gmtime_r (t : Int) : Option Tm :=
  let days : Int := t / 86400
  let rem : Int := t % 86400
  let cycles : Int := if days < 0 then (146096 - days) / 146097 else 0
  let d : Nat := (days + cycles * 146097).toNat
  let yd := yearOfDays d 1970 d
  let md := monthOfDays (isLeapYear yd.1) 12 0 yd.2
  let year : Int := (yd.1 : Int) - 400 * cycles
  if year - 1900 < - 2 ^ 31 ∨ year - 1900 ≥ 2 ^ 31 then none
  else some
    { tm_sec := rem % 60, tm_min := rem / 60 % 60, tm_hour := rem / 3600,
      tm_mday := (md.2 : Int) + 1, tm_mon := (md.1 : Int), tm_year := year - 1900,
      tm_wday := (days + 4) % 7 }

/-- libc `printf`, `%d`. -/
def fmt_d (n : Int) : List Char :=
  if n < 0 then '-' :: natDigits n.natAbs else natDigits n.natAbs

/-- libc `printf`, `%02d`: `%d` filled with zeros after the sign to two bytes. -/
def fmt_02d (n : Int) : List Char :=
  if n < 0 then '-' :: natDigits n.natAbs
  else if n < 10 then '0' :: natDigits n.natAbs else natDigits n.natAbs

/-- The table `dnames` of `wget_http_print_date`. -/
def dnames : List (List Char) :=
  ["Sun".toList, "Mon".toList, "Tue".toList, "Wed".toList, "Thu".toList, "Fri".toList,
   "Sat".toList]

/-- `wget_http_print_date` (http.c): the content of `buf` afterwards.
`snprintf` keeps the first `bufsize - 1` bytes of the formatted text. -/
def wget_http_print_date (t : Int) (buf : List Char) (bufsize : Nat) : List Char :=
  if bufsize = 0 then buf
  else
    match gmtime_r t with
    | some tm =>
      (dnames.getD tm.tm_wday.toNat [] ++ ", ".toList ++ fmt_02d tm.tm_mday ++ " ".toList
        ++ mnames.getD tm.tm_mon.toNat [] ++ " ".toList ++ fmt_d (tm.tm_year + 1900) ++ " ".toList
        ++ fmt_02d tm.tm_hour ++ ":".toList ++ fmt_02d tm.tm_min ++ ":".toList
        ++ fmt_02d tm.tm_sec ++ " GMT".toList).take (bufsize - 1)
    | none => []

/-- Number of days from 1 January 1970 to 1 January of year `y`, as
`wget_http_parse_full_date` computes it. -/
def daysBefore (y : Nat) : Int := 365 * ((y : Int) - 1970) + leap_days 1970 (y : Int)

/-! ## `libwget/http.c`: header field parsers

Every parser takes the string at `s` and returns the string at the returned
pointer together with what it stored through its out-parameters. -/

/-- The table `http_ctype`: the separators of RFC 2616. -/
def http_isseperator (c : Char) : Bool := "()<>@,;:\\\"/[]?=\x7b\x7d \t".toList.contains c

/-- `wget_http_istoken` (http.c): `c > 32 && c <= 126 && !_http_isseperator(c)`. -/
def wget_http_istoken (c : Char) : Bool :=
  decide (32 < c.toNat ∧ c.toNat ≤ 126) && !http_isseperator c

/-- `while (c_isblank(*s)) s++;` -/
def skipBlank : List Char → List Char
  | [] => []
  | c :: s => if c_isblank c then skipBlank s else c :: s

/-- `while (c_isspace(*s)) s++;` is `skipSpace`. The scan
`for (p = s; pred(*s); s++);`: the bytes passed over and the string at `s`. -/
def spanWhile (p : Char → Bool) : List Char → List Char × List Char
  | [] => ([], [])
  | c :: s => if p c then (c :: (spanWhile p s).1, (spanWhile p s).2) else ([], c :: s)

/-- `wget_http_parse_token` (http.c). `wget_strmemdup` returns an allocated,
possibly empty, string, never `NULL`. -/
def wget_http_parse_token (s : List Char) : List Char × Option (List Char) :=
  ((spanWhile wget_http_istoken s).2, some (spanWhile wget_http_istoken s).1)

/-- The "relaxed scanning" loop of `wget_http_parse_quoted_string`: the bytes
passed over and the string at the closing quote or at the end. -/
def quotedBody : List Char → List Char × List Char
  | [] => ([], [])
  | c :: s =>
    if c = '"' then ([], c :: s)
    else if c = '\\' then
      match s with
      | [] => ([c], [])
      | d :: s2 => (c :: d :: (quotedBody s2).1, (quotedBody s2).2)
    else (c :: (quotedBody s).1, (quotedBody s).2)

/-- `wget_http_parse_quoted_string` (http.c). -/
def wget_http_parse_quoted_string (s : List Char) : List Char × Option (List Char) :=
  match s with
  | '"' :: t =>
    let r := quotedBody t
    ((if cur r.2 = '"' then adv r.2 else r.2), some r.1)
  | _ => (s, none)

/-- `wget_http_parse_param` (http.c): the string at the returned pointer,
`*param` and `*value`. Note `*s && *s++ == '='`: a byte that is not `=` is
passed over as well. -/
def wget_http_parse_param (s : List Char) : List Char × Option (List Char) × Option (List Char) :=
  let s := skipBlank s
  let s := if cur s = ';' then skipBlank (adv s) else s
  match s with
  | [] => ([], none, none)
  | _ :: _ =>
    let tok := spanWhile wget_http_istoken s
    let s := skipBlank tok.2
    match s with
    | [] => ([], some tok.1, none)
    | c :: t =>
      if c = '=' then
        let t := skipBlank t
        if cur t = '"' then
          ((wget_http_parse_quoted_string t).1, some tok.1, (wget_http_parse_quoted_string t).2)
        else ((wget_http_parse_token t).1, some tok.1, (wget_http_parse_token t).2)
      else (t, some tok.1, none)

/-- `wget_parse_name_fixed` (http.c): the string after the colon, the string
at `*name` (it is not terminated at the end of the name) and `*namelen`. -/
def wget_parse_name_fixed (s : List Char) : List Char × List Char × Nat :=
  let name := skipBlank s
  let tok := spanWhile wget_http_istoken name
  let s := (spanWhile (fun c => c != ':') tok.2).2
  ((if cur s = ':' then adv s else s), name, tok.1.length)

/-- Modelled from the spec: `wget_stringmap_put_noalloc` on a map created by
`wget_stringmap_create_nocase` (libwget/stringmap.c is not part of the
sources): "an insertion-ordered list of (name, value) pairs with
case-insensitive ASCII equality on name"; a known name gets the new value. -/
def stringmap_put_nocase : List (List Char × List Char) → List Char → List Char →
    List (List Char × List Char)
  | [], name, value => [(name, value)]
  | (n, v) :: m, name, value =>
    if c_strcasecmp n name = 0 then (n, value) :: m
    else (n, v) :: stringmap_put_nocase m name value

/-- `wget_http_challenge_t`: the scheme (`NULL` after a syntax error) and the
parameter map (empty when `params` is `NULL`). -/
structure Challenge where
  auth_scheme : Option (List Char)
  params : List (List Char × List Char)
  deriving DecidableEq, Repr

/-- The `do ... while (*s)` loop of `wget_http_parse_challenge`; `fuel`
bounds the number of rounds. -/
def challengeLoop : Nat → List Char → List (List Char × List Char) →
    List Char × List (List Char × List Char)
  | 0, s, params => (s, params)
  | fuel + 1, s, params =>
    let r := wget_http_parse_param s
    -- the end of a round: skip blanks, stop unless a comma follows
    let next (s : List Char) (params : List (List Char × List Char)) :=
      let s := skipBlank s
      if cur s ≠ ',' then (s, params)
      else if adv s = [] then ([], params) else challengeLoop fuel (adv s) params
    match r.2.1, r.2.2 with
    | some name, none =>
      if name ≠ [] then (s, params) -- a new scheme detected: return old
      else if r.1 = [] then ([], params) else challengeLoop fuel r.1 params -- continue
    | some name, some value => next r.1 (stringmap_put_nocase params name value)
    | none, _ => next r.1 params

/-- `wget_http_parse_challenge` (http.c). Every round of its loop takes at
least one byte, so `length + 1` rounds are enough. -/
def wget_http_parse_challenge (s : List Char) : List Char × Challenge :=
  let tok := spanWhile wget_http_istoken (skipBlank s)
  match tok.2 with
  | ' ' :: t =>
    let r := challengeLoop (t.length + 1) t []
    (r.1, { auth_scheme := some tok.1, params := r.2 })
  | _ => (tok.2, { auth_scheme := none, params := [] })

/-- `wget_http_parse_challenges` (http.c), its `while (*s)` loop run for at
most `fuel` rounds: `none` when the loop has not ended by then. -/
def wget_http_parse_challenges : Nat → List Char → List Challenge →
    Option (List Char × List Challenge)
  | 0, _, _ => none
  | fuel + 1, s, challenges =>
    match s with
    | [] => some ([], challenges)
    | _ :: _ =>
      let r := wget_http_parse_challenge s
      wget_http_parse_challenges fuel r.1
        (if r.2.auth_scheme.isSome then challenges ++ [r.2] else challenges)

/-- `wget_http_parse_location` (http.c). -/
def wget_http_parse_location (s : List Char) : List Char × Option (List Char) :=
  let r := spanWhile (fun c => !c_isblank c) (skipBlank s)
  (r.2, some r.1)

/-- `transfer_encoding_identity` / `transfer_encoding_chunked`; a
zero-initialised response has `identity`. -/
inductive TransferEncoding
  | identity
  | chunked
  deriving DecidableEq, Repr

/-- `wget_http_parse_transfer_encoding` (http.c). -/
def wget_http_parse_transfer_encoding (s : List Char) : List Char × TransferEncoding :=
  let s := skipBlank s
  ((spanWhile wget_http_istoken s).2,
    if wget_strcasecmp_ascii (some s) (some "identity".toList) = 0 then TransferEncoding.identity
    else TransferEncoding.chunked)

/-- The content encoding tags; a zero-initialised response has `identity`. -/
inductive ContentEncoding
  | identity
  | gzip
  | deflate
  | lzma
  | bzip2
  deriving DecidableEq, Repr

/-- `wget_http_parse_content_encoding` (http.c). -/
def wget_http_parse_content_encoding (s : List Char) : List Char × ContentEncoding :=
  let s := skipBlank s
  let is (t : String) : Bool := decide (wget_strcasecmp_ascii (some s) (some t.toList) = 0)
  ((spanWhile wget_http_istoken s).2,
    if is "gzip" || is "x-gzip" then ContentEncoding.gzip
    else if is "deflate" then ContentEncoding.deflate
    else if is "bzip2" then ContentEncoding.bzip2
    else if is "xz" || is "lzma" || is "x-lzma" then ContentEncoding.lzma
    else ContentEncoding.identity)

/-- `wget_http_parse_connection` (http.c): the new value of `*keep_alive`. -/
def wget_http_parse_connection (s : List Char) : List Char × Bool :=
  let s := skipBlank s
  ((spanWhile wget_http_istoken s).2,
    decide (wget_strcasecmp_ascii (some s) (some "keep-alive".toList) = 0))

/-- `wget_http_parse_etag` (http.c). -/
def wget_http_parse_etag (s : List Char) : List Char × Option (List Char) :=
  let r := spanWhile (fun c => !c_isblank c) (skipBlank s)
  (r.2, some r.1)

/-- The `while (*s)` loop of `wget_http_parse_content_type` that looks for
the `charset` parameter. -/
def contentTypeCharset : Nat → List Char → List Char × Option (List Char)
  | 0, s => (s, none)
  | fuel + 1, s =>
    match s with
    | [] => ([], none)
    | _ :: _ =>
      let r := wget_http_parse_param s
      if wget_strcasecmp_ascii (some "charset".toList) r.2.1 = 0 then (r.1, r.2.2)
      else contentTypeCharset fuel r.1

/-- `wget_http_parse_content_type` (http.c) with both out-parameters given. -/
def wget_http_parse_content_type (s : List Char) :
    List Char × Option (List Char) × Option (List Char) :=
  let r := spanWhile (fun c => wget_http_istoken c || c == '/') (skipBlank s)
  let cs := contentTypeCharset (r.2.length + 1) r.2
  (cs.1, some r.1, cs.2)

/-- `wget_http_digest_t`. -/
structure Digest where
  algorithm : Option (List Char)
  encoded_digest : Option (List Char)
  deriving DecidableEq, Repr

/-- `wget_http_parse_digest` (http.c). -/
def wget_http_parse_digest (s : List Char) : List Char × Digest :=
  let tok := spanWhile wget_http_istoken (skipBlank s)
  let s := skipBlank tok.2
  let r : List Char × Option (List Char) :=
    if cur s = '=' then
      let s := skipBlank (adv s)
      if cur s = '"' then wget_http_parse_quoted_string s
      else
        let v := spanWhile (fun c => !c_isblank c && c != ',' && c != ';') s
        (v.2, some v.1)
    else (s, none)
  ((spanWhile (fun c => !c_isblank c) r.1).2,
    { algorithm := some tok.1, encoded_digest := r.2 })

/-- C `strtol` family on a decimal string: white space, an optional sign and
digits; the mathematical value (0 when there is no digit). -/
def parseDecimal (s : List Char) : Int :=
  let s := skipSpace s
  let neg := cur s = '-'
  let s := if cur s = '-' ∨ cur s = '+' then adv s else s
  let v := (digitsValue (spanWhile c_isdigit s).1 : Int)
  if neg then - v else v

/-- libc `atoll` / `atol` (64 bit `long`): out-of-range values saturate. -/
def atoll (s : List Char) : Int := max (- 2 ^ 63) (min (2 ^ 63 - 1) (parseDecimal s))

/-- libc `atoi`: `(int) strtol(s, NULL, 10)`. -/
def atoi (s : List Char) : Int := (atoll s + 2 ^ 31) % 2 ^ 32 - 2 ^ 31

/-- What the parsers take from outside the repository sources: the clock
(`time(NULL)`) and the character set routines of libwget/encoding.c. -/
structure Env where
  now : Int
  str_is_valid_utf8 : List Char → Bool
  str_needs_encoding : List Char → Bool
  str_to_utf8 : List Char → List Char → Option (List Char)

/-- A C string read from a byte buffer: the bytes before the first NUL. -/
def cstr : List Char → List Char
  | [] => []
  | c :: s => if c = NUL then [] else c :: cstr s

/-- gnulib `c_isxdigit`. -/
def c_isxdigit (c : Char) : Bool :=
  c_isdigit c || decide (('a'.toNat ≤ c.toNat ∧ c.toNat ≤ 'f'.toNat) ∨
    ('A'.toNat ≤ c.toNat ∧ c.toNat ≤ 'F'.toNat))

/-- `_unhex` (utils.c), in `unsigned char` arithmetic. -/
def _unhex (c : Char) : Nat :=
  if c.toNat ≤ '9'.toNat then (c.toNat + 256 - '0'.toNat) % 256
  else if c.toNat ≤ 'F'.toNat then (c.toNat - 'A'.toNat + 10) % 256
  else (c.toNat + 256 - 'a'.toNat + 10) % 256

/-- The copy loop of `wget_percent_unescape`: the bytes written through `d`
and whether an escape was decoded; `fuel` bounds the number of rounds. -/
def percentLoop : Nat → List Char → List Char × Bool
  | 0, _ => ([], false)
  | _ + 1, [] => ([], false)
  | fuel + 1, c :: s =>
    if c = '%' ∧ c_isxdigit (cur s) ∧ c_isxdigit (cur (adv s)) then
      (Char.ofNat (((_unhex (cur s)) * 16 % 256) ||| (_unhex (cur (adv s))))
        :: (percentLoop fuel (adv (adv s))).1, true)
    else (c :: (percentLoop fuel s).1, (percentLoop fuel s).2)

/-- `wget_percent_unescape` (utils.c): the return value and the string left
in `src` (it ends at the first NUL that was written). Every round of the loop
takes at least one byte. -/
def wget_percent_unescape (src : List Char) : Int × List Char :=
  ((if (percentLoop src.length src).2 then 1 else 0), cstr (percentLoop src.length src).1)

/-- `strpbrk(s, "/\\")`: the string at the first `/` or `\`, if any. -/
def strpbrk_slash : List Char → Option (List Char)
  | [] => none
  | c :: s => if c = '/' ∨ c = '\\' then some (c :: s) else strpbrk_slash s

/-- libc `strchr(s, c)`: the string at the first `c`, if any (`c` is not NUL). -/
def strchr (c : Char) : List Char → Option (List Char)
  | [] => none
  | d :: s => if d = c then some (d :: s) else strchr c s

/-- The `while (*s)` loop of `wget_http_parse_content_disposition`. -/
def contentDispositionLoop (env : Env) : Nat → List Char → Option (List Char) →
    List Char × Option (List Char)
  | 0, s, filename => (s, filename)
  | fuel + 1, s, filename =>
    match s with
    | [] => ([], filename)
    | _ :: _ =>
      let r := wget_http_parse_param s
      match r.2.2 with
      | none => contentDispositionLoop env fuel r.1 filename
      | some value =>
        if wget_strcasecmp_ascii (some "filename".toList) r.2.1 = 0 then
          -- just take the last path part as filename
          if filename.isNone then
            let p := match strpbrk_slash value with
              | some q => adv q
              | none => value
            let p := (wget_percent_unescape p).2
            contentDispositionLoop env fuel r.1
              (if !env.str_is_valid_utf8 p then env.str_to_utf8 p "iso-8859-1".toList else some p)
          else contentDispositionLoop env fuel r.1 filename
        else if wget_strcasecmp_ascii (some "filename*".toList) r.2.1 = 0 then
          match strchr '\'' value with
          | none => contentDispositionLoop env fuel r.1 filename
          | some q =>
            let charset := value.take (value.length - q.length)
            match strchr '\'' (adv q) with
            | none => contentDispositionLoop env fuel r.1 filename
            | some q2 =>
              match adv q2 with
              | [] => contentDispositionLoop env fuel r.1 filename
              | p0 :: ps =>
                let p := (wget_percent_unescape (p0 :: ps)).2
                let fn := if env.str_needs_encoding p then env.str_to_utf8 p charset else some p
                -- just take the last path part as filename; stop looping
                (r.1, match fn with
                  | none => none
                  | some f => match strpbrk_slash f with
                    | some q3 => some (adv q3)
                    | none => some f)
        else contentDispositionLoop env fuel r.1 filename

/-- `wget_http_parse_content_disposition` (http.c) with `filename` given. -/
def wget_http_parse_content_disposition (env : Env) (s : List Char) :
    List Char × Option (List Char) :=
  contentDispositionLoop env (s.length + 1) s none

/-- The `while (*s)` loop of `wget_http_parse_strict_transport_security`:
the string at `s`, `*maxage` and `*include_subdomains`. -/
def hstsLoop (env : Env) : Nat → List Char → Int → Bool → List Char × Int × Bool
  | 0, s, maxage, inc => (s, maxage, inc)
  | fuel + 1, s, maxage, inc =>
    match s with
    | [] => ([], maxage, inc)
    | _ :: _ =>
      let r := wget_http_parse_param s
      match r.2.2 with
      | some value =>
        if wget_strcasecmp_ascii r.2.1 (some "max-age".toList) = 0 then
          hstsLoop env fuel r.1 (if atoll value > 0 then env.now + atoll value else 0) inc
        else hstsLoop env fuel r.1 maxage inc
      | none =>
        if wget_strcasecmp_ascii r.2.1 (some "includeSubDomains".toList) = 0 then
          hstsLoop env fuel r.1 maxage true
        else hstsLoop env fuel r.1 maxage inc

/-- `wget_http_parse_strict_transport_security` (http.c). -/
def wget_http_parse_strict_transport_security (env : Env) (s : List Char) :
    List Char × Int × Bool :=
  hstsLoop env (s.length + 1) s 0 false

/-- The relation types of `wget_http_link_t`. -/
inductive LinkRel
  | none
  | describedby
  | duplicate
  deriving DecidableEq, Repr

/-- `wget_http_link_t`. -/
structure Link where
  uri : Option (List Char)
  type : Option (List Char)
  pri : Int
  rel : LinkRel
  deriving DecidableEq, Repr

/-- The `while (*s == ';')` loop of `wget_http_parse_link`. -/
def linkParams : Nat → List Char → Link → List Char × Link
  | 0, s, link => (s, link)
  | fuel + 1, s, link =>
    if cur s = ';' then
      let r := wget_http_parse_param s
      match r.2.1, r.2.2 with
      | some name, some value =>
        let link :=
          if wget_strcasecmp_ascii (some name) (some "rel".toList) = 0 then
            if wget_strcasecmp_ascii (some value) (some "describedby".toList) = 0 then
              { link with rel := LinkRel.describedby }
            else if wget_strcasecmp_ascii (some value) (some "duplicate".toList) = 0 then
              { link with rel := LinkRel.duplicate }
            else link
          else if wget_strcasecmp_ascii (some name) (some "pri".toList) = 0 then
            { link with pri := atoi value }
          else if wget_strcasecmp_ascii (some name) (some "type".toList) = 0 then
            { link with type := some value }
          else link
        linkParams fuel (skipBlank r.1) link
      | _, _ => linkParams fuel r.1 link
    else (s, link)

/-- `wget_http_parse_link` (http.c): the returned pointer (`NULL` when
`strchr` finds no `>`) and the link. -/
def wget_http_parse_link (s : List Char) : Option (List Char) × Link :=
  let link0 : Link := { uri := none, type := none, pri := 0, rel := LinkRel.none }
  let s := skipBlank s
  if cur s = '<' then
    match strchr '>' (adv s) with
    | none => (none, link0)
    | some q =>
      let uri := (adv s).take ((adv s).length - q.length)
      let r := linkParams (q.length + 1) (skipBlank (adv q)) { link0 with uri := some uri }
      (some (spanWhile (fun c => !c_isblank c) r.1).2, r.2)
  else (some s, link0)

/-- The fields of `wget_cookie_t` that `wget_http_parse_setcookie` writes. -/
structure Cookie where
  name : Option (List Char)
  value : Option (List Char)
  domain : Option (List Char)
  path : Option (List Char)
  expires : Int
  maxage : Int
  domain_dot : Bool
  secure_only : Bool
  http_only : Bool
  deriving DecidableEq, Repr

/-- A cookie after `wget_cookie_init`, resp. `wget_cookie_deinit`. -/
def Cookie.empty : Cookie :=
  { name := none, value := none, domain := none, path := none, expires := 0, maxage := 0,
    domain_dot := false, secure_only := false, http_only := false }

/-- A byte of a cookie attribute value: `*s > 32 && *s <= 126 && *s != ';'`. -/
def isCookieAvByte (c : Char) : Bool := decide (32 < c.toNat ∧ c.toNat ≤ 126) && c != ';'

/-- A `cookie-octet`: `*s > 32 && *s <= 126` and none of `\`, `,`, `;`, `"`. -/
def isCookieOctet (c : Char) : Bool :=
  decide (32 < c.toNat ∧ c.toNat ≤ 126) && c != '\\' && c != ',' && c != ';' && c != '"'

/-- The `do ... while (*s)` loop over the attributes in `wget_http_parse_setcookie`. -/
def cookieAttrs (env : Env) : Nat → List Char → Cookie → List Char × Cookie
  | 0, s, cookie => (s, cookie)
  | fuel + 1, s, cookie =>
    match (spanWhile (fun c => c != ';') s).2 with
    | [] => ([], cookie)
    | _ :: s1 =>
      let tok := spanWhile wget_http_istoken (skipSpace s1)
      let name := tok.1
      let s2 := (spanWhile (fun c => c != '=' && c != ';') tok.2).2
      let is (t : String) : Bool := decide (wget_strcasecmp_ascii (some name) (some t.toList) = 0)
      let r : List Char × Cookie :=
        if cur s2 = '=' then
          let p := adv s2
          let v := spanWhile isCookieAvByte p
          if is "expires" then (v.2, { cookie with expires := wget_http_parse_full_date p })
          else if is "max-age" then
            (v.2, { cookie with maxage := if atoll p > 0 then env.now + atoll p else 0 })
          else if is "domain" then
            if v.1 ≠ [] then
              if cur p = '.' then
                (v.2, { cookie with domain_dot := true,
                                     domain := some (spanWhile (fun c => c == '.') v.1).2 })
              else (v.2, { cookie with domain_dot := false, domain := some v.1 })
            else (v.2, cookie)
          else if is "path" then (v.2, { cookie with path := some v.1 })
          else (v.2, cookie)
        else if is "secure" then (s2, { cookie with secure_only := true })
        else if is "httponly" then (s2, { cookie with http_only := true })
        else (s2, cookie)
      if r.1 = [] then ([], r.2) else cookieAttrs env fuel r.1 r.2

/-- `wget_http_parse_setcookie` (http.c), called with a cookie of the caller. -/
def wget_http_parse_setcookie (env : Env) (s : List Char) : List Char × Cookie :=
  let tok := spanWhile wget_http_istoken (skipSpace s)
  let s := skipSpace tok.2
  if tok.1 ≠ [] ∧ cur s = '=' then
    let s := skipSpace (adv s)
    let s := if cur s = '"' then adv s else s
    let v := spanWhile isCookieOctet s
    cookieAttrs env (v.2.length + 1) v.2 { Cookie.empty with name := some tok.1, value := some v.1 }
  else (s, Cookie.empty)

/-! ## `libwget/http.c`: the response header -/

/-- `wget_http_response_t`. A vector that is `NULL` is the empty list. -/
structure Response where
  major : Int
  minor : Int
  code : Int
  reason : List Char
  content_type : Option (List Char)
  content_type_encoding : Option (List Char)
  content_filename : Option (List Char)
  location : Option (List Char)
  etag : Option (List Char)
  content_length : Nat
  content_length_valid : Bool
  last_modified : Int
  content_encoding : ContentEncoding
  transfer_encoding : TransferEncoding
  keep_alive : Bool
  icy_metaint : Int
  hsts : Bool
  hsts_maxage : Int
  hsts_include_subdomains : Bool
  links : List Link
  digests : List Digest
  cookies : List Cookie
  challenges : List Challenge
  header : Option (List Char)
  body : Option (List Char)
  deriving DecidableEq, Repr

/-- A response after `xcalloc`. -/
def Response.zero : Response :=
  { major := 0, minor := 0, code := 0, reason := [], content_type := none,
    content_type_encoding := none, content_filename := none, location := none, etag := none,
    content_length := 0, content_length_valid := false, last_modified := 0,
    content_encoding := ContentEncoding.identity, transfer_encoding := TransferEncoding.identity,
    keep_alive := false, icy_metaint := 0, hsts := false, hsts_maxage := 0,
    hsts_include_subdomains := false, links := [], digests := [], cookies := [],
    challenges := [], header := none, body := none }

/-- libc `sscanf`, a run of ordinary characters of the format. -/
def matchChars : List Char → List Char → Option (List Char)
  | [], s => some s
  | c :: cs, s =>
    match matchChar c s with
    | none => none
    | some t => matchChars cs t

/-- `sscanf(buf, " HTTP/%3hd.%3hd %3hd %31[^\r\n] ", &major, &minor, &code, reason) >= 3`:
major, minor, code and the reason (left empty when the fourth conversion fails). -/
def sscanf_status (buf : List Char) : Option (Int × Int × Int × List Char) := do
  let s := skipSpace buf
  let s ← matchChars "HTTP/".toList s
  let (major, s) ← scanInt 3 s
  let s ← matchChar '.' s
  let (minor, s) ← scanInt 3 s
  let s := skipSpace s
  let (code, s) ← scanInt 3 s
  let s := skipSpace s
  pure (major, minor, code, (takeWhileN (fun c => c != '\r' && c != '\n') 31 s).1)

/-- The header name comparison `!wget_strncasecmp_ascii(name, lit, namelen)`. -/
def nameIs (name : List Char) (namelen : Nat) (lit : String) : Bool :=
  decide (wget_strncasecmp_ascii (some name) (some lit.toList) namelen = 0)

/-- The body of the line loop of `wget_http_parse_response_header` behind the
line splitting: `wget_parse_name_fixed` and the `switch (*name | 0x20)`. -/
def headerField (env : Env) (resp : Response) (line : List Char) : Response :=
  let r := wget_parse_name_fixed line
  let s := r.1
  let name := r.2.1
  let namelen := r.2.2
  let sw : Char := Char.ofNat ((cur name).toNat ||| 32)
  if sw = 'c' then
    if nameIs name namelen "Content-Encoding" then
      { resp with content_encoding := (wget_http_parse_content_encoding s).2 }
    else if nameIs name namelen "Content-Type" then
      { resp with content_type := (wget_http_parse_content_type s).2.1,
                  content_type_encoding := (wget_http_parse_content_type s).2.2 }
    else if nameIs name namelen "Content-Length" then
      { resp with content_length := (atoll s % 2 ^ 64).toNat, content_length_valid := true }
    else if nameIs name namelen "Content-Disposition" then
      { resp with content_filename := (wget_http_parse_content_disposition env s).2 }
    else if nameIs name namelen "Connection" then
      { resp with keep_alive := (wget_http_parse_connection s).2 }
    else resp
  else if sw = 'l' then
    if nameIs name namelen "Last-Modified" then
      { resp with last_modified := wget_http_parse_full_date s }
    else if resp.code.tdiv 100 = 3 ∧ nameIs name namelen "Location" then
      { resp with location := (wget_http_parse_location s).2 }
    else if resp.code.tdiv 100 = 3 ∧ nameIs name namelen "Link" then
      { resp with links := resp.links ++ [(wget_http_parse_link s).2] }
    else resp
  else if sw = 't' then
    if nameIs name namelen "Transfer-Encoding" then
      { resp with transfer_encoding := (wget_http_parse_transfer_encoding s).2 }
    else resp
  else if sw = 's' then
    if nameIs name namelen "Set-Cookie" then
      -- this is a parser. content validation must be done by higher level functions.
      if (wget_http_parse_setcookie env s).2.name.isSome then
        { resp with cookies := resp.cookies ++ [(wget_http_parse_setcookie env s).2] }
      else resp
    else if nameIs name namelen "Strict-Transport-Security" then
      { resp with hsts := true,
                  hsts_maxage := (wget_http_parse_strict_transport_security env s).2.1,
                  hsts_include_subdomains := (wget_http_parse_strict_transport_security env s).2.2 }
    else resp
  else if sw = 'w' then
    if nameIs name namelen "WWW-Authenticate" then
      { resp with challenges := resp.challenges ++ [(wget_http_parse_challenge s).2] }
    else resp
  else if sw = 'd' then
    if nameIs name namelen "Digest" then
      { resp with digests := resp.digests ++ [(wget_http_parse_digest s).2] }
    else resp
  else if sw = 'i' then
    if nameIs name namelen "ICY-Metaint" then { resp with icy_metaint := atoi s } else resp
  else if sw = 'e' then
    if nameIs name namelen "ETag" then { resp with etag := (wget_http_parse_etag s).2 } else resp
  else resp

/-- The line splitting of `wget_http_parse_response_header`:
`eol = strchr(line + 1, '\n')`, `while (eol && c_isblank(eol[1])) { *eol = eol[-1] = ' '; ... }`,
`if (eol) eol[-1] = 0`. `prev` is the byte before the scan position, `s` the
string at the scan position. Returns the line as the field parsers see it and
the string at `eol + 1` if there is an `eol`. -/
def splitLine : Char → List Char → List Char × Option (List Char)
  | prev, [] => ([prev], none)
  | prev, c :: q =>
    if c = '\n' then
      if c_isblank (cur q) then (' ' :: (splitLine ' ' q).1, (splitLine ' ' q).2) -- handle split lines
      else ([], some q)
    else (prev :: (splitLine c q).1, (splitLine c q).2)

/-- The loop `for (line = eol + 1; eol && *line && *line != '\r'; line = eol + 1)`
of `wget_http_parse_response_header`; the argument is the string at `line`
(`none` when `eol` is `NULL`), `fuel` bounds the number of lines. -/
def headerLines (env : Env) : Nat → Response → Option (List Char) → Response
  | 0, resp, _ => resp
  | _ + 1, resp, none => resp
  | _ + 1, resp, some [] => resp
  | fuel + 1, resp, some (c :: t) =>
    if c = '\r' then resp
    else headerLines env fuel (headerField env resp (splitLine c t).1) (splitLine c t).2

/-- `wget_http_parse_response_header` (http.c) on the NUL-terminated header
`buf`: `none` is the `NULL` returned when the status line does not match. -/
def wget_http_parse_response_header (env : Env) (buf : List Char) : Option Response :=
  match sscanf_status buf with
  | none => none
  | some (major, minor, code, reason) =>
    let resp := { Response.zero with major := major, minor := minor, code := code, reason := reason }
    match strchr '\n' (buf.drop 10) with
    | none => some resp -- empty HTTP header
    | some eol => some (headerLines env (buf.length + 1) resp (some (adv eol)))

/-! ## `libwget/http.c`: reading a response

The transport is the list of the byte blocks that arrive, in order; an empty
block stands for a read that returns 0 or less (end of stream, timeout, error). -/

/-- Modelled from the spec: `wget_tcp_read(tcp, buf, count)` (libwget/net.c is
not part of the sources), "an opaque byte-stream": the bytes read, at most
`count` of the block that has arrived, and the transport afterwards. No byte
is read with `count = 0` or at the end of the stream. -/
def wget_tcp_read (tcp : List (List Char)) (count : Nat) : List Char × List (List Char) :=
  match tcp with
  | [] => ([], [])
  | block :: rest =>
    if block.length ≤ count then (block, rest)
    else if count = 0 then ([], block :: rest)
    else (block.take count, block.drop count :: rest)

/-- Number of bytes the transport still holds. -/
def tcpBytes (tcp : List (List Char)) : Nat := (tcp.map List.length).sum

/-- libc `strstr(s, "\r\n\r\n")` on the C string `s`: the offset of the first match. -/
def strstr_crlfcrlf : List Char → Option Nat
  | [] => none
  | c :: s =>
    if (c :: s).take 4 = ['\r', '\n', '\r', '\n'] then some 0
    else (strstr_crlfcrlf s).map (· + 1)

/-- `wget_http_connection_t` as `wget_http_get_response_cb` uses it: the
transport, the size of the connection buffer and the abort flag. -/
structure Connection where
  tcp : List (List Char)
  bufsize : Nat
  abort_indicator : Bool

/-- How the header loop of `wget_http_get_response_cb` ends. -/
inductive HeaderPhase
  /-- `p = buf + nread - nbytes - 3` lies before `buf`: the search reads outside the buffer -/
  | undefined
  /-- a read returned 0 or less before the end of the header was seen -/
  | no_header (nread : Nat) (tcp : List (List Char)) (reads : Nat)
  /-- `"\r\n\r\n"` found at offset `p` of the `nread` bytes `buf` -/
  | found (buf : List Char) (p : Nat) (bufsize : Nat) (tcp : List (List Char)) (reads : Nat)
  deriving DecidableEq, Repr

/-- The loop `while ((nbytes = wget_tcp_read(conn->tcp, buf + nread, bufsize - nread)) > 0)`
of `wget_http_get_response_cb`. `buf` holds the `nread` bytes read so far,
`reads` counts the calls of `wget_tcp_read`. -/
def headerLoop : Nat → List Char → Nat → List (List Char) → Nat → HeaderPhase
  | 0, buf, _, tcp, reads => HeaderPhase.no_header buf.length tcp reads
  | fuel + 1, buf, bufsize, tcp, reads =>
    let r := wget_tcp_read tcp (bufsize - buf.length)
    if r.1 = [] then HeaderPhase.no_header buf.length r.2 (reads + 1)
    else
      let nread := buf.length + r.1.length
      let buf1 := buf ++ r.1
      if nread < 4 then headerLoop fuel buf1 bufsize r.2 (reads + 1)
      else if buf.length ≠ 0 ∧ buf.length < 3 then HeaderPhase.undefined
      else
        let start := if buf.length = 0 then 0 else buf.length - 3
        match strstr_crlfcrlf (cstr (buf1.drop start)) with
        | some k => HeaderPhase.found buf1 (start + k) bufsize r.2 (reads + 1)
        | none =>
          headerLoop fuel buf1 (if nread + 1024 > bufsize then bufsize + 1024 else bufsize) r.2
            (reads + 1)

/-- What a call of `wget_http_get_response_cb` did: the response returned
(`NULL` is `none`), the data blocks passed to `wget_decompress` in order, the
transport afterwards and the number of calls of `wget_tcp_read`. -/
structure Received where
  resp : Option Response
  decompressed : List (List Char)
  tcp : List (List Char)
  reads : Nat
  deriving DecidableEq, Repr

/-- Modelled from the spec: the bytes that reach the body sink when the
content encoding is `identity` ("returns a pass-through when tag = identity"):
the data passed to `wget_decompress`, in order. -/
def sinkBytes (r : Received) : List Char := r.decompressed.flatten

/-- Value of a hexadecimal digit, if it is one. -/
def hexValue (c : Char) : Option Nat :=
  if c_isdigit c then some (c.toNat - '0'.toNat)
  else if 'a'.toNat ≤ c.toNat ∧ c.toNat ≤ 'f'.toNat then some (c.toNat - 'a'.toNat + 10)
  else if 'A'.toNat ≤ c.toNat ∧ c.toNat ≤ 'F'.toNat then some (c.toNat - 'A'.toNat + 10)
  else none

/-- Value of the longest prefix of hexadecimal digits. -/
def hexPrefixValue : List Char → Nat → Nat
  | [], v => v
  | c :: s, v =>
    match hexValue c with
    | some d => hexPrefixValue s (16 * v + d)
    | none => v

/-- libc `strtoll(p, NULL, 16)` stored into the `size_t chunk_size`: white
space, an optional sign, an optional `0x` in front of a hexadecimal digit,
hexadecimal digits; saturating at the ends of `long long`. -/
def strtoll16 (p : List Char) : Nat :=
  let s := skipSpace p
  let neg := cur s = '-'
  let s := if cur s = '-' ∨ cur s = '+' then adv s else s
  let s := if cur s = '0' ∧ (cur (adv s) = 'x' ∨ cur (adv s) = 'X') ∧
              (hexValue (cur (adv (adv s)))).isSome then adv (adv s) else s
  let v : Int := hexPrefixValue s 0
  let v : Int := if neg then max (- 2 ^ 63) (- v) else min (2 ^ 63 - 1) v
  (v % 2 ^ 64).toNat

/-- Offset of the first `\r` in the C string at `s`, if any (`strchr(p, '\r')`). -/
def findCR : List Char → Option Nat
  | [] => none
  | c :: s =>
    if c = NUL then none
    else if c = '\r' then some 0
    else (findCR s).map (· + 1)

/-- The state of the chunked reader between two steps. -/
inductive ChunkState
  /-- at the top of `for (;;)`: the buffer holds `buf`, `p` is an offset into it -/
  | size_line (buf : List Char) (p : Nat)
  /-- in `while (chunk_size > 0)`: `needed` bytes of chunk data and CRLF are outstanding -/
  | chunk_data (needed : Nat)
  /-- in `while (!strstr(end, "\r\n\r\n"))`: the buffer holds `buf`, `e` is the offset of `end` -/
  | trailer (buf : List Char) (e : Nat)

/-- The chunked branch of `wget_http_get_response_cb` (RFC 2616 3.6.1), one
step per round of one of its loops; `out` collects the blocks passed to
`wget_decompress`. Returns the blocks, the transport and the read count at
`cleanup`. -/
def chunkedLoop (abort : Bool) (bufsize : Nat) :
    Nat → ChunkState → List (List Char) → Nat → List (List Char) →
    List (List Char) × List (List Char) × Nat
  | 0, _, tcp, reads, out => (out, tcp, reads)
  | fuel + 1, ChunkState.size_line buf p, tcp, reads, out =>
    -- read: chunk-size [ chunk-extension ] CRLF
    match findCR (buf.drop p) with
    | some k =>
      if (buf.drop (p + k + 1)).head? = some '\n' then
        let e := p + k + 2
        -- now p points to chunk-size (hex)
        let chunk_size := strtoll16 (cstr (buf.drop p))
        if chunk_size = 0 then
          -- now read 'trailer CRLF' which is '*(entity-header CRLF) CRLF'
          if (buf.drop e).take 2 = ['\r', '\n'] then (out, tcp, reads)
          else chunkedLoop abort bufsize fuel (ChunkState.trailer buf e) tcp reads out
        else if e + chunk_size + 2 ≤ buf.length then
          chunkedLoop abort bufsize fuel (ChunkState.size_line buf (e + chunk_size + 2)) tcp reads
            (out ++ [(buf.drop e).take chunk_size])
        else
          chunkedLoop abort bufsize fuel (ChunkState.chunk_data (e + chunk_size + 2 - buf.length))
            tcp reads (out ++ [buf.drop e])
      else
        if abort then (out, tcp, reads)
        else
          let r := wget_tcp_read tcp (bufsize - buf.length)
          if r.1 = [] then (out, r.2, reads + 1)
          else chunkedLoop abort bufsize fuel (ChunkState.size_line (buf ++ r.1) p) r.2 (reads + 1) out
    | none =>
      if abort then (out, tcp, reads)
      else
        let r := wget_tcp_read tcp (bufsize - buf.length)
        if r.1 = [] then (out, r.2, reads + 1)
        else chunkedLoop abort bufsize fuel (ChunkState.size_line (buf ++ r.1) p) r.2 (reads + 1) out
  | fuel + 1, ChunkState.chunk_data needed, tcp, reads, out =>
    if needed = 0 then
      -- not reached: the loop is entered with `needed > 0` and left when it is satisfied
      (out, tcp, reads)
    else if abort then (out, tcp, reads)
    else
      let r := wget_tcp_read tcp bufsize
      if r.1 = [] then (out, r.2, reads + 1)
      else if needed ≤ r.1.length then
        if needed = 1 ∨ (r.1.drop (needed - 2)).take 2 = ['\r', '\n'] then
          -- chunk completed
          chunkedLoop abort bufsize fuel (ChunkState.size_line (r.1.drop needed) 0) r.2 (reads + 1)
            (if needed > 2 then out ++ [r.1.take (needed - 2)] else out)
        else (out, r.2, reads + 1) -- Expected end-of-chunk not found
      else
        chunkedLoop abort bufsize fuel (ChunkState.chunk_data (needed - r.1.length)) r.2 (reads + 1)
          (out ++ [if needed - r.1.length ≥ 2 then r.1
                   else r.1.take (r.1.length - 1)]) -- special case: we got a partial end-of-chunk
  | fuel + 1, ChunkState.trailer buf e, tcp, reads, out =>
    if (strstr_crlfcrlf (cstr (buf.drop e))).isSome then (out, tcp, reads)
    else
      -- just need to keep the last 3 bytes to avoid buffer resizing
      let buf1 := if buf.length > 3 then buf.drop (buf.length - 3) else buf
      if abort then (out, tcp, reads)
      else
        let r := wget_tcp_read tcp (bufsize - buf1.length)
        if r.1 = [] then (out, r.2, reads + 1)
        else chunkedLoop abort bufsize fuel (ChunkState.trailer (buf1 ++ r.1) 0) r.2 (reads + 1) out

/-- The loop `while (body_len < resp->content_length)` of the branch
"read content_length bytes": the blocks passed on, the final `body_len`, the
transport and the read count. -/
def lengthLoop (abort : Bool) (bufsize : Nat) (content_length : Nat) :
    Nat → Nat → List (List Char) → Nat → List (List Char) →
    List (List Char) × Nat × List (List Char) × Nat
  | 0, body_len, tcp, reads, out => (out, body_len, tcp, reads)
  | fuel + 1, body_len, tcp, reads, out =>
    if body_len < content_length then
      if abort then (out, body_len, tcp, reads)
      else
        let r := wget_tcp_read tcp bufsize
        if r.1 = [] then (out, body_len, r.2, reads + 1)
        else
          lengthLoop abort bufsize content_length fuel (body_len + r.1.length) r.2 (reads + 1)
            (out ++ [r.1])
    else (out, body_len, tcp, reads)

/-- The loop of the branch "read as long as we can". -/
def eofLoop (abort : Bool) (bufsize : Nat) :
    Nat → Nat → List (List Char) → Nat → List (List Char) →
    List (List Char) × Nat × List (List Char) × Nat
  | 0, body_len, tcp, reads, out => (out, body_len, tcp, reads)
  | fuel + 1, body_len, tcp, reads, out =>
    if abort then (out, body_len, tcp, reads)
    else
      let r := wget_tcp_read tcp bufsize
      if r.1 = [] then (out, body_len, r.2, reads + 1)
      else eofLoop abort bufsize fuel (body_len + r.1.length) r.2 (reads + 1) (out ++ [r.1])

/-- The test of `wget_http_get_response_cb` for a response without body
(RFC 2616 4.3 and 4.4). -/
def noBody (resp : Response) : Bool :=
  decide (resp.code.tdiv 100 = 1) || decide (resp.code = 204) || decide (resp.code = 304) ||
  (decide (resp.transfer_encoding = TransferEncoding.identity) && decide (resp.content_length = 0)
    && resp.content_length_valid)

/-- The response after the header was parsed: with
`WGET_HTTP_RESPONSE_KEEPHEADER` the header block and its CRLF CRLF are kept in
`resp->header`. -/
def keepHeader (keepheader : Bool) (resp : Response) (buf : List Char) (p : Nat) : Response :=
  if keepheader then { resp with header := some (buf.take p ++ "\r\n\r\n".toList) } else resp

/-- `header_callback && header_callback(context, resp)`: stop requested by the callback. -/
def callbackStops (header_callback : Option (Response → Bool)) (resp : Response) : Bool :=
  match header_callback with
  | some cb => cb resp
  | none => false

/-- `req && !wget_strcasecmp_ascii(req->method, "HEAD")`. -/
def isHead (req : Option Request) : Bool :=
  match req with
  | some r => decide (wget_strcasecmp_ascii (some r.method) (some "HEAD".toList) = 0)
  | none => false

/-- `wget_http_get_response_cb` behind `wget_decompress_open`: the three
ways of reading the body. `body` holds the body bytes read with the header. -/
def readBody (abort : Bool) (bufsize : Nat) (resp : Response) (body : List Char)
    (tcp : List (List Char)) (reads : Nat) : Received :=
  if resp.transfer_encoding ≠ TransferEncoding.identity then
    let r := chunkedLoop abort bufsize (2 * (tcpBytes tcp + body.length) + 4)
      (ChunkState.size_line body 0) tcp reads []
    { resp := some resp, decompressed := r.1, tcp := r.2.1, reads := r.2.2 }
  else if resp.content_length_valid then
    -- read content_length bytes
    let r := lengthLoop abort bufsize resp.content_length (tcpBytes tcp + 1) body.length tcp
      reads (if body.length ≠ 0 then [body] else [])
    { resp := some { resp with content_length := r.2.1 }, decompressed := r.1,
      tcp := r.2.2.1, reads := r.2.2.2 }
  else
    -- read as long as we can
    let r := eofLoop abort bufsize (tcpBytes tcp + 1) body.length tcp reads
      (if body.length ≠ 0 then [body] else [])
    { resp := some { resp with content_length := r.2.1 }, decompressed := r.1,
      tcp := r.2.2.1, reads := r.2.2.2 }

/-- `wget_http_get_response_cb` (http.c), HTTP/1.1 path. `_abort_indicator`
is the static flag of http.c, `keepheader` the flag
`WGET_HTTP_RESPONSE_KEEPHEADER`, `header_callback` returns true to stop; the
body callback receives what `wget_decompress` makes of `decompressed`.
`none` stands for the undefined search before the buffer. Every read that goes
on takes at least one byte from the transport and every round without a read
moves on in the buffer, which bounds the rounds of each loop. -/
def wget_http_get_response_cb (env : Env) (_abort_indicator : Bool) (conn : Connection)
    (req : Option Request) (keepheader : Bool) (header_callback : Option (Response → Bool)) :
    Option Received :=
  match headerLoop (tcpBytes conn.tcp + 1) [] conn.bufsize conn.tcp 0 with
  | HeaderPhase.undefined => none
  | HeaderPhase.no_header _ tcp reads =>
    some { resp := none, decompressed := [], tcp := tcp, reads := reads }
  | HeaderPhase.found buf p bufsize tcp reads =>
    -- found end-of-header
    match wget_http_parse_response_header env (cstr (buf.take p)) with
    | none => some { resp := none, decompressed := [], tcp := tcp, reads := reads }
    | some resp0 =>
      if callbackStops header_callback (keepHeader keepheader resp0 buf p) || isHead req
          || noBody (keepHeader keepheader resp0 buf p) then
        -- stop requested, a HEAD response, or body not included / empty
        some { resp := some (keepHeader keepheader resp0 buf p), decompressed := [], tcp := tcp,
               reads := reads }
      else
        some (readBody (conn.abort_indicator || _abort_indicator) bufsize
          (keepHeader keepheader resp0 buf p) (buf.drop (p + 4)) tcp reads)

/-! ## Inputs of the evaluated examples -/

/-- An environment for the evaluated examples: clock at 0, every string
valid UTF-8. -/
def envExample : Env :=
  { now := 0, str_is_valid_utf8 := fun _ => true, str_needs_encoding := fun _ => false,
    str_to_utf8 := fun s _ => some s }

/-- Hexadecimal digits of a number (`%x`). -/
def hexDigits (n : Nat) : List Char := Nat.toDigits 16 n

/-- The chunked transfer coding of RFC 2616 for a body given as a list of
chunks: hex size, CRLF, data, CRLF for every chunk, then `0` CRLF CRLF. -/
def chunkEncode : List (List Char) → List Char
  | [] => "0\r\n\r\n".toList
  | chunk :: chunks => hexDigits chunk.length ++ "\r\n".toList ++ chunk ++ "\r\n".toList
      ++ chunkEncode chunks

/-- The header block of the chunked example. -/
def chunkedHeader : List Char := "HTTP/1.1 200 OK\r\nTransfer-Encoding: chunked\r\n\r\n".toList

/-- A connection on which the one-byte body `a`, sent as one chunk, arrives
in two reads, the first of which ends between the CR and the LF that follow
the chunk data. -/
def connSplitCRLF : Connection :=
  { tcp := [chunkedHeader ++ "1\r\na\r".toList, "\n0\r\n\r\n".toList],
    bufsize := 102400, abort_indicator := false }

/-- The header of a 401 response with two comma-separated challenges, as it
is passed to `wget_http_parse_response_header`. -/
def headerTwoChallenges : List Char :=
  "HTTP/1.1 401 Unauthorized\r\nWWW-Authenticate: Basic realm=\"a\", Digest realm=\"a\", nonce=\"n\"".toList

/-- A connection that delivers a 204 response and further bytes. -/
def connNoContent : Connection :=
  { tcp := ["HTTP/1.1 204 No Content\r\nContent-Length: 4\r\n\r\nabcd".toList, "x".toList],
    bufsize := 102400, abort_indicator := false }

/-- A connection on which a response with `Content-Length: 3` arrives in two
reads, the second of which brings one body byte and three further bytes. -/
def connLength3 : Connection :=
  { tcp := ["HTTP/1.1 200 OK\r\nContent-Length: 3\r\n\r\nab".toList, "cdef".toList],
    bufsize := 102400, abort_indicator := false }

/-- A connection on which a response with `Content-Length: 3` and exactly
three body bytes arrives in two reads. -/
def connLength3Exact : Connection :=
  { tcp := ["HTTP/1.1 200 OK\r\nContent-Length: 3\r\n\r\nab".toList, "c".toList],
    bufsize := 102400, abort_indicator := false }

/-- The bytes a transport supplies before a read returns 0 or less. -/
def supplied : List (List Char) → List Char
  | [] => []
  | block :: rest => if block = [] then [] else block ++ supplied rest

/-- The parsed header of the `Content-Length: 3` examples. -/
def respLength3 : Response :=
  { Response.zero with major := 1, minor := 1, code := 200, reason := "OK".toList,
                       content_length := 3, content_length_valid := true }

/-! ## Header blocks with folded fields (RFC 2616 2.2, 4.2) -/

/-- A header field as it is written on the wire: its first line and its
continuation lines, every line without its CRLF. -/
structure FoldedField where
  first : List Char
  conts : List (List Char)
  deriving DecidableEq, Repr

/-- A field whose first line is not empty and does not start with SP or HT,
whose continuation lines start with SP or HT, and whose lines hold no LF. -/
def FoldedField.wellFormed (f : FoldedField) : Prop :=
  f.first ≠ [] ∧ c_isblank (cur f.first) = false ∧ '\n' ∉ f.first ∧
  ∀ c ∈ f.conts, c_isblank (cur c) = true ∧ '\n' ∉ c

/-- The bytes of a field when every continuation line is joined to the line
before it by `sep`: CRLF on the wire. -/
def renderField (sep : List Char) (f : FoldedField) : List Char :=
  f.first ++ (f.conts.map fun c => sep ++ c).flatten

/-- The fields of a header block, each behind a CRLF. -/
def renderFields (sep : List Char) : List FoldedField → List Char
  | [] => []
  | f :: fs => '\r' :: '\n' :: (renderField sep f ++ renderFields sep fs)

/-- A header block as `wget_http_parse_response_header` receives it: the
status line and the fields, without the final CRLF CRLF. -/
def renderHeader (sep : List Char) (status : List Char) (fields : List FoldedField) : List Char :=
  status ++ renderFields sep fields

/-- A field in which every fold, the CRLF and the blanks behind it, is
replaced by one SP. -/
def renderFieldOneSP (f : FoldedField) : List Char :=
  f.first ++ (f.conts.map fun c => ' ' :: skipBlank c).flatten

/-- The fields of a header block with every fold replaced by one SP. -/
def renderFieldsOneSP : List FoldedField → List Char
  | [] => []
  | f :: fs => '\r' :: '\n' :: (renderFieldOneSP f ++ renderFieldsOneSP fs)

/-- A `WWW-Authenticate` field whose quoted realm is folded. -/
def foldedChallenge : FoldedField :=
  { first := "WWW-Authenticate: Basic realm=\"a".toList, conts := [" b\"".toList] }

/-! ## `src/wget.c`: exit status and the choice of a challenge -/

/-- `set_exit_status` (wget.c) on the static `exit_status`: its value after
the call. -/
def set_exit_status (exit_status status : Int) : Int :=
  if exit_status ≠ 0 then
    if status < exit_status then status else exit_status
  else status

/-- The `for` loop of `http_get` (wget.c) over the vector `challenges` that
sets `selected_challenge`; the second argument is `selected_challenge` before
the round. `wget_strcasecmp_ascii` returns 0 for equal strings, and the loop
tests its result for being non-zero. -/
def selected_challenge : List Challenge → Option Challenge → Option Challenge
  | [], selected => selected
  | challenge :: challenges, selected =>
    if wget_strcasecmp_ascii challenge.auth_scheme (some "digest".toList) ≠ 0 then
      some challenge -- break
    else if wget_strcasecmp_ascii challenge.auth_scheme (some "basic".toList) ≠ 0 then
      selected_challenge challenges (if selected.isNone then some challenge else selected)
    else selected_challenge challenges selected

/-- The challenges of `WWW-Authenticate: Basic realm="a"` and
`WWW-Authenticate: Digest realm="a", nonce="n"`. -/
def challengeBasic : Challenge :=
  { auth_scheme := some "Basic".toList, params := [("realm".toList, "a".toList)] }

/-- See `challengeBasic`. -/
def challengeDigest : Challenge :=
  { auth_scheme := some "Digest".toList,
    params := [("realm".toList, "a".toList), ("nonce".toList, "n".toList)] }

/-- "Some pattern is a suffix of the name", the comparison of `in_pattern_list`
as the specification words it: byte-exact, or up to ASCII case. -/
def suffixMatch (ignore_case : Bool) (pattern url : List Char) : Prop :=
  if ignore_case then
    ∃ pre suf, url = pre ++ suf ∧ suf.map c_tolower = pattern.map c_tolower
  else pattern <:+ url

/-- The configuration of `wget -r -nH --accept '.jpeg'`, as far as `Config` goes. -/
def cfgAccept (ignore_case : Bool) : Config :=
  { spider := false, quota := 0, save_headers := false, output_document := none,
    delete_after := false, adjust_extension := false,
    accept_patterns := some [".jpeg".toList], reject_patterns := none,
    ignore_case := ignore_case, timestamping := false, clobber := true, recursive := true,
    directories := true, backups := 0 }

/-! ## `src/wget.c`: jobs, hosts and `add_url`

The worker is embedded as a function on an explicit program state, `World`.
What lies outside the repository sources (the IRI routines, the HTML, CSS and
XML scanners, the host table and the job queue of `job.c` and `host.c`, the
network) is collected in `Lib`; the theorems hold for every `Lib`. -/

/-- libc `strncmp`, as the difference of the first pair of bytes that differ
within the first `n` bytes. -/
def strncmp : List Char → List Char → Nat → Int
  | _, _, 0 => 0
  | [], [], _ + 1 => 0
  | [], c :: _, _ + 1 => - (c.toNat : Int)
  | c :: _, [], _ + 1 => (c.toNat : Int)
  | a :: s, b :: t, n + 1 =>
    if a = b then strncmp s t n else (a.toNat : Int) - (b.toNat : Int)

/-- `in_host_pattern_list` (wget.c); `fnmatch` as in `in_pattern_list`, here
always called with the flags 0. -/
def in_host_pattern_list (fnmatch : List Char → List Char → Bool → Bool) :
    List (List Char) → List Char → Bool
  | [], _ => false
  | pattern :: v, hostname =>
    if strpbrk_found pattern "*?[]".toList then
      if fnmatch pattern hostname false then true
      else in_host_pattern_list fnmatch v hostname
    else if wget_match_tail pattern hostname then true
    else in_host_pattern_list fnmatch v hostname

/-- The further fields of the global `config` that the worker reads.
`page_requisites` is a flag, counted as 0 or 1 where the code adds it. -/
structure WorkerConfig extends Config where
  tries : Int
  max_redirect : Int
  level : Int
  page_requisites : Bool
  robots : Bool
  parent : Bool
  span_hosts : Bool
  domains : Option (List (List Char))
  exclude_domains : Option (List (List Char))
  https_only : Bool
  trust_server_names : Bool
  chunk_size : Int
  content_disposition : Bool
  continue_download : Bool
  remote_encoding : Option (List Char)
  post_data : Option (List Char)
  post_file : Option (List Char)
  deriving DecidableEq, Repr

/-- `wget_metalink_piece_t`: the fields set by the worker. -/
structure MetalinkPiece where
  length : Int
  position : Int
  deriving DecidableEq, Repr

/-- `wget_metalink_mirror_t`: the fields set by the worker. -/
structure MetalinkMirror where
  location : List Char
  iri : Option Iri
  deriving DecidableEq, Repr

/-- `wget_metalink_t`: the fields the worker reads or sets; `mirrors` may be
`NULL`. -/
structure Metalink where
  name : Option (List Char)
  size : Int
  pieces : List MetalinkPiece
  mirrors : Option (List MetalinkMirror)
  deriving DecidableEq, Repr

/-- `JOB` (job.h is not part of the sources): the fields that wget.c uses.
`deferred` and `host` are pointers: `deferred` is the handle of a vector in
`World.vectors`, `host` an index into `World.hosts`. -/
structure Job where
  iri : Option Iri
  local_filename : Option (List Char)
  level : Int
  redirection_level : Int
  referer : Option Iri
  deferred : Option Nat
  host : Option Nat
  sitemap : Bool
  head_first : Bool
  metalink : Option Metalink
  deriving DecidableEq, Repr

/-- `ROBOTS_PATH`. -/
structure RobotsPath where
  path : List Char
  len : Nat
  deriving DecidableEq, Repr

/-- `ROBOTS`: the disallowed paths and the sitemap URLs of a robots.txt. -/
structure Robots where
  paths : List RobotsPath
  sitemaps : List (List Char)
  deriving DecidableEq, Repr

/-- `HOST` (host.h is not part of the sources): the IRI the entry was made
for, the pending robots.txt job (`robot_job`, the job as it was when the
pointer was set) and the parsed robots.txt. -/
structure Host where
  key : Iri
  robot_job : Option Job
  robots : Option Robots
  deriving DecidableEq, Repr

/-- The static `stats`. -/
structure Stats where
  ndownloads : Int
  nredirects : Int
  nnotmodified : Int
  nerrors : Int
  nchunks : Int
  deriving DecidableEq, Repr

/-- A call that the worker makes and that the program state alone does not
show; `World.trace` lists them in order. A call `add_url(job, encoding, url,
flags)` is listed with the link text it is made for (the text found in a
document or in a header, of which `url` is the absolute form). -/
inductive Event
  | set_exit_status (status : Int)
  | add_url (link : List Char) (url : List Char) (flags : Nat)
  | request (method : List Char) (selected : Option Challenge)
  | save_file (fname : FileArg)
  | append_file (fname : FileArg)
  deriving DecidableEq, Repr

/-- The static variables of wget.c, blacklist.c, host.c and job.c that the
worker reads and writes. `queue` holds the jobs added by `queue_add_job`, in
the order of the calls; the job a worker has claimed is passed to the
functions by value. `vectors` is the heap of the `deferred` vectors, `rounds`
counts the exchanges with the network made so far. -/
structure World where
  exit_status : Int
  terminate : Bool
  queue : List Job
  blacklist : List Iri
  known_urls : List (List Char)
  hosts : List Host
  vectors : List (List Iri)
  parents : List (Iri × Nat)
  etags : List (List Char)
  stats : Stats
  rounds : Nat
  trace : List Event
  deriving DecidableEq, Repr

/-- `URL_FLG_REDIRECTION`. -/
def URL_FLG_REDIRECTION : Nat := 1

/-- `URL_FLG_SITEMAP`. -/
def URL_FLG_SITEMAP : Nat := 2

/-- `WGET_HTML_PARSED_URL`: the link text and the attribute and tag names it
was found in. -/
structure HtmlParsedUrl where
  url : List Char
  attr : List Char
  dir : List Char
  deriving DecidableEq, Repr

/-- `WGET_HTML_PARSED_RESULT`; `base` is `none` when `base.p` is `NULL`. -/
structure HtmlParsedResult where
  uris : List HtmlParsedUrl
  encoding : Option (List Char)
  base : Option (List Char)
  follow : Bool
  deriving DecidableEq, Repr

/-- A call that `wget_css_parse_buffer` makes: `callback_uri` with an URL or
`callback_encoding` with the name of a `@charset` rule. -/
inductive CssItem
  | uri (url : List Char)
  | encoding (name : List Char)
  deriving DecidableEq, Repr

/-- What one round of the loop of `http_get` meets on the network: no
connection (it could not be reused and `wget_http_open` failed, with
`WGET_E_HANDSHAKE` or `WGET_E_CERTIFICATE` when the flag is set), a request
that could not be sent, no response, or a response. -/
inductive Exchange
  | no_connection (handshake_or_certificate : Bool)
  | send_failed
  | no_response
  | response (resp : Response)
  deriving DecidableEq, Repr

/-- The functions that wget.c calls and that are not part of the repository
sources, and the network. `net n` is the outcome of the exchange number `n`
of the run; `host_compare` is the key comparison of the host table. -/
structure Lib where
  fnmatch : List Char → List Char → Bool → Bool
  wget_iri_compare : Iri → Iri → Int
  wget_iri_parse : List Char → Option (List Char) → Option Iri
  wget_iri_parse_base : Option Iri → List Char → Option (List Char) → Option Iri
  wget_iri_relative_to_abs : Option Iri → List Char → Option (List Char)
  get_local_filename : Option Iri → Option (List Char)
  host_compare : Iri → Iri → Bool
  wget_html_get_urls_inline : List Char → HtmlParsedResult
  wget_sitemap_get_urls_inline : List Char → List (List Char) × List (List Char)
  wget_atom_get_urls_inline : List Char → List (List Char)
  wget_rss_get_urls_inline : List Char → List (List Char)
  wget_css_parse_buffer : List Char → List CssItem
  wget_robots_parse : List Char → Option Robots
  metalink4_parse : List Char → Option Metalink
  metalink3_parse : List Char → Option Metalink
  job_validate_file : Job → Bool
  wget_decompress_gzip : List Char → Option (List Char)
  wget_read_file : List Char → Option (List Char)
  net : Nat → Exchange

/-- Modelled from the spec: `job_init` (job.c is not part of the sources). "A
job is constructed when a URL passes the recursion filter": the job for an
IRI has every other field zero, and there is no job for a `NULL` IRI. -/
def job_init (iri : Option Iri) : Option Job :=
  match iri with
  | none => none
  | some iri =>
    some { iri := some iri, local_filename := none, level := 0, redirection_level := 0,
           referer := none, deferred := none, host := none, sitemap := false,
           head_first := false, metalink := none }

/-- Modelled from the spec: `queue_add_job` (job.c is not part of the
sources). The queue is "a single FIFO": the job is appended. -/
def queue_add_job (queue : List Job) (job : Job) : List Job := queue ++ [job]

/-- Modelled from the spec: `hosts_get` (host.c is not part of the sources):
the index of the host record with the key of `iri`, if there is one. -/
def hosts_get (lib : Lib) (hosts : List Host) (iri : Iri) : Option Nat :=
  if hosts.findIdx (fun h => lib.host_compare h.key iri) < hosts.length then
    some (hosts.findIdx (fun h => lib.host_compare h.key iri))
  else none

/-- `wget_vector_add_noalloc` on the vector with handle `h` of the heap. -/
def wget_vector_add_noalloc : List (List Iri) → Nat → Iri → List (List Iri)
  | [], _, _ => []
  | v :: vs, 0, x => (v ++ [x]) :: vs
  | v :: vs, h + 1, x => v :: wget_vector_add_noalloc vs h x

/-- The loop of `add_url` over the vector `parents`: `some true` when a
parent matches (`ok = 1`), `none` when `strcmp` or `strncmp` is called with a
`NULL` pointer. -/
def parentsLoop : List (Iri × Nat) → Iri → Option Bool
  | [], _ => some false
  | (parent, dirlen) :: parents, iri =>
    match parent.host, iri.host with
    | some phost, some ihost =>
      if strcmp phost ihost = 0 then
        if dirlen = 0 then some true
        else
          match parent.path, iri.path with
          | some ppath, some ipath =>
            if strncmp ppath ipath dirlen = 0 then some true else parentsLoop parents iri
          | _, _ => none
      else parentsLoop parents iri
    | _, _ => none

/-- The host test of `add_url` ("only download content from given hosts"):
whether `reason` is set. -/
def hostReason (lib : Lib) (config : WorkerConfig) (iri : Iri) : Bool :=
  match iri.host with
  | none => true
  | some host =>
    if !config.span_hosts && config.domains.isSome &&
        !in_host_pattern_list lib.fnmatch (config.domains.getD []) host then true
    else if config.span_hosts && config.exclude_domains.isSome &&
        in_host_pattern_list lib.fnmatch (config.exclude_domains.getD []) host then true
    else false

/-- The loop of `add_url` over `host->robots->paths`: whether a disallowed
path is a prefix of the path of the IRI. -/
def robotsDisallowed : List RobotsPath → List Char → Bool
  | [], _ => false
  | path :: paths, ipath =>
    if strncmp path.path ipath path.len = 0 then true else robotsDisallowed paths ipath

/-- How the `if (config.recursive && config.robots)` block of `add_url` ends. -/
inductive RobotsStep
  | new_job (w : World) (job : Job)
  | deferred (w : World)
  | disallowed
  | go_on
  | undefined

/-- The `if (config.recursive && config.robots)` block of `add_url`. A new
host record gets a robots.txt job with the IRI in its `deferred` vector; for a
host whose robots.txt job is pending the IRI is added to that vector and
`add_url` returns; for a host with a parsed robots.txt the disallowed paths
are checked. -/
def robotsBlock (lib : Lib) (w : World) (iri : Iri) (encoding : Option (List Char)) :
    RobotsStep :=
  match hosts_get lib w.hosts iri with
  | none =>
    -- hosts_add: a new host entry has been created
    match job_init (lib.wget_iri_parse_base (some iri) "/robots.txt".toList encoding) with
    | none => RobotsStep.undefined
    | some job =>
      let new_job : Job :=
        { job with host := some w.hosts.length, deferred := some w.vectors.length }
      RobotsStep.new_job
        { w with
          hosts := w.hosts ++ [{ key := iri, robot_job := some new_job, robots := none }]
          vectors := w.vectors ++ [[iri]]
          blacklist := (blacklist_add lib.wget_iri_compare w.blacklist (some iri)).2 }
        new_job
  | some i =>
    match w.hosts.get? i with
    | none => RobotsStep.go_on
    | some host =>
      match host.robot_job with
      | some robot_job =>
        RobotsStep.deferred
          (match robot_job.deferred with
            | some h => { w with vectors := wget_vector_add_noalloc w.vectors h iri }
            | none => w)
      | none =>
        match host.robots, iri.path with
        | some robots, some ipath =>
          if robotsDisallowed robots.paths ipath then RobotsStep.disallowed else RobotsStep.go_on
        | _, _ => RobotsStep.go_on

/-- The test at the head of `add_url`:
`config.max_redirect && job && job->redirection_level >= config.max_redirect`. -/
def redirectCapReached (config : WorkerConfig) (job : Option Job) : Bool :=
  match job with
  | none => false
  | some j => decide (config.max_redirect ≠ 0) && decide (j.redirection_level ≥ config.max_redirect)

/-- The local file name of a new job (`if (!config.output_document) ...` in
`add_url`): derived from its IRI, or for a redirection without
`--trust-server-names` the name of the redirected job. -/
def withLocalFilename (lib : Lib) (config : WorkerConfig) (job : Option Job) (flags : Nat)
    (new_job : Job) : Job :=
  if config.output_document.isNone then
    if flags &&& URL_FLG_REDIRECTION = 0 || config.trust_server_names || job.isNone then
      { new_job with local_filename := lib.get_local_filename new_job.iri }
    else { new_job with local_filename := job.bind fun j => j.local_filename }
  else new_job

/-- The levels and the referer of a new job (`if (job) ...` in `add_url`). -/
def withLevels (job : Option Job) (flags : Nat) (new_job : Job) : Job :=
  match job with
  | none => new_job
  | some j =>
    if flags &&& URL_FLG_REDIRECTION ≠ 0 then
      { new_job with redirection_level := j.redirection_level + 1, referer := j.referer }
    else { new_job with level := j.level + 1, referer := j.iri }

/-- The job of the caller after `if (job) ...` in `add_url`: its `iri` is set
to `NULL` when the new job takes it as referer. -/
def callerAfter (job : Option Job) (flags : Nat) : Option Job :=
  match job with
  | none => none
  | some j => if flags &&& URL_FLG_REDIRECTION ≠ 0 then some j else some { j with iri := none }

/-- "mark this job as a Sitemap job, but not if it is a robot.txt job". -/
def withSitemap (flags : Nat) (new_job : Job) : Job :=
  if flags &&& URL_FLG_SITEMAP ≠ 0 ∧ new_job.deferred.isNone then { new_job with sitemap := true }
  else new_job

/-- The end of `add_url`, `if (new_job) { ... }`: the local file name, the
levels and the referer of the new job are set, the job is marked as a sitemap
job and added to the queue. The second component is the job of the caller. -/
def queueNewJob (lib : Lib) (config : WorkerConfig) (w : World) (job : Option Job)
    (new_job : Job) (flags : Nat) : World × Option Job :=
  let new_job : Job :=
    withSitemap flags (withLevels job flags (withLocalFilename lib config job flags new_job))
  ({ w with queue := queue_add_job w.queue new_job }, callerAfter job flags)

/-- `add_url` (wget.c): the program state and the job of the caller after
the call; `none` when the call runs into undefined behaviour (a `NULL` string
given to `strcmp` or `strncmp`, a `NULL` job dereferenced). -/
def add_url (lib : Lib) (config : WorkerConfig) (w : World) (job : Option Job)
    (encoding : Option (List Char)) (url : List Char) (flags : Nat) :
    Option (World × Option Job) :=
  if flags &&& URL_FLG_REDIRECTION ≠ 0 ∧ redirectCapReached config job = true then
    some (w, job)
  else
    match lib.wget_iri_parse url encoding with
    | none => some (w, job)
    | some iri =>
      if iri.scheme ≠ IriScheme.http ∧ iri.scheme ≠ IriScheme.https then some (w, job)
      else if config.https_only = true ∧ iri.scheme ≠ IriScheme.https then some (w, job)
      else
        match (if config.recursive && !config.parent then parentsLoop w.parents iri
               else some true) with
        | none => none
        | some false => some (w, job) -- parent ascending not allowed
        | some true =>
          if config.recursive && hostReason lib config iri then some (w, job)
          else
            match (if config.recursive && config.robots then robotsBlock lib w iri encoding
                   else RobotsStep.go_on) with
            | RobotsStep.undefined => none
            | RobotsStep.deferred w2 => some (w2, job)
            | RobotsStep.disallowed => some (w, job)
            | RobotsStep.new_job w2 new_job => some (queueNewJob lib config w2 job new_job flags)
            | RobotsStep.go_on =>
              match job_init (blacklist_add lib.wget_iri_compare w.blacklist (some iri)).1 with
              | none =>
                some ({ w with blacklist :=
                  (blacklist_add lib.wget_iri_compare w.blacklist (some iri)).2 }, job)
              | some new_job =>
                some (queueNewJob lib config
                  { w with blacklist :=
                      (blacklist_add lib.wget_iri_compare w.blacklist (some iri)).2 }
                  job new_job flags)

/-- A call `add_url(job, encoding, url, flags)` made for the link text `link`:
the call is entered in `World.trace`. -/
def addUrlFor (lib : Lib) (config : WorkerConfig) (w : World) (job : Option Job)
    (encoding : Option (List Char)) (link url : List Char) (flags : Nat) :
    Option (World × Option Job) :=
  add_url lib config { w with trace := w.trace ++ [Event.add_url link url flags] } job encoding
    url flags

/-! ## `src/wget.c`: `http_get` -/

/-- What `http_get` hands back: the program state, the returned response
(`NULL` is `none`) and `downloader->final_error`. -/
structure GetResult where
  w : World
  resp : Option Response
  final_error : Bool
  deriving DecidableEq, Repr

/-- The statistics block of `http_get` ("do some statistics"). -/
def countResponse (stats : Stats) (resp : Response) (part : Bool) : Stats :=
  if resp.code = 200 then
    if part then { stats with nchunks := stats.nchunks + 1 }
    else { stats with ndownloads := stats.ndownloads + 1 }
  else if resp.code = 301 ∨ resp.code = 302 then { stats with nredirects := stats.nredirects + 1 }
  else if resp.code = 304 then { stats with nnotmodified := stats.nnotmodified + 1 }
  else { stats with nerrors := stats.nerrors + 1 }

/-- The method of the request that `http_get` creates. -/
def requestMethod (config : WorkerConfig) (method : Option (List Char)) : List Char :=
  match method with
  | some m => m
  | none =>
    if config.post_data.isSome || config.post_file.isSome then "POST".toList else "GET".toList

/-- The loop `while (iri && ++tries <= config.tries)` of `http_get`, entered
with `resp == NULL`. `job` is `downloader->job`, `part` tells whether a part
is downloaded, `challenges` is `none` while the vector is `NULL`. A round takes
the next exchange from the network; what it sends is entered in the trace as
the method and the challenge selected for the credentials. `fuel` bounds the
number of rounds. Connection reuse, the request headers, cookies and the HSTS
rewrite of the scheme are not part of the embedding. -/
def httpGetLoop (lib : Lib) (config : WorkerConfig) (job : Option Job) (part : Bool)
    (method : Option (List Char)) :
    Nat → Option Iri → Int → Option (List Challenge) → Bool → World → Option GetResult
  | 0, _, _, _, final_error, w => some { w := w, resp := none, final_error := final_error }
  | fuel + 1, iri, tries, challenges, final_error, w =>
    match iri with
    | none => some { w := w, resp := none, final_error := final_error }
    | some i =>
      if ¬ (tries + 1 ≤ config.tries) then
        some { w := w, resp := none, final_error := final_error }
      else
        let exchange := lib.net w.rounds
        let w : World := { w with rounds := w.rounds + 1 }
        match exchange with
        | Exchange.no_connection handshake_or_certificate =>
          -- no connection: `else break`
          if handshake_or_certificate then
            some { w := { w with exit_status := set_exit_status w.exit_status 5
                                 trace := w.trace ++ [Event.set_exit_status 5] },
                   resp := none, final_error := true }
          else some { w := w, resp := none, final_error := final_error }
        | exchange =>
          if config.post_data.isNone ∧ config.post_file.isSome ∧
              (config.post_file.bind lib.wget_read_file).isNone then
            -- the file to post cannot be read: `break`
            some { w := w, resp := none, final_error := final_error }
          else
            let w : World :=
              { w with trace := w.trace ++ [Event.request (requestMethod config method)
                  (match challenges with
                   | some cs => selected_challenge cs none
                   | none => none)] }
            match exchange with
            | Exchange.response resp =>
              let w : World := { w with stats := countResponse w.stats resp part }
              if resp.code = 302 ∧ resp.links ≠ [] ∧ resp.digests ≠ [] then
                some { w := w, resp := some resp, final_error := final_error }
              else if resp.code = 401 ∧ challenges.isNone then
                if resp.challenges ≠ [] then
                  -- try again with credentials
                  httpGetLoop lib config job part method fuel (some i) (tries + 1)
                    (some resp.challenges) final_error w
                else some { w := w, resp := some resp, final_error := final_error }
              else if resp.code.tdiv 100 = 2 ∨ resp.code.tdiv 100 ≥ 4 ∨ resp.code = 304 then
                -- final response
                some { w := w, resp := some resp, final_error := final_error }
              else
                match resp.location with
                | some location =>
                  let uri := (lib.wget_iri_relative_to_abs (some i) location).getD []
                  if !part then
                    match addUrlFor lib config w job (some "utf-8".toList) location uri
                        URL_FLG_REDIRECTION with
                    | none => none
                    | some r => some { w := r.1, resp := some resp, final_error := final_error }
                  else
                    -- directly follow when using metalink
                    httpGetLoop lib config job part method fuel (lib.wget_iri_parse uri none)
                      (tries + 1) challenges final_error w
                | none =>
                  httpGetLoop lib config job part method fuel (some i) (tries + 1) challenges
                    final_error w
            | _ =>
              -- the request could not be sent, or no response came
              some { w := w, resp := none, final_error := final_error }

/-- `http_get` (wget.c). The loop makes no more than `config.tries` rounds. -/
def http_get (lib : Lib) (config : WorkerConfig) (w : World) (job : Option Job)
    (iri : Option Iri) (part : Bool) (method : Option (List Char)) : Option GetResult :=
  httpGetLoop lib config job part method config.tries.toNat iri 0 none false w

/-! ## `src/wget.c`: the extractors -/

/-- `hash_url` (wget.c), in `unsigned int` arithmetic. -/
def hash_url (url : List Char) : Nat :=
  url.foldl (fun hash c => (hash * 101 + c.toNat) % 2 ^ 32) 0

/-- Modelled from the spec: `wget_hashmap_put_noalloc` on the map `known_urls`
(libwget/hashmap.c is not part of the sources), which is created with the hash
function `hash_url` and the comparison `strcmp`. The result tells whether the
key was in the map already (the return value is non-zero); otherwise the key is
added. The map is the list of its keys. -/
def known_urls_put (known_urls : List (List Char)) (url : List Char) :
    Bool × List (List Char) :=
  if known_urls.any (fun k => decide (hash_url url = hash_url k) && decide (strcmp url k = 0))
  then (true, known_urls)
  else (false, known_urls ++ [url])

/-- `wget_strncasecmp` (utils.c): NULL-tolerant libc `strncasecmp`, in the C
locale. -/
def wget_strncasecmp : Option (List Char) → Option (List Char) → Nat → Int
  | none, none, _ => 0
  | none, some _, _ => -1
  | some _, none, _ => 1
  | some s1, some s2, n => c_strncasecmp s1 s2 n

/-- libc `strrchr(s, c) - s`: the offset of the last `c` in `s`, if any. -/
def strrchr (c : Char) : List Char → Option Nat
  | [] => none
  | d :: s =>
    match strrchr c s with
    | some i => some (i + 1)
    | none => if d = c then some 0 else none

/-- A `const char *encoding` argument of `html_parse`, which compares the
pointer with `config.remote_encoding`: `NULL`, that pointer, or another
string. -/
inductive EncodingArg
  | null
  | remote_encoding (s : List Char)
  | str (s : List Char)
  deriving DecidableEq, Repr

/-- The string an `EncodingArg` points to. -/
def EncodingArg.get : EncodingArg → Option (List Char)
  | EncodingArg.null => none
  | EncodingArg.remote_encoding s => some s
  | EncodingArg.str s => some s

/-- The encoding that `html_parse` settles on
(http://www.whatwg.org/specs/web-apps/current-work/, 12.2.2.2). -/
def htmlEncoding (html : List Char) (encoding : EncodingArg) (parsed : HtmlParsedResult) :
    List Char :=
  match encoding with
  | EncodingArg.remote_encoding s => s -- set by user
  | _ =>
    let encoding : Option (List Char) :=
      if (cur html).toNat = 0xFE ∧ (cur (adv html)).toNat = 0xFF then some "UTF-16BE".toList
      else if (cur html).toNat = 0xFF ∧ (cur (adv html)).toNat = 0xFE then
        some "UTF-16LE".toList
      else if (cur html).toNat = 0xEF ∧ (cur (adv html)).toNat = 0xBB ∧
          (cur (adv (adv html))).toNat = 0xBF then some "UTF-8".toList
      else encoding.get
    let encoding : Option (List Char) :=
      if wget_strncasecmp parsed.encoding (some "UTF-16".toList) 6 = 0 ∨
          wget_strncasecmp encoding (some "UTF-16".toList) 6 = 0 then some "UTF-8".toList
      else encoding
    match encoding with
    | some e => e
    | none =>
      match parsed.encoding with
      | some e => e -- set by document
      | none => "CP1252".toList

/-- The base of `html_parse` after the `if (parsed->base.p)` block. -/
def htmlBase (lib : Lib) (encoding : List Char) (parsed : HtmlParsedResult) (base : Option Iri) :
    Option Iri :=
  match parsed.base with
  | none => base
  | some b =>
    if b.length > 1 ∨ (b.length = 1 ∧ cur b ≠ '#') then
      match lib.wget_iri_relative_to_abs base b with
      | some buf =>
        if base.isNone ∧ buf = [] then base else lib.wget_iri_parse buf (some encoding)
      | none => base
    else base

/-- The test of `html_parse` for a link that is not loaded with
`--page-requisites`: attribute `href` in a tag that passes
`c_tolower(*dir) == 'a' && (dir[1] == 0 || dir is "area" || dir is "embed")`. -/
def hrefNotFollowed (html_url : HtmlParsedUrl) : Bool :=
  decide (wget_strcasecmp_ascii (some html_url.attr) (some "href".toList) = 0) &&
    (decide (c_tolower (cur html_url.dir) = 'a') &&
      (decide (cur (adv html_url.dir) = NUL) ||
        decide (wget_strcasecmp_ascii (some html_url.dir) (some "area".toList) = 0) ||
        decide (wget_strcasecmp_ascii (some html_url.dir) (some "embed".toList) = 0)))

/-- The loop of `html_parse` over `parsed->uris`. -/
def htmlLoop (lib : Lib) (config : WorkerConfig) (page_requisites : Bool) (encoding : List Char)
    (base : Option Iri) : List HtmlParsedUrl → World → Option Job → Option (World × Option Job)
  | [], w, job => some (w, job)
  | html_url :: uris, w, job =>
    -- Blacklist for URLs before they are processed
    if (known_urls_put w.known_urls html_url.url).1 then
      htmlLoop lib config page_requisites encoding base uris w job
    else
      let w : World := { w with known_urls := (known_urls_put w.known_urls html_url.url).2 }
      -- with --page-requisites: just load inline URLs from the deepest level documents
      if page_requisites && hrefNotFollowed html_url then
        htmlLoop lib config page_requisites encoding base uris w job
      else if html_url.url.length > 1 ∨ (html_url.url.length = 1 ∧ cur html_url.url ≠ '#') then
        match lib.wget_iri_relative_to_abs base html_url.url with
        | some buf =>
          if base.isNone ∧ buf = [] then
            htmlLoop lib config page_requisites encoding base uris w job
          else
            match addUrlFor lib config w job (some encoding) html_url.url buf 0 with
            | none => none
            | some r => htmlLoop lib config page_requisites encoding base uris r.1 r.2
        | none => htmlLoop lib config page_requisites encoding base uris w job
      else htmlLoop lib config page_requisites encoding base uris w job

/-- `html_parse` (wget.c). The bookkeeping for `--convert-links` is not part
of the embedding. -/
def html_parse (lib : Lib) (config : WorkerConfig) (w : World) (job : Option Job) (level : Int)
    (html : List Char) (encoding : EncodingArg) (base : Option Iri) :
    Option (World × Option Job) :=
  let parsed := lib.wget_html_get_urls_inline html
  if config.robots && !parsed.follow then some (w, job)
  else
    let encoding := htmlEncoding html encoding parsed
    let base := htmlBase lib encoding parsed base
    let page_requisites : Bool :=
      config.recursive && config.page_requisites && decide (config.level ≠ 0) &&
        decide (level < config.level)
    htmlLoop lib config page_requisites encoding base parsed.uris w job

/-- `html_parse_localfile` (wget.c). -/
def html_parse_localfile (lib : Lib) (config : WorkerConfig) (w : World) (job : Option Job)
    (level : Int) (fname : List Char) (encoding : EncodingArg) (base : Option Iri) :
    Option (World × Option Job) :=
  match lib.wget_read_file fname with
  | some data => html_parse lib config w job level data encoding base
  | none => some (w, job)

/-- The `baselen` of the sitemap and feed extractors: the length of
`base->uri` up to and including its last `/`, the whole length without a `/`,
0 without a base. -/
def baseLen (base : Option Iri) : Nat :=
  match base with
  | none => 0
  | some b =>
    match strrchr '/' b.uri with
    | some i => i + 1
    | none => b.uri.length

/-- The test "not matching sitemap location":
`baselen && (len <= baselen || wget_strncasecmp(url, base->uri, baselen))`. -/
def outsideBase (base : Option Iri) (url : List Char) : Bool :=
  decide (baseLen base ≠ 0) &&
    (decide (url.length ≤ baseLen base) ||
      decide (wget_strncasecmp (some url) (base.map fun b => b.uri) (baseLen base) ≠ 0))

/-- The loops of `sitemap_parse_xml` and `_add_urls` over a vector of URLs:
the location test (when `check_base` is set), the known-URLs test and
`add_url` with `flags`. -/
def urlsLoop (lib : Lib) (config : WorkerConfig) (encoding : Option (List Char))
    (base : Option Iri) (check_base : Bool) (flags : Nat) :
    List (List Char) → World → Option Job → Option (World × Option Job)
  | [], w, job => some (w, job)
  | url :: urls, w, job =>
    if check_base && outsideBase base url then
      urlsLoop lib config encoding base check_base flags urls w job
    else if (known_urls_put w.known_urls url).1 then
      -- Blacklist for URLs before they are processed
      urlsLoop lib config encoding base check_base flags urls w job
    else
      match addUrlFor lib config { w with known_urls := (known_urls_put w.known_urls url).2 }
          job encoding url url flags with
      | none => none
      | some r => urlsLoop lib config encoding base check_base flags urls r.1 r.2

/-- `sitemap_parse_xml` (wget.c): the sitemap URLs, then the sitemap index
URLs. -/
def sitemap_parse_xml (lib : Lib) (config : WorkerConfig) (w : World) (job : Option Job)
    (data : List Char) (encoding : Option (List Char)) (base : Option Iri) :
    Option (World × Option Job) :=
  match urlsLoop lib config encoding base true 0 (lib.wget_sitemap_get_urls_inline data).1 w
      job with
  | none => none
  | some r =>
    urlsLoop lib config encoding base false URL_FLG_SITEMAP
      (lib.wget_sitemap_get_urls_inline data).2 r.1 r.2

/-- `sitemap_parse_xml_gz` (wget.c); `wget_decompress_gzip` is `none` when
there is no libz support. -/
def sitemap_parse_xml_gz (lib : Lib) (config : WorkerConfig) (w : World) (job : Option Job)
    (gzipped_data : List Char) (encoding : Option (List Char)) (base : Option Iri) :
    Option (World × Option Job) :=
  match lib.wget_decompress_gzip gzipped_data with
  | some plain => sitemap_parse_xml lib config w job (cstr plain) encoding base
  | none => some (w, job)

/-- `sitemap_parse_xml_localfile` (wget.c). -/
def sitemap_parse_xml_localfile (lib : Lib) (config : WorkerConfig) (w : World)
    (job : Option Job) (fname : List Char) (encoding : Option (List Char)) (base : Option Iri) :
    Option (World × Option Job) :=
  match lib.wget_read_file fname with
  | some data => sitemap_parse_xml lib config w job data encoding base
  | none => some (w, job)

/-- The two trim loops of `sitemap_parse_text`: leading, then trailing white
space of a line is dropped. -/
def trimLine (line : List Char) : List Char :=
  ((line.dropWhile c_isspace).reverse.dropWhile c_isspace).reverse

/-- The `for` loop of `sitemap_parse_text` over the lines of `data`; `fuel`
bounds the number of lines. -/
def sitemapTextLoop (lib : Lib) (config : WorkerConfig) (encoding : Option (List Char))
    (base : Option Iri) : Nat → List Char → World → Option Job → Option (World × Option Job)
  | 0, _, w, job => some (w, job)
  | fuel + 1, line, w, job =>
    let url := trimLine (line.takeWhile fun c => c ≠ '\n')
    let next (w : World) (job : Option Job) : Option (World × Option Job) :=
      match line.dropWhile fun c => c ≠ '\n' with
      | [] => some (w, job) -- `end` is at the NUL
      | _ :: rest => sitemapTextLoop lib config encoding base fuel rest w job
    if url.length ≠ 0 then
      if outsideBase base url then next w job
      else
        match addUrlFor lib config w job encoding url url 0 with
        | none => none
        | some r => next r.1 r.2
    else next w job

/-- `sitemap_parse_text` (wget.c). -/
def sitemap_parse_text (lib : Lib) (config : WorkerConfig) (w : World) (job : Option Job)
    (data : List Char) (encoding : Option (List Char)) (base : Option Iri) :
    Option (World × Option Job) :=
  match data with
  | [] => some (w, job)
  | _ :: _ => sitemapTextLoop lib config encoding base (data.length + 1) data w job

/-- `_add_urls` (wget.c). -/
def _add_urls (lib : Lib) (config : WorkerConfig) (w : World) (job : Option Job)
    (urls : List (List Char)) (encoding : Option (List Char)) (base : Option Iri) :
    Option (World × Option Job) :=
  urlsLoop lib config encoding base true 0 urls w job

/-- `atom_parse` (wget.c). -/
def atom_parse (lib : Lib) (config : WorkerConfig) (w : World) (job : Option Job)
    (data : List Char) (encoding : Option (List Char)) (base : Option Iri) :
    Option (World × Option Job) :=
  _add_urls lib config w job (lib.wget_atom_get_urls_inline data) encoding base

/-- `rss_parse` (wget.c). -/
def rss_parse (lib : Lib) (config : WorkerConfig) (w : World) (job : Option Job)
    (data : List Char) (encoding : Option (List Char)) (base : Option Iri) :
    Option (World × Option Job) :=
  _add_urls lib config w job (lib.wget_rss_get_urls_inline data) encoding base

/-- `_css_parse_uri` (wget.c), with the fields `job`, `base` and `encoding`
of the context. -/
def _css_parse_uri (lib : Lib) (config : WorkerConfig) (w : World) (job : Option Job)
    (base : Option Iri) (encoding : Option (List Char)) (url : List Char) :
    Option (World × Option Job) :=
  if url.length > 1 ∨ (url.length = 1 ∧ cur url ≠ '#') then
    match lib.wget_iri_relative_to_abs base url with
    | some uri_buf =>
      if base.isNone ∧ uri_buf = [] then some (w, job)
      else addUrlFor lib config w job encoding url uri_buf 0
    | none => some (w, job)
  else some (w, job)

/-- The calls that `wget_css_parse_buffer` makes, in order: `_css_parse_uri`
and `_css_parse_encoding` (which takes only the first `@charset` rule that
differs from the encoding in force). -/
def cssLoop (lib : Lib) (config : WorkerConfig) (base : Option Iri) :
    List CssItem → Option (List Char) → Bool → World → Option Job →
    Option (World × Option Job)
  | [], _, _, w, job => some (w, job)
  | CssItem.uri url :: items, encoding, encoding_allocated, w, job =>
    match _css_parse_uri lib config w job base encoding url with
    | none => none
    | some r => cssLoop lib config base items encoding encoding_allocated r.1 r.2
  | CssItem.encoding name :: items, encoding, encoding_allocated, w, job =>
    if !encoding_allocated ∧ wget_strncasecmp_ascii encoding (some name) name.length ≠ 0 then
      cssLoop lib config base items (some name) true w job
    else cssLoop lib config base items encoding encoding_allocated w job

/-- `css_parse` (wget.c). -/
def css_parse (lib : Lib) (config : WorkerConfig) (w : World) (job : Option Job)
    (data : List Char) (encoding : Option (List Char)) (base : Option Iri) :
    Option (World × Option Job) :=
  cssLoop lib config base (lib.wget_css_parse_buffer data) encoding false w job

/-- `css_parse_localfile` (wget.c): `wget_css_parse_file` is the scanner run
on the content of the file, and makes no call when the file cannot be read. -/
def css_parse_localfile (lib : Lib) (config : WorkerConfig) (w : World) (job : Option Job)
    (fname : List Char) (encoding : Option (List Char)) (base : Option Iri) :
    Option (World × Option Job) :=
  match lib.wget_read_file fname with
  | some data => css_parse lib config w job data encoding base
  | none => some (w, job)

/-! ## `src/wget.c`: `downloader_thread` -/

/-- The two retry loops of `downloader_thread`,
`for (tries = 0; !resp && tries < config.tries && !terminate; tries++)`, around
`http_get(job->iri, NULL, downloader, method)`: the program state and the
response when the loop is left, by its condition or by `goto ready` after a
final error (then there is no response). `fuel` bounds the number of rounds. -/
def fetchLoop (lib : Lib) (config : WorkerConfig) (job : Job) (method : Option (List Char)) :
    Nat → Int → World → Option (World × Option Response)
  | 0, _, w => some (w, none)
  | fuel + 1, tries, w =>
    if tries < config.tries ∧ w.terminate = false then
      match http_get lib config w (some job) job.iri false method with
      | none => none
      | some r =>
        match r.resp with
        | some resp => some (r.w, some resp)
        | none =>
          if r.final_error then some (r.w, none)
          else fetchLoop lib config job method fuel (tries + 1) r.w
    else some (w, none)

/-- The state of a job at the label `ready:` of `downloader_thread`: `remove`
is false when `job` was set to `NULL` ("do not remove this job from queue
yet"). -/
structure Ready where
  w : World
  job : Job
  remove : Bool
  deriving DecidableEq, Repr

/-- `set_exit_status` on the program state. -/
def World.set_exit_status (w : World) (status : Int) : World :=
  { w with exit_status := Wget2.set_exit_status w.exit_status status
           trace := w.trace ++ [Event.set_exit_status status] }

/-- The two pattern tests at the head of the job: `job->head_first` is set
in recursive mode for a URL outside the accept patterns or inside the reject
patterns. -/
def headFirst (lib : Lib) (config : WorkerConfig) (job : Job) (uri : List Char) : Job :=
  let job : Job :=
    if config.accept_patterns.isSome ∧
        in_pattern_list lib.fnmatch config.toConfig (config.accept_patterns.getD []) uri = false ∧
        config.recursive = true then { job with head_first := true }
    else job
  if config.reject_patterns.isSome ∧
      in_pattern_list lib.fnmatch config.toConfig (config.reject_patterns.getD []) uri = true ∧
      config.recursive = true then { job with head_first := true }
  else job

/-- The content type test after a `HEAD` request: the condition under which
the worker goes to `ready` without a `GET`. -/
def headNotParsable (job : Job) (content_type : Option (List Char)) : Bool :=
  decide (wget_strcasecmp_ascii content_type (some "text/html".toList) ≠ 0) &&
  decide (wget_strcasecmp_ascii content_type (some "text/css".toList) ≠ 0) &&
  decide (wget_strcasecmp_ascii content_type (some "application/xhtml+xml".toList) ≠ 0) &&
  decide (wget_strcasecmp_ascii content_type (some "application/atom+xml".toList) ≠ 0) &&
  decide (wget_strcasecmp_ascii content_type (some "application/rss+xml".toList) ≠ 0) &&
  (!job.sitemap ||
    decide (wget_strcasecmp_ascii content_type (some "application/xml".toList) = 0)) &&
  (!job.sitemap ||
    decide (wget_strcasecmp_ascii content_type (some "application/x-gzip".toList) = 0)) &&
  (!job.sitemap ||
    decide (wget_strcasecmp_ascii content_type (some "text/plain".toList) = 0))

/-- Conversion of a mathematical integer to `size_t` (64 bit). -/
def toSizeT (x : Int) : Nat := (x % 2 ^ 64).toNat

/-- The metalink that the worker makes for a download in chunks ("create
metalink structure without hashing"): `npieces` pieces of `config.chunk_size`
bytes and the IRI of the job as the only mirror. -/
def chunkMetalink (config : WorkerConfig) (job : Job) (resp : Response) : Metalink :=
  let npieces : Int :=
    toLongLong ((toSizeT ((resp.content_length : Int) + config.chunk_size - 1) /
      toSizeT config.chunk_size : Nat) : Int)
  { name := job.local_filename
    size := toLongLong (resp.content_length : Int)
    pieces := (List.range npieces.toNat).map fun it =>
      { length := config.chunk_size, position := (it : Int) * config.chunk_size }
    mirrors := some [{ location := "-".toList, iri := job.iri }] }

/-- The loop of `downloader_thread` over `resp->links`: the link to a
metalink description (`metalink`), at which the loop stops, and the
`duplicate` link of highest priority seen until then (`top_link`). -/
def linksLoop : List Link → Option Link → Option Link × Option Link
  | [], top_link => (none, top_link)
  | link :: links, top_link =>
    if link.rel = LinkRel.describedby then
      if link.type.isSome ∧
          (wget_strcasecmp_ascii link.type (some "application/metalink4+xml".toList) = 0 ∨
           wget_strcasecmp_ascii link.type (some "application/metalink+xml".toList) = 0) then
        (some link, top_link)
      else linksLoop links top_link
    else if link.rel = LinkRel.duplicate then
      linksLoop links
        (match top_link with
         | none => some link
         | some t => if t.pri > link.pri then some link else some t)
    else linksLoop links top_link

/-- `add_url(job, "utf-8", link->uri, 0)` for a link of the response. A
`NULL` URI stops `add_url` at `wget_iri_parse`, before anything is changed. -/
def addLink (lib : Lib) (config : WorkerConfig) (w : World) (job : Job) (link : Link) :
    Option Ready :=
  match link.uri with
  | none => some { w := w, job := job, remove := true }
  | some uri =>
    match addUrlFor lib config w (some job) (some "utf-8".toList) uri uri 0 with
    | none => none
    | some r => some { w := r.1, job := r.2.getD job, remove := true }

/-- The encoding argument that `downloader_thread` gives to `html_parse`:
`resp->content_type_encoding ? resp->content_type_encoding : config.remote_encoding`. -/
def encodingArg (config : WorkerConfig) (resp : Response) : EncodingArg :=
  match resp.content_type_encoding with
  | some e => EncodingArg.str e
  | none =>
    match config.remote_encoding with
    | some e => EncodingArg.remote_encoding e
    | none => EncodingArg.null

/-- The loop of `downloader_thread` over the sitemaps of a robots.txt:
`add_url(job, "utf-8", sitemap, URL_FLG_SITEMAP)`. -/
def robotsSitemaps (lib : Lib) (config : WorkerConfig) :
    List (List Char) → World → Option Job → Option (World × Option Job)
  | [], w, job => some (w, job)
  | sitemap :: sitemaps, w, job =>
    match addUrlFor lib config w job (some "utf-8".toList) sitemap sitemap URL_FLG_SITEMAP with
    | none => none
    | some r => robotsSitemaps lib config sitemaps r.1 r.2

/-- `job->host->robots = robots` on the host table. -/
def setRobots : List Host → Nat → Robots → List Host
  | [], _, _ => []
  | h :: hosts, 0, robots => { h with robots := some robots } :: hosts
  | h :: hosts, i + 1, robots => h :: setRobots hosts i robots

/-- The dispatch of `downloader_thread` on the content type of a 200
response in recursive mode: the extractor that is run on the body. -/
def parseBody (lib : Lib) (config : WorkerConfig) (w : World) (job : Job) (resp : Response)
    (body : List Char) : Option (World × Option Job) :=
  let ct := resp.content_type
  if wget_strcasecmp_ascii ct (some "text/html".toList) = 0 then
    html_parse lib config w (some job) job.level body (encodingArg config resp) job.iri
  else if wget_strcasecmp_ascii ct (some "application/xhtml+xml".toList) = 0 then
    html_parse lib config w (some job) job.level body (encodingArg config resp) job.iri
  else if wget_strcasecmp_ascii ct (some "text/css".toList) = 0 then
    css_parse lib config w (some job) body (encodingArg config resp).get job.iri
  else if wget_strcasecmp_ascii ct (some "application/atom+xml".toList) = 0 then
    atom_parse lib config w (some job) body (some "utf-8".toList) job.iri
  else if wget_strcasecmp_ascii ct (some "application/rss+xml".toList) = 0 then
    rss_parse lib config w (some job) body (some "utf-8".toList) job.iri
  else if job.sitemap then
    if wget_strcasecmp_ascii ct (some "application/xml".toList) = 0 then
      sitemap_parse_xml lib config w (some job) body (some "utf-8".toList) job.iri
    else if wget_strcasecmp_ascii ct (some "application/x-gzip".toList) = 0 then
      sitemap_parse_xml_gz lib config w (some job) body (some "utf-8".toList) job.iri
    else if wget_strcasecmp_ascii ct (some "text/plain".toList) = 0 then
      sitemap_parse_text lib config w (some job) body (some "utf-8".toList) job.iri
    else some (w, some job)
  else if job.deferred.isSome ∧ wget_strcasecmp_ascii ct (some "text/plain".toList) = 0 then
    -- Scanning robots.txt ...
    match job.host with
    | none => none
    | some h =>
      match lib.wget_robots_parse body with
      | none => some (w, some job)
      | some robots =>
        -- add sitemaps to be downloaded
        robotsSitemaps lib config robots.sitemaps
          { w with hosts := setRobots w.hosts h robots } (some job)
  else some (w, some job)

/-- The gate of `downloader_thread` in front of the extractors:
`config.recursive && (!config.level || job->level < config.level + config.page_requisites)`. -/
def parseGate (config : WorkerConfig) (job : Job) : Bool :=
  config.recursive &&
    (decide (config.level = 0) ||
      decide (job.level < config.level + (if config.page_requisites then 1 else 0)))

/-- The file name that `downloader_thread` gives to `save_file` and
`append_file`. -/
def saveName (config : WorkerConfig) (job : Job) (resp : Response) : FileArg :=
  if config.content_disposition = true ∧ resp.content_filename.isSome then
    FileArg.path (resp.content_filename.getD [])
  else if config.output_document.isSome then FileArg.output_document
  else
    match job.local_filename with
    | some f => FileArg.path f
    | none => FileArg.null

/-- The file name in which `downloader_thread` looks for the extension after
a 304 response: `resp->content_filename` with `--content-disposition`, else
`job->local_filename`. -/
def extensionOf (config : WorkerConfig) (resp : Response) (local_filename : List Char) :
    List Char :=
  if config.content_disposition = true ∧ resp.content_filename.isSome then
    resp.content_filename.getD []
  else local_filename

/-- The end of `downloader_thread` for a response that is neither a Metalink
answer nor a Metalink description: `if (resp->code == 200) ... else if ...`. -/
def handleResponse (lib : Lib) (config : WorkerConfig) (w : World) (job : Job)
    (resp : Response) : Option Ready :=
  if resp.code = 200 then
    let w : World := { w with trace := w.trace ++ [Event.save_file (saveName config job resp)] }
    if parseGate config job = true ∧ resp.content_type.isSome then
      match resp.body with
      | none => none
      | some body =>
        match parseBody lib config w job resp body with
        | none => none
        | some r => some { w := r.1, job := r.2.getD job, remove := true }
    else some { w := w, job := job, remove := true }
  else if resp.code = 206 ∧ config.continue_download = true then
    -- partial content
    some { w := { w with trace := w.trace ++ [Event.append_file (saveName config job resp)] },
           job := job, remove := true }
  else if resp.code = 304 ∧ config.timestamping = true then
    -- local document is up-to-date
    match job.local_filename with
    | some local_filename =>
      if parseGate config job then
        match strrchr '.' (extensionOf config resp local_filename) with
        | none => some { w := w, job := job, remove := true }
        | some i =>
          let ext := (extensionOf config resp local_filename).drop i
          if wget_strcasecmp_ascii (some ext) (some ".html".toList) = 0 ∨
              wget_strcasecmp_ascii (some ext) (some ".htm".toList) = 0 then
            match html_parse_localfile lib config w (some job) job.level local_filename
                (encodingArg config resp) job.iri with
            | none => none
            | some r => some { w := r.1, job := r.2.getD job, remove := true }
          else if wget_strcasecmp_ascii (some ext) (some ".css".toList) = 0 then
            match css_parse_localfile lib config w (some job) local_filename
                (encodingArg config resp).get job.iri with
            | none => none
            | some r => some { w := r.1, job := r.2.getD job, remove := true }
          else some { w := w, job := job, remove := true }
      else some { w := w, job := job, remove := true }
    | none => some { w := w, job := job, remove := true }
  else if resp.code = 404 then
    -- ignore errors on robots.txt
    if job.deferred.isNone then some { w := w.set_exit_status 8, job := job, remove := true }
    else some { w := w, job := job, remove := true }
  else some { w := w, job := job, remove := true }

/-- The part of `downloader_thread` that follows a response to the request
of the job: a Metalink answer (`resp->links`), a Metalink description, or
`handleResponse`. -/
def afterResponse (lib : Lib) (config : WorkerConfig) (w : World) (job : Job)
    (resp : Response) : Option Ready :=
  match (if resp.links ≠ [] then linksLoop resp.links none else (none, none)) with
  | (some metalink, _) => addLink lib config w job metalink
  | (none, some top_link) => addLink lib config w job top_link
  | (none, none) =>
    match resp.content_type with
    | none => handleResponse lib config w job resp
    | some ct =>
      let parsed : Option (Option Metalink) :=
        if wget_strcasecmp_ascii (some ct) (some "application/metalink4+xml".toList) = 0 then
          resp.body.map lib.metalink4_parse
        else if wget_strcasecmp_ascii (some ct) (some "application/metalink+xml".toList) = 0 then
          resp.body.map lib.metalink3_parse
        else some job.metalink
      match parsed with
      | none => none
      | some none => handleResponse lib config w { job with metalink := none } resp
      | some (some m) =>
        let job : Job := { job with metalink := some m }
        if m.size ≤ 0 then some { w := w, job := job, remove := true }
        else if m.mirrors.isNone then some { w := w, job := job, remove := true }
        else some { w := w, job := job, remove := lib.job_validate_file job }

/-- The `GET` part of `downloader_thread`: the retry loop and what follows
the response. -/
def getAndHandle (lib : Lib) (config : WorkerConfig) (w : World) (job : Job) : Option Ready :=
  match fetchLoop lib config job none config.tries.toNat 0 w with
  | none => none
  | some (w, none) => some { w := w, job := job, remove := true } -- Failed to download
  | some (w, some resp) => afterResponse lib config w job resp

/-- Modelled from the spec: `wget_stringmap_put_noalloc` on the map `etags`
(libwget/stringmap.c is not part of the sources): whether the key was in the
map already, and the map afterwards. -/
def etags_put (etags : List (List Char)) (etag : List Char) : Bool × List (List Char) :=
  if etags.any (fun e => decide (strcmp etag e = 0)) then (true, etags)
  else (false, etags ++ [etag])

/-- One round of the `while (!terminate)` loop of `downloader_thread`
(wget.c) for a claimed job without a part, from "hey, we got a job..." to the
label `ready:`; `none` when the round runs into undefined behaviour. The waits,
the cookie and HSTS stores and the progress display are not part of the
embedding. -/
def downloader_thread (lib : Lib) (config : WorkerConfig) (w : World) (job : Job) :
    Option Ready :=
  match job.iri with
  | none => none
  | some iri =>
    let job := headFirst lib config job iri.uri
    if (config.spider || decide (config.chunk_size ≠ 0) || job.head_first) && job.deferred.isNone
    then
      -- In spider mode, we first make a HEAD request.
      match fetchLoop lib config job (some "HEAD".toList) config.tries.toNat 0 w with
      | none => none
      | some (w, none) => some { w := w, job := job, remove := true }
      | some (w, some resp) =>
        -- Wget compatibility
        let w : World := if resp.code.tdiv 100 = 4 then w.set_exit_status 8 else w
        if config.spider || job.head_first then
          let job : Job := { job with head_first := false }
          if resp.code ≠ 200 ∨ resp.content_type.isNone then
            some { w := w, job := job, remove := true }
          else if headNotParsable job resp.content_type then
            some { w := w, job := job, remove := true }
          else
            match resp.etag with
            | some etag =>
              if (etags_put w.etags etag).1 then
                -- known ETag
                some { w := w, job := job, remove := true }
              else getAndHandle lib config { w with etags := (etags_put w.etags etag).2 } job
            | none => getAndHandle lib config w job
        else if config.chunk_size ≠ 0 ∧ resp.content_length > toSizeT config.chunk_size then
          let job : Job := { job with metalink := some (chunkMetalink config job resp) }
          some { w := w, job := job, remove := lib.job_validate_file job }
        else getAndHandle lib config w job
    else getAndHandle lib config w job

/-! ## Inputs of the worker examples -/

/-- The IRI `http://example.com/` followed by `path`. -/
def iriExample (path : List Char) : Iri :=
  { uri := "http://example.com/".toList ++ path, scheme := IriScheme.http, port := none,
    host := some "example.com".toList, path := some path, query := none, fragment := none }

/-- A library for the examples: a URL behind `http://example.com/` parses to
`iriExample`, a relative link is resolved against `http://example.com/`, the
HTML scanner finds `uris`, the CSS scanner finds `css`, and the network gives
`net`. -/
def libExample (net : Nat → Exchange) (uris : List HtmlParsedUrl) (css : List CssItem) : Lib :=
  { fnmatch := fun _ _ _ => false
    wget_iri_compare := wget_iri_compare
    wget_iri_parse := fun url _ =>
      if "http://example.com/".toList.isPrefixOf url then some (iriExample (url.drop 19))
      else none
    wget_iri_parse_base := fun _ url _ => some (iriExample (url.drop 1))
    wget_iri_relative_to_abs := fun _ url =>
      if "http://".toList.isPrefixOf url then some url
      else some ("http://example.com/".toList ++ url)
    get_local_filename := fun iri => iri.bind fun i => i.path
    host_compare := fun a b => decide (a.host = b.host)
    wget_html_get_urls_inline := fun _ =>
      { uris := uris, encoding := none, base := none, follow := true }
    wget_sitemap_get_urls_inline := fun _ => ([], [])
    wget_atom_get_urls_inline := fun _ => []
    wget_rss_get_urls_inline := fun _ => []
    wget_css_parse_buffer := fun _ => css
    wget_robots_parse := fun _ => none
    metalink4_parse := fun _ => none
    metalink3_parse := fun _ => none
    job_validate_file := fun _ => true
    wget_decompress_gzip := fun _ => none
    wget_read_file := fun _ => none
    net := net }

/-- The program state at the start of a run. -/
def worldStart : World :=
  { exit_status := 0, terminate := false, queue := [], blacklist := [], known_urls := [],
    hosts := [], vectors := [], parents := [], etags := [],
    stats := { ndownloads := 0, nredirects := 0, nnotmodified := 0, nerrors := 0, nchunks := 0 },
    rounds := 0, trace := [] }

/-- A configuration with every option off: two tries, no redirect cap given
but `max_redirect`, recursion as given. -/
def cfgWorker (recursive page_requisites spider : Bool) (level max_redirect : Int) :
    WorkerConfig :=
  { spider := spider, quota := 0, save_headers := false, output_document := none,
    delete_after := false, adjust_extension := false, accept_patterns := none,
    reject_patterns := none, ignore_case := false, timestamping := false, clobber := true,
    recursive := recursive, directories := true, backups := 0,
    tries := 2, max_redirect := max_redirect, level := level,
    page_requisites := page_requisites, robots := false, parent := true, span_hosts := false,
    domains := none, exclude_domains := none, https_only := false,
    trust_server_names := false, chunk_size := 0, content_disposition := false,
    continue_download := false, remote_encoding := none, post_data := none, post_file := none }

/-- The job for `http://example.com/a` at the given levels. -/
def jobExample (level redirection_level : Int) : Job :=
  { iri := some (iriExample "a".toList), local_filename := some "a".toList, level := level,
    redirection_level := redirection_level, referer := none, deferred := none, host := none,
    sitemap := false, head_first := false, metalink := none }

/-- A response with the given status and an empty body. -/
def respCode (code : Int) : Response :=
  { Response.zero with code := code, body := some [] }

/-- A 302 response with Metalink information: a `Link` header with
`rel=duplicate` and a `Digest` header. -/
def respMirror : Response :=
  { Response.zero with
    code := 302
    body := some []
    links := [{ uri := some "http://example.com/mirror".toList, type := none, pri := 1,
                rel := LinkRel.duplicate }]
    digests := [{ algorithm := some "MD5".toList, encoded_digest := some "x".toList }] }

/-- The link `<a href="b.html">`. -/
def linkA : HtmlParsedUrl := { url := "b.html".toList, attr := "href".toList, dir := "a".toList }

/-- The link `<embed href="c.swf">`. -/
def linkEmbed : HtmlParsedUrl :=
  { url := "c.swf".toList, attr := "href".toList, dir := "embed".toList }

/-- The link `<img src="d.png">`. -/
def linkImg : HtmlParsedUrl := { url := "d.png".toList, attr := "src".toList, dir := "img".toList }

/-- The `add_url` calls of a trace: link text and flags. -/
def addUrlCalls : List Event → List (List Char × Nat)
  | [] => []
  | Event.add_url link _ flags :: t => (link, flags) :: addUrlCalls t
  | _ :: t => addUrlCalls t

/-- The `set_exit_status` calls of a trace. -/
def exitCalls : List Event → List Int
  | [] => []
  | Event.set_exit_status status :: t => status :: exitCalls t
  | _ :: t => exitCalls t

/-! ## Properties of the worker: what is kept between two states -/

/-- What `add_url` leaves alone: everything but the queue, the blacklist,
the host table and the vectors. -/
def World.sameBut (w w2 : World) : Prop :=
  w2.trace = w.trace ∧ w2.known_urls = w.known_urls ∧ w2.exit_status = w.exit_status ∧
  w2.terminate = w.terminate ∧ w2.rounds = w.rounds ∧ w2.etags = w.etags ∧
  w2.stats = w.stats ∧ w2.parents = w.parents

/-- The levels of a job `nj` that `add_url` has made for the caller `job`. -/
def levelsFrom (job : Option Job) (flags : Nat) (nj : Job) : Prop :=
  ∀ j, job = some j →
    if flags &&& URL_FLG_REDIRECTION ≠ 0 then nj.redirection_level = j.redirection_level + 1
    else nj.level = j.level + 1

/-- The job of the caller after `add_url`: unchanged but for `iri`. -/
def callerKept (job job2 : Option Job) : Prop :=
  job2 = job ∨ ∃ j, job = some j ∧ job2 = some { j with iri := none }

/-- The job `nj` was queued by a call of `add_url` with the redirection flag
for the job `parent`. -/
def redirectJobOf (lib : Lib) (config : WorkerConfig) (parent nj : Job) : Prop :=
  ∃ (w : World) (encoding : Option (List Char)) (url : List Char) (flags : Nat) (w2 : World)
    (job2 : Option Job),
    flags &&& URL_FLG_REDIRECTION ≠ 0 ∧
    add_url lib config w (some parent) encoding url flags = some (w2, job2) ∧
    w2.queue = w.queue ++ [nj]

/-- The outcome `r` of an extractor that was run in the state `w` for a job
at recursion level `level`: the job is still at that level, and the queue has
grown by jobs at `level + 1`. -/
def levelKept (level : Int) (w : World) (r : World × Option Job) : Prop :=
  (∃ j, r.2 = some j ∧ j.level = level) ∧
  ∃ l, r.1.queue = w.queue ++ l ∧ ∀ nj ∈ l, nj.level = level + 1

/-- A 200 response with an HTML body. -/
def respHtml : Response :=
  { Response.zero with code := 200, content_type := some "text/html".toList, body := some [] }

/-- A call of one of the extractors of wget.c, with its arguments. -/
inductive Dispatch
  | html (job : Option Job) (level : Int) (html : List Char) (encoding : EncodingArg)
      (base : Option Iri)
  | sitemap_xml (job : Option Job) (data : List Char) (encoding : Option (List Char))
      (base : Option Iri)
  | atom (job : Option Job) (data : List Char) (encoding : Option (List Char))
      (base : Option Iri)
  | rss (job : Option Job) (data : List Char) (encoding : Option (List Char))
      (base : Option Iri)
  | css (job : Option Job) (data : List Char) (encoding : Option (List Char))
      (base : Option Iri)
  | sitemap_text (job : Option Job) (data : List Char) (encoding : Option (List Char))
      (base : Option Iri)

/-- The extractors that put every link text into `known_urls` before they go
on with it: `html_parse`, `sitemap_parse_xml` and, through `_add_urls`,
`atom_parse` and `rss_parse`. -/
def Dispatch.checksKnownUrls : Dispatch → Bool
  | Dispatch.html _ _ _ _ _ => true
  | Dispatch.sitemap_xml _ _ _ _ => true
  | Dispatch.atom _ _ _ _ => true
  | Dispatch.rss _ _ _ _ => true
  | Dispatch.css _ _ _ _ => false
  | Dispatch.sitemap_text _ _ _ _ => false

/-- The program state after a call of an extractor. -/
def Dispatch.run (lib : Lib) (config : WorkerConfig) (w : World) : Dispatch → Option World
  | Dispatch.html job level data encoding base =>
    (html_parse lib config w job level data encoding base).map fun r => r.1
  | Dispatch.sitemap_xml job data encoding base =>
    (sitemap_parse_xml lib config w job data encoding base).map fun r => r.1
  | Dispatch.atom job data encoding base =>
    (atom_parse lib config w job data encoding base).map fun r => r.1
  | Dispatch.rss job data encoding base =>
    (rss_parse lib config w job data encoding base).map fun r => r.1
  | Dispatch.css job data encoding base =>
    (css_parse lib config w job data encoding base).map fun r => r.1
  | Dispatch.sitemap_text job data encoding base =>
    (sitemap_parse_text lib config w job data encoding base).map fun r => r.1

/-- A sequence of extractor calls in one run, each in the state the one
before has left. -/
def dispatchAll (lib : Lib) (config : WorkerConfig) : List Dispatch → World → Option World
  | [], w => some w
  | d :: ds, w =>
    match d.run lib config w with
    | none => none
    | some w1 => dispatchAll lib config ds w1

/-- The number of `add_url` calls of a trace that were made for the link
text `s`. -/
def linkCalls (s : List Char) : List Event → Nat
  | [] => 0
  | Event.add_url link _ _ :: t => (if link = s then 1 else 0) + linkCalls s t
  | _ :: t => linkCalls s t

/-- Whether the link text `s` is in `known_urls`. -/
def isKnown (w : World) (s : List Char) : Bool := (known_urls_put w.known_urls s).1

/-- What the extractors keep true for a link text `s` between two states of
a run: a known text stays known, and `add_url` has been called for `s` either
not at all or once, and then `s` was not known before and is known now. -/
def onceStep (s : List Char) (w0 w : World) : Prop :=
  (isKnown w0 s = true → isKnown w s = true) ∧
  (linkCalls s w.trace = linkCalls s w0.trace ∨
    (linkCalls s w.trace = linkCalls s w0.trace + 1 ∧ isKnown w0 s = false ∧
      isKnown w s = true))

/-- A server that answers the first request with 401 and the challenges
`Basic` and `Digest` (in the given order), every further request with 200. -/
def netUnauthorized (challenges : List Challenge) (n : Nat) : Exchange :=
  if n = 0 then Exchange.response { respCode 401 with challenges := challenges }
  else Exchange.response (respCode 200)

/-! ## Inputs of the examples of the `HEAD` probe -/

/-- A 200 response with the given content type and an empty body. -/
def respType (content_type : List Char) : Response :=
  { Response.zero with code := 200, body := some [], content_type := some content_type }

/-- A 200 response with the given content type and entity tag. -/
def respTagged (content_type etag : List Char) : Response :=
  { respType content_type with etag := some etag }

/-- The job `jobExample 0 0` as a sitemap job. -/
def jobSitemap : Job := { jobExample 0 0 with sitemap := true }

/-- The methods of the requests of a trace, in order. -/
def requestCalls : List Event → List (List Char)
  | [] => []
  | Event.request method _ :: t => method :: requestCalls t
  | _ :: t => requestCalls t

/-- The content types the worker can parse for a job, as the comment of the
`HEAD` probe names them ("a parsable type"): the five types of a page, a style
sheet or a feed, and for a sitemap job the three types of a sitemap; compared
without regard to ASCII case. -/
def parsableType (job : Job) (content_type : List Char) : Bool :=
  let is (t : String) : Bool :=
    decide (content_type.map c_tolower = t.toList.map c_tolower)
  is "text/html" || is "application/xhtml+xml" || is "text/css" || is "application/atom+xml" ||
  is "application/rss+xml" ||
  (job.sitemap && (is "application/xml" || is "application/x-gzip" || is "text/plain"))

/-! ## `src/wget.c`: the local file name -/

/-- The values of `config.restrict_file_names` (the constants are declared in
options.h, which is not part of the sources): no restriction, the value 0
that `get_local_filename` tests for, the six modes that `restrict_file_name`
names, and any further value. -/
inductive RestrictNames
  | none
  | unix
  | windows
  | nocontrol
  | ascii
  | uppercase
  | lowercase
  | other (value : Nat)
  deriving DecidableEq, Repr

/-- The further fields of the global `config` that `get_local_filename` and
`restrict_file_name` read. -/
structure NameConfig extends WorkerConfig where
  force_directories : Bool
  directory_prefix : Option (List Char)
  protocol_directories : Bool
  host_directories : Bool
  cut_directories : Int
  local_encoding : Option (List Char)
  restrict_file_names : RestrictNames
  deriving DecidableEq, Repr

/-- The value of `*s` for a byte of a string: plain `char` is signed or
unsigned as the C implementation defines it (`signed_char`). -/
def charValue (signed_char : Bool) (c : Char) : Int :=
  if signed_char ∧ 128 ≤ c.toNat % 256 then (c.toNat % 256 : Nat) - 256 else (c.toNat % 256 : Nat)

/-- One hexadecimal digit as `restrict_file_name` writes it:
`c >= 10 ? c + 'A' - 10 : c + '0'`. -/
def upperHex (c : Nat) : Char :=
  if c ≥ 10 then Char.ofNat (c + 'A'.toNat - 10) else Char.ofNat (c + '0'.toNat)

/-- The three bytes written for an escaped byte: `%`, then the digit for
`(unsigned char)*s >> 4`, then the digit for `*s & 0xf`. -/
def escapeBytes (c : Char) : List Char :=
  ['%', upperHex (c.toNat % 256 / 16), upperHex (c.toNat % 16)]

/-- The tests that select the bytes to escape: `*s < 32` in the ASCII mode,
`*s >= 1 && *s <= 31` in the Unix mode. -/
def escapedIn (mode : RestrictNames) (signed_char : Bool) (c : Char) : Bool :=
  match mode with
  | RestrictNames.ascii => decide (charValue signed_char c < 32)
  | _ => decide (1 ≤ charValue signed_char c ∧ charValue signed_char c ≤ 31)

/-- The loop of the ASCII and of the Unix mode over the bytes of `fname`: what
is written to `esc`, and the flag `escaped`. -/
def escapeLoop (mode : RestrictNames) (signed_char : Bool) : List Char → List Char × Bool
  | [] => ([], false)
  | c :: s =>
    let r := escapeLoop mode signed_char s
    if escapedIn mode signed_char c then (escapeBytes c ++ r.1, true) else (c :: r.1, r.2)

/-- `restrict_file_name` (wget.c) under the mode `config.restrict_file_names`:
the string that the returned pointer points to, and whether that pointer is
`esc` (true) or `fname` (false); in the upper and lower case modes `fname` is
changed in place. -/
def restrict_file_name (mode : RestrictNames) (signed_char : Bool) (fname : List Char) :
    List Char × Bool :=
  match mode with
  | RestrictNames.windows => (fname, false)
  | RestrictNames.nocontrol => (fname, false)
  | RestrictNames.ascii =>
    let r := escapeLoop RestrictNames.ascii signed_char fname
    if r.2 then (r.1, true) else (fname, false)
  | RestrictNames.uppercase =>
    (fname.map fun c => if 'a'.toNat ≤ c.toNat ∧ c.toNat ≤ 'z'.toNat then
      Char.ofNat (c.toNat - 32) else c, false)
  | RestrictNames.lowercase =>
    (fname.map fun c => if 'A'.toNat ≤ c.toNat ∧ c.toNat ≤ 'Z'.toNat then
      Char.ofNat (c.toNat + 32) else c, false)
  | _ =>
    let r := escapeLoop RestrictNames.unix signed_char fname
    if r.2 then (r.1, true) else (fname, false)

/-- The loop `for (n = 0, p = path_buf.data; n < config.cut_directories && p; n++)
p = strchr(*p == '/' ? p + 1 : p, '/')` of `get_local_filename`, with `rounds`
for the rounds that `n` still allows. -/
def cutLoop : Nat → Option (List Char) → Option (List Char)
  | 0, p => p
  | _ + 1, none => none
  | rounds + 1, some p => cutLoop rounds (strchr '/' (if cur p = '/' then adv p else p))

/-- The functions of libwget/iri.c that `get_local_filename` calls (the file
is not part of the sources). Each gets the IRI, the content of the buffer and
the encoding, and gives the content of the buffer afterwards, to which the
returned pointer points. -/
structure IriLib where
  wget_iri_get_path : Iri → List Char → Option (List Char) → List Char
  wget_iri_get_query_as_filename : Iri → List Char → Option (List Char) → List Char
  wget_iri_get_filename : Iri → List Char → Option (List Char) → List Char

/-- The value of `directories` in `get_local_filename`. -/
def useDirectories (config : NameConfig) : Bool :=
  let directories := config.recursive
  let directories := if config.directories = false then false else directories
  if config.force_directories = true then true else directories

/-- The buffer of `get_local_filename` after the directory prefix, the scheme
and the host have been appended (the latter two with `directories` on). -/
def nameHead (config : NameConfig) (iri : Iri) : List Char :=
  let buf : List Char :=
    match config.directory_prefix with
    | some dir => if dir ≠ [] then dir ++ ['/'] else []
    | none => []
  if useDirectories config then
    let buf :=
      if config.protocol_directories ∧ iri.scheme.str ≠ [] then buf ++ iri.scheme.str ++ ['/']
      else buf
    match iri.host with
    | some host => if config.host_directories ∧ host ≠ [] then buf ++ host else buf
    | none => buf
  else buf

/-- The branch "cut directories" of `get_local_filename`: what is appended to
`buf` for the path `path`, which `wget_iri_get_path` has written to the empty
buffer `path_buf`. -/
def cutDirectories (config : NameConfig) (path : List Char) : List Char :=
  match cutLoop config.cut_directories.toNat (some path) with
  | some _ => []
  | none =>
    -- we can't strip this many path elements, just use the filename
    match strrchr '/' path with
    | some _ => []
    | none => if cur path ≠ '/' then '/' :: path else path

/-- `get_local_filename` (wget.c): `none` for `NULL`. -/
def get_local_filename (lib : IriLib) (signed_char : Bool) (config : NameConfig) (iri : Iri) :
    Option (List Char) :=
  if (config.spider || config.output_document.isSome) && !config.continue_download then none
  else
    let buf := nameHead config iri
    let fname : List Char :=
      if useDirectories config then
        let buf :=
          if config.cut_directories ≠ 0 then
            buf ++ cutDirectories config (lib.wget_iri_get_path iri [] config.local_encoding)
          else lib.wget_iri_get_path iri buf config.local_encoding
        lib.wget_iri_get_query_as_filename iri buf config.local_encoding
      else lib.wget_iri_get_filename iri buf config.local_encoding
    -- do the filename escaping here
    let fname :=
      if config.restrict_file_names ≠ RestrictNames.none then
        (restrict_file_name config.restrict_file_names signed_char fname).1
      else fname
    if config.delete_after then none else some fname

/-- A library for the examples of the local file name: the path follows a `/`
when the buffer is not empty, the query follows a `?`, and the file name is
the part of the path behind its last `/`. -/
def iriLibExample : IriLib :=
  { wget_iri_get_path := fun iri buf _ =>
      (if buf ≠ [] then buf ++ ['/'] else buf) ++ iri.path.getD []
    wget_iri_get_query_as_filename := fun iri buf _ =>
      match iri.query with
      | some q => buf ++ '?' :: q
      | none => buf
    wget_iri_get_filename := fun iri buf _ =>
      (if buf ≠ [] then buf ++ ['/'] else buf) ++
        (match strrchr '/' (iri.path.getD []) with
         | some i => (iri.path.getD []).drop (i + 1)
         | none => iri.path.getD []) }

/-- A configuration for the examples of the local file name: host directories
on, no directory prefix, no restriction of the names, and of `cfgWorker` the
recursion and the spider mode as given. -/
def cfgName (recursive spider continue_download : Bool) (cut_directories : Int) : NameConfig :=
  { cfgWorker recursive false spider 0 0 with
    continue_download := continue_download
    force_directories := false
    directory_prefix := none
    protocol_directories := false
    host_directories := true
    cut_directories := cut_directories
    local_encoding := none
    restrict_file_names := RestrictNames.none }

/-! ## `libwget/http.c`: the date forms -/

/-- The three `sscanf` calls of `wget_http_parse_full_date` in their order:
the six values of the first call that converts six (day, mname, year, hour,
min, sec), `none` when the function reports "Failed to parse date". -/
def dateFields (s : List Char) : Option (Int × List Char × Int × Int × Int × Int) :=
  sscanf_rfc1123 s <|> sscanf_rfc850 s <|> sscanf_asctime s

/-- The part of `wget_http_parse_full_date` behind the `sscanf` calls: the
month loop, the change of the year, the test of the values and the
calculation of the `time_t`. -/
def dateOfFields : Int × List Char × Int × Int × Int × Int → Int
  | (day, mname, year, hour, min, sec) =>
    let mon : Int := if mname ≠ [] then monthLookup mname mnames 0 else 0
    let year := if year < 70 ∧ year ≥ 0 then year + 2000
                else if year ≥ 70 ∧ year ≤ 99 then year + 1900 else year
    let year := if year < 1970 then 1970 else year
    let leap_year : Bool := year.tmod 4 = 0 ∧ (year.tmod 100 ≠ 0 ∨ year.tmod 400 = 0)
    let leap_month : Bool := mon = 2 ∧ leap_year
    if mon < 1 ∨ mon > 12 ∨ day < 1 ∨
        day > days_per_month.getD (mon - 1).toNat 0 + (if leap_month then 1 else 0) ∨
        hour < 0 ∨ hour > 23 ∨ min < 0 ∨ min > 60 ∨ sec < 0 ∨ sec > 60 then 0
    else
      let days := 365 * (year - 1970) + leap_days 1970 year
      let days := days + (sum_of_days.getD (mon - 1).toNat 0
        + (if mon > 2 ∧ leap_year then 1 else 0))
      let days := days + (day - 1)
      ((days * 24 + hour) * 60 + min) * 60 + sec

/-- The year that a year field stands for, in the words of the
specification: 0 to 69 are 2000 to 2069, 70 to 99 are 1970 to 1999, and a year
below 1970 is 1970. -/
def normalisedYear (y : Int) : Int :=
  let y := if 0 ≤ y ∧ y ≤ 69 then 2000 + y else if 70 ≤ y ∧ y ≤ 99 then 1900 + y else y
  if y < 1970 then 1970 else y

/-- The names `weekday` of the grammar of RFC 2616, 3.3.1 (quoted above
`wget_http_parse_full_date`), from Sunday on. -/
def weekdays : List (List Char) :=
  ["Sunday".toList, "Monday".toList, "Tuesday".toList, "Wednesday".toList, "Thursday".toList,
   "Friday".toList, "Saturday".toList]

/-- The `time` of the grammar: `2DIGIT ":" 2DIGIT ":" 2DIGIT`. -/
def timeOfDay (tm : Tm) : List Char :=
  fmt_02d tm.tm_hour ++ ":".toList ++ fmt_02d tm.tm_min ++ ":".toList ++ fmt_02d tm.tm_sec

/-- The `rfc1123-date` of the grammar (the IMF-fixdate of RFC 7231) for a
broken-down time: `wkday "," SP 2DIGIT SP month SP 4DIGIT SP time SP "GMT"`. -/
def rfc1123_date (tm : Tm) : List Char :=
  dnames.getD tm.tm_wday.toNat [] ++ ", ".toList ++ fmt_02d tm.tm_mday ++ " ".toList
    ++ mnames.getD tm.tm_mon.toNat [] ++ " ".toList ++ fmt_d (tm.tm_year + 1900) ++ " ".toList
    ++ timeOfDay tm ++ " GMT".toList

/-- The `rfc850-date` of the grammar:
`weekday "," SP 2DIGIT "-" month "-" 2DIGIT SP time SP "GMT"`, the year with
its last two digits. -/
def rfc850_date (tm : Tm) : List Char :=
  weekdays.getD tm.tm_wday.toNat [] ++ ", ".toList ++ fmt_02d tm.tm_mday ++ "-".toList
    ++ mnames.getD tm.tm_mon.toNat [] ++ "-".toList ++ fmt_02d ((tm.tm_year + 1900) % 100)
    ++ " ".toList ++ timeOfDay tm ++ " GMT".toList

/-- The `asctime-date` of the grammar:
`wkday SP month SP ( 2DIGIT | ( SP 1DIGIT )) SP time SP 4DIGIT`. -/
def asctime_date (tm : Tm) : List Char :=
  dnames.getD tm.tm_wday.toNat [] ++ " ".toList ++ mnames.getD tm.tm_mon.toNat [] ++ " ".toList
    ++ (if tm.tm_mday < 10 then ' ' :: fmt_d tm.tm_mday else fmt_d tm.tm_mday) ++ " ".toList
    ++ timeOfDay tm ++ " ".toList ++ fmt_d (tm.tm_year + 1900)

/-- The ranges of the fields of a broken-down time within 1970 to 2069. -/
def Tm.inRange (tm : Tm) : Prop :=
  (0 ≤ tm.tm_wday ∧ tm.tm_wday < 7) ∧ (1 ≤ tm.tm_mday ∧ tm.tm_mday ≤ 31) ∧
  (0 ≤ tm.tm_mon ∧ tm.tm_mon < 12) ∧ (1970 ≤ tm.tm_year + 1900 ∧ tm.tm_year + 1900 ≤ 2069) ∧
  (0 ≤ tm.tm_hour ∧ tm.tm_hour < 100) ∧ (0 ≤ tm.tm_min ∧ tm.tm_min < 100) ∧
  (0 ≤ tm.tm_sec ∧ tm.tm_sec < 100)

/-! ## `libwget/http.c`: the attributes of a Set-Cookie header -/

/-- The attributes that the loop of `wget_http_parse_setcookie` finds in the
text `s` behind the cookie value, in its order: the name that
`wget_http_parse_token` reads behind a `;` and, when a `=` follows, the value,
which is the run of bytes above 32, up to 126 and other than `;`. The loop
goes on behind the value, resp. behind the name. -/
def cookieAvs : Nat → List Char → List (List Char × Option (List Char))
  | 0, _ => []
  | fuel + 1, s =>
    match (spanWhile (fun c => c != ';') s).2 with
    | [] => []
    | _ :: s1 =>
      let tok := spanWhile wget_http_istoken (skipSpace s1)
      let s2 := (spanWhile (fun c => c != '=' && c != ';') tok.2).2
      if cur s2 = '=' then
        let v := spanWhile isCookieAvByte (adv s2)
        (tok.1, some v.1) :: (if v.2 = [] then [] else cookieAvs fuel v.2)
      else (tok.1, none) :: (if s2 = [] then [] else cookieAvs fuel s2)

/-- The attributes of a Set-Cookie header that has a cookie name and `=`,
found as `wget_http_parse_setcookie` finds them. -/
def setcookieAvs (s : List Char) : List (List Char × Option (List Char)) :=
  let tok := spanWhile wget_http_istoken (skipSpace s)
  let s := skipSpace tok.2
  if tok.1 ≠ [] ∧ cur s = '=' then
    let s := skipSpace (adv s)
    let s := if cur s = '"' then adv s else s
    let v := spanWhile isCookieOctet s
    cookieAvs (v.2.length + 1) v.2
  else []

/-- A Domain attribute with a value that is not empty: the name is `domain`
without regard to ASCII case, and a `=` and at least one byte follow. -/
def isDomainAv (av : List Char × Option (List Char)) : Bool :=
  decide (av.1.map c_tolower = "domain".toList) &&
  match av.2 with
  | some v => !v.isEmpty
  | none => false

/-- What a cookie holds as domain and as domain-dot flag after an attribute
was read, in the words of the specification: a Domain attribute with a value
that is not empty sets the domain to the value without its leading dots and
the flag to whether the value starts with a dot. -/
def domainStep (d : Option (List Char) × Bool) (av : List Char × Option (List Char)) :
    Option (List Char) × Bool :=
  if isDomainAv av then
    (some ((av.2.getD []).dropWhile fun c => c == '.'), (av.2.getD []).head? == some '.')
  else d

/-! ## Inputs of the examples of the last claims -/

/-- A connection whose per-connection abort flag is set, on which a response
with a body of five bytes arrives in two reads: the header with the first two
bytes of the body, then the other three bytes. -/
def connAborted : Connection :=
  { tcp := ["HTTP/1.1 200 OK\r\nContent-Length: 5\r\n\r\nab".toList, "cde".toList],
    bufsize := 102400, abort_indicator := true }

/-- The header loop has ended after `n` calls of `wget_tcp_read` at least. -/
def HeaderPhase.readsAtLeast (n : Nat) : HeaderPhase → Prop
  | HeaderPhase.undefined => True
  | HeaderPhase.no_header _ _ r => n ≤ r
  | HeaderPhase.found _ _ _ _ r => n ≤ r

/-! ## Percent escapes, in the words of the specification -/

/-- The value of a hexadecimal digit, `0` to `9`, `a` to `f` or `A` to `F`. -/
def hexDigitValue (c : Char) : Nat :=
  if '0'.toNat ≤ c.toNat ∧ c.toNat ≤ '9'.toNat then c.toNat - '0'.toNat
  else if 'a'.toNat ≤ c.toNat ∧ c.toNat ≤ 'f'.toNat then c.toNat - 'a'.toNat + 10
  else c.toNat - 'A'.toNat + 10

/-- The text starts with a percent escape: `%` and two hexadecimal digits. -/
def startsWithEscape (s : List Char) : Bool :=
  match s with
  | '%' :: a :: b :: _ => c_isxdigit a && c_isxdigit b
  | _ => false

/-- The text has a percent escape somewhere. -/
def hasEscape : List Char → Bool
  | [] => false
  | c :: s => startsWithEscape (c :: s) || hasEscape s

/-- Percent decoding as a relation between a text and its decoded bytes: from
left to right, a `%` with two hexadecimal digits behind it stands for the byte
with that value, every other byte stands for itself. -/
inductive PercentDecoded : List Char → List Char → Prop
  | done : PercentDecoded [] []
  | escape (a b : Char) (s out : List Char) :
      c_isxdigit a = true → c_isxdigit b = true → PercentDecoded s out →
      PercentDecoded ('%' :: a :: b :: s) (Char.ofNat (16 * hexDigitValue a + hexDigitValue b) :: out)
  | copy (c : Char) (s out : List Char) :
      startsWithEscape (c :: s) = false → PercentDecoded s out →
      PercentDecoded (c :: s) (c :: out)

/-! ## `libwget/utils.c`: `wget_memtohex` -/

/-- One hexadecimal digit as `wget_memtohex` writes it:
`c >= 10 ? c + 'a' - 10 : c + '0'`. -/
def lowerHex (c : Nat) : Char :=
  if c ≥ 10 then Char.ofNat (c + 'a'.toNat - 10) else Char.ofNat (c + '0'.toNat)

/-- `wget_memtohex` (utils.c) for the `src_len` bytes `src` (values of
`unsigned char`): the bytes written to `dst` before the final NUL, `none` when
nothing is written (`dst_size == 0`). `src_len * 2` is a product in `size_t`;
the byte `*src` behind the loop is `src[src_len]`. -/
def wget_memtohex (src : List Nat) (dst_size : Nat) : Option (List Char) :=
  if dst_size = 0 then none
  else
    let adjust : Bool := decide (src.length * 2 % 2 ^ 64 ≥ dst_size)
    let src_len := if adjust then (dst_size - 1) / 2 else src.length
    let digits := (src.take src_len).flatMap fun b =>
      [lowerHex (b % 256 / 16), lowerHex (b % 16)]
    some (if adjust ∧ dst_size % 2 = 0 then digits ++ [lowerHex (src.getD src_len 0 % 256 / 16)]
          else digits)

/-- The lower case hexadecimal encoding of a sequence of bytes: two digits
for every byte, the high nibble first. -/
def hexEncoding (src : List Nat) : List Char :=
  src.flatMap fun b => ["0123456789abcdef".toList.getD (b / 16) '0',
    "0123456789abcdef".toList.getD (b % 16) '0']

/-! ## `libwget/io.c`: waiting for a descriptor -/

/-- The constants that io.c takes from wget.h and from `<poll.h>`, neither of
which is part of the sources. -/
structure IoFlags where
  WGET_IO_READABLE : Nat
  WGET_IO_WRITABLE : Nat
  POLLIN : Nat
  POLLOUT : Nat

/-- The values of the constants in wget.h and in the `<poll.h>` of Linux. -/
def ioFlagsLinux : IoFlags :=
  { WGET_IO_READABLE := 1, WGET_IO_WRITABLE := 2, POLLIN := 1, POLLOUT := 4 }

/-- What `poll` gives for a single descriptor: its return value and the
`revents` it has set. -/
structure PollResult where
  rc : Int
  revents : Nat

/-- `wget_ready_2_transfer` (io.c); `poll` gets the `events` asked for and the
timeout. -/
def wget_ready_2_transfer (k : IoFlags) (poll : Nat → Int → PollResult) (timeout : Int)
    (mode : Nat) : Int :=
  let events := if mode &&& k.WGET_IO_READABLE ≠ 0 then k.POLLIN else 0
  let events := if mode &&& k.WGET_IO_WRITABLE ≠ 0 then events ||| k.POLLOUT else events
  -- wait for socket to be ready to read or write
  let r := poll events timeout
  if r.rc ≤ 0 then r.rc
  else
    let mode := if r.revents &&& k.POLLIN ≠ 0 then k.WGET_IO_READABLE else 0
    let mode := if r.revents &&& k.POLLOUT ≠ 0 then mode ||| k.WGET_IO_WRITABLE else mode
    (mode : Int)

/-- `wget_ready_2_read` (io.c): the value of the comparison `> 0`. -/
def wget_ready_2_read (k : IoFlags) (poll : Nat → Int → PollResult) (timeout : Int) : Int :=
  if wget_ready_2_transfer k poll timeout k.WGET_IO_READABLE > 0 then 1 else 0

/-- `wget_ready_2_write` (io.c): the value of the comparison `> 0`. -/
def wget_ready_2_write (k : IoFlags) (poll : Nat → Int → PollResult) (timeout : Int) : Int :=
  if wget_ready_2_transfer k poll timeout k.WGET_IO_WRITABLE > 0 then 1 else 0


/-- The configuration of `--adjust-extension`, everything else as in
`cfgNoClobber` but clobber on. -/
def cfgAdjust : Config := { cfgNoClobber with adjust_extension := true, clobber := true }

/-- A response of one byte with the given content type, as `_save_file`
sees it. -/
def savedOfType (content_type : String) : SavedResponse :=
  { header_length := 0, body_length := 1, content_type := some content_type.toList,
    last_modified := 0 }

/-! ## `libwget/http.c`: the loops over the parameters of a header -/

/-- The course of the loops `while (*s) { s = wget_http_parse_param(s, ...); ... }`
of `wget_http_parse_strict_transport_security`, `wget_http_parse_content_type`
and `wget_http_parse_content_disposition`: the position at which the loop is
left, by its condition or by the `break` that `stop` stands for; `none` when
the loop has not ended after `fuel` rounds. -/
def paramLoop (stop : Option (List Char) → Option (List Char) → Bool) :
    Nat → List Char → Option (List Char)
  | 0, _ => none
  | fuel + 1, s =>
    match s with
    | [] => some []
    | _ :: _ =>
      let r := wget_http_parse_param s
      if stop r.2.1 r.2.2 then some r.1 else paramLoop stop fuel r.1

/-- The `break` of the loop of `wget_http_parse_content_type`: the parameter
is `charset`. -/
def stopsAtCharset (name _value : Option (List Char)) : Bool :=
  decide (wget_strcasecmp_ascii (some "charset".toList) name = 0)

/-- The `break` of the loop of `wget_http_parse_content_disposition`: a
parameter `filename*` with a value that has two `'` and something behind the
second ("stop looping, we found the final filename"). -/
def stopsAtFilenameStar (name value : Option (List Char)) : Bool :=
  match value with
  | none => false
  | some value =>
    if wget_strcasecmp_ascii (some "filename".toList) name = 0 then false
    else if wget_strcasecmp_ascii (some "filename*".toList) name = 0 then
      match strchr '\'' value with
      | none => false
      | some q =>
        match strchr '\'' (adv q) with
        | none => false
        | some q2 => !(adv q2).isEmpty
    else false

/-! ## Theorems -/

/-! ### `_save_file`: open mode and quota -/

theorem toLongLong_of_range (x : Int) (h0 : - 2 ^ 63 ≤ x) (h1 : x < 2 ^ 63) : toLongLong x = x := by
  unfold toLongLong
  norm_num at h0 h1 ⊢
  omega

theorem quota_modify_read_of_range (q : Int) (n : Nat) (h0 : 0 ≤ q) (h1 : q + n < 2 ^ 63) :
    quota_modify_read q n = (q, q + n) := by
  unfold quota_modify_read _fetch_and_add_longlong
  have hn : toLongLong (n : Int) = n := by
    apply toLongLong_of_range <;> norm_num at h1 ⊢ <;> omega
  rw [hn, toLongLong_of_range] <;> norm_num at h1 ⊢ <;> omega

/-- C4, as stated, fails: with clobber disabled, `_save_file` called with
`O_TRUNC` opens the target with `O_TRUNC` when timestamping is on, and also when
recursive and directories are both on. -/
theorem no_clobber_counterexample :
    cfgNoClobberTimestamping.clobber = false ∧ cfgNoClobberRecursive.clobber = false ∧
    (_save_file (fun _ _ _ => false) cfgNoClobberTimestamping 0
        { header_length := 0, body_length := 1, content_type := none, last_modified := 0 }
        (FileArg.path "f".toList) OFlag.O_TRUNC).2
      = SaveAction.open_file [] "f".toList OFlag.O_TRUNC false ∧
    (_save_file (fun _ _ _ => false) cfgNoClobberRecursive 0
        { header_length := 0, body_length := 1, content_type := none, last_modified := 0 }
        (FileArg.path "f".toList) OFlag.O_TRUNC).2
      = SaveAction.open_file [] "f".toList OFlag.O_TRUNC false := by
  decide

theorem selectMode_no_clobber (config : Config) (name : List Char) (flag1 : OFlag)
    (hclobber : config.clobber = false) :
    selectMode config name OFlag.O_TRUNC flag1 =
      (if config.timestamping then OFlag.O_TRUNC
        else if (config.recursive && config.directories) then flag1 else OFlag.O_EXCL, false, []) := by
  unfold selectMode
  cases hts : config.timestamping <;> cases hrd : (config.recursive && config.directories) <;>
    simp [hclobber, hrd]

theorem save_file_open (fnmatch : List Char → List Char → Bool → Bool) (config : Config)
    (quota : Int) (resp : SavedResponse) (fname : FileArg) (oflag : OFlag)
    (renames : List (List Char × List Char)) (name : List Char) (flag : OFlag) (multiple : Bool)
    (hopen : (_save_file fnmatch config quota resp fname oflag).2
      = SaveAction.open_file renames name flag multiple) :
    (flag, multiple, renames) = selectMode config name oflag
      (if fname = FileArg.output_document then OFlag.O_APPEND else oflag) := by
  unfold _save_file at hopen
  simp only [] at hopen
  split at hopen
  · simp at hopen
  · split at hopen
    · simp at hopen
    · split at hopen
      · simp at hopen
      · split at hopen
        · simp at hopen
        · split at hopen
          · simp at hopen
          · split at hopen
            · simp at hopen
            · split at hopen
              · simp at hopen
              · split at hopen
                · simp at hopen
                · simp only [SaveAction.open_file.injEq] at hopen
                  obtain ⟨h1, h2, h3, h4⟩ := hopen
                  subst h2
                  rw [← h1, ← h3, ← h4]
                  simp

/-- C4 (amended): with clobber disabled, a call of `_save_file` with `O_TRUNC`
that reaches `open` passes `O_EXCL` (no renames, no `.N` retry) when
timestamping is off and recursive and directories are not both on, whatever
`output_document`; it passes `O_TRUNC` when timestamping is on; and with
timestamping off and recursive and directories on it passes the incoming mode,
`O_APPEND` for the output document and `O_TRUNC` otherwise. -/
theorem no_clobber_open_mode (fnmatch : List Char → List Char → Bool → Bool) (config : Config)
    (quota : Int) (resp : SavedResponse) (fname : FileArg)
    (renames : List (List Char × List Char)) (name : List Char) (flag : OFlag) (multiple : Bool)
    (hclobber : config.clobber = false)
    (hopen : (_save_file fnmatch config quota resp fname OFlag.O_TRUNC).2
      = SaveAction.open_file renames name flag multiple) :
    renames = [] ∧ multiple = false ∧
    (config.timestamping = false → (config.recursive && config.directories) = false →
      flag = OFlag.O_EXCL) ∧
    (config.timestamping = true → flag = OFlag.O_TRUNC) ∧
    (config.timestamping = false → (config.recursive && config.directories) = true →
      flag = if fname = FileArg.output_document then OFlag.O_APPEND else OFlag.O_TRUNC) := by
  have h := save_file_open fnmatch config quota resp fname OFlag.O_TRUNC renames name flag
    multiple hopen
  rw [selectMode_no_clobber config name _ hclobber] at h
  simp only [Prod.mk.injEq] at h
  obtain ⟨h1, h2, h3⟩ := h
  refine ⟨h3, h2, ?_, ?_, ?_⟩
  · intro hts hrd
    rw [h1, hts, hrd]; simp
  · intro hts
    rw [h1, hts]; simp
  · intro hts hrd
    rw [h1, hts, hrd]; simp

/-- Witness of C4 (amended): `--no-clobber` alone, target `f`, opened with `O_EXCL`. -/
theorem no_clobber_open_mode_witness :
    [] = ([] : List (List Char × List Char)) ∧ false = false ∧
    (cfgNoClobber.timestamping = false → (cfgNoClobber.recursive && cfgNoClobber.directories) = false →
      OFlag.O_EXCL = OFlag.O_EXCL) ∧
    (cfgNoClobber.timestamping = true → OFlag.O_EXCL = OFlag.O_TRUNC) ∧
    (cfgNoClobber.timestamping = false → (cfgNoClobber.recursive && cfgNoClobber.directories) = true →
      OFlag.O_EXCL = if FileArg.path "f".toList = FileArg.output_document then OFlag.O_APPEND
        else OFlag.O_TRUNC) :=
  no_clobber_open_mode (fun _ _ _ => false) cfgNoClobber 0
    { header_length := 0, body_length := 1, content_type := none, last_modified := 0 }
    (FileArg.path "f".toList) [] "f".toList OFlag.O_EXCL false (by decide) (by decide)

theorem save_file_counter (fnmatch : List Char → List Char → Bool → Bool) (config : Config)
    (hq : 0 < config.quota) (c : Int) (resp : SavedResponse) (fname : FileArg) (flag : OFlag)
    (hc : 0 ≤ c) (hsum : c + (responseSize config resp : Int) < 2 ^ 63) :
    ((_save_file fnmatch config c resp fname flag).1 = c ∧
      (_save_file fnmatch config c resp fname flag).2.passedQuota = false) ∨
    ((_save_file fnmatch config c resp fname flag).1 = c + (responseSize config resp : Int) ∧
      ((_save_file fnmatch config c resp fname flag).2.passedQuota = true → c < config.quota)) := by
  unfold _save_file
  simp only [quota_modify_read_of_range c _ hc hsum]
  split
  · left; simp [SaveAction.passedQuota]
  · split
    · left; simp [SaveAction.passedQuota]
    · split
      · left; simp [SaveAction.passedQuota]
      · right
        split
        · simp [SaveAction.passedQuota]
        · rename_i hnot
          have hlt : c < config.quota := by
            by_contra hge
            exact hnot ⟨by omega, by omega⟩
          repeat' split
          all_goals simp [hlt]

theorem saveAll_bound (fnmatch : List Char → List Char → Bool → Bool) (config : Config)
    (hq : 0 < config.quota) (cnt : SaveAction → Bool)
    (hcnt : ∀ a, cnt a = true → a.passedQuota = true)
    (calls : List (SavedResponse × FileArg × OFlag)) :
    ∀ (c : Int), 0 ≤ c →
      c + ((calls.map fun x => responseSize config x.1).sum : Nat) < 2 ^ 63 →
      (((saveAll fnmatch config c calls).any fun r => cnt r.2) = false →
        bytesOf cnt (saveAll fnmatch config c calls) = 0) ∧
      (((saveAll fnmatch config c calls).any fun r => cnt r.2) = true →
        c + (bytesOf cnt (saveAll fnmatch config c calls) : Int)
          ≤ config.quota + (lastOf cnt (saveAll fnmatch config c calls) : Int)) := by
  induction calls with
  | nil => intro c _ _; simp [saveAll, bytesOf]
  | cons call calls ih =>
    intro c hc hsum
    obtain ⟨resp, fname, flag⟩ := call
    simp only [List.map_cons, List.sum_cons, Nat.cast_add] at hsum
    simp only [saveAll, List.any_cons, bytesOf, lastOf]
    rcases save_file_counter fnmatch config hq c resp fname flag hc (by omega) with ⟨h1, h2⟩ | ⟨h1, h2⟩
    · rw [h1]
      have hw : cnt (_save_file fnmatch config c resp fname flag).2 = false := by
        cases hcw : cnt (_save_file fnmatch config c resp fname flag).2
        · rfl
        · rw [hcnt _ hcw] at h2; cases h2
      have := ih c hc (by omega)
      simp only [hw, Bool.false_or, Bool.false_eq_true, if_false, Nat.zero_add]
      constructor
      · intro h; exact this.1 h
      · intro h; rw [if_pos h]; exact this.2 h
    · rw [h1]
      have := ih (c + responseSize config resp) (by omega) (by omega)
      cases hw : cnt (_save_file fnmatch config c resp fname flag).2
      · simp only [Bool.false_or, Bool.false_eq_true, if_false, Nat.zero_add]
        constructor
        · intro h; exact this.1 h
        · intro h; rw [if_pos h]; have := this.2 h; omega
      · have hlt := h2 (hcnt _ hw)
        simp only [Bool.true_or, if_true]
        constructor
        · intro h; cases h
        · intro _
          cases hany : (saveAll fnmatch config (c + responseSize config resp) calls).any
              fun r => cnt r.2
          · have h0 := this.1 hany
            rw [h0]; simp only [Bool.false_eq_true, if_false]; push_cast; omega
          · have h0 := this.2 hany
            simp only [if_true]; push_cast; omega

theorem saveAll_bound_zero (fnmatch : List Char → List Char → Bool → Bool) (config : Config)
    (hq : 0 < config.quota) (cnt : SaveAction → Bool)
    (hcnt : ∀ a, cnt a = true → a.passedQuota = true)
    (calls : List (SavedResponse × FileArg × OFlag))
    (hsum : (calls.map fun x => responseSize config x.1).sum < 2 ^ 63) :
    (bytesOf cnt (saveAll fnmatch config 0 calls) : Int)
      ≤ config.quota + (lastOf cnt (saveAll fnmatch config 0 calls) : Int) := by
  have h := saveAll_bound fnmatch config hq cnt hcnt calls 0 (le_refl 0) (by
    have : (((calls.map fun x => responseSize config x.1).sum : Nat) : Int) < 2 ^ 63 := by
      exact_mod_cast hsum
    omega)
  cases hany : (saveAll fnmatch config 0 calls).any fun r => cnt r.2
  · rw [h.1 hany]
    have : (0 : Int) ≤ (lastOf cnt (saveAll fnmatch config 0 calls) : Int) := Int.ofNat_nonneg _
    push_cast; omega
  · have := h.2 hany; omega

/-- C5: with quota `q > 0` and the shared counter starting at 0, over every
sequence of `_save_file` calls (whose sizes add up to less than 2^63, the range
of the `long long` counter) the sizes of the responses for which the old
counter value returned by `quota_modify_read` is below `q` add up to at most
`q` plus the size of the last of them; the same bound holds for the responses
that get as far as being written. -/
theorem quota_bound (fnmatch : List Char → List Char → Bool → Bool) (config : Config)
    (calls : List (SavedResponse × FileArg × OFlag)) (hq : 0 < config.quota)
    (hsum : (calls.map fun x => responseSize config x.1).sum < 2 ^ 63) :
    (bytesOf SaveAction.passedQuota (saveAll fnmatch config 0 calls) : Int)
      ≤ config.quota + (lastOf SaveAction.passedQuota (saveAll fnmatch config 0 calls) : Int) ∧
    (bytesOf SaveAction.writes (saveAll fnmatch config 0 calls) : Int)
      ≤ config.quota + (lastOf SaveAction.writes (saveAll fnmatch config 0 calls) : Int) := by
  refine ⟨saveAll_bound_zero fnmatch config hq _ (fun _ h => h) calls hsum,
    saveAll_bound_zero fnmatch config hq _ ?_ calls hsum⟩
  intro a h
  cases a <;> simp_all [SaveAction.writes, SaveAction.passedQuota]

/-- Witness of C5: a quota of 10 bytes and responses of 6, 7 and 5 bytes. -/
theorem quota_bound_witness :
    (bytesOf SaveAction.passedQuota (saveAll (fun _ _ _ => false) cfgQuota10 0 callsQuota) : Int)
      ≤ cfgQuota10.quota
        + (lastOf SaveAction.passedQuota (saveAll (fun _ _ _ => false) cfgQuota10 0 callsQuota) : Int) ∧
    (bytesOf SaveAction.writes (saveAll (fun _ _ _ => false) cfgQuota10 0 callsQuota) : Int)
      ≤ cfgQuota10.quota
        + (lastOf SaveAction.writes (saveAll (fun _ _ _ => false) cfgQuota10 0 callsQuota) : Int) :=
  quota_bound (fun _ _ _ => false) cfgQuota10 callsQuota (by decide) (by decide)

/-! ### Request emission -/

theorem appendHeader_eq (buf : List Char) (param : List Char × List Char) :
    appendHeader buf param = buf ++ headerLine param := by
  unfold appendHeader headerLine
  have hne : param.1 ++ ": ".toList ++ param.2 ≠ [] := by
    simp
  have hlast : (buf ++ param.1 ++ ": ".toList ++ param.2).getLast?
      = (param.1 ++ ": ".toList ++ param.2).getLast? := by
    rw [List.append_assoc, List.append_assoc, ← List.append_assoc param.1]
    exact List.getLast?_append_of_ne_nil _ hne
  simp only [hlast]
  by_cases h : (param.1 ++ ": ".toList ++ param.2).getLast? = some '\n'
  · simp only [h, ne_eq, not_true_eq_false, if_false, if_true]
    simp [List.append_assoc]
  · simp only [h, ne_eq, not_false_eq_true, if_true, if_false]
    simp [List.append_assoc]

theorem foldl_appendHeader (headers : List (List Char × List Char)) :
    ∀ buf : List Char, headers.foldl appendHeader buf = buf ++ (headers.map headerLine).flatten := by
  induction headers with
  | nil => intro buf; simp
  | cons h hs ih =>
    intro buf
    simp only [List.foldl_cons, ih, appendHeader_eq, List.map_cons, List.flatten_cons,
      List.append_assoc]

/-- C6: `wget_http_request_to_buffer` writes exactly
`method SP target SP "HTTP/1.1" CRLF "Host: " host CRLF`, the header lines in
order, the `Proxy-Connection` line when a proxy is used, and a final CRLF, and
returns the length of that output. -/
theorem request_to_buffer_output (http_proxies https_proxies : List (List Char)) (req : Request)
    (buf : List Char) :
    (wget_http_request_to_buffer http_proxies https_proxies req buf).1 =
      req.method ++ " ".toList ++ requestTarget http_proxies https_proxies req
        ++ " HTTP/1.1\r\n".toList ++ "Host: ".toList ++ req.esc_host ++ "\r\n".toList
        ++ (req.headers.map headerLine).flatten
        ++ proxyLine http_proxies https_proxies req ++ "\r\n".toList ∧
    (wget_http_request_to_buffer http_proxies https_proxies req buf).2 =
      ((wget_http_request_to_buffer http_proxies https_proxies req buf).1.length : Int) := by
  refine ⟨?_, rfl⟩
  unfold wget_http_request_to_buffer requestTarget proxyLine
  simp only [foldl_appendHeader, List.length_pos, ne_eq]
  by_cases h : (req.scheme = IriScheme.http ∧ ¬ http_proxies = []) ∨
      (req.scheme = IriScheme.https ∧ ¬ https_proxies = [])
  · simp [h, List.append_assoc]
  · simp [h, List.append_assoc]

/-! ### Blacklist -/

theorem blacklist_add_contains (cmp : Iri → Iri → Int) (bl : List Iri) (iri : Iri)
    (h : wget_hashmap_contains cmp bl iri = true) :
    blacklist_add cmp bl (some iri) = (none, bl) := by
  unfold blacklist_add
  simp [h]

theorem blacklist_add_some (cmp : Iri → Iri → Int) (bl : List Iri) (iri : Option Iri) (r : Iri)
    (h : (blacklist_add cmp bl iri).1 = some r) :
    iri = some r ∧ wget_iri_supported r = true ∧ wget_hashmap_contains cmp bl r = false ∧
    (blacklist_add cmp bl iri).2 = bl ++ [r] := by
  unfold blacklist_add at h ⊢
  cases iri with
  | none => simp at h
  | some x =>
    simp only at h ⊢
    by_cases hs : wget_iri_supported x = true
    · by_cases hc : wget_hashmap_contains cmp bl x = true
      · simp [hs, hc] at h
      · simp only [Bool.not_eq_true] at hc
        simp [hs, hc] at h
        subst h
        simp [hs, hc, wget_hashmap_put_noalloc]
    · simp [hs] at h

theorem blacklist_add_none (cmp : Iri → Iri → Int) (bl : List Iri) (iri : Option Iri)
    (h : (blacklist_add cmp bl iri).1 = none) : (blacklist_add cmp bl iri).2 = bl := by
  unfold blacklist_add at h ⊢
  cases iri with
  | none => rfl
  | some x =>
    simp only at h ⊢
    by_cases hs : wget_iri_supported x = true
    · by_cases hc : wget_hashmap_contains cmp bl x = true
      · simp [hs, hc]
      · simp only [Bool.not_eq_true] at hc
        simp [hs, hc] at h
    · simp [hs]

theorem contains_of_mem (cmp : Iri → Iri → Int) (bl : List Iri) (x y : Iri) (hx : x ∈ bl)
    (h : setEq cmp y x) : wget_hashmap_contains cmp bl y = true := by
  unfold wget_hashmap_contains
  rw [List.any_eq_true]
  exact ⟨x, hx, by simp [h.1, h.2]⟩

theorem blacklist_add_mono (cmp : Iri → Iri → Int) (bl : List Iri) (iri : Option Iri) (x : Iri)
    (hx : x ∈ bl) : x ∈ (blacklist_add cmp bl iri).2 := by
  cases h : (blacklist_add cmp bl iri).1 with
  | none => rw [blacklist_add_none cmp bl iri h]; exact hx
  | some r => rw [(blacklist_add_some cmp bl iri r h).2.2.2]; simp [hx]

/-- Once an IRI equal to `u` is in the set, no later call is recorded as added for `u`. -/
theorem run_no_add (cmp : Iri → Iri → Int)
    (hsymm : ∀ a b, cmp a b = 0 → cmp b a = 0)
    (htrans : ∀ a b c, cmp a b = 0 → cmp b c = 0 → cmp a c = 0)
    (u : Iri) (calls : List (Option Iri)) :
    ∀ (bl : List Iri) (x : Iri), x ∈ bl → setEq cmp x u →
      (blacklistRun cmp bl calls).1.countP (addedAs cmp u) = 0 := by
  induction calls with
  | nil => intro bl x _ _; simp [blacklistRun]
  | cons c calls ih =>
    intro bl x hx hxu
    simp only [blacklistRun]
    rw [List.countP_cons, ih _ x (blacklist_add_mono cmp bl c x hx) hxu]
    cases hr : (blacklist_add cmp bl c).1 with
    | none => cases c <;> simp [addedAs]
    | some r =>
      obtain ⟨hc, _, hnc, _⟩ := blacklist_add_some cmp bl c r hr
      subst hc
      have hne : ¬ setEq cmp r u := by
        intro hru
        have : setEq cmp r x :=
          ⟨hru.1.trans hxu.1.symm, htrans _ _ _ hru.2 (hsymm _ _ hxu.2)⟩
        rw [contains_of_mem cmp bl x r hx this] at hnc
        cases hnc
      simp [addedAs, hne]

theorem run_count_le_one (cmp : Iri → Iri → Int)
    (hsymm : ∀ a b, cmp a b = 0 → cmp b a = 0)
    (htrans : ∀ a b c, cmp a b = 0 → cmp b c = 0 → cmp a c = 0)
    (u : Iri) (calls : List (Option Iri)) :
    ∀ (bl : List Iri), (blacklistRun cmp bl calls).1.countP (addedAs cmp u) ≤ 1 := by
  induction calls with
  | nil => intro bl; simp [blacklistRun]
  | cons c calls ih =>
    intro bl
    simp only [blacklistRun]
    rw [List.countP_cons]
    by_cases hadd : addedAs cmp u (c, (blacklist_add cmp bl c).1) = true
    · cases hr : (blacklist_add cmp bl c).1 with
      | none => rw [hr] at hadd; cases c <;> simp [addedAs] at hadd
      | some r =>
        obtain ⟨hc, _, _, hbl⟩ := blacklist_add_some cmp bl c r hr
        subst hc
        rw [hr] at hadd
        have hru : setEq cmp r u := by simpa [addedAs] using hadd
        rw [run_no_add cmp hsymm htrans u calls _ r (by rw [hbl]; simp) hru]
        split <;> simp
    · simp only [hadd, Bool.false_eq_true, if_false, Nat.add_zero]
      exact ih _

/-- C3: in every sequence of `blacklist_add` calls on an initially empty set,
for every URL `u` at most one call with an IRI equal to `u` (same hash and
equal under the comparison function, which is assumed symmetric and transitive)
returns non-NULL; a call whose IRI is equal to a member returns NULL and leaves
the set and its size unchanged; a call with a supported IRI equal to no member
returns that IRI; and a successful call increases the size by exactly one. -/
theorem blacklist_insert_once (cmp : Iri → Iri → Int)
    (hsymm : ∀ a b, cmp a b = 0 → cmp b a = 0)
    (htrans : ∀ a b c, cmp a b = 0 → cmp b c = 0 → cmp a c = 0) :
    (∀ (calls : List (Option Iri)) (u : Iri),
      (blacklistRun cmp [] calls).1.countP (addedAs cmp u) ≤ 1) ∧
    (∀ (bl : List Iri) (iri e : Iri), e ∈ bl → setEq cmp iri e →
      blacklist_add cmp bl (some iri) = (none, bl)) ∧
    (∀ (bl : List Iri) (iri : Iri), wget_iri_supported iri = true →
      (∀ e ∈ bl, ¬ setEq cmp iri e) → (blacklist_add cmp bl (some iri)).1 = some iri) ∧
    (∀ (bl : List Iri) (iri : Option Iri) (r : Iri), (blacklist_add cmp bl iri).1 = some r →
      blacklist_size (blacklist_add cmp bl iri).2 = blacklist_size bl + 1) := by
  refine ⟨fun calls u => run_count_le_one cmp hsymm htrans u calls [], ?_, ?_, ?_⟩
  · intro bl iri e he heq
    exact blacklist_add_contains cmp bl iri (contains_of_mem cmp bl e iri he heq)
  · intro bl iri hs hne
    have hc : wget_hashmap_contains cmp bl iri = false := by
      unfold wget_hashmap_contains
      rw [List.any_eq_false]
      intro e he
      have := hne e he
      unfold setEq at this
      simp only [Bool.and_eq_true, decide_eq_true_eq]
      exact this
    simp [blacklist_add, hs, hc]
  · intro bl iri r hr
    rw [(blacklist_add_some cmp bl iri r hr).2.2.2]
    simp [blacklist_size]

theorem wget_iri_compare_symm (a b : Iri) (h : wget_iri_compare a b = 0) :
    wget_iri_compare b a = 0 := by
  unfold wget_iri_compare at h ⊢
  split at h
  · rename_i hc
    obtain ⟨h1, h2, h3, h4, h5⟩ := hc
    simp [h1, h2, h3, h4, h5]
  · simp at h

theorem wget_iri_compare_trans (a b c : Iri) (h : wget_iri_compare a b = 0)
    (h' : wget_iri_compare b c = 0) : wget_iri_compare a c = 0 := by
  unfold wget_iri_compare at h h' ⊢
  split at h
  · rename_i hc
    obtain ⟨h1, h2, h3, h4, h5⟩ := hc
    split at h'
    · rename_i hc'
      obtain ⟨g1, g2, g3, g4, g5⟩ := hc'
      simp [h1, h2, h3, h4, h5, g1, g2, g3, g4, g5]
    · simp at h'
  · simp at h

/-- Witness of C3: the same IRI added twice under the comparison modelled from the spec. -/
theorem blacklist_insert_once_witness :
    (blacklistRun wget_iri_compare [] [some iriA, some iriA]).1.countP
      (addedAs wget_iri_compare iriA) ≤ 1 :=
  (blacklist_insert_once wget_iri_compare wget_iri_compare_symm wget_iri_compare_trans).1
    [some iriA, some iriA] iriA

/-! ### HTTP dates -/

theorem skipSpace_blank (s : List Char) : skipSpace (' ' :: s) = skipSpace s := rfl

theorem scan_fmt_02d (n : Int) (h0 : 0 ≤ n) (h1 : n < 100) (rest : List Char) :
    skipSpace (fmt_02d n ++ rest) = fmt_02d n ++ rest ∧
    scanInt 2 (fmt_02d n ++ rest) = some (n, rest) := by
  interval_cases n <;> exact ⟨rfl, rfl⟩

theorem length_fmt_02d (n : Int) (h0 : 0 ≤ n) (h1 : n < 100) : (fmt_02d n).length = 2 := by
  interval_cases n <;> rfl

theorem length_fmt_year (y : Int) (h0 : 1970 ≤ y) (h1 : y ≤ 2038) : (fmt_d y).length = 4 := by
  interval_cases y <;> rfl

theorem length_dname (wd : Int) (h0 : 0 ≤ wd) (h1 : wd < 7) :
    (dnames.getD wd.toNat []).length = 3 := by
  interval_cases wd <;> rfl

theorem length_mname (m : Int) (h0 : 0 ≤ m) (h1 : m < 12) :
    (mnames.getD m.toNat []).length = 3 := by
  interval_cases m <;> rfl

theorem scan_fmt_year (y : Int) (h0 : 1970 ≤ y) (h1 : y ≤ 2038) (rest : List Char) :
    skipSpace (fmt_d y ++ rest) = fmt_d y ++ rest ∧
    scanInt 4 (fmt_d y ++ rest) = some (y, rest) := by
  interval_cases y <;> exact ⟨rfl, rfl⟩

theorem scan_dname (wd : Int) (h0 : 0 ≤ wd) (h1 : wd < 7) (rest : List Char) :
    skipSpace (dnames.getD wd.toNat [] ++ ',' :: rest) = dnames.getD wd.toNat [] ++ ',' :: rest ∧
    scanSet c_isalpha (dnames.getD wd.toNat [] ++ ',' :: rest).length
        (dnames.getD wd.toNat [] ++ ',' :: rest)
      = some (dnames.getD wd.toNat [], ',' :: rest) := by
  interval_cases wd <;> exact ⟨rfl, rfl⟩

theorem scan_mname (m : Int) (h0 : 0 ≤ m) (h1 : m < 12) (rest : List Char) :
    skipSpace (mnames.getD m.toNat [] ++ rest) = mnames.getD m.toNat [] ++ rest ∧
    scanStr 3 (mnames.getD m.toNat [] ++ rest) = some (mnames.getD m.toNat [], rest) ∧
    mnames.getD m.toNat [] ≠ [] ∧
    monthLookup (mnames.getD m.toNat []) mnames 0 = m + 1 := by
  interval_cases m <;> exact ⟨rfl, rfl, by decide, by decide⟩

/-- The text `wget_http_print_date` formats for a broken-down time. -/
theorem sscanf_rfc1123_printed (tm : Tm)
    (hwd : 0 ≤ tm.tm_wday ∧ tm.tm_wday < 7) (hmd : 0 ≤ tm.tm_mday ∧ tm.tm_mday < 100)
    (hmon : 0 ≤ tm.tm_mon ∧ tm.tm_mon < 12)
    (hy : 1970 ≤ tm.tm_year + 1900 ∧ tm.tm_year + 1900 ≤ 2038)
    (hh : 0 ≤ tm.tm_hour ∧ tm.tm_hour < 100) (hmi : 0 ≤ tm.tm_min ∧ tm.tm_min < 100)
    (hs : 0 ≤ tm.tm_sec ∧ tm.tm_sec < 100) :
    sscanf_rfc1123
      (dnames.getD tm.tm_wday.toNat [] ++ ", ".toList ++ fmt_02d tm.tm_mday ++ " ".toList
        ++ mnames.getD tm.tm_mon.toNat [] ++ " ".toList ++ fmt_d (tm.tm_year + 1900) ++ " ".toList
        ++ fmt_02d tm.tm_hour ++ ":".toList ++ fmt_02d tm.tm_min ++ ":".toList
        ++ fmt_02d tm.tm_sec ++ " GMT".toList)
      = some (tm.tm_mday, mnames.getD tm.tm_mon.toNat [], tm.tm_year + 1900, tm.tm_hour,
          tm.tm_min, tm.tm_sec) := by
  have e1 : ", ".toList = [',', ' '] := rfl
  have e2 : " ".toList = [' '] := rfl
  have e3 : ":".toList = [':'] := rfl
  simp only [e1, e2, e3, List.append_assoc, List.cons_append, List.nil_append]
  unfold sscanf_rfc1123
  simp only [(scan_dname _ hwd.1 hwd.2 _).1, (scan_dname _ hwd.1 hwd.2 _).2,
    Option.bind_eq_bind, Option.some_bind, matchChar, if_true, skipSpace_blank,
    (scan_fmt_02d _ hmd.1 hmd.2 _).1, (scan_fmt_02d _ hmd.1 hmd.2 _).2,
    (scan_mname _ hmon.1 hmon.2 _).1, (scan_mname _ hmon.1 hmon.2 _).2.1,
    (scan_fmt_year _ hy.1 hy.2 _).1, (scan_fmt_year _ hy.1 hy.2 _).2,
    (scan_fmt_02d _ hh.1 hh.2 _).1, (scan_fmt_02d _ hh.1 hh.2 _).2,
    (scan_fmt_02d _ hmi.1 hmi.2 _).1, (scan_fmt_02d _ hmi.1 hmi.2 _).2,
    (scan_fmt_02d _ hs.1 hs.2 _).1, (scan_fmt_02d _ hs.1 hs.2 _).2, Option.pure_def]

theorem daysBefore_eq (y : Nat) (hy : 1970 ≤ y) :
    daysBefore y = 365 * ((y : Int) - 1970) + ((((y : Int) - 1) / 4 - 492)
      - (((y : Int) - 1) / 100 - 19) + (((y : Int) - 1) / 400 - 4)) := by
  unfold daysBefore leap_days
  have h0 : (0 : Int) ≤ (y : Int) - 1 := by omega
  simp only [Int.tdiv_eq_ediv h0 (by norm_num : (0 : Int) ≤ 4),
    Int.tdiv_eq_ediv h0 (by norm_num : (0 : Int) ≤ 100),
    Int.tdiv_eq_ediv h0 (by norm_num : (0 : Int) ≤ 400)]
  have e1 : ((1970 : Int) - 1).tdiv 4 = 492 := by decide
  have e2 : ((1970 : Int) - 1).tdiv 100 = 19 := by decide
  have e3 : ((1970 : Int) - 1).tdiv 400 = 4 := by decide
  rw [e1, e2, e3]

theorem daysBefore_succ (y : Nat) (hy : 1970 ≤ y) :
    daysBefore (y + 1) = daysBefore y + (yearLength y : Int) := by
  rw [daysBefore_eq y hy, daysBefore_eq (y + 1) (by omega)]
  unfold yearLength isLeapYear
  push_cast
  by_cases h4 : y % 4 = 0 <;> by_cases h100 : y % 100 = 0 <;> by_cases h400 : y % 400 = 0 <;>
    simp [h4, h100, h400] <;> omega

theorem yearOfDays_spec : ∀ (fuel y d : Nat), d ≤ fuel → 1970 ≤ y →
    (yearOfDays fuel y d).2 < yearLength (yearOfDays fuel y d).1 ∧
    1970 ≤ (yearOfDays fuel y d).1 ∧
    daysBefore (yearOfDays fuel y d).1 + ((yearOfDays fuel y d).2 : Int) = daysBefore y + (d : Int) := by
  intro fuel
  induction fuel with
  | zero =>
    intro y d hd hy
    have : d = 0 := by omega
    subst this
    simp only [yearOfDays, and_true]
    refine ⟨?_, hy⟩
    unfold yearLength; split <;> omega
  | succ fuel ih =>
    intro y d hd hy
    simp only [yearOfDays]
    by_cases hlt : d < yearLength y
    · simp only [hlt, if_true, and_true]
      exact ⟨trivial, hy⟩
    · simp only [hlt, if_false]
      have hyl : 365 ≤ yearLength y := by unfold yearLength; split <;> omega
      obtain ⟨h1, h2, h3⟩ := ih (y + 1) (d - yearLength y) (by omega) (by omega)
      refine ⟨h1, h2, ?_⟩
      rw [h3, daysBefore_succ y hy]
      omega

set_option maxRecDepth 100000 in
theorem monthOfDays_spec (leap : Bool) : ∀ (yd : Nat), yd < 366 → yd < (if leap then 366 else 365) →
    (monthOfDays leap 12 0 yd).1 < 12 ∧
    sum_of_days.getD (monthOfDays leap 12 0 yd).1 0
      + (if (2 : Int) < ((monthOfDays leap 12 0 yd).1 : Int) + 1 ∧ leap = true then 1 else 0)
      + ((monthOfDays leap 12 0 yd).2 : Int) = (yd : Int) ∧
    ¬ (((monthOfDays leap 12 0 yd).2 : Int) + 1 > days_per_month.getD (monthOfDays leap 12 0 yd).1 0
        + (if (((monthOfDays leap 12 0 yd).1 : Int) + 1 = 2 ∧ leap = true) then 1 else 0)) := by
  cases leap <;> decide

theorem gmtime_r_spec (t : Int) (h0 : 0 ≤ t) (h1 : t < 2 ^ 31) :
    ∃ (y m md : Nat), 1970 ≤ y ∧ y ≤ 2038 ∧ m < 12 ∧
      gmtime_r t = some
        { tm_sec := t % 86400 % 60, tm_min := t % 86400 / 60 % 60, tm_hour := t % 86400 / 3600,
          tm_mday := (md : Int) + 1, tm_mon := (m : Int), tm_year := (y : Int) - 1900,
          tm_wday := (t / 86400 + 4) % 7 } ∧
      daysBefore y + (sum_of_days.getD m 0
          + (if (2 : Int) < (m : Int) + 1 ∧ isLeapYear y = true then 1 else 0)) + (md : Int)
        = t / 86400 ∧
      ¬ ((md : Int) + 1 > days_per_month.getD m 0
        + (if ((m : Int) + 1 = 2 ∧ isLeapYear y = true) then 1 else 0)) := by
  have h1' : t < 2147483648 := by norm_num at h1; exact h1
  have hd0 : 0 ≤ t / 86400 := Int.ediv_nonneg h0 (by norm_num)
  have hd1 : t / 86400 < 24856 := by omega
  obtain ⟨d, hd⟩ : ∃ d : Nat, t / 86400 = (d : Int) := ⟨(t / 86400).toNat, by omega⟩
  obtain ⟨hy1, hy2, hy3⟩ := yearOfDays_spec d 1970 d (le_refl d) (le_refl 1970)
  have hyd : (yearOfDays d 1970 d).2 < 366 := by
    have : yearLength (yearOfDays d 1970 d).1 ≤ 366 := by unfold yearLength; split <;> omega
    omega
  have hyd' : (yearOfDays d 1970 d).2 <
      (if isLeapYear (yearOfDays d 1970 d).1 = true then 366 else 365) := by
    unfold yearLength at hy1; exact hy1
  obtain ⟨hm1, hm2, hm3⟩ := monthOfDays_spec (isLeapYear (yearOfDays d 1970 d).1) _ hyd hyd'
  have hb0 : daysBefore 1970 = 0 := by rw [daysBefore_eq 1970 (le_refl _)]; norm_num
  have hyle : (yearOfDays d 1970 d).1 ≤ 2038 := by
    have hdb := daysBefore_eq (yearOfDays d 1970 d).1 hy2
    rw [hb0] at hy3
    omega
  refine ⟨(yearOfDays d 1970 d).1, (monthOfDays (isLeapYear (yearOfDays d 1970 d).1) 12 0
    (yearOfDays d 1970 d).2).1, (monthOfDays (isLeapYear (yearOfDays d 1970 d).1) 12 0
    (yearOfDays d 1970 d).2).2, hy2, hyle, hm1, ?_, ?_, hm3⟩
  · unfold gmtime_r
    have hneg : ¬ (t / 86400 < 0) := by omega
    simp only [hneg, if_false, zero_mul, add_zero, mul_zero, sub_zero]
    have hdn : (t / 86400).toNat = d := by omega
    rw [hdn]
    have hrange : ¬ (((yearOfDays d 1970 d).1 : Int) - 1900 < - 2 ^ 31 ∨
        ((yearOfDays d 1970 d).1 : Int) - 1900 ≥ 2 ^ 31) := by
      norm_num; omega
    simp only [hrange, if_false]
  · rw [hd]
    rw [hb0] at hy3
    linarith

theorem isLeapYear_tmod (y : Nat) :
    (decide (((y : Int).tmod 4 = 0) ∧ ((y : Int).tmod 100 ≠ 0 ∨ (y : Int).tmod 400 = 0)))
      = isLeapYear y := by
  have h := Int.natCast_nonneg y
  rw [Int.tmod_eq_emod h (by norm_num), Int.tmod_eq_emod h (by norm_num),
    Int.tmod_eq_emod h (by norm_num)]
  have e4 : ((y : Int) % 4 = 0) ↔ (y % 4 = 0) := by omega
  have e100 : ((y : Int) % 100 = 0) ↔ (y % 100 = 0) := by omega
  have e400 : ((y : Int) % 400 = 0) ↔ (y % 400 = 0) := by omega
  unfold isLeapYear
  by_cases h4 : y % 4 = 0 <;> by_cases h100 : y % 100 = 0 <;> by_cases h400 : y % 400 = 0 <;>
    simp [e4, e100, e400, h4, h100, h400]

/-- C2: for every `t` with `0 <= t < 2^31`, `wget_http_parse_full_date` applied
to the string that `wget_http_print_date(t)` writes into a buffer of at least
30 bytes returns `t`. -/
theorem date_round_trip (t : Int) (buf : List Char) (bufsize : Nat)
    (h0 : 0 ≤ t) (h1 : t < 2 ^ 31) (hbuf : 30 ≤ bufsize) :
    wget_http_parse_full_date (wget_http_print_date t buf bufsize) = t := by
  obtain ⟨y, m, md, hy0, hy1, hm, htm, hdays, hvalid⟩ := gmtime_r_spec t h0 h1
  have hrem0 : 0 ≤ t % 86400 := Int.emod_nonneg _ (by norm_num)
  have hrem1 : t % 86400 < 86400 := Int.emod_lt_of_pos _ (by norm_num)
  have hmd : md < 40 := by
    have : days_per_month.getD m 0 ≤ 31 := by
      interval_cases m <;> decide
    split at hvalid <;> omega
  unfold wget_http_print_date
  have hb : ¬ bufsize = 0 := by omega
  simp only [hb, if_false, htm]
  have hscan := sscanf_rfc1123_printed
    { tm_sec := t % 86400 % 60, tm_min := t % 86400 / 60 % 60, tm_hour := t % 86400 / 3600,
      tm_mday := (md : Int) + 1, tm_mon := (m : Int), tm_year := (y : Int) - 1900,
      tm_wday := (t / 86400 + 4) % 7 }
    (by constructor <;> simp only <;> omega) (by constructor <;> simp only <;> omega)
    (by constructor <;> simp only <;> omega) (by constructor <;> simp only <;> omega)
    (by constructor <;> simp only <;> omega) (by constructor <;> simp only <;> omega)
    (by constructor <;> simp only <;> omega)
  simp only at hscan
  have hlen : (dnames.getD ((t / 86400 + 4) % 7).toNat [] ++ ", ".toList ++ fmt_02d ((md : Int) + 1)
      ++ " ".toList ++ mnames.getD (m : Int).toNat [] ++ " ".toList
      ++ fmt_d ((y : Int) - 1900 + 1900) ++ " ".toList ++ fmt_02d (t % 86400 / 3600)
      ++ ":".toList ++ fmt_02d (t % 86400 / 60 % 60) ++ ":".toList
      ++ fmt_02d (t % 86400 % 60) ++ " GMT".toList).length = 29 := by
    simp only [List.length_append, length_dname _ (by omega : (0:Int) ≤ (t / 86400 + 4) % 7) (by omega),
      length_fmt_02d ((md : Int) + 1) (by omega) (by omega),
      length_mname (m : Int) (by omega) (by omega),
      length_fmt_year ((y : Int) - 1900 + 1900) (by omega) (by omega),
      length_fmt_02d (t % 86400 / 3600) (by omega) (by omega),
      length_fmt_02d (t % 86400 / 60 % 60) (by omega) (by omega),
      length_fmt_02d (t % 86400 % 60) (by omega) (by omega)]
    rfl
  rw [List.take_of_length_le (by rw [hlen]; omega)]
  unfold wget_http_parse_full_date
  rw [hscan]
  obtain ⟨_, _, hne, hlook⟩ := scan_mname (m : Int) (by omega) (by omega) []
  have hyy : (y : Int) - 1900 + 1900 = (y : Int) := by ring
  have hidx : ((m : Int) + 1 - 1).toNat = m := by omega
  simp only [HOrElse.hOrElse, OrElse.orElse, Option.orElse, hne, hlook, hyy, hidx, ne_eq,
    not_false_eq_true, if_true]
  have hyA : ¬ ((y : Int) < 70 ∧ (y : Int) ≥ 0) := by omega
  have hyB : ¬ ((y : Int) ≥ 70 ∧ (y : Int) ≤ 99) := by omega
  have hyC : ¬ ((y : Int) < 1970) := by omega
  simp only [hyA, hyB, hyC, if_false, isLeapYear_tmod, decide_eq_true_eq, gt_iff_lt] at hvalid ⊢
  rw [if_neg (by rintro (h | h | h | h | h | h | h | h | h | h) <;> omega)]
  have hd : daysBefore y + (sum_of_days.getD m 0
      + if 2 < (m : Int) + 1 ∧ isLeapYear y = true then 1 else 0) + ((md : Int) + 1 - 1)
      = t / 86400 := by rw [← hdays]; ring
  unfold daysBefore at hd
  rw [hd]
  omega

/-- Witness of C2: `t = 784111777`, Sun, 06 Nov 1994 08:49:37 GMT. -/
theorem date_round_trip_witness :
    wget_http_parse_full_date (wget_http_print_date 784111777 [] 30) = 784111777 :=
  date_round_trip 784111777 [] 30 (by decide) (by decide) (by decide)

/-! ### Reading a response -/

/-- C1 fails on the code: the body `a` is sent as the single chunk
`1 CRLF a CRLF` followed by `0 CRLF CRLF`, and the first read ends between the
CR and the LF behind the chunk data; `wget_http_get_response_cb` passes the two
bytes `a`, CR to the body sink instead of `a`. -/
theorem chunked_split_between_cr_lf :
    connSplitCRLF.tcp.flatten = chunkedHeader ++ chunkEncode ["a".toList] ∧
    (wget_http_get_response_cb envExample false connSplitCRLF none false none).map sinkBytes
      = some "a\r".toList ∧
    (wget_http_get_response_cb envExample false connSplitCRLF none false none).map sinkBytes
      ≠ some "a".toList := by
  decide

/-- C10 fails on the code: for the header line
`WWW-Authenticate: Basic realm="a", Digest realm="a", nonce="n"` the response
returned by `wget_http_parse_response_header` holds one challenge, the Basic
one; `wget_http_parse_challenges` finds both challenges in the same value. -/
theorem www_authenticate_two_challenges :
    (wget_http_parse_response_header envExample headerTwoChallenges).map (·.challenges)
      = some [{ auth_scheme := some "Basic".toList, params := [("realm".toList, "a".toList)] }] ∧
    (wget_http_parse_challenges 3
        " Basic realm=\"a\", Digest realm=\"a\", nonce=\"n\"".toList []).map (·.2)
      = some [{ auth_scheme := some "Basic".toList, params := [("realm".toList, "a".toList)] },
              { auth_scheme := some "Digest".toList,
                params := [("realm".toList, "a".toList), ("nonce".toList, "n".toList)] }] := by
  decide

/-- C8 fails on the code: with `Content-Length: 3`, two body bytes behind
the header and a read that brings `cdef`, six bytes reach the body sink. -/
theorem content_length_surplus :
    (wget_http_get_response_cb envExample false connLength3 none false none).map sinkBytes
      = some "abcdef".toList ∧
    ((wget_http_get_response_cb envExample false connLength3 none false none).map
      fun r => (sinkBytes r).length) ≠ some 3 := by
  decide

/-- C7: when the header block is complete and its response belongs to a
`HEAD` request, or has status 1xx, 204 or 304, or has identity transfer
encoding and a `Content-Length` of 0, `wget_http_get_response_cb` returns
without passing anything to `wget_decompress` (so nothing reaches the body
sink) and without a further call of `wget_tcp_read`: transport and read count
are those at the end of the header loop. -/
theorem no_body_no_sink_no_read (env : Env) (_abort_indicator : Bool) (conn : Connection)
    (req : Option Request) (keepheader : Bool) (header_callback : Option (Response → Bool))
    (buf : List Char) (p bufsize : Nat) (tcp : List (List Char)) (reads : Nat) (resp : Response)
    (hphase : headerLoop (tcpBytes conn.tcp + 1) [] conn.bufsize conn.tcp 0
      = HeaderPhase.found buf p bufsize tcp reads)
    (hparse : wget_http_parse_response_header env (cstr (buf.take p)) = some resp)
    (hno : (∃ r, req = some r ∧ wget_strcasecmp_ascii (some r.method) (some "HEAD".toList) = 0) ∨
      (100 ≤ resp.code ∧ resp.code ≤ 199) ∨ resp.code = 204 ∨ resp.code = 304 ∨
      (resp.transfer_encoding = TransferEncoding.identity ∧ resp.content_length_valid = true ∧
        resp.content_length = 0)) :
    ∃ out, wget_http_get_response_cb env _abort_indicator conn req keepheader header_callback
        = some out ∧
      out.decompressed = [] ∧ sinkBytes out = [] ∧ out.reads = reads ∧ out.tcp = tcp := by
  unfold wget_http_get_response_cb
  simp only [hphase, hparse]
  have hnb : noBody (keepHeader keepheader resp buf p) = noBody resp := by
    cases keepheader <;> simp [noBody, keepHeader]
  have hcond : (callbackStops header_callback (keepHeader keepheader resp buf p) || isHead req
      || noBody (keepHeader keepheader resp buf p)) = true := by
    rw [hnb]
    rcases hno with ⟨r, hr, hm⟩ | h | h | h | ⟨h1, h2, h3⟩
    · subst hr
      have hm' : isHead (some r) = true := by
        simp only [isHead]; exact decide_eq_true hm
      simp [hm']
    · have h1 : resp.code.tdiv 100 = 1 := by
        rw [Int.tdiv_eq_ediv (by omega) (by norm_num)]; omega
      simp [noBody, h1]
    · simp [noBody, h]
    · simp [noBody, h]
    · simp [noBody, h1, h2, h3]
  rw [if_pos hcond]
  exact ⟨_, rfl, rfl, rfl, rfl, rfl⟩

/-- Witness of C7: a 204 response; the byte block behind it stays in the transport. -/
theorem no_body_no_sink_no_read_witness :
    ∃ out, wget_http_get_response_cb envExample false connNoContent none false none = some out ∧
      out.decompressed = [] ∧ sinkBytes out = [] ∧ out.reads = 1 ∧ out.tcp = ["x".toList] :=
  no_body_no_sink_no_read envExample false connNoContent none false none
    "HTTP/1.1 204 No Content\r\nContent-Length: 4\r\n\r\nabcd".toList 42 102400 ["x".toList] 1
    ({ Response.zero with major := 1, minor := 1, code := 204,
                          reason := "No Content".toList,
                          content_length := 4, content_length_valid := true })
    (by decide) (by decide) (by decide)

theorem supplied_length_le (tcp : List (List Char)) : (supplied tcp).length ≤ tcpBytes tcp := by
  induction tcp with
  | nil => simp [supplied, tcpBytes]
  | cons b rest ih =>
    unfold supplied tcpBytes
    unfold tcpBytes at ih
    by_cases hb : b = []
    · simp [hb]
    · simp only [hb, if_false, List.length_append, List.map_cons, List.sum_cons]
      omega

theorem read_supplied (tcp : List (List Char)) (count : Nat) (hc : 0 < count)
    (hs : supplied tcp ≠ []) :
    (wget_tcp_read tcp count).1 ≠ [] ∧
    supplied tcp = (wget_tcp_read tcp count).1 ++ supplied (wget_tcp_read tcp count).2 := by
  cases tcp with
  | nil => simp [supplied] at hs
  | cons b rest =>
    have hb : b ≠ [] := by
      intro h; simp [supplied, h] at hs
    unfold wget_tcp_read
    by_cases hle : b.length ≤ count
    · simp [hle, hb, supplied]
    · have hc0 : ¬ count = 0 := by omega
      have hd : List.drop count b ≠ [] := by
        intro h
        have := congrArg List.length h
        simp at this
        omega
      have ht : List.take count b ≠ [] := by
        intro h
        rcases List.take_eq_nil_iff.mp h with h | h
        · exact hc0 h
        · exact hb h
      simp only [hle, hc0, if_false]
      refine ⟨ht, ?_⟩
      simp only [supplied, hb, hd, if_false]
      rw [← List.append_assoc, List.take_append_drop]

theorem read_nonempty_count (tcp : List (List Char)) (count : Nat)
    (h : (wget_tcp_read tcp count).1 ≠ []) : 0 < count := by
  cases tcp with
  | nil => simp [wget_tcp_read] at h
  | cons b rest =>
    unfold wget_tcp_read at h
    by_cases hle : b.length ≤ count
    · simp only [hle, if_true] at h
      have : b.length ≠ 0 := by
        intro h0; exact h (List.length_eq_zero.mp h0)
      omega
    · by_cases hc0 : count = 0
      · subst hc0
        simp only [if_neg hle, if_true] at h
        exact absurd rfl h
      · omega

theorem headerLoop_found_bufsize : ∀ (fuel : Nat) (buf : List Char) (bufsize : Nat)
    (tcp : List (List Char)) (reads : Nat) (b : List Char) (p bs : Nat) (t : List (List Char))
    (r : Nat), headerLoop fuel buf bufsize tcp reads = HeaderPhase.found b p bs t r → 0 < bs := by
  intro fuel
  induction fuel with
  | zero => intro buf bufsize tcp reads b p bs t r h; simp [headerLoop] at h
  | succ fuel ih =>
    intro buf bufsize tcp reads b p bs t r h
    unfold headerLoop at h
    simp only at h
    split at h
    · simp at h
    · rename_i hne
      have hcount := read_nonempty_count tcp (bufsize - buf.length) hne
      split at h
      · exact ih _ _ _ _ _ _ _ _ _ h
      · split at h
        · simp at h
        · split at h
          · simp only [HeaderPhase.found.injEq] at h
            omega
          · exact ih _ _ _ _ _ _ _ _ _ h

theorem lengthLoop_spec (bufsize n : Nat) (hb : 0 < bufsize) : ∀ (fuel body_len : Nat)
    (tcp : List (List Char)) (reads : Nat) (out : List (List Char)),
    (supplied tcp).length < fuel → n ≤ body_len + (supplied tcp).length →
    ∃ k, k ≤ (supplied tcp).length ∧ n ≤ body_len + k ∧
      (lengthLoop false bufsize n fuel body_len tcp reads out).1.flatten
        = out.flatten ++ (supplied tcp).take k ∧
      (lengthLoop false bufsize n fuel body_len tcp reads out).2.1 = body_len + k := by
  intro fuel
  induction fuel with
  | zero => intro body_len tcp reads out h; omega
  | succ fuel ih =>
    intro body_len tcp reads out hfuel hn
    unfold lengthLoop
    by_cases hlt : body_len < n
    · have hs : supplied tcp ≠ [] := by
        intro h; rw [h] at hn; simp at hn; omega
      obtain ⟨hr1, hr2⟩ := read_supplied tcp bufsize hb hs
      have hlen : (supplied tcp).length
          = (wget_tcp_read tcp bufsize).1.length + (supplied (wget_tcp_read tcp bufsize).2).length := by
        conv_lhs => rw [hr2]
        simp
      have hpos : 0 < (wget_tcp_read tcp bufsize).1.length := List.length_pos.mpr hr1
      obtain ⟨k, hk1, hk2, hk3, hk4⟩ := ih (body_len + (wget_tcp_read tcp bufsize).1.length)
        (wget_tcp_read tcp bufsize).2 (reads + 1) (out ++ [(wget_tcp_read tcp bufsize).1])
        (by omega) (by omega)
      refine ⟨(wget_tcp_read tcp bufsize).1.length + k, by omega, by omega, ?_, ?_⟩
      · simp only [hlt, if_true, hr1, if_false, Bool.false_eq_true]
        rw [hk3]
        conv_rhs => rw [hr2]
        rw [List.take_append]
        simp [List.append_assoc]
      · simp only [hlt, if_true, hr1, if_false, Bool.false_eq_true]
        rw [hk4]; omega
    · refine ⟨0, by omega, by omega, ?_, ?_⟩
      · simp [hlt]
      · simp [hlt]

theorem tdiv_hundred_eq_one (code : Int) : code.tdiv 100 = 1 ↔ (100 ≤ code ∧ code ≤ 199) := by
  by_cases h : 0 ≤ code
  · rw [Int.tdiv_eq_ediv h (by norm_num)]; omega
  · have h1 : code = - (- code) := by omega
    have h2 : (0 : Int) ≤ (- code).tdiv 100 := Int.tdiv_nonneg (by omega) (by norm_num)
    rw [h1, Int.neg_tdiv]
    constructor
    · intro h3; omega
    · intro h3; omega

/-- C8 (amended): for a response that has a body (not a `HEAD` response,
status not 1xx, 204 or 304) with identity transfer encoding and a valid
`Content-Length` `n > 0`, when no abort is requested and the transport supplies
at least `n` body bytes, the bytes that reach the body sink (identity content
encoding) are a prefix of the body stream of some length `m >= n`, which is
also the `content_length` of the returned response: they begin with the first
`n` body bytes, and they are exactly these `n` bytes when the stream holds
exactly `n` body bytes; bytes of a read that lie behind the `n`-th body byte
are delivered as well. -/
theorem identity_known_length (env : Env) (_abort_indicator : Bool) (conn : Connection)
    (req : Option Request) (keepheader : Bool) (header_callback : Option (Response → Bool))
    (buf : List Char) (p bufsize : Nat) (tcp : List (List Char)) (reads : Nat) (resp : Response)
    (hphase : headerLoop (tcpBytes conn.tcp + 1) [] conn.bufsize conn.tcp 0
      = HeaderPhase.found buf p bufsize tcp reads)
    (hparse : wget_http_parse_response_header env (cstr (buf.take p)) = some resp)
    (hstop : callbackStops header_callback (keepHeader keepheader resp buf p) = false)
    (hhead : isHead req = false)
    (hcode : ¬ (100 ≤ resp.code ∧ resp.code ≤ 199) ∧ resp.code ≠ 204 ∧ resp.code ≠ 304)
    (hte : resp.transfer_encoding = TransferEncoding.identity)
    (hvalid : resp.content_length_valid = true) (hpos : 0 < resp.content_length)
    (habort : conn.abort_indicator = false ∧ _abort_indicator = false)
    (hsupplied : resp.content_length ≤ (buf.drop (p + 4) ++ supplied tcp).length) :
    ∃ out m, wget_http_get_response_cb env _abort_indicator conn req keepheader header_callback
        = some out ∧
      resp.content_length ≤ m ∧
      sinkBytes out = (buf.drop (p + 4) ++ supplied tcp).take m ∧
      out.resp.map (·.content_length) = some m ∧
      (sinkBytes out).take resp.content_length
        = (buf.drop (p + 4) ++ supplied tcp).take resp.content_length ∧
      ((buf.drop (p + 4) ++ supplied tcp).length = resp.content_length →
        sinkBytes out = buf.drop (p + 4) ++ supplied tcp) := by
  have hbs : 0 < bufsize := headerLoop_found_bufsize _ _ _ _ _ _ _ _ _ _ hphase
  have hnb : noBody (keepHeader keepheader resp buf p) = false := by
    have h1 : ¬ resp.code.tdiv 100 = 1 := by rw [tdiv_hundred_eq_one]; exact hcode.1
    have h2 : ¬ resp.content_length = 0 := by omega
    cases keepheader <;> simp [noBody, keepHeader, h1, hcode.2.1, hcode.2.2, h2]
  have hte' : (keepHeader keepheader resp buf p).transfer_encoding = TransferEncoding.identity := by
    cases keepheader <;> simp [keepHeader, hte]
  have hvalid' : (keepHeader keepheader resp buf p).content_length_valid = true := by
    cases keepheader <;> simp [keepHeader, hvalid]
  have hcl' : (keepHeader keepheader resp buf p).content_length = resp.content_length := by
    cases keepheader <;> simp [keepHeader]
  obtain ⟨k, hk1, hk2, hk3, hk4⟩ := lengthLoop_spec bufsize resp.content_length hbs
    (tcpBytes tcp + 1) (buf.drop (p + 4)).length tcp reads
    (if (buf.drop (p + 4)).length ≠ 0 then [buf.drop (p + 4)] else [])
    (by have := supplied_length_le tcp; omega)
    (by simpa using hsupplied)
  have hinit : (if (buf.drop (p + 4)).length ≠ 0 then [buf.drop (p + 4)] else []).flatten
      = buf.drop (p + 4) := by
    by_cases h0 : (buf.drop (p + 4)).length = 0
    · simp only [h0, ne_eq, not_true_eq_false, if_false, List.flatten_nil]
      exact (List.length_eq_zero.mp h0).symm
    · rw [if_pos h0]; simp
  have hsink : (lengthLoop false bufsize resp.content_length (tcpBytes tcp + 1)
      (buf.drop (p + 4)).length tcp reads
      (if (buf.drop (p + 4)).length ≠ 0 then [buf.drop (p + 4)] else [])).1.flatten
      = (buf.drop (p + 4) ++ supplied tcp).take ((buf.drop (p + 4)).length + k) := by
    rw [hk3, hinit, List.take_append]
  refine ⟨readBody (conn.abort_indicator || _abort_indicator) bufsize
    (keepHeader keepheader resp buf p) (buf.drop (p + 4)) tcp reads,
    (buf.drop (p + 4)).length + k, ?_, hk2, ?_, ?_, ?_, ?_⟩
  · unfold wget_http_get_response_cb
    simp only [hphase, hparse, hstop, hhead, hnb, Bool.or_self, Bool.false_eq_true, if_false]
  · simp only [readBody, hte', hvalid', hcl', habort.1, habort.2, Bool.or_self, ne_eq,
      not_true_eq_false, if_false, if_true, sinkBytes]
    exact hsink
  · simp only [readBody, hte', hvalid', hcl', habort.1, habort.2, Bool.or_self, ne_eq,
      not_true_eq_false, if_false, if_true, Option.map_some']
    rw [hk4]
  · simp only [readBody, hte', hvalid', hcl', habort.1, habort.2, Bool.or_self, ne_eq,
      not_true_eq_false, if_false, if_true, sinkBytes]
    rw [hsink, List.take_take]
    congr 1
    omega
  · intro hexact
    simp only [readBody, hte', hvalid', hcl', habort.1, habort.2, Bool.or_self, ne_eq,
      not_true_eq_false, if_false, if_true, sinkBytes]
    rw [hsink]
    apply List.take_of_length_le
    omega

/-- Witness of C8 (amended): `Content-Length: 3` and exactly three body bytes in two reads. -/
theorem identity_known_length_witness :
    ∃ out m, wget_http_get_response_cb envExample false connLength3Exact none false none
        = some out ∧
      respLength3.content_length ≤ m ∧
      sinkBytes out = (("HTTP/1.1 200 OK\r\nContent-Length: 3\r\n\r\nab".toList).drop (34 + 4)
        ++ supplied ["c".toList]).take m ∧
      out.resp.map (·.content_length) = some m ∧
      (sinkBytes out).take respLength3.content_length
        = (("HTTP/1.1 200 OK\r\nContent-Length: 3\r\n\r\nab".toList).drop (34 + 4)
          ++ supplied ["c".toList]).take respLength3.content_length ∧
      ((("HTTP/1.1 200 OK\r\nContent-Length: 3\r\n\r\nab".toList).drop (34 + 4)
          ++ supplied ["c".toList]).length = respLength3.content_length →
        sinkBytes out = ("HTTP/1.1 200 OK\r\nContent-Length: 3\r\n\r\nab".toList).drop (34 + 4)
          ++ supplied ["c".toList]) :=
  identity_known_length envExample false connLength3Exact none false none
    "HTTP/1.1 200 OK\r\nContent-Length: 3\r\n\r\nab".toList 34 102400 ["c".toList] 1 respLength3
    (by decide) (by decide) (by decide) (by decide) (by decide) (by decide) (by decide)
    (by decide) (by decide) (by decide)

/-! ### Header folding -/

/-- C9 fails on the code: in the folded field `WWW-Authenticate: Basic realm="a` CRLF SP `b"`
the code turns CR and LF into two spaces and keeps the blank, so the realm is
`a   b`, whereas the header with the fold replaced by one SP has the realm `a b`. -/
theorem header_folding_not_single_space :
    renderHeader "\r\n".toList "HTTP/1.1 401 X".toList [foldedChallenge]
      = "HTTP/1.1 401 X\r\nWWW-Authenticate: Basic realm=\"a\r\n b\"".toList ∧
    "HTTP/1.1 401 X".toList ++ renderFieldsOneSP [foldedChallenge]
      = "HTTP/1.1 401 X\r\nWWW-Authenticate: Basic realm=\"a b\"".toList ∧
    (wget_http_parse_response_header envExample
        (renderHeader "\r\n".toList "HTTP/1.1 401 X".toList [foldedChallenge])).map (·.challenges)
      = some [{ auth_scheme := some "Basic".toList, params := [("realm".toList, "a   b".toList)] }] ∧
    (wget_http_parse_response_header envExample
        ("HTTP/1.1 401 X".toList ++ renderFieldsOneSP [foldedChallenge])).map (·.challenges)
      = some [{ auth_scheme := some "Basic".toList, params := [("realm".toList, "a b".toList)] }] ∧
    wget_http_parse_response_header envExample
        (renderHeader "\r\n".toList "HTTP/1.1 401 X".toList [foldedChallenge])
      ≠ wget_http_parse_response_header envExample
        ("HTTP/1.1 401 X".toList ++ renderFieldsOneSP [foldedChallenge]) := by
  decide

theorem splitLine_no_eol : ∀ (seg : List Char) (prev : Char), '\n' ∉ seg →
    splitLine prev seg = (prev :: seg, none) := by
  intro seg
  induction seg with
  | nil => intro prev _; rfl
  | cons c s ih =>
    intro prev h
    have hc : c ≠ '\n' := fun e => h (by simp [e])
    have hs : '\n' ∉ s := fun e => h (by simp [e])
    simp only [splitLine, hc, if_false, ih c hs]

theorem splitLine_eol : ∀ (seg : List Char) (prev : Char) (y : List Char), '\n' ∉ seg →
    c_isblank (cur y) = false →
    splitLine prev (seg ++ '\r' :: '\n' :: y) = (prev :: seg, some y) := by
  intro seg
  induction seg with
  | nil =>
    intro prev y _ hy
    simp [splitLine, hy]
  | cons c s ih =>
    intro prev y h hy
    have hc : c ≠ '\n' := fun e => h (by simp [e])
    have hs : '\n' ∉ s := fun e => h (by simp [e])
    have e := ih c y hs hy
    rw [List.cons_append, splitLine]
    simp only [hc, if_false, e]

theorem splitLine_fold : ∀ (seg : List Char) (prev : Char) (q : List Char), '\n' ∉ seg →
    c_isblank (cur q) = true →
    splitLine prev (seg ++ '\r' :: '\n' :: q)
      = (prev :: seg ++ ' ' :: (splitLine ' ' q).1, (splitLine ' ' q).2) := by
  intro seg
  induction seg with
  | nil =>
    intro prev q _ hq
    simp [splitLine, hq]
  | cons c s ih =>
    intro prev q h hq
    have hc : c ≠ '\n' := fun e => h (by simp [e])
    have hs : '\n' ∉ s := fun e => h (by simp [e])
    have e := ih c q hs hq
    rw [List.cons_append, splitLine]
    simp only [hc, if_false, e, List.cons_append]

/-- The line splitting on a folded field that ends the header. -/
theorem splitLine_conts_end : ∀ (conts : List (List Char)) (prev : Char) (seg : List Char),
    '\n' ∉ seg → (∀ c ∈ conts, c_isblank (cur c) = true ∧ '\n' ∉ c) →
    splitLine prev (seg ++ (conts.map fun c => '\r' :: '\n' :: c).flatten)
      = (prev :: seg ++ (conts.map fun c => ' ' :: ' ' :: c).flatten, none) := by
  intro conts
  induction conts with
  | nil =>
    intro prev seg hseg _
    simp only [List.map_nil, List.flatten_nil, List.append_nil]
    exact splitLine_no_eol seg prev hseg
  | cons c cs ih =>
    intro prev seg hseg hwf
    obtain ⟨hb, hnl⟩ := hwf c (by simp)
    have hcs : ∀ c' ∈ cs, c_isblank (cur c') = true ∧ '\n' ∉ c' :=
      fun c' h => hwf c' (by simp [h])
    have hq : c_isblank (cur (c ++ (cs.map fun c => '\r' :: '\n' :: c).flatten)) = true := by
      cases c with
      | nil => simp [cur, c_isblank, NUL] at hb
      | cons a t => simpa [cur] using hb
    simp only [List.map_cons, List.flatten_cons, List.cons_append]
    rw [splitLine_fold seg prev _ hseg hq, ih ' ' c hnl hcs]
    simp

/-- The line splitting on a folded field that is followed by a further line. -/
theorem splitLine_conts_eol : ∀ (conts : List (List Char)) (prev : Char) (seg y : List Char),
    '\n' ∉ seg → (∀ c ∈ conts, c_isblank (cur c) = true ∧ '\n' ∉ c) →
    c_isblank (cur y) = false →
    splitLine prev (seg ++ ((conts.map fun c => '\r' :: '\n' :: c).flatten ++ '\r' :: '\n' :: y))
      = (prev :: seg ++ (conts.map fun c => ' ' :: ' ' :: c).flatten, some y) := by
  intro conts
  induction conts with
  | nil =>
    intro prev seg y hseg _ hy
    simp only [List.map_nil, List.flatten_nil, List.append_nil, List.nil_append]
    exact splitLine_eol seg prev y hseg hy
  | cons c cs ih =>
    intro prev seg y hseg hwf hy
    obtain ⟨hb, hnl⟩ := hwf c (by simp)
    have hcs : ∀ c' ∈ cs, c_isblank (cur c') = true ∧ '\n' ∉ c' :=
      fun c' h => hwf c' (by simp [h])
    have hq : c_isblank (cur (c ++ ((cs.map fun c => '\r' :: '\n' :: c).flatten
        ++ '\r' :: '\n' :: y))) = true := by
      cases c with
      | nil => simp [cur, c_isblank, NUL] at hb
      | cons a t => simpa [cur] using hb
    simp only [List.map_cons, List.flatten_cons, List.cons_append, List.append_assoc]
    rw [splitLine_fold seg prev _ hseg hq, ih ' ' c y hnl hcs hy]
    simp

theorem conts_spaces_no_lf : ∀ (conts : List (List Char)),
    (∀ c ∈ conts, c_isblank (cur c) = true ∧ '\n' ∉ c) →
    '\n' ∉ (conts.map fun c => ' ' :: ' ' :: c).flatten := by
  intro conts
  induction conts with
  | nil => intro _; simp
  | cons c cs ih =>
    intro hwf
    have h1 := (hwf c (by simp)).2
    have h2 := ih (fun c' h => hwf c' (by simp [h]))
    simp only [List.map_cons, List.flatten_cons, List.cons_append, List.mem_cons,
      List.mem_append, not_or]
    exact ⟨by decide, by decide, h1, h2⟩

theorem renderField_crlf (f : FoldedField) :
    renderField ['\r', '\n'] f = f.first ++ (f.conts.map fun c => '\r' :: '\n' :: c).flatten := rfl

theorem renderField_spaces (f : FoldedField) :
    renderField [' ', ' '] f = f.first ++ (f.conts.map fun c => ' ' :: ' ' :: c).flatten := rfl

theorem cur_renderField_append (sep : List Char) (f : FoldedField) (hf : f.wellFormed)
    (rest : List Char) : c_isblank (cur (renderField sep f ++ rest)) = false := by
  obtain ⟨h1, h2, _, _⟩ := hf
  unfold renderField
  cases hfirst : f.first with
  | nil => exact absurd hfirst h1
  | cons a t => rw [hfirst] at h2; simpa [cur] using h2

/-- The line loop gives the same response on the folded fields and on the
fields in which CR and LF of every fold are spaces. -/
theorem headerLines_folded (env : Env) : ∀ (fs : List FoldedField) (f : FoldedField),
    f.wellFormed → (∀ g ∈ fs, g.wellFormed) → ∀ (fuel : Nat) (resp : Response),
    headerLines env fuel resp (some (renderField ['\r', '\n'] f ++ renderFields ['\r', '\n'] fs))
      = headerLines env fuel resp (some (renderField [' ', ' '] f ++ renderFields [' ', ' '] fs)) := by
  intro fs
  induction fs with
  | nil =>
    intro f hf _ fuel resp
    obtain ⟨h1, h2, h3, h4⟩ := hf
    simp only [renderFields, List.append_nil, renderField_crlf, renderField_spaces]
    cases fuel with
    | zero => rfl
    | succ fuel =>
      cases hfirst : f.first with
      | nil => exact absurd hfirst h1
      | cons a t =>
        rw [hfirst] at h3
        have ht : '\n' ∉ t := fun e => h3 (by simp [e])
        simp only [List.cons_append]
        simp only [headerLines]
        rw [splitLine_conts_end f.conts a t ht h4]
        have hno : '\n' ∉ t ++ (f.conts.map fun c => ' ' :: ' ' :: c).flatten := by
          simp only [List.mem_append, not_or]
          exact ⟨ht, conts_spaces_no_lf f.conts h4⟩
        rw [splitLine_no_eol _ a hno]
        simp
  | cons f2 fs ih =>
    intro f hf hfs fuel resp
    have hf2 : f2.wellFormed := hfs f2 (by simp)
    have hfs' : ∀ g ∈ fs, g.wellFormed := fun g h => hfs g (by simp [h])
    obtain ⟨h1, h2, h3, h4⟩ := hf
    cases fuel with
    | zero => rfl
    | succ fuel =>
      have hy1 := cur_renderField_append ['\r', '\n'] f2 hf2 (renderFields ['\r', '\n'] fs)
      have hy2 := cur_renderField_append [' ', ' '] f2 hf2 (renderFields [' ', ' '] fs)
      simp only [renderFields, renderField_crlf f, renderField_spaces f]
      cases hfirst : f.first with
      | nil => exact absurd hfirst h1
      | cons a t =>
        rw [hfirst] at h3
        have ht : '\n' ∉ t := fun e => h3 (by simp [e])
        simp only [List.cons_append, List.append_assoc]
        simp only [headerLines]
        rw [splitLine_conts_eol f.conts a t _ ht h4 hy1]
        have hno : '\n' ∉ t ++ (f.conts.map fun c => ' ' :: ' ' :: c).flatten := by
          simp only [List.mem_append, not_or]
          exact ⟨ht, conts_spaces_no_lf f.conts h4⟩
        rw [← List.append_assoc, splitLine_eol _ a _ hno hy2]
        simp only [List.cons_append]
        rw [ih f2 hf2 hfs' fuel]

theorem skipSpace_append : ∀ (a T : List Char), skipSpace a ≠ [] →
    skipSpace (a ++ T) = skipSpace a ++ T := by
  intro a
  induction a with
  | nil => intro T h; simp [skipSpace] at h
  | cons c s ih =>
    intro T h
    rw [List.cons_append]
    by_cases hc : c_isspace c = true
    · simp only [skipSpace, hc, if_true] at h ⊢
      exact ih T h
    · simp only [skipSpace, hc, if_false, List.cons_append, Bool.false_eq_true]

theorem matchChar_append (c : Char) (a a' T : List Char) (h : matchChar c a = some a') :
    matchChar c (a ++ T) = some (a' ++ T) := by
  cases a with
  | nil => simp [matchChar] at h
  | cons d s =>
    rw [List.cons_append]
    simp only [matchChar] at h ⊢
    split at h
    · rename_i hd
      simp only [Option.some.injEq] at h
      simp [hd, h]
    · simp at h

theorem matchChars_append : ∀ (cs a a' T : List Char), matchChars cs a = some a' →
    matchChars cs (a ++ T) = some (a' ++ T) := by
  intro cs
  induction cs with
  | nil => intro a a' T h; simp only [matchChars, Option.some.injEq] at h ⊢; rw [h]
  | cons c cs ih =>
    intro a a' T h
    simp only [matchChars] at h ⊢
    cases hm : matchChar c a with
    | none => rw [hm] at h; simp at h
    | some t =>
      rw [hm] at h
      rw [matchChar_append c a t T hm]
      exact ih t a' T h

theorem takeWhileN_append (p : Char → Bool) : ∀ (w : Nat) (a T : List Char),
    (takeWhileN p w a).2 ≠ [] →
    takeWhileN p w (a ++ T) = ((takeWhileN p w a).1, (takeWhileN p w a).2 ++ T) := by
  intro w
  induction w with
  | zero => intro a T _; simp [takeWhileN]
  | succ w ih =>
    intro a T h
    cases a with
    | nil => simp [takeWhileN] at h
    | cons c s =>
      rw [List.cons_append]
      by_cases hc : p c = true
      · simp only [takeWhileN, hc, if_true] at h ⊢
        rw [ih s T h]
      · simp only [takeWhileN, hc, if_false, List.cons_append, Bool.false_eq_true]

theorem scanInt_append (w : Nat) (a a' T : List Char) (v : Int)
    (h : scanInt w a = some (v, a')) (hne : a' ≠ []) :
    scanInt w (a ++ T) = some (v, a' ++ T) := by
  unfold scanInt at h ⊢
  cases hs : skipSpace a with
  | nil => rw [hs] at h; simp at h
  | cons c t =>
    rw [hs] at h
    rw [skipSpace_append a T (by rw [hs]; simp), hs, List.cons_append]
    simp only at h ⊢
    by_cases hsg : (c == '-' || c == '+') = true
    · simp only [hsg, if_true] at h ⊢
      split at h
      · simp at h
      · rename_i hr
        simp only [Option.some.injEq, Prod.mk.injEq] at h
        have h2 : (takeWhileN c_isdigit (w - 1) t).2 ≠ [] := by rw [h.2]; exact hne
        rw [takeWhileN_append c_isdigit (w - 1) t T h2]
        simp only [hr, if_false]
        rw [h.1, h.2]
    · simp only [hsg, if_false, Bool.false_eq_true] at h ⊢
      split at h
      · simp at h
      · rename_i hr
        simp only [Option.some.injEq, Prod.mk.injEq] at h
        have h2 : (takeWhileN c_isdigit w (c :: t)).2 ≠ [] := by rw [h.2]; exact hne
        rw [← List.cons_append, takeWhileN_append c_isdigit w (c :: t) T h2]
        simp only [hr, if_false]
        rw [h.1, h.2]

theorem takeWhileN_reason : ∀ (w : Nat) (s R : List Char),
    (takeWhileN (fun c => c != '\r' && c != '\n') w (s ++ '\r' :: R)).1
      = (takeWhileN (fun c => c != '\r' && c != '\n') w s).1 := by
  intro w
  induction w with
  | zero => intro s R; simp [takeWhileN]
  | succ w ih =>
    intro s R
    cases s with
    | nil => simp [takeWhileN]
    | cons c s =>
      rw [List.cons_append]
      by_cases hc : (c != '\r' && c != '\n') = true
      · simp only [takeWhileN, hc, if_true, ih s R]
      · simp only [takeWhileN, hc, if_false, Bool.false_eq_true]

/-- A status line whose scan reaches a reason phrase is scanned the same way
whatever follows its CR. -/
theorem sscanf_status_append (status R : List Char) (r : Int × Int × Int × List Char)
    (h : sscanf_status status = some r) (hre : r.2.2.2 ≠ []) :
    sscanf_status (status ++ '\r' :: R) = some r := by
  unfold sscanf_status at h ⊢
  simp only [Option.bind_eq_bind, Option.bind_eq_some, Option.pure_def, Option.some.injEq] at h
  obtain ⟨s1, h1, ⟨major, s2⟩, h2, s3, h3, ⟨minor, s4⟩, h4, ⟨code, s6⟩, h6, hr⟩ := h
  simp only at h3 h4 h6 hr
  subst hr
  simp only at hre
  -- every intermediate rest is non-empty
  have n7 : skipSpace s6 ≠ [] := by
    intro e; rw [e] at hre; cases hre rfl
  have n6 : s6 ≠ [] := by
    intro e; rw [e] at n7; exact n7 rfl
  have n5 : skipSpace s4 ≠ [] := by
    intro e; rw [e] at h6; simp [scanInt, skipSpace] at h6
  have n4 : s4 ≠ [] := by
    intro e; rw [e] at n5; exact n5 rfl
  have n2 : s2 ≠ [] := by
    intro e; rw [e] at h3; simp [matchChar] at h3
  have n0 : skipSpace status ≠ [] := by
    intro e; rw [e] at h1; simp [matchChars, matchChar] at h1
  simp only [Option.bind_eq_bind, Option.pure_def]
  rw [skipSpace_append status _ n0, matchChars_append _ _ _ _ h1]
  simp only [Option.some_bind]
  rw [scanInt_append 3 s1 s2 _ major h2 n2]
  simp only [Option.some_bind]
  rw [matchChar_append '.' s2 s3 _ h3]
  simp only [Option.some_bind]
  rw [scanInt_append 3 s3 s4 _ minor h4 n4]
  simp only [Option.some_bind]
  rw [skipSpace_append s4 _ n5, scanInt_append 3 (skipSpace s4) s6 _ code h6 n6]
  simp only [Option.some_bind]
  rw [skipSpace_append s6 _ n7, takeWhileN_reason]

theorem strchr_lf_status : ∀ (s L : List Char), '\n' ∉ s →
    strchr '\n' (s ++ '\r' :: '\n' :: L) = some ('\n' :: L) := by
  intro s
  induction s with
  | nil => intro L _; simp [strchr]
  | cons c s ih =>
    intro L h
    have hc : c ≠ '\n' := fun e => h (by simp [e])
    have hs : '\n' ∉ s := fun e => h (by simp [e])
    rw [List.cons_append]
    simp only [strchr, hc, if_false]
    exact ih L hs

theorem renderFields_length : ∀ (fs : List FoldedField),
    (renderFields ['\r', '\n'] fs).length = (renderFields [' ', ' '] fs).length := by
  intro fs
  induction fs with
  | nil => rfl
  | cons f fs ih =>
    have hf : (renderField ['\r', '\n'] f).length = (renderField [' ', ' '] f).length := by
      simp only [renderField, List.length_append, List.length_flatten, List.map_map]
      congr 2
    simp only [renderFields, List.length_cons, List.length_append, ih, hf]

/-- C9 (amended): for every header block with a complete status line
(no LF in it, a reason phrase on it) and well-formed folded fields,
`wget_http_parse_response_header` returns the response it returns for the same
header with the CR and the LF of every fold each replaced by one SP, the
blanks of the continuation line kept: a folded field is read as one logical
line in which the fold has become two spaces. -/
theorem header_folding_two_spaces (env : Env) (status : List Char) (fields : List FoldedField)
    (hlen : 10 ≤ status.length) (hlf : '\n' ∉ status)
    (hstatus : ∃ r, sscanf_status status = some r ∧ r.2.2.2 ≠ [])
    (hwf : ∀ f ∈ fields, f.wellFormed) :
    wget_http_parse_response_header env (renderHeader "\r\n".toList status fields)
      = wget_http_parse_response_header env (renderHeader "  ".toList status fields) := by
  have e1 : "\r\n".toList = ['\r', '\n'] := rfl
  have e2 : "  ".toList = [' ', ' '] := rfl
  rw [e1, e2]
  cases fields with
  | nil => rfl
  | cons f fs =>
    obtain ⟨r, hr, hre⟩ := hstatus
    have hf : f.wellFormed := hwf f (by simp)
    have hfs : ∀ g ∈ fs, g.wellFormed := fun g h => hwf g (by simp [h])
    have hlenEq : (renderHeader ['\r', '\n'] status (f :: fs)).length
        = (renderHeader [' ', ' '] status (f :: fs)).length := by
      simp only [renderHeader, List.length_append, renderFields_length]
    unfold wget_http_parse_response_header
    rw [hlenEq]
    simp only [renderHeader, renderFields]
    rw [sscanf_status_append status _ r hr hre, sscanf_status_append status _ r hr hre]
    have hdrop : ∀ L : List Char, (status ++ '\r' :: '\n' :: L).drop 10
        = status.drop 10 ++ '\r' :: '\n' :: L := by
      intro L
      rw [List.drop_append_of_le_length hlen]
    have hlf' : '\n' ∉ status.drop 10 := fun e => hlf (List.mem_of_mem_drop e)
    simp only [hdrop, strchr_lf_status _ _ hlf', adv]
    rw [headerLines_folded env fs f hf hfs]

/-- Witness of C9 (amended): the folded `WWW-Authenticate` field. -/
theorem header_folding_two_spaces_witness :
    wget_http_parse_response_header envExample
        (renderHeader "\r\n".toList "HTTP/1.1 401 X".toList [foldedChallenge])
      = wget_http_parse_response_header envExample
        (renderHeader "  ".toList "HTTP/1.1 401 X".toList [foldedChallenge]) :=
  header_folding_two_spaces envExample "HTTP/1.1 401 X".toList [foldedChallenge]
    (by decide) (by decide) ⟨(1, 1, 401, "X".toList), by decide, by decide⟩
    (by
      intro f hf
      simp only [List.mem_singleton] at hf
      subst hf
      unfold FoldedField.wellFormed
      decide)

/-! ### Exit status, challenge selection, patterns -/

/-- C11 (`http_get`): the selection loop tests `wget_strcasecmp_ascii(...)`
for being non-zero, i.e. for a scheme that differs. For the challenges of a
`Basic` and a `Digest` header line, in either order, the selected challenge is
the `Basic` one, not a `Digest` challenge as the comment `Prefer 'Digest' over
'Basic'` and the specification say; a lone `Digest` challenge is selected by
the branch written for `basic`. The last two parts run `http_get` against a
server that answers 401 with the two challenges: the second request is made
with the `Basic` challenge. -/
theorem strongest_scheme_selection :
    selected_challenge [challengeBasic, challengeDigest] none = some challengeBasic ∧
    selected_challenge [challengeDigest, challengeBasic] none = some challengeBasic ∧
    selected_challenge [challengeDigest] none = some challengeDigest ∧
    wget_strcasecmp_ascii challengeBasic.auth_scheme (some "digest".toList) ≠ 0 ∧
    (http_get (libExample (netUnauthorized [challengeBasic, challengeDigest]) [] [])
        (cfgWorker false false false 0 0) worldStart (some (jobExample 0 0))
        (jobExample 0 0).iri false none).map (fun r => r.w.trace) =
      some [Event.request "GET".toList none,
            Event.request "GET".toList (some challengeBasic)] ∧
    (http_get (libExample (netUnauthorized [challengeDigest, challengeBasic]) [] [])
        (cfgWorker false false false 0 0) worldStart (some (jobExample 0 0))
        (jobExample 0 0).iri false none).map (fun r => r.w.trace) =
      some [Event.request "GET".toList none,
            Event.request "GET".toList (some challengeBasic)] := by
  decide

/-- C12 (`wget_http_parse_content_disposition`): for the value
`attachment; filename="a/b/c.txt"` the extracted file name is `b/c.txt`, the
text behind the first separator (`strpbrk`), which still holds a `/`; the
last path segment is `c.txt`. -/
theorem content_disposition_first_separator :
    (wget_http_parse_content_disposition envExample
      "attachment; filename=\"a/b/c.txt\"".toList).2 = some "b/c.txt".toList ∧
    '/' ∈ "b/c.txt".toList := by
  decide

theorem strcmp_eq_zero_iff (a b : List Char) (ha : NUL ∉ a) (hb : NUL ∉ b) :
    strcmp a b = 0 ↔ a = b := by
  have hz : ∀ c : Char, c ≠ NUL → (c.toNat : Int) ≠ 0 := by
    intro c hc h
    apply hc
    have : c.toNat = 0 := by exact_mod_cast h
    rw [← Char.ofNat_toNat c, this]; rfl
  induction a generalizing b with
  | nil =>
    cases b with
    | nil => simp [strcmp]
    | cons c t =>
      have hc : c ≠ NUL := fun h => hb (by simp [h])
      simp [strcmp, hz c hc]
  | cons x s ih =>
    cases b with
    | nil =>
      have hx : x ≠ NUL := fun h => ha (by simp [h])
      simp [strcmp, hz x hx]
    | cons c t =>
      have hs : NUL ∉ s := fun h => ha (List.mem_cons_of_mem _ h)
      have ht : NUL ∉ t := fun h => hb (List.mem_cons_of_mem _ h)
      by_cases hxc : x = c
      · subst hxc
        simp [strcmp, ih t hs ht]
      · have hne : (x.toNat : Int) - (c.toNat : Int) ≠ 0 := by
          intro h
          apply hxc
          have : x.toNat = c.toNat := by omega
          rw [← Char.ofNat_toNat x, this, Char.ofNat_toNat]
        simp [strcmp, hxc, hne]

theorem c_tolower_ne_nul (c : Char) (hc : c ≠ NUL) : c_tolower c ≠ NUL := by
  unfold c_tolower
  split
  · rename_i h
    have hA : 'A'.toNat = 65 := by decide
    have hZ : 'Z'.toNat = 90 := by decide
    rw [hA, hZ] at h
    obtain ⟨h1, h2⟩ := h
    generalize c.toNat = n at h1 h2
    unfold NUL
    interval_cases n <;> decide
  · exact hc

theorem c_strcasecmp_eq_zero_iff (a b : List Char) (ha : NUL ∉ a) (hb : NUL ∉ b) :
    c_strcasecmp a b = 0 ↔ a.map c_tolower = b.map c_tolower := by
  have hz : ∀ c : Char, c ≠ NUL → ((c_tolower c).toNat : Int) ≠ 0 := by
    intro c hc h
    apply c_tolower_ne_nul c hc
    have : (c_tolower c).toNat = 0 := by exact_mod_cast h
    rw [← Char.ofNat_toNat (c_tolower c), this]; rfl
  induction a generalizing b with
  | nil =>
    cases b with
    | nil => simp [c_strcasecmp]
    | cons c t =>
      have hc : c ≠ NUL := fun h => hb (by simp [h])
      simp [c_strcasecmp, hz c hc]
  | cons x s ih =>
    cases b with
    | nil =>
      have hx : x ≠ NUL := fun h => ha (by simp [h])
      simp [c_strcasecmp, hz x hx]
    | cons c t =>
      have hs : NUL ∉ s := fun h => ha (List.mem_cons_of_mem _ h)
      have ht : NUL ∉ t := fun h => hb (List.mem_cons_of_mem _ h)
      by_cases hxc : c_tolower x = c_tolower c
      · simp [c_strcasecmp, hxc, ih t hs ht]
      · have hne : ((c_tolower x).toNat : Int) - ((c_tolower c).toNat : Int) ≠ 0 := by
          intro h
          apply hxc
          have : (c_tolower x).toNat = (c_tolower c).toNat := by omega
          rw [← Char.ofNat_toNat (c_tolower x), this, Char.ofNat_toNat]
        simp [c_strcasecmp, hxc, hne]

theorem wget_match_tail_iff (s tail : List Char) (hs : NUL ∉ s) (ht : NUL ∉ tail) :
    wget_match_tail s tail = true ↔ tail <:+ s := by
  unfold wget_match_tail
  have hd : NUL ∉ s.drop (s.length - tail.length) := fun h => hs (List.mem_of_mem_drop h)
  simp only [Bool.and_eq_true, decide_eq_true_eq, strcmp_eq_zero_iff _ _ hd ht]
  constructor
  · rintro ⟨_, h⟩
    rw [← h]
    exact List.drop_suffix _ _
  · intro h
    exact ⟨h.length_le, (List.suffix_iff_eq_drop.mp h).symm⟩

theorem wget_match_tail_nocase_iff (s tail : List Char) (hs : NUL ∉ s) (ht : NUL ∉ tail) :
    wget_match_tail_nocase s tail = true ↔
      ∃ pre suf, s = pre ++ suf ∧ suf.map c_tolower = tail.map c_tolower := by
  unfold wget_match_tail_nocase wget_strcasecmp_ascii
  have hd : NUL ∉ s.drop (s.length - tail.length) := fun h => hs (List.mem_of_mem_drop h)
  simp only [Bool.and_eq_true, decide_eq_true_eq, c_strcasecmp_eq_zero_iff _ _ hd ht]
  constructor
  · rintro ⟨_, h⟩
    exact ⟨s.take (s.length - tail.length), s.drop (s.length - tail.length),
      (List.take_append_drop _ _).symm, h⟩
  · rintro ⟨pre, suf, rfl, h⟩
    have hl : suf.length = tail.length := by
      have := congrArg List.length h
      simpa using this
    refine ⟨by simp [hl], ?_⟩
    have : (pre ++ suf).length - tail.length = pre.length := by simp [hl]
    rw [this, List.drop_left]
    exact h

/-- C13 (`in_pattern_list`, `wget_match_tail`, `wget_match_tail_nocase`): for
C strings (no NUL byte inside), `in_pattern_list(v, u)` returns 1 iff some
pattern of `v` matches `u`, where a pattern with one of `* ? [ ]` matches when
`fnmatch` says so (called with `FNM_CASEFOLD` iff ignore-case is on) and any
other pattern matches when it is a suffix of `u`, byte-exactly with
ignore-case off and up to ASCII case with ignore-case on. -/
theorem in_pattern_list_suffix (fnmatch : List Char → List Char → Bool → Bool) (config : Config)
    (v : List (List Char)) (u : List Char) (hu : NUL ∉ u) (hv : ∀ p ∈ v, NUL ∉ p) :
    in_pattern_list fnmatch config v u = true ↔
      ∃ p ∈ v, if (∃ c ∈ p, c ∈ ['*', '?', '[', ']']) then fnmatch p u config.ignore_case = true
        else suffixMatch config.ignore_case p u := by
  have hw : ∀ p : List Char, strpbrk_found p "*?[]".toList = true ↔
      ∃ c ∈ p, c ∈ ['*', '?', '[', ']'] := by
    intro p
    unfold strpbrk_found
    simp [List.any_eq_true]
  induction v with
  | nil => simp [in_pattern_list]
  | cons p v ih =>
    have ih2 := ih (fun q hq => hv q (List.mem_cons_of_mem _ hq))
    have hp : NUL ∉ p := hv p (List.mem_cons_self _ _)
    rw [in_pattern_list, List.exists_mem_cons_iff]
    by_cases hg : strpbrk_found p "*?[]".toList = true
    · have hg2 := (hw p).mp hg
      rw [if_pos hg, if_pos hg2]
      by_cases hf : fnmatch p u config.ignore_case = true
      · simp [hf]
      · rw [if_neg hf]
        exact ih2.trans ⟨Or.inr, fun h => h.resolve_left hf⟩
    · have hg2 : ¬ ∃ c ∈ p, c ∈ ['*', '?', '[', ']'] := fun h => hg ((hw p).mpr h)
      rw [if_neg hg, if_neg hg2]
      by_cases hi : config.ignore_case = true
      · rw [if_pos hi]
        have hm := wget_match_tail_nocase_iff u p hu hp
        by_cases hmt : wget_match_tail_nocase u p = true
        · rw [if_pos hmt]
          simp only [true_iff]
          exact Or.inl (by unfold suffixMatch; rw [if_pos hi]; exact hm.mp hmt)
        · rw [if_neg hmt]
          have : ¬ suffixMatch config.ignore_case p u := by
            unfold suffixMatch; rw [if_pos hi]; exact fun h => hmt (hm.mpr h)
          exact ih2.trans ⟨Or.inr, fun h => h.resolve_left this⟩
      · rw [if_neg hi]
        have hm := wget_match_tail_iff u p hu hp
        by_cases hmt : wget_match_tail u p = true
        · rw [if_pos hmt]
          simp only [true_iff]
          exact Or.inl (by unfold suffixMatch; rw [if_neg hi]; exact hm.mp hmt)
        · rw [if_neg hmt]
          have : ¬ suffixMatch config.ignore_case p u := by
            unfold suffixMatch; rw [if_neg hi]; exact fun h => hmt (hm.mpr h)
          exact ih2.trans ⟨Or.inr, fun h => h.resolve_left this⟩

/-- C13, at the names of `test--accept.c`: with the pattern `.jpeg`,
`picture_B.JpeG` is matched with ignore-case on, and the general statement
applies to it. -/
theorem in_pattern_list_suffix_witness :
    (in_pattern_list (fun _ _ _ => false) (cfgAccept true) [".jpeg".toList]
        "picture_B.JpeG".toList = true ↔
      ∃ p ∈ [".jpeg".toList], if (∃ c ∈ p, c ∈ ['*', '?', '[', ']'])
        then (fun _ _ _ => false) p "picture_B.JpeG".toList (cfgAccept true).ignore_case = true
        else suffixMatch (cfgAccept true).ignore_case p "picture_B.JpeG".toList) ∧
    in_pattern_list (fun _ _ _ => false) (cfgAccept true) [".jpeg".toList]
      "picture_B.JpeG".toList = true ∧
    in_pattern_list (fun _ _ _ => false) (cfgAccept false) [".jpeg".toList]
      "picture_B.JpeG".toList = false ∧
    (∀ ic, in_pattern_list (fun _ _ _ => false) (cfgAccept ic) [".jpeg".toList]
      "picture_a.jpeg".toList = true) ∧
    (∀ ic, in_pattern_list (fun _ _ _ => false) (cfgAccept ic) [".jpeg".toList]
      "picture_A.jpeg".toList = true) ∧
    (∀ ic, in_pattern_list (fun _ _ _ => false) (cfgAccept ic) [".jpeg".toList]
      "picture_c.png".toList = false) ∧
    (∀ ic, in_pattern_list (fun _ _ _ => false) (cfgAccept ic) [".jpeg".toList]
      "index.html".toList = false) :=
  ⟨in_pattern_list_suffix (fun _ _ _ => false) (cfgAccept true) [".jpeg".toList]
      "picture_B.JpeG".toList (by decide) (by decide),
    by decide, by decide, by decide, by decide, by decide, by decide⟩

theorem set_exit_status_foldl (cs : List Int) (hpos : ∀ c ∈ cs, 0 < c) (e : Int) (he : 0 < e) :
    0 < cs.foldl set_exit_status e ∧ cs.foldl set_exit_status e ≤ e ∧
    (∀ c ∈ cs, cs.foldl set_exit_status e ≤ c) ∧
    (cs.foldl set_exit_status e = e ∨ cs.foldl set_exit_status e ∈ cs) := by
  induction cs generalizing e with
  | nil => simp [he]
  | cons c cs ih =>
    have hc : 0 < c := hpos c (List.mem_cons_self _ _)
    have hcs : ∀ x ∈ cs, 0 < x := fun x hx => hpos x (List.mem_cons_of_mem _ hx)
    simp only [List.foldl_cons]
    have hstep : set_exit_status e c = min c e := by
      unfold set_exit_status
      rw [if_pos (by omega)]
      split
      · rw [min_eq_left (by omega)]
      · rw [min_eq_right (by omega)]
    rw [hstep]
    obtain ⟨h1, h2, h3, h4⟩ := ih hcs (min c e) (by simp [hc, he])
    refine ⟨h1, le_trans h2 (min_le_right _ _), ?_, ?_⟩
    · intro x hx
      rcases List.mem_cons.mp hx with rfl | hx
      · exact le_trans h2 (min_le_left _ _)
      · exact h3 x hx
    · rcases h4 with h | h
      · rcases min_choice c e with hm | hm
        · right; rw [h, hm]; exact List.mem_cons_self _ _
        · left; rw [h, hm]
      · right; exact List.mem_cons_of_mem _ h

/-- C14 (`set_exit_status`): starting from exit status 0, after a non-empty
sequence of calls with positive codes the exit status is the least of the
codes (one of them, and not above any of them), and every reordering of the
calls ends in the same exit status. -/
theorem exit_status_is_lowest (cs : List Int) (hne : cs ≠ []) (hpos : ∀ c ∈ cs, 0 < c) :
    cs.foldl set_exit_status 0 ∈ cs ∧ (∀ c ∈ cs, cs.foldl set_exit_status 0 ≤ c) ∧
    ∀ cs2 : List Int, cs2.Perm cs → cs2.foldl set_exit_status 0 = cs.foldl set_exit_status 0 := by
  have key : ∀ l : List Int, l ≠ [] → (∀ c ∈ l, 0 < c) →
      l.foldl set_exit_status 0 ∈ l ∧ ∀ c ∈ l, l.foldl set_exit_status 0 ≤ c := by
    intro l hl hp
    cases l with
    | nil => exact absurd rfl hl
    | cons c l =>
      have hc : 0 < c := hp c (List.mem_cons_self _ _)
      have hl2 : ∀ x ∈ l, 0 < x := fun x hx => hp x (List.mem_cons_of_mem _ hx)
      have h0 : set_exit_status 0 c = c := by simp [set_exit_status]
      simp only [List.foldl_cons, h0]
      obtain ⟨_, h2, h3, h4⟩ := set_exit_status_foldl l hl2 c hc
      refine ⟨?_, ?_⟩
      · rcases h4 with h | h
        · rw [h]; exact List.mem_cons_self _ _
        · exact List.mem_cons_of_mem _ h
      · intro x hx
        rcases List.mem_cons.mp hx with rfl | hx
        · exact h2
        · exact h3 x hx
  obtain ⟨hm, hle⟩ := key cs hne hpos
  refine ⟨hm, hle, ?_⟩
  intro cs2 hperm
  have hne2 : cs2 ≠ [] := by
    intro h
    rw [h] at hperm
    exact hne (List.Perm.eq_nil hperm.symm)
  obtain ⟨hm2, hle2⟩ := key cs2 hne2 (fun c hc => hpos c (hperm.subset hc))
  exact le_antisymm (hle2 _ (hperm.symm.subset hm)) (hle _ (hperm.subset hm2))

/-- C14 at the calls 8, 3, 5: the exit status is 3, in every order. -/
theorem exit_status_is_lowest_witness :
    [8, 3, 5].foldl set_exit_status 0 = 3 ∧
    ([8, 3, 5].foldl set_exit_status 0 ∈ ([8, 3, 5] : List Int) ∧
      (∀ c ∈ ([8, 3, 5] : List Int), [8, 3, 5].foldl set_exit_status 0 ≤ c) ∧
      ∀ cs2 : List Int, cs2.Perm [8, 3, 5] →
        cs2.foldl set_exit_status 0 = [8, 3, 5].foldl set_exit_status 0) :=
  ⟨by decide, exit_status_is_lowest [8, 3, 5] (by decide) (by decide)⟩

/-! ### `add_url` -/

theorem withSitemap_levels (flags : Nat) (a : Job) :
    (withSitemap flags a).level = a.level ∧
    (withSitemap flags a).redirection_level = a.redirection_level := by
  unfold withSitemap
  split <;> exact ⟨rfl, rfl⟩

theorem withLocalFilename_levels (lib : Lib) (config : WorkerConfig) (job : Option Job)
    (flags : Nat) (a : Job) :
    (withLocalFilename lib config job flags a).level = a.level ∧
    (withLocalFilename lib config job flags a).redirection_level = a.redirection_level := by
  unfold withLocalFilename
  split
  · split <;> exact ⟨rfl, rfl⟩
  · exact ⟨rfl, rfl⟩

theorem queueNewJob_spec (lib : Lib) (config : WorkerConfig) (w : World) (job : Option Job)
    (new_job : Job) (flags : Nat) :
    ∃ nj, (queueNewJob lib config w job new_job flags).1 = { w with queue := w.queue ++ [nj] } ∧
      levelsFrom job flags nj ∧ callerKept job (queueNewJob lib config w job new_job flags).2 := by
  unfold queueNewJob queue_add_job
  refine ⟨_, rfl, ?_, ?_⟩
  · intro j hj
    subst hj
    by_cases hf : flags &&& URL_FLG_REDIRECTION ≠ 0
    · rw [if_pos hf, (withSitemap_levels _ _).2]
      unfold withLevels
      simp only [if_pos hf]
    · rw [if_neg hf, (withSitemap_levels _ _).1]
      unfold withLevels
      simp only [if_neg hf]
  · unfold callerAfter
    cases job with
    | none => exact Or.inl rfl
    | some j =>
      by_cases hf : flags &&& URL_FLG_REDIRECTION ≠ 0
      · simp only [if_pos hf]
        exact Or.inl rfl
      · simp only [if_neg hf]
        exact Or.inr ⟨j, rfl, rfl⟩

theorem robotsBlock_new_job (lib : Lib) (w : World) (iri : Iri) (encoding : Option (List Char))
    (w2 : World) (nj : Job) (h : robotsBlock lib w iri encoding = RobotsStep.new_job w2 nj) :
    w.sameBut w2 ∧ w2.queue = w.queue := by
  unfold robotsBlock at h
  split at h
  · split at h
    · cases h
    · simp only [RobotsStep.new_job.injEq] at h
      obtain ⟨rfl, _⟩ := h
      exact ⟨⟨rfl, rfl, rfl, rfl, rfl, rfl, rfl, rfl⟩, rfl⟩
  · split at h
    · cases h
    · split at h
      · cases h
      · split at h
        · split at h <;> cases h
        · cases h

theorem robotsBlock_deferred (lib : Lib) (w : World) (iri : Iri) (encoding : Option (List Char))
    (w2 : World) (h : robotsBlock lib w iri encoding = RobotsStep.deferred w2) :
    w.sameBut w2 ∧ w2.queue = w.queue ∧ w2.blacklist = w.blacklist := by
  unfold robotsBlock at h
  split at h
  · split at h <;> cases h
  · split at h
    · cases h
    · split at h
      · simp only [RobotsStep.deferred.injEq] at h
        subst h
        split
        · exact ⟨⟨rfl, rfl, rfl, rfl, rfl, rfl, rfl, rfl⟩, rfl, rfl⟩
        · exact ⟨⟨rfl, rfl, rfl, rfl, rfl, rfl, rfl, rfl⟩, rfl, rfl⟩
      · split at h
        · split at h <;> cases h
        · cases h

theorem robotsStep_new_job (lib : Lib) (w : World) (iri : Iri) (encoding : Option (List Char))
    (c : Bool) (w2 : World) (nj : Job)
    (h : (if c = true then robotsBlock lib w iri encoding else RobotsStep.go_on) =
      RobotsStep.new_job w2 nj) :
    w.sameBut w2 ∧ w2.queue = w.queue := by
  split at h
  · exact robotsBlock_new_job lib w iri encoding w2 nj h
  · cases h

theorem robotsStep_deferred (lib : Lib) (w : World) (iri : Iri) (encoding : Option (List Char))
    (c : Bool) (w2 : World)
    (h : (if c = true then robotsBlock lib w iri encoding else RobotsStep.go_on) =
      RobotsStep.deferred w2) :
    w.sameBut w2 ∧ w2.queue = w.queue ∧ w2.blacklist = w.blacklist := by
  split at h
  · exact robotsBlock_deferred lib w iri encoding w2 h
  · cases h

theorem add_url_spec (lib : Lib) (config : WorkerConfig) (w : World) (job : Option Job)
    (encoding : Option (List Char)) (url : List Char) (flags : Nat) (w2 : World)
    (job2 : Option Job) (h : add_url lib config w job encoding url flags = some (w2, job2)) :
    w.sameBut w2 ∧ callerKept job job2 ∧
    (w2.queue = w.queue ∨ ∃ nj, w2.queue = w.queue ++ [nj] ∧ levelsFrom job flags nj) := by
  have same : w.sameBut w := ⟨rfl, rfl, rfl, rfl, rfl, rfl, rfl, rfl⟩
  have fin : ∀ (w1 : World) (new_job : Job), w.sameBut w1 → w1.queue = w.queue →
      some (queueNewJob lib config w1 job new_job flags) = some (w2, job2) →
      w.sameBut w2 ∧ callerKept job job2 ∧
      (w2.queue = w.queue ∨ ∃ nj, w2.queue = w.queue ++ [nj] ∧ levelsFrom job flags nj) := by
    intro w1 new_job hs hq he
    obtain ⟨nj, h1, h2, h3⟩ := queueNewJob_spec lib config w1 job new_job flags
    simp only [Option.some.injEq] at he
    rw [he] at h1 h3
    simp only at h1 h3
    obtain ⟨t1, t2, t3, t4, t5, t6, t7, t8⟩ := hs
    refine ⟨?_, h3, Or.inr ⟨nj, ?_, h2⟩⟩
    · rw [h1]
      exact ⟨t1, t2, t3, t4, t5, t6, t7, t8⟩
    · rw [h1]
      simp only [hq]
  unfold add_url at h
  split at h
  · simp only [Option.some.injEq, Prod.mk.injEq] at h
    obtain ⟨rfl, rfl⟩ := h
    exact ⟨same, Or.inl rfl, Or.inl rfl⟩
  · split at h
    · simp only [Option.some.injEq, Prod.mk.injEq] at h
      obtain ⟨rfl, rfl⟩ := h
      exact ⟨same, Or.inl rfl, Or.inl rfl⟩
    · split at h
      · simp only [Option.some.injEq, Prod.mk.injEq] at h
        obtain ⟨rfl, rfl⟩ := h
        exact ⟨same, Or.inl rfl, Or.inl rfl⟩
      · split at h
        · simp only [Option.some.injEq, Prod.mk.injEq] at h
          obtain ⟨rfl, rfl⟩ := h
          exact ⟨same, Or.inl rfl, Or.inl rfl⟩
        · split at h
          · cases h
          · simp only [Option.some.injEq, Prod.mk.injEq] at h
            obtain ⟨rfl, rfl⟩ := h
            exact ⟨same, Or.inl rfl, Or.inl rfl⟩
          · split at h
            · simp only [Option.some.injEq, Prod.mk.injEq] at h
              obtain ⟨rfl, rfl⟩ := h
              exact ⟨same, Or.inl rfl, Or.inl rfl⟩
            · split at h
              · cases h
              · rename_i hrb
                simp only [Option.some.injEq, Prod.mk.injEq] at h
                obtain ⟨rfl, rfl⟩ := h
                obtain ⟨h1, h2, _⟩ := robotsStep_deferred lib w _ encoding _ _ hrb
                exact ⟨h1, Or.inl rfl, Or.inl h2⟩
              · simp only [Option.some.injEq, Prod.mk.injEq] at h
                obtain ⟨rfl, rfl⟩ := h
                exact ⟨same, Or.inl rfl, Or.inl rfl⟩
              · rename_i hrb
                obtain ⟨h1, h2⟩ := robotsStep_new_job lib w _ encoding _ _ _ hrb
                exact fin _ _ h1 h2 h
              · split at h
                · simp only [Option.some.injEq, Prod.mk.injEq] at h
                  obtain ⟨rfl, rfl⟩ := h
                  exact ⟨⟨rfl, rfl, rfl, rfl, rfl, rfl, rfl, rfl⟩, Or.inl rfl, Or.inl rfl⟩
                · refine fin _ _ ?_ ?_ h
                  · exact ⟨rfl, rfl, rfl, rfl, rfl, rfl, rfl, rfl⟩
                  · rfl

/-! ### The worker: status codes and retries -/

/-- C15 (`downloader_thread`): a non-robots job whose `GET` is answered with
403 ends without a call of `set_exit_status`, the exit status is still 0. The
`GET` path calls `set_exit_status(8)` for 404 only; the `HEAD` path of the same
function (spider mode) calls it for every 4xx status, as the second and third
part show. -/
theorem client_error_exit_status :
    (downloader_thread (libExample (fun _ => Exchange.response (respCode 403)) [] [])
        (cfgWorker false false false 0 0) worldStart (jobExample 0 0)).map
      (fun r => (r.w.exit_status, exitCalls r.w.trace, r.job.deferred)) = some (0, [], none) ∧
    (downloader_thread (libExample (fun _ => Exchange.response (respCode 404)) [] [])
        (cfgWorker false false false 0 0) worldStart (jobExample 0 0)).map
      (fun r => (r.w.exit_status, exitCalls r.w.trace)) = some (8, [8]) ∧
    (downloader_thread (libExample (fun _ => Exchange.response (respCode 403)) [] [])
        (cfgWorker false false true 0 0) worldStart (jobExample 0 0)).map
      (fun r => (r.w.exit_status, exitCalls r.w.trace)) = some (8, [8]) := by
  decide

/-- C16, as stated, fails: with `tries` = 2 and a server that answers 503,
the loop of the worker ends after one exchange with the 503 response; no
further attempt is made. -/
theorem server_error_not_retried :
    (cfgWorker false false false 0 0).tries = 2 ∧
    (fetchLoop (libExample (fun _ => Exchange.response (respCode 503)) [] [])
        (cfgWorker false false false 0 0) (jobExample 0 0) none 2 0 worldStart).map
      (fun r => (r.1.rounds, r.2.map fun resp => resp.code)) = some (1, some 503) := by
  decide

theorem tdiv_hundred_ge_four (c : Int) (h : 400 ≤ c) : c.tdiv 100 ≥ 4 := by
  rw [Int.tdiv_eq_ediv (by omega) (by norm_num)]
  omega

/-- C16, amended (`http_get`, `downloader_thread`): whatever number of
attempts is left (`tries < config.tries`), when the exchange of an attempt is
answered with a 5xx response, `http_get` returns that response as final
(`resp->code / 100 >= 4`) after this one exchange and one request, and the
retry loop of the worker ends with it. -/
theorem server_error_is_final (lib : Lib) (config : WorkerConfig) (w : World) (job : Job)
    (method : Option (List Char)) (fuel : Nat) (tries : Int) (resp : Response)
    (h0 : 0 ≤ tries) (htries : tries < config.tries) (hterm : w.terminate = false)
    (hiri : job.iri.isSome = true)
    (hpost : config.post_data.isSome = true ∨ config.post_file.isNone = true ∨
      (config.post_file.bind lib.wget_read_file).isSome = true)
    (hnet : lib.net w.rounds = Exchange.response resp)
    (h5 : 500 ≤ resp.code ∧ resp.code ≤ 599) :
    fetchLoop lib config job method (fuel + 1) tries w =
      some ({ w with rounds := w.rounds + 1
                     trace := w.trace ++ [Event.request (requestMethod config method) none]
                     stats := countResponse w.stats resp false }, some resp) := by
  obtain ⟨n, hn⟩ : ∃ n, config.tries.toNat = n + 1 := ⟨config.tries.toNat - 1, by omega⟩
  obtain ⟨i, hi⟩ := Option.isSome_iff_exists.mp hiri
  have hp : ¬ (config.post_data.isNone = true ∧ config.post_file.isSome = true ∧
      (config.post_file.bind lib.wget_read_file).isNone = true) := by
    rintro ⟨h1, h2, h3⟩
    rcases hpost with h | h | h
    · cases hx : config.post_data <;> simp [hx] at h h1
    · cases hx : config.post_file <;> simp [hx] at h h2
    · cases hx : config.post_file.bind lib.wget_read_file <;> simp [hx] at h h3
  have h302 : ¬ (resp.code = 302 ∧ resp.links ≠ [] ∧ resp.digests ≠ []) := by
    rintro ⟨h, _⟩; omega
  have h401 : ¬ (resp.code = 401 ∧ (none : Option (List Challenge)).isNone = true) := by
    rintro ⟨h, _⟩; omega
  have hfin : resp.code.tdiv 100 = 2 ∨ resp.code.tdiv 100 ≥ 4 ∨ resp.code = 304 :=
    Or.inr (Or.inl (tdiv_hundred_ge_four _ (by omega)))
  have hg : http_get lib config w (some job) job.iri false method =
      some { w := { w with rounds := w.rounds + 1
                           trace := w.trace ++ [Event.request (requestMethod config method) none]
                           stats := countResponse w.stats resp false },
             resp := some resp, final_error := false } := by
    unfold http_get
    rw [hn, hi, httpGetLoop]
    have ht : ¬ ¬ ((0 : Int) + 1 ≤ config.tries) := by omega
    simp only [if_neg ht, hnet, if_neg hp, if_neg h302, if_neg h401, if_pos hfin]
  rw [fetchLoop, if_pos ⟨htries, hterm⟩, hg]

/-- C16, amended, at the second attempt of three (`tries` = 1 of
`config.tries` = 3) and a 503 response. -/
theorem server_error_is_final_witness :
    fetchLoop (libExample (fun _ => Exchange.response (respCode 503)) [] [])
        { cfgWorker false false false 0 0 with tries := 3 } (jobExample 0 0) none (1 + 1) 1
        worldStart =
      some ({ worldStart with
                rounds := worldStart.rounds + 1
                trace := worldStart.trace ++ [Event.request
                  (requestMethod { cfgWorker false false false 0 0 with tries := 3 } none) none]
                stats := countResponse worldStart.stats (respCode 503) false },
            some (respCode 503)) :=
  server_error_is_final (libExample (fun _ => Exchange.response (respCode 503)) [] [])
    { cfgWorker false false false 0 0 with tries := 3 } worldStart (jobExample 0 0) none 1 1
    (respCode 503) (by decide) (by decide) (by decide) (by decide) (by decide) (by decide)
    (by decide)

/-! ### Redirection and recursion levels -/

theorem add_url_cap_reached (lib : Lib) (config : WorkerConfig) (w : World) (parent : Job)
    (encoding : Option (List Char)) (url : List Char) (flags : Nat)
    (hm : config.max_redirect ≠ 0) (hf : flags &&& URL_FLG_REDIRECTION ≠ 0)
    (hl : parent.redirection_level ≥ config.max_redirect) :
    add_url lib config w (some parent) encoding url flags = some (w, some parent) := by
  unfold add_url
  have hc : redirectCapReached config (some parent) = true := by
    simp [redirectCapReached, hm, hl]
  rw [if_pos ⟨hf, hc⟩]

theorem add_url_redirect_level (lib : Lib) (config : WorkerConfig) (hm : 0 < config.max_redirect)
    (w : World) (parent : Job) (encoding : Option (List Char)) (url : List Char) (flags : Nat)
    (w2 : World) (job2 : Option Job) (hf : flags &&& URL_FLG_REDIRECTION ≠ 0)
    (h : add_url lib config w (some parent) encoding url flags = some (w2, job2)) :
    w2.queue = w.queue ∨
      ∃ nj, w2.queue = w.queue ++ [nj] ∧
        nj.redirection_level = parent.redirection_level + 1 ∧
        nj.redirection_level ≤ config.max_redirect := by
  by_cases hl : parent.redirection_level ≥ config.max_redirect
  · rw [add_url_cap_reached lib config w parent encoding url flags (by omega) hf hl] at h
    simp only [Option.some.injEq, Prod.mk.injEq] at h
    exact Or.inl (by rw [← h.1])
  · obtain ⟨_, _, hq⟩ := add_url_spec lib config w (some parent) encoding url flags w2 job2 h
    rcases hq with hq | ⟨nj, hq, hlev⟩
    · exact Or.inl hq
    · have := hlev parent rfl
      rw [if_pos hf] at this
      exact Or.inr ⟨nj, hq, this, by omega⟩

/-- C17 (`add_url`): with `max_redirect` = m > 0, a call of `add_url` with
the redirection flag for a parent job either leaves the queue as it is or adds
one job, whose `redirection_level` is the parent's + 1 and at most m; when the
parent's `redirection_level` is m or more, the call returns with the program
state (queue and blacklist included) and the parent untouched; and a chain of
jobs, each queued by such a call for the one before, that starts at level 0
has at most m redirect jobs. -/
theorem redirect_cap (lib : Lib) (config : WorkerConfig) (hm : 0 < config.max_redirect) :
    (∀ (w : World) (parent : Job) (encoding : Option (List Char)) (url : List Char)
        (flags : Nat) (w2 : World) (job2 : Option Job),
        flags &&& URL_FLG_REDIRECTION ≠ 0 →
        add_url lib config w (some parent) encoding url flags = some (w2, job2) →
        w2.queue = w.queue ∨
          ∃ nj, w2.queue = w.queue ++ [nj] ∧
            nj.redirection_level = parent.redirection_level + 1 ∧
            nj.redirection_level ≤ config.max_redirect) ∧
    (∀ (w : World) (parent : Job) (encoding : Option (List Char)) (url : List Char)
        (flags : Nat),
        flags &&& URL_FLG_REDIRECTION ≠ 0 →
        parent.redirection_level ≥ config.max_redirect →
        add_url lib config w (some parent) encoding url flags = some (w, some parent)) ∧
    (∀ (first : Job) (redirects : List Job), first.redirection_level = 0 →
        List.Chain (redirectJobOf lib config) first redirects →
        (redirects.length : Int) ≤ config.max_redirect) := by
  refine ⟨?_, ?_, ?_⟩
  · intro w parent encoding url flags w2 job2 hf h
    exact add_url_redirect_level lib config hm w parent encoding url flags w2 job2 hf h
  · intro w parent encoding url flags hf hl
    exact add_url_cap_reached lib config w parent encoding url flags (by omega) hf hl
  · intro first redirects h0 hchain
    have key : ∀ (l : List Job) (j : Job), j.redirection_level ≤ config.max_redirect →
        List.Chain (redirectJobOf lib config) j l →
        (l.length : Int) ≤ config.max_redirect - j.redirection_level := by
      intro l
      induction l with
      | nil =>
        intro j hj _
        simp only [List.length_nil, Nat.cast_zero]
        omega
      | cons a l ih =>
        intro j hj hc
        rw [List.chain_cons] at hc
        obtain ⟨⟨w, encoding, url, flags, w2, job2, hf, hadd, hq⟩, hc2⟩ := hc
        have hlev : a.redirection_level = j.redirection_level + 1 ∧
            a.redirection_level ≤ config.max_redirect := by
          rcases add_url_redirect_level lib config hm w j encoding url flags w2 job2 hf hadd with
            h | ⟨nj, h1, h2, h3⟩
          · rw [h] at hq
            have := congrArg List.length hq
            simp at this
          · rw [h1] at hq
            have hnj : nj = a := by
              have := List.append_cancel_left hq
              simpa using this
            rw [← hnj]
            exact ⟨h2, h3⟩
        have := ih a hlev.2 hc2
        simp only [List.length_cons, Nat.cast_add, Nat.cast_one]
        omega
    have := key redirects first (by omega) hchain
    omega

/-- C17 with `max_redirect` = 2 and the job for `http://example.com/a`: the
redirection to `http://example.com/b` is queued at level 1. -/
theorem redirect_cap_witness :
    (add_url (libExample (fun _ => Exchange.no_response) [] []) (cfgWorker false false false 0 2)
        worldStart (some (jobExample 0 0)) none "http://example.com/b".toList
        URL_FLG_REDIRECTION).map
      (fun r => r.1.queue.map fun j => j.redirection_level) = some [1] ∧
    ((∀ (w : World) (parent : Job) (encoding : Option (List Char)) (url : List Char)
        (flags : Nat) (w2 : World) (job2 : Option Job),
        flags &&& URL_FLG_REDIRECTION ≠ 0 →
        add_url (libExample (fun _ => Exchange.no_response) [] [])
          (cfgWorker false false false 0 2) w (some parent) encoding url flags =
            some (w2, job2) →
        w2.queue = w.queue ∨
          ∃ nj, w2.queue = w.queue ++ [nj] ∧
            nj.redirection_level = parent.redirection_level + 1 ∧
            nj.redirection_level ≤ (cfgWorker false false false 0 2).max_redirect) ∧
    (∀ (w : World) (parent : Job) (encoding : Option (List Char)) (url : List Char)
        (flags : Nat),
        flags &&& URL_FLG_REDIRECTION ≠ 0 →
        parent.redirection_level ≥ (cfgWorker false false false 0 2).max_redirect →
        add_url (libExample (fun _ => Exchange.no_response) [] [])
          (cfgWorker false false false 0 2) w (some parent) encoding url flags =
            some (w, some parent)) ∧
    (∀ (first : Job) (redirects : List Job), first.redirection_level = 0 →
        List.Chain (redirectJobOf (libExample (fun _ => Exchange.no_response) [] [])
          (cfgWorker false false false 0 2)) first redirects →
        (redirects.length : Int) ≤ (cfgWorker false false false 0 2).max_redirect)) :=
  ⟨by decide,
    redirect_cap (libExample (fun _ => Exchange.no_response) [] [])
      (cfgWorker false false false 0 2) (by decide)⟩

theorem levelKept_refl (level : Int) (w w1 : World) (j : Job) (hq : w1.queue = w.queue)
    (hj : j.level = level) : levelKept level w (w1, some j) :=
  ⟨⟨j, rfl, hj⟩, [], by simp [hq], by simp⟩

theorem levelKept_trans (level : Int) (w w1 : World) (j1 : Job) (r : World × Option Job)
    (h1 : levelKept level w (w1, some j1)) (h2 : levelKept level w1 r) : levelKept level w r := by
  obtain ⟨_, l1, hq1, hl1⟩ := h1
  obtain ⟨hj, l2, hq2, hl2⟩ := h2
  refine ⟨hj, l1 ++ l2, ?_, ?_⟩
  · rw [hq2, hq1, List.append_assoc]
  · intro nj hnj
    rcases List.mem_append.mp hnj with h | h
    · exact hl1 nj h
    · exact hl2 nj h

theorem levelKept_queue (level : Int) (w w0 : World) (r : World × Option Job)
    (hq : w.queue = w0.queue) (h : levelKept level w r) : levelKept level w0 r := by
  obtain ⟨hj, l, hl, hn⟩ := h
  exact ⟨hj, l, by rw [hl, hq], hn⟩

theorem addUrlFor_levelKept (lib : Lib) (config : WorkerConfig) (w : World) (j : Job)
    (encoding : Option (List Char)) (link url : List Char) (flags : Nat)
    (r : World × Option Job) (hf : flags &&& URL_FLG_REDIRECTION = 0)
    (h : addUrlFor lib config w (some j) encoding link url flags = some r) :
    levelKept j.level w r := by
  unfold addUrlFor at h
  obtain ⟨_, hk, hq⟩ := add_url_spec lib config _ (some j) encoding url flags r.1 r.2 h
  refine ⟨?_, ?_⟩
  · rcases hk with hk | ⟨j1, hj1, hk⟩
    · exact ⟨j, hk, rfl⟩
    · simp only [Option.some.injEq] at hj1
      subst hj1
      exact ⟨_, hk, rfl⟩
  · rcases hq with hq | ⟨nj, hq, hlev⟩
    · exact ⟨[], by simpa using hq, by simp⟩
    · refine ⟨[nj], hq, ?_⟩
      intro x hx
      simp only [List.mem_singleton] at hx
      subst hx
      have := hlev j rfl
      rw [if_neg (by simpa using hf)] at this
      exact this

theorem htmlLoop_levelKept (lib : Lib) (config : WorkerConfig) (page_requisites : Bool)
    (encoding : List Char) (base : Option Iri) (level : Int) :
    ∀ (uris : List HtmlParsedUrl) (w : World) (j : Job) (r : World × Option Job),
      j.level = level →
      htmlLoop lib config page_requisites encoding base uris w (some j) = some r →
      levelKept level w r := by
  intro uris
  induction uris with
  | nil =>
    intro w j r hj h
    simp only [htmlLoop, Option.some.injEq] at h
    subst h
    exact levelKept_refl level w w j rfl hj
  | cons u uris ih =>
    intro w j r hj h
    rw [htmlLoop] at h
    split at h
    · exact ih w j r hj h
    · dsimp only at h
      split at h
      · have := ih _ j r hj h
        exact levelKept_queue level _ w r rfl this
      · split at h
        · split at h
          · split at h
            · have := ih _ j r hj h
              exact levelKept_queue level _ w r rfl this
            · split at h
              · cases h
              · rename_i r1 hadd
                have h1 := addUrlFor_levelKept lib config _ j _ _ _ 0 r1 (by decide) hadd
                rw [hj] at h1
                obtain ⟨j1, hj1, hlev1⟩ := h1.1
                have h1b := h1
                rw [show r1 = (r1.1, r1.2) from rfl, hj1] at h1b
                rw [hj1] at h
                have := levelKept_trans level _ r1.1 j1 r h1b (ih r1.1 j1 r hlev1 h)
                exact levelKept_queue level _ w r rfl this
          · have := ih _ j r hj h
            exact levelKept_queue level _ w r rfl this
        · have := ih _ j r hj h
          exact levelKept_queue level _ w r rfl this

theorem levelKept_step (level : Int) (w : World) (r1 r : World × Option Job)
    (h1 : levelKept level w r1)
    (hrest : ∀ j1, r1.2 = some j1 → j1.level = level → levelKept level r1.1 r) :
    levelKept level w r := by
  obtain ⟨j1, hj1, hlev1⟩ := h1.1
  have h1b := h1
  rw [show r1 = (r1.1, r1.2) from rfl, hj1] at h1b
  exact levelKept_trans level w r1.1 j1 r h1b (hrest j1 hj1 hlev1)

theorem urlsLoop_levelKept (lib : Lib) (config : WorkerConfig) (encoding : Option (List Char))
    (base : Option Iri) (check_base : Bool) (flags : Nat) (level : Int)
    (hf : flags &&& URL_FLG_REDIRECTION = 0) :
    ∀ (urls : List (List Char)) (w : World) (j : Job) (r : World × Option Job),
      j.level = level →
      urlsLoop lib config encoding base check_base flags urls w (some j) = some r →
      levelKept level w r := by
  intro urls
  induction urls with
  | nil =>
    intro w j r hj h
    simp only [urlsLoop, Option.some.injEq] at h
    subst h
    exact levelKept_refl level w w j rfl hj
  | cons u urls ih =>
    intro w j r hj h
    rw [urlsLoop] at h
    split at h
    · exact ih w j r hj h
    · split at h
      · exact ih w j r hj h
      · split at h
        · cases h
        · rename_i r1 hadd
          have h1 := addUrlFor_levelKept lib config _ j _ _ _ flags r1 hf hadd
          rw [hj] at h1
          have := levelKept_step level _ r1 r h1
            (fun j1 hj1 hl => by rw [hj1] at h; exact ih r1.1 j1 r hl h)
          exact levelKept_queue level _ w r rfl this

theorem sitemapTextLoop_levelKept (lib : Lib) (config : WorkerConfig)
    (encoding : Option (List Char)) (base : Option Iri) (level : Int) :
    ∀ (fuel : Nat) (line : List Char) (w : World) (j : Job) (r : World × Option Job),
      j.level = level →
      sitemapTextLoop lib config encoding base fuel line w (some j) = some r →
      levelKept level w r := by
  intro fuel
  induction fuel with
  | zero =>
    intro line w j r hj h
    simp only [sitemapTextLoop, Option.some.injEq] at h
    subst h
    exact levelKept_refl level w w j rfl hj
  | succ fuel ih =>
    intro line w j r hj h
    have hnext : ∀ (w1 : World) (j1 : Job), j1.level = level →
        (match line.dropWhile fun c => decide (c ≠ '\n') with
          | [] => some (w1, some j1)
          | _ :: rest => sitemapTextLoop lib config encoding base fuel rest w1 (some j1)) =
          some r → levelKept level w1 r := by
      intro w1 j1 hj1 hn
      split at hn
      · simp only [Option.some.injEq] at hn
        subst hn
        exact levelKept_refl level w1 w1 j1 rfl hj1
      · exact ih _ w1 j1 r hj1 hn
    rw [sitemapTextLoop] at h
    dsimp only at h
    split at h
    · split at h
      · exact hnext w j hj h
      · split at h
        · cases h
        · rename_i r1 hadd
          have h1 := addUrlFor_levelKept lib config _ j _ _ _ 0 r1 (by decide) hadd
          rw [hj] at h1
          exact levelKept_step level _ r1 r h1
            (fun j1 hj1 hl => by rw [hj1] at h; exact hnext r1.1 j1 hl h)
    · exact hnext w j hj h

theorem css_parse_uri_levelKept (lib : Lib) (config : WorkerConfig) (w : World) (j : Job)
    (base : Option Iri) (encoding : Option (List Char)) (url : List Char)
    (r : World × Option Job)
    (h : _css_parse_uri lib config w (some j) base encoding url = some r) :
    levelKept j.level w r := by
  unfold _css_parse_uri at h
  split at h
  · split at h
    · split at h
      · simp only [Option.some.injEq] at h
        subst h
        exact levelKept_refl j.level w w j rfl rfl
      · exact addUrlFor_levelKept lib config w j _ _ _ 0 r (by decide) h
    · simp only [Option.some.injEq] at h
      subst h
      exact levelKept_refl j.level w w j rfl rfl
  · simp only [Option.some.injEq] at h
    subst h
    exact levelKept_refl j.level w w j rfl rfl

theorem cssLoop_levelKept (lib : Lib) (config : WorkerConfig) (base : Option Iri) (level : Int) :
    ∀ (items : List CssItem) (encoding : Option (List Char)) (encoding_allocated : Bool)
      (w : World) (j : Job) (r : World × Option Job),
      j.level = level →
      cssLoop lib config base items encoding encoding_allocated w (some j) = some r →
      levelKept level w r := by
  intro items
  induction items with
  | nil =>
    intro encoding ea w j r hj h
    simp only [cssLoop, Option.some.injEq] at h
    subst h
    exact levelKept_refl level w w j rfl hj
  | cons item items ih =>
    intro encoding ea w j r hj h
    cases item with
    | uri url =>
      rw [cssLoop] at h
      split at h
      · cases h
      · rename_i r1 hadd
        have h1 := css_parse_uri_levelKept lib config w j base encoding url r1 hadd
        rw [hj] at h1
        exact levelKept_step level _ r1 r h1
          (fun j1 hj1 hl => by rw [hj1] at h; exact ih _ _ r1.1 j1 r hl h)
    | encoding name =>
      rw [cssLoop] at h
      split at h
      · exact ih _ _ w j r hj h
      · exact ih _ _ w j r hj h

theorem robotsSitemaps_levelKept (lib : Lib) (config : WorkerConfig) (level : Int) :
    ∀ (sitemaps : List (List Char)) (w : World) (j : Job) (r : World × Option Job),
      j.level = level →
      robotsSitemaps lib config sitemaps w (some j) = some r →
      levelKept level w r := by
  intro sitemaps
  induction sitemaps with
  | nil =>
    intro w j r hj h
    simp only [robotsSitemaps, Option.some.injEq] at h
    subst h
    exact levelKept_refl level w w j rfl hj
  | cons s sitemaps ih =>
    intro w j r hj h
    rw [robotsSitemaps] at h
    split at h
    · cases h
    · rename_i r1 hadd
      have h1 := addUrlFor_levelKept lib config _ j _ _ _ URL_FLG_SITEMAP r1 (by decide) hadd
      rw [hj] at h1
      exact levelKept_step level _ r1 r h1
        (fun j1 hj1 hl => by rw [hj1] at h; exact ih r1.1 j1 r hl h)

theorem html_parse_levelKept (lib : Lib) (config : WorkerConfig) (w : World) (j : Job)
    (level : Int) (html : List Char) (encoding : EncodingArg) (base : Option Iri)
    (r : World × Option Job)
    (h : html_parse lib config w (some j) level html encoding base = some r) :
    levelKept j.level w r := by
  unfold html_parse at h
  dsimp only at h
  split at h
  · simp only [Option.some.injEq] at h
    subst h
    exact levelKept_refl j.level w w j rfl rfl
  · exact htmlLoop_levelKept lib config _ _ _ j.level _ w j r rfl h

theorem sitemap_parse_xml_levelKept (lib : Lib) (config : WorkerConfig) (w : World) (j : Job)
    (data : List Char) (encoding : Option (List Char)) (base : Option Iri)
    (r : World × Option Job)
    (h : sitemap_parse_xml lib config w (some j) data encoding base = some r) :
    levelKept j.level w r := by
  unfold sitemap_parse_xml at h
  split at h
  · cases h
  · rename_i r1 h1
    have s1 := urlsLoop_levelKept lib config encoding base true 0 j.level (by decide) _ w j r1
      rfl h1
    exact levelKept_step j.level w r1 r s1
      (fun j1 hj1 hl => by
        rw [hj1] at h
        exact urlsLoop_levelKept lib config encoding base false URL_FLG_SITEMAP j.level
          (by decide) _ r1.1 j1 r hl h)

theorem css_parse_levelKept (lib : Lib) (config : WorkerConfig) (w : World) (j : Job)
    (data : List Char) (encoding : Option (List Char)) (base : Option Iri)
    (r : World × Option Job)
    (h : css_parse lib config w (some j) data encoding base = some r) :
    levelKept j.level w r :=
  cssLoop_levelKept lib config base j.level _ _ _ w j r rfl h

theorem parseBody_levelKept (lib : Lib) (config : WorkerConfig) (w : World) (j : Job)
    (resp : Response) (body : List Char) (r : World × Option Job)
    (h : parseBody lib config w j resp body = some r) :
    levelKept j.level w r := by
  have same : ∀ w1 : World, w1.queue = w.queue → some (w1, some j) = some r →
      levelKept j.level w r := by
    intro w1 hq he
    simp only [Option.some.injEq] at he
    subst he
    exact levelKept_refl j.level w w1 j hq rfl
  unfold parseBody at h
  dsimp only at h
  split at h
  · exact html_parse_levelKept lib config w j _ _ _ _ r h
  · split at h
    · exact html_parse_levelKept lib config w j _ _ _ _ r h
    · split at h
      · exact css_parse_levelKept lib config w j _ _ _ r h
      · split at h
        · exact urlsLoop_levelKept lib config _ _ true 0 j.level (by decide) _ w j r rfl h
        · split at h
          · exact urlsLoop_levelKept lib config _ _ true 0 j.level (by decide) _ w j r rfl h
          · split at h
            · split at h
              · exact sitemap_parse_xml_levelKept lib config w j _ _ _ r h
              · split at h
                · unfold sitemap_parse_xml_gz at h
                  split at h
                  · exact sitemap_parse_xml_levelKept lib config w j _ _ _ r h
                  · exact same w rfl h
                · split at h
                  · unfold sitemap_parse_text at h
                    split at h
                    · exact same w rfl h
                    · exact sitemapTextLoop_levelKept lib config _ _ j.level _ _ w j r rfl h
                  · exact same w rfl h
            · split at h
              · split at h
                · cases h
                · split at h
                  · exact same w rfl h
                  · have := robotsSitemaps_levelKept lib config j.level _ _ j r rfl h
                    exact levelKept_queue j.level _ w r rfl this
              · exact same w rfl h

theorem html_parse_localfile_levelKept (lib : Lib) (config : WorkerConfig) (w : World)
    (j : Job) (level : Int) (fname : List Char) (encoding : EncodingArg) (base : Option Iri)
    (r : World × Option Job)
    (h : html_parse_localfile lib config w (some j) level fname encoding base = some r) :
    levelKept j.level w r := by
  unfold html_parse_localfile at h
  split at h
  · exact html_parse_levelKept lib config w j _ _ _ _ r h
  · simp only [Option.some.injEq] at h
    subst h
    exact levelKept_refl j.level w w j rfl rfl

theorem css_parse_localfile_levelKept (lib : Lib) (config : WorkerConfig) (w : World)
    (j : Job) (fname : List Char) (encoding : Option (List Char)) (base : Option Iri)
    (r : World × Option Job)
    (h : css_parse_localfile lib config w (some j) fname encoding base = some r) :
    levelKept j.level w r := by
  unfold css_parse_localfile at h
  split at h
  · exact css_parse_levelKept lib config w j _ _ _ r h
  · simp only [Option.some.injEq] at h
    subst h
    exact levelKept_refl j.level w w j rfl rfl

/-- The jobs that `handleResponse` adds to the queue are one level below the
job, and the job has passed `parseGate`. -/
theorem handleResponse_levels (lib : Lib) (config : WorkerConfig) (w : World) (job : Job)
    (resp : Response) (r : Ready) (h : handleResponse lib config w job resp = some r) :
    ∃ l, r.w.queue = w.queue ++ l ∧
      (l = [] ∨ (parseGate config job = true ∧ ∀ nj ∈ l, nj.level = job.level + 1)) := by
  have same : ∀ w1 : World,
      some ({ w := w1, job := job, remove := true } : Ready) = some r → w1.queue = w.queue →
      ∃ l, r.w.queue = w.queue ++ l ∧
        (l = [] ∨ (parseGate config job = true ∧ ∀ nj ∈ l, nj.level = job.level + 1)) := by
    intro w1 he hq
    simp only [Option.some.injEq] at he
    subst he
    exact ⟨[], by simp [hq], Or.inl rfl⟩
  have step : ∀ (w1 : World) (r1 : World × Option Job),
      some ({ w := r1.1, job := r1.2.getD job, remove := true } : Ready) = some r →
      levelKept job.level w1 r1 → w1.queue = w.queue → parseGate config job = true →
      ∃ l, r.w.queue = w.queue ++ l ∧
        (l = [] ∨ (parseGate config job = true ∧ ∀ nj ∈ l, nj.level = job.level + 1)) := by
    intro w1 r1 he hk hq hg
    simp only [Option.some.injEq] at he
    subst he
    obtain ⟨_, l, hl, hn⟩ := hk
    exact ⟨l, by simp only [hl, hq], Or.inr ⟨hg, hn⟩⟩
  unfold handleResponse at h
  split at h
  · dsimp only at h
    split at h
    · rename_i hg
      split at h
      · cases h
      · split at h
        · cases h
        · rename_i r1 hp
          exact step _ r1 h (parseBody_levelKept lib config _ job resp _ r1 hp) rfl hg.1
    · exact same _ h rfl
  · split at h
    · exact same _ h rfl
    · split at h
      · split at h
        · split at h
          · rename_i hg
            dsimp only at h
            split at h
            · exact same _ h rfl
            · split at h
              · split at h
                · cases h
                · rename_i r1 hp
                  exact step _ r1 h
                    (html_parse_localfile_levelKept lib config w job _ _ _ _ r1 hp) rfl hg
              · split at h
                · split at h
                  · cases h
                  · rename_i r1 hp
                    exact step _ r1 h
                      (css_parse_localfile_levelKept lib config w job _ _ _ r1 hp) rfl hg
                · exact same _ h rfl
          · exact same _ h rfl
        · exact same _ h rfl
      · split at h
        · split at h
          · exact same _ h rfl
          · exact same _ h rfl
        · exact same _ h rfl

/-- C18, as stated, fails for the jobs added for `Link` headers: in recursive
mode with `level` = 1 and without page requisites, a job at level 1 that is
answered with a 302 response with Metalink information (a `Link` header with
`rel=duplicate`) gets the mirror queued at level 2. -/
theorem recursion_depth_link_header :
    (cfgWorker true false false 1 0).level = 1 ∧
    (cfgWorker true false false 1 0).page_requisites = false ∧
    (downloader_thread (libExample (fun _ => Exchange.response respMirror) [] [])
        (cfgWorker true false false 1 0) worldStart (jobExample 1 0)).map
      (fun r => (r.w.queue.map (fun j => j.level), addUrlCalls r.w.trace)) =
      some ([2], [("http://example.com/mirror".toList, 0)]) := by
  decide

/-- C18, amended (`downloader_thread`, `add_url`): with `level` = L > 0,
every job that the worker enqueues from a parsed document or from the
sitemaps of a robots.txt (the calls of `add_url` behind the gate
`job->level < config.level + config.page_requisites`, all without the
redirection flag) is appended to the queue with recursion level at most
L + page_requisites, from every program state. The jobs added for the `Link`
headers of a response are not behind that gate. -/
theorem recursion_depth_bound (lib : Lib) (config : WorkerConfig) (hL : 0 < config.level) :
    ∀ (w : World) (job : Job) (resp : Response) (r : Ready),
      handleResponse lib config w job resp = some r →
      ∃ l, r.w.queue = w.queue ++ l ∧
        ∀ nj ∈ l, nj.level ≤ config.level + (if config.page_requisites then 1 else 0) := by
  intro w job resp r h
  obtain ⟨l, hq, hl⟩ := handleResponse_levels lib config w job resp r h
  refine ⟨l, hq, ?_⟩
  intro nj hnj
  rcases hl with hl | ⟨hg, hl⟩
  · rw [hl] at hnj
    cases hnj
  · have := hl nj hnj
    unfold parseGate at hg
    simp only [Bool.and_eq_true, Bool.or_eq_true, decide_eq_true_eq] at hg
    rcases hg.2 with h0 | hlt
    · omega
    · omega

/-- C18, amended, with `level` = 1: the link of an HTML document at level 0
is queued at level 1. -/
theorem recursion_depth_bound_witness :
    (handleResponse (libExample (fun _ => Exchange.no_response) [linkImg] [])
        (cfgWorker true false false 1 0) worldStart (jobExample 0 0) respHtml).map
      (fun r => r.w.queue.map fun j => j.level) = some [1] ∧
    ∀ (w : World) (job : Job) (resp : Response) (r : Ready),
      handleResponse (libExample (fun _ => Exchange.no_response) [linkImg] [])
        (cfgWorker true false false 1 0) w job resp = some r →
      ∃ l, r.w.queue = w.queue ++ l ∧
        ∀ nj ∈ l, nj.level ≤ (cfgWorker true false false 1 0).level +
          (if (cfgWorker true false false 1 0).page_requisites then 1 else 0) :=
  ⟨by decide,
    recursion_depth_bound (libExample (fun _ => Exchange.no_response) [linkImg] [])
      (cfgWorker true false false 1 0) (by decide)⟩

/-- C19 (`html_parse`): in recursive mode with page requisites and `level` =
1, for a document with the links `<a href>`, `<embed href>` and `<img src>`:
at depth 1 (= `level`) `add_url` is called for all three, the `<a href>` link
included; at depth 0 (< `level`) the `<a href>` link is dropped. The flag
`page_requisites` is computed with `level < config.level`, and the tag test
asks for a first letter `a`, which `embed` does not have. -/
theorem page_requisites_rule_inverted :
    (html_parse (libExample (fun _ => Exchange.no_response) [linkA, linkEmbed, linkImg] [])
        (cfgWorker true true false 1 0) worldStart (some (jobExample 1 0)) 1 []
        EncodingArg.null (some (iriExample "a".toList))).map
      (fun r => addUrlCalls r.1.trace) =
      some [("b.html".toList, 0), ("c.swf".toList, 0), ("d.png".toList, 0)] ∧
    (html_parse (libExample (fun _ => Exchange.no_response) [linkA, linkEmbed, linkImg] [])
        (cfgWorker true true false 1 0) worldStart (some (jobExample 0 0)) 0 []
        EncodingArg.null (some (iriExample "a".toList))).map
      (fun r => addUrlCalls r.1.trace) =
      some [("c.swf".toList, 0), ("d.png".toList, 0)] := by
  decide

/-! ### Known URLs -/

/-- C20, as stated, fails for CSS documents and text sitemaps: a style sheet
with the same URL twice, and a text sitemap with the same line twice, each
make two calls of `add_url` for that text. -/
theorem known_urls_not_consulted :
    ((Dispatch.css (some (jobExample 0 0)) [] none (some (iriExample "a".toList))).run
        (libExample (fun _ => Exchange.no_response) []
          [CssItem.uri "a.png".toList, CssItem.uri "a.png".toList])
        (cfgWorker true false false 1 0) worldStart).map
      (fun w => linkCalls "a.png".toList w.trace) = some 2 ∧
    ((Dispatch.sitemap_text (some (jobExample 0 0))
          "http://example.com/x\nhttp://example.com/x\n".toList none none).run
        (libExample (fun _ => Exchange.no_response) [] [])
        (cfgWorker true false false 1 0) worldStart).map
      (fun w => linkCalls "http://example.com/x".toList w.trace) = some 2 := by
  decide

theorem linkCalls_append (s : List Char) (a b : List Event) :
    linkCalls s (a ++ b) = linkCalls s a + linkCalls s b := by
  induction a with
  | nil => simp [linkCalls]
  | cons e a ih =>
    cases e <;> simp [linkCalls, ih, Nat.add_assoc]

theorem strcmp_self (a : List Char) : strcmp a a = 0 := by
  induction a with
  | nil => rfl
  | cons c a ih => simp [strcmp, ih]

theorem isKnown_iff (known_urls : List (List Char)) (s : List Char) :
    (known_urls_put known_urls s).1 = true ↔
      known_urls.any
        (fun k => decide (hash_url s = hash_url k) && decide (strcmp s k = 0)) = true := by
  unfold known_urls_put
  split
  · rename_i h
    simp only [true_iff]
    exact h
  · rename_i h
    constructor
    · intro h2
      cases h2
    · intro h2
      exact absurd h2 h

theorem known_urls_put_snd (known_urls : List (List Char)) (link : List Char) :
    (known_urls_put known_urls link).2 = known_urls ∨
    (known_urls_put known_urls link).2 = known_urls ++ [link] := by
  unfold known_urls_put
  split
  · exact Or.inl rfl
  · exact Or.inr rfl

theorem isKnown_put (w : World) (link s : List Char) (h : isKnown w s = true) :
    isKnown { w with known_urls := (known_urls_put w.known_urls link).2 } s = true := by
  unfold isKnown at *
  rw [isKnown_iff] at h ⊢
  rcases known_urls_put_snd w.known_urls link with hp | hp
  · simp only [hp]
    exact h
  · simp only [hp, List.any_append, Bool.or_eq_true]
    exact Or.inl h

theorem isKnown_put_self (w : World) (link : List Char) :
    isKnown { w with known_urls := (known_urls_put w.known_urls link).2 } link = true := by
  by_cases h : (known_urls_put w.known_urls link).1 = true
  · exact isKnown_put w link link h
  · unfold isKnown
    rw [isKnown_iff]
    have : (known_urls_put w.known_urls link).2 = w.known_urls ++ [link] := by
      unfold known_urls_put at h ⊢
      split
      · rename_i hp
        rw [if_pos hp] at h
        exact absurd rfl h
      · rfl
    simp only [this, List.any_append, Bool.or_eq_true]
    right
    simp [strcmp_self]

theorem onceStep_refl (s : List Char) (w w1 : World) (ht : w1.trace = w.trace)
    (hk : w1.known_urls = w.known_urls) : onceStep s w w1 := by
  unfold onceStep isKnown
  rw [ht, hk]
  exact ⟨id, Or.inl rfl⟩

theorem onceStep_trans (s : List Char) (w0 w1 w2 : World) (h1 : onceStep s w0 w1)
    (h2 : onceStep s w1 w2) : onceStep s w0 w2 := by
  obtain ⟨a1, b1⟩ := h1
  obtain ⟨a2, b2⟩ := h2
  refine ⟨fun h => a2 (a1 h), ?_⟩
  rcases b1 with b1 | ⟨b1, n0, k1⟩
  · rcases b2 with b2 | ⟨b2, n1, k2⟩
    · exact Or.inl (by rw [b2, b1])
    · refine Or.inr ⟨by rw [b2, b1], ?_, k2⟩
      cases h : isKnown w0 s
      · rfl
      · rw [a1 h] at n1
        cases n1
  · rcases b2 with b2 | ⟨b2, n1, k2⟩
    · exact Or.inr ⟨by rw [b2, b1], n0, a2 k1⟩
    · rw [k1] at n1
      cases n1

/-- A round of a loop that has put the new link text `link` into
`known_urls` and calls `add_url` for it. -/
theorem onceStep_call (lib : Lib) (config : WorkerConfig) (s : List Char) (w : World)
    (job : Option Job) (encoding : Option (List Char)) (link url : List Char) (flags : Nat)
    (r : World × Option Job) (hn : (known_urls_put w.known_urls link).1 = false)
    (h : addUrlFor lib config { w with known_urls := (known_urls_put w.known_urls link).2 } job
      encoding link url flags = some r) : onceStep s w r.1 := by
  unfold addUrlFor at h
  obtain ⟨⟨ht, hk, _⟩, _, _⟩ := add_url_spec lib config _ job encoding url flags r.1 r.2 h
  simp only at ht hk
  have hmono : isKnown w s = true → isKnown r.1 s = true := by
    intro hs
    have := isKnown_put w link s hs
    unfold isKnown at this ⊢
    rw [hk]
    exact this
  refine ⟨hmono, ?_⟩
  rw [ht, linkCalls_append]
  by_cases hls : link = s
  · subst hls
    refine Or.inr ⟨by simp [linkCalls], hn, ?_⟩
    have := isKnown_put_self w link
    unfold isKnown at this ⊢
    rw [hk]
    exact this
  · exact Or.inl (by simp [linkCalls, hls])

/-- A round of a loop that has put the new link text `link` into
`known_urls` and drops it. -/
theorem onceStep_drop (s : List Char) (w : World) (link : List Char) :
    onceStep s w { w with known_urls := (known_urls_put w.known_urls link).2 } :=
  ⟨isKnown_put w link s, Or.inl rfl⟩

theorem htmlLoop_once (lib : Lib) (config : WorkerConfig) (page_requisites : Bool)
    (encoding : List Char) (base : Option Iri) (s : List Char) :
    ∀ (uris : List HtmlParsedUrl) (w : World) (job : Option Job) (r : World × Option Job),
      htmlLoop lib config page_requisites encoding base uris w job = some r →
      onceStep s w r.1 := by
  intro uris
  induction uris with
  | nil =>
    intro w job r h
    simp only [htmlLoop, Option.some.injEq] at h
    subst h
    exact onceStep_refl s w w rfl rfl
  | cons u uris ih =>
    intro w job r h
    rw [htmlLoop] at h
    split at h
    · exact ih w job r h
    · rename_i hn
      have hn2 : (known_urls_put w.known_urls u.url).1 = false := by
        cases hx : (known_urls_put w.known_urls u.url).1
        · rfl
        · exact absurd hx hn
      have drop := onceStep_drop s w u.url
      dsimp only at h
      split at h
      · exact onceStep_trans s w _ r.1 drop (ih _ job r h)
      · split at h
        · split at h
          · split at h
            · exact onceStep_trans s w _ r.1 drop (ih _ job r h)
            · split at h
              · cases h
              · rename_i r1 hadd
                have h1 := onceStep_call lib config s w job _ _ _ 0 r1 hn2 hadd
                exact onceStep_trans s w r1.1 r.1 h1 (ih r1.1 r1.2 r h)
          · exact onceStep_trans s w _ r.1 drop (ih _ job r h)
        · exact onceStep_trans s w _ r.1 drop (ih _ job r h)

theorem urlsLoop_once (lib : Lib) (config : WorkerConfig) (encoding : Option (List Char))
    (base : Option Iri) (check_base : Bool) (flags : Nat) (s : List Char) :
    ∀ (urls : List (List Char)) (w : World) (job : Option Job) (r : World × Option Job),
      urlsLoop lib config encoding base check_base flags urls w job = some r →
      onceStep s w r.1 := by
  intro urls
  induction urls with
  | nil =>
    intro w job r h
    simp only [urlsLoop, Option.some.injEq] at h
    subst h
    exact onceStep_refl s w w rfl rfl
  | cons u urls ih =>
    intro w job r h
    rw [urlsLoop] at h
    split at h
    · exact ih w job r h
    · split at h
      · exact ih w job r h
      · rename_i hn
        have hn2 : (known_urls_put w.known_urls u).1 = false := by
          cases hx : (known_urls_put w.known_urls u).1
          · rfl
          · exact absurd hx hn
        split at h
        · cases h
        · rename_i r1 hadd
          have h1 := onceStep_call lib config s w job _ _ _ flags r1 hn2 hadd
          exact onceStep_trans s w r1.1 r.1 h1 (ih r1.1 r1.2 r h)

theorem dispatch_once (lib : Lib) (config : WorkerConfig) (s : List Char) (d : Dispatch)
    (hd : d.checksKnownUrls = true) (w w1 : World) (h : d.run lib config w = some w1) :
    onceStep s w w1 := by
  cases d with
  | html job level data encoding base =>
    simp only [Dispatch.run, Option.map_eq_some'] at h
    obtain ⟨r, hr, rfl⟩ := h
    unfold html_parse at hr
    dsimp only at hr
    split at hr
    · simp only [Option.some.injEq] at hr
      subst hr
      exact onceStep_refl s w w rfl rfl
    · exact htmlLoop_once lib config _ _ _ s _ w job r hr
  | sitemap_xml job data encoding base =>
    simp only [Dispatch.run, Option.map_eq_some'] at h
    obtain ⟨r, hr, rfl⟩ := h
    unfold sitemap_parse_xml at hr
    split at hr
    · cases hr
    · rename_i r1 h1
      exact onceStep_trans s w r1.1 r.1 (urlsLoop_once lib config _ _ _ _ s _ w job r1 h1)
        (urlsLoop_once lib config _ _ _ _ s _ r1.1 r1.2 r hr)
  | atom job data encoding base =>
    simp only [Dispatch.run, Option.map_eq_some'] at h
    obtain ⟨r, hr, rfl⟩ := h
    exact urlsLoop_once lib config _ _ _ _ s _ w job r hr
  | rss job data encoding base =>
    simp only [Dispatch.run, Option.map_eq_some'] at h
    obtain ⟨r, hr, rfl⟩ := h
    exact urlsLoop_once lib config _ _ _ _ s _ w job r hr
  | css job data encoding base => cases hd
  | sitemap_text job data encoding base => cases hd

/-- C20, amended (`html_parse`, `sitemap_parse_xml`, `_add_urls`): over every
sequence of calls of the extractors that consult `known_urls` (HTML, XML
sitemaps, Atom and RSS feeds), on documents of any of these types and for any
jobs, `add_url` is called at most once for a link text `s`, and not at all
when `s` was known before the sequence; a call for `s` leaves `s` known.
`_css_parse_uri` and `sitemap_parse_text` do not consult `known_urls`. -/
theorem known_urls_once (lib : Lib) (config : WorkerConfig) (ds : List Dispatch)
    (hds : ∀ d ∈ ds, d.checksKnownUrls = true) :
    ∀ (w w2 : World) (s : List Char), dispatchAll lib config ds w = some w2 →
      linkCalls s w2.trace ≤ linkCalls s w.trace + 1 ∧
      (isKnown w s = true → linkCalls s w2.trace = linkCalls s w.trace) ∧
      (linkCalls s w.trace < linkCalls s w2.trace → isKnown w2 s = true) := by
  have key : ∀ (ds : List Dispatch), (∀ d ∈ ds, d.checksKnownUrls = true) →
      ∀ (w w2 : World) (s : List Char), dispatchAll lib config ds w = some w2 →
        onceStep s w w2 := by
    intro ds
    induction ds with
    | nil =>
      intro _ w w2 s h
      simp only [dispatchAll, Option.some.injEq] at h
      subst h
      exact onceStep_refl s w w rfl rfl
    | cons d ds ih =>
      intro hds w w2 s h
      rw [dispatchAll] at h
      split at h
      · cases h
      · rename_i w1 h1
        exact onceStep_trans s w w1 w2
          (dispatch_once lib config s d (hds d (List.mem_cons_self _ _)) w w1 h1)
          (ih (fun x hx => hds x (List.mem_cons_of_mem _ hx)) w1 w2 s h)
  intro w w2 s h
  obtain ⟨_, hb⟩ := key ds hds w w2 s h
  rcases hb with hb | ⟨hb, hn, hk⟩
  · exact ⟨by omega, fun _ => hb, fun hlt => by omega⟩
  · refine ⟨by omega, ?_, fun _ => hk⟩
    intro hkn
    rw [hkn] at hn
    cases hn

/-- C20, amended, for an HTML document that has the link `d.png` twice and
is parsed twice: one call of `add_url` for `d.png`. -/
theorem known_urls_once_witness :
    (dispatchAll (libExample (fun _ => Exchange.no_response) [linkImg, linkImg] [])
        (cfgWorker true false false 1 0)
        [Dispatch.html (some (jobExample 0 0)) 0 [] EncodingArg.null
            (some (iriExample "a".toList)),
         Dispatch.html (some (jobExample 0 0)) 0 [] EncodingArg.null
            (some (iriExample "a".toList))] worldStart).map
      (fun w => linkCalls "d.png".toList w.trace) = some 1 ∧
    ∀ (w w2 : World) (s : List Char),
      dispatchAll (libExample (fun _ => Exchange.no_response) [linkImg, linkImg] [])
        (cfgWorker true false false 1 0)
        [Dispatch.html (some (jobExample 0 0)) 0 [] EncodingArg.null
            (some (iriExample "a".toList)),
         Dispatch.html (some (jobExample 0 0)) 0 [] EncodingArg.null
            (some (iriExample "a".toList))] w = some w2 →
      linkCalls s w2.trace ≤ linkCalls s w.trace + 1 ∧
      (isKnown w s = true → linkCalls s w2.trace = linkCalls s w.trace) ∧
      (linkCalls s w.trace < linkCalls s w2.trace → isKnown w2 s = true) :=
  ⟨by decide,
    known_urls_once (libExample (fun _ => Exchange.no_response) [linkImg, linkImg] [])
      (cfgWorker true false false 1 0) _ (by decide)⟩

/-! ### The `HEAD` probe -/

theorem strcasecmp_ascii_iff (t : List Char) (lit : String) (ht : NUL ∉ t)
    (hl : NUL ∉ lit.toList) :
    wget_strcasecmp_ascii (some t) (some lit.toList) = 0 ↔
      t.map c_tolower = lit.toList.map c_tolower :=
  c_strcasecmp_eq_zero_iff t lit.toList ht hl

/-- For a job that is not a sitemap job, the test of the `HEAD` probe sends the
worker to `ready` exactly for the content types that are not parsable. -/
theorem headNotParsable_plain (job : Job) (t : List Char) (ht : NUL ∉ t)
    (hs : job.sitemap = false) :
    headNotParsable job (some t) = !parsableType job t := by
  have e1 := strcasecmp_ascii_iff t "text/html" ht (by decide)
  have e2 := strcasecmp_ascii_iff t "text/css" ht (by decide)
  have e3 := strcasecmp_ascii_iff t "application/xhtml+xml" ht (by decide)
  have e4 := strcasecmp_ascii_iff t "application/atom+xml" ht (by decide)
  have e5 := strcasecmp_ascii_iff t "application/rss+xml" ht (by decide)
  simp only [headNotParsable, parsableType, hs, Bool.not_false, Bool.true_or, Bool.and_true,
    Bool.false_and, Bool.or_false, ne_eq, decide_not, e1, e2, e3, e4, e5]
  generalize decide (t.map c_tolower = "text/html".toList.map c_tolower) = a
  generalize decide (t.map c_tolower = "text/css".toList.map c_tolower) = b
  generalize decide (t.map c_tolower = "application/xhtml+xml".toList.map c_tolower) = c
  generalize decide (t.map c_tolower = "application/atom+xml".toList.map c_tolower) = d
  generalize decide (t.map c_tolower = "application/rss+xml".toList.map c_tolower) = e
  cases a <;> cases b <;> cases c <;> cases d <;> cases e <;> rfl

/-- For a sitemap job the test of the `HEAD` probe never sends the worker to
`ready`: its last three terms ask the content type to be `application/xml`,
`application/x-gzip` and `text/plain` at once. -/
theorem headNotParsable_sitemap (job : Job) (t : List Char) (ht : NUL ∉ t)
    (hs : job.sitemap = true) :
    headNotParsable job (some t) = false := by
  have e1 := strcasecmp_ascii_iff t "application/xml" ht (by decide)
  have e2 := strcasecmp_ascii_iff t "text/plain" ht (by decide)
  by_cases h1 : t.map c_tolower = "application/xml".toList.map c_tolower
  · have h2 : ¬ t.map c_tolower = "text/plain".toList.map c_tolower := by
      rw [h1]; decide
    have h3 : decide (wget_strcasecmp_ascii (some t) (some "text/plain".toList) = 0) = false :=
      decide_eq_false (fun h => h2 (e2.1 h))
    simp only [headNotParsable, hs, Bool.not_true, Bool.false_or, h3, Bool.and_false]
  · have h3 : decide (wget_strcasecmp_ascii (some t) (some "application/xml".toList) = 0)
        = false := decide_eq_false (fun h => h1 (e1.1 h))
    simp only [headNotParsable, hs, Bool.not_true, Bool.false_or, h3, Bool.and_false,
      Bool.false_and]

/-- C21, evaluated (`downloader_thread`, spider mode, `HEAD` answered with
200): for `image/png`, which is not a parsable type, the worker of a sitemap
job goes on to the `GET`, while the worker of another job is done after the
`HEAD`; for a sitemap job and `application/xml` the `GET` follows as well. -/
theorem head_probe_sitemap_job :
    parsableType jobSitemap "image/png".toList = false ∧
    (downloader_thread
        (libExample (fun _ => Exchange.response (respType "image/png".toList)) [] [])
        (cfgWorker false false true 0 0) worldStart jobSitemap).map
      (fun r => requestCalls r.w.trace) = some ["HEAD".toList, "GET".toList] ∧
    (downloader_thread
        (libExample (fun _ => Exchange.response (respType "image/png".toList)) [] [])
        (cfgWorker false false true 0 0) worldStart (jobExample 0 0)).map
      (fun r => requestCalls r.w.trace) = some ["HEAD".toList] ∧
    (downloader_thread
        (libExample (fun _ => Exchange.response (respType "application/xml".toList)) [] [])
        (cfgWorker false false true 0 0) worldStart jobSitemap).map
      (fun r => requestCalls r.w.trace) = some ["HEAD".toList, "GET".toList] := by
  decide

/-! ### The download in chunks -/

theorem toSizeT_natCast (k : Nat) (h : k < 2 ^ 64) : toSizeT (k : Int) = k := by
  unfold toSizeT
  omega

theorem toLongLong_natCast (k : Nat) (h : k < 2 ^ 63) : toLongLong (k : Int) = k := by
  unfold toLongLong
  omega

/-- The quotient `(n + c - 1) / c` is the least `k` with `n ≤ k * c`. -/
theorem ceil_div_spec (n c : Nat) (hc : 0 < c) (hn : 0 < n) :
    n ≤ (n + c - 1) / c * c ∧ ((n + c - 1) / c - 1) * c < n ∧ 0 < (n + c - 1) / c := by
  have h1 := Nat.div_add_mod (n + c - 1) c
  have h2 := Nat.mod_lt (n + c - 1) hc
  have h3 : 0 < (n + c - 1) / c := Nat.div_pos (by omega) hc
  rw [Nat.mul_comm] at h1
  refine ⟨by omega, ?_, h3⟩
  have h4 : ((n + c - 1) / c - 1) * c = (n + c - 1) / c * c - c := by
    rw [Nat.sub_mul, Nat.one_mul]
  omega

theorem ceil_div_eq (n c : Nat) (hc : 0 < c) (hn : 0 < n) :
    (n + c - 1) / c = ⌈(n : ℚ) / (c : ℚ)⌉₊ := by
  obtain ⟨h1, h2, h3⟩ := ceil_div_spec n c hc hn
  have hcq : (0 : ℚ) < (c : ℚ) := by exact_mod_cast hc
  apply le_antisymm
  · have : (n + c - 1) / c - 1 < ⌈(n : ℚ) / (c : ℚ)⌉₊ := by
      rw [Nat.lt_ceil, lt_div_iff₀ hcq]
      exact_mod_cast h2
    omega
  · rw [Nat.ceil_le, div_le_iff₀ hcq]
    exact_mod_cast h1

theorem chunk_pieces (config : WorkerConfig) (job : Job) (resp : Response) (c n : Nat)
    (hcfg : config.chunk_size = (c : Int)) (hresp : resp.content_length = n)
    (hc : 0 < c) (hn : c < n) (hmax : n < 2 ^ 63) :
    (chunkMetalink config job resp).pieces =
      (List.range ((n + c - 1) / c)).map fun i =>
        { length := (c : Int), position := ((i * c : Nat) : Int) } := by
  have hk : (n + c - 1) / c ≤ n := by
    obtain ⟨_, h2, h3⟩ := ceil_div_spec n c hc (by omega)
    have : (n + c - 1) / c - 1 ≤ ((n + c - 1) / c - 1) * c := Nat.le_mul_of_pos_right _ hc
    omega
  have e1 : toSizeT ((n : Int) + (c : Int) - 1) = n + c - 1 := by
    rw [← toSizeT_natCast (n + c - 1) (by omega)]
    congr 1
    omega
  have e2 : toSizeT (c : Int) = c := toSizeT_natCast c (by omega)
  have e3 : toLongLong (((n + c - 1) / c : Nat) : Int) = ((n + c - 1) / c : Nat) :=
    toLongLong_natCast _ (by omega)
  simp only [chunkMetalink, hcfg, hresp, e1, e2, e3, Int.toNat_ofNat]
  simp only [bind_pure_comp, List.map_eq_map, List.map_map]
  apply List.map_congr_left
  intro i _
  simp

/-- C22 (`downloader_thread`, "create metalink structure without hashing"):
for a chunk size `c > 0` and a Content-Length `n > c` within the range of
`long long`, the piece count staying within that of the `int` counter of the
loop, the metalink has `(n + c - 1) / c` pieces, which is the ceiling of `n / c`;
piece `i` has length `c` and starts at byte `i * c`, so the start offsets are
strictly increasing, neighbours are `c` apart, every offset is below `n`, every
byte below `n` lies in the range of a piece and no byte lies in two ranges. The
mirror is the IRI of the job. -/
theorem chunk_part_count (config : WorkerConfig) (job : Job) (resp : Response) (c n : Nat)
    (hcfg : config.chunk_size = (c : Int)) (hresp : resp.content_length = n)
    (hc : 0 < c) (hn : c < n) (hmax : n < 2 ^ 63) (hint : (n + c - 1) / c < 2 ^ 31) :
    (chunkMetalink config job resp).pieces.length = (n + c - 1) / c ∧
    (n + c - 1) / c = ⌈(n : ℚ) / (c : ℚ)⌉₊ ∧
    (∀ i, i < (n + c - 1) / c →
      (chunkMetalink config job resp).pieces[i]? =
        some { length := (c : Int), position := ((i * c : Nat) : Int) }) ∧
    List.Pairwise (fun a b => a < b)
      ((chunkMetalink config job resp).pieces.map fun p => p.position) ∧
    (∀ i, i + 1 < (n + c - 1) / c →
      ((chunkMetalink config job resp).pieces.map fun p => p.position)[i + 1]? =
        (((chunkMetalink config job resp).pieces.map fun p => p.position)[i]?).map
          fun a => a + (c : Int)) ∧
    (∀ i, i < (n + c - 1) / c → i * c < n) ∧
    (∀ b, b < n → ∃ i, i < (n + c - 1) / c ∧ i * c ≤ b ∧ b < (i + 1) * c) ∧
    (∀ i j b, i * c ≤ b → b < (i + 1) * c → j * c ≤ b → b < (j + 1) * c → i = j) ∧
    (chunkMetalink config job resp).mirrors = some [{ location := "-".toList, iri := job.iri }] := by
  have hp := chunk_pieces config job resp c n hcfg hresp hc hn hmax
  obtain ⟨h1, h2, h3⟩ := ceil_div_spec n c hc (by omega)
  have hget : ∀ i, i < (n + c - 1) / c →
      (chunkMetalink config job resp).pieces[i]? =
        some { length := (c : Int), position := ((i * c : Nat) : Int) } := by
    intro i hi
    rw [hp, List.getElem?_map, List.getElem?_range hi]
    rfl
  refine ⟨by rw [hp]; simp, ceil_div_eq n c hc (by omega), hget, ?_, ?_, ?_, ?_, ?_, rfl⟩
  · rw [hp, List.map_map, List.pairwise_map]
    refine (List.pairwise_lt_range _).imp ?_
    intro a b hab
    show ((a * c : Nat) : Int) < ((b * c : Nat) : Int)
    have := Nat.mul_lt_mul_of_pos_right hab hc
    exact_mod_cast this
  · intro i hi
    rw [List.getElem?_map, List.getElem?_map, hget (i + 1) hi, hget i (by omega)]
    simp only [Option.map_some', Option.some.injEq]
    push_cast
    ring
  · intro i hi
    have : i * c ≤ ((n + c - 1) / c - 1) * c := Nat.mul_le_mul_right c (by omega)
    omega
  · intro b hb
    refine ⟨b / c, ?_, Nat.div_mul_le_self b c, ?_⟩
    · rw [Nat.div_lt_iff_lt_mul hc]
      omega
    · have := Nat.div_add_mod b c
      have := Nat.mod_lt b hc
      rw [Nat.add_mul, Nat.one_mul, Nat.mul_comm]
      omega
  · intro i j b h1 h2 h3 h4
    have hi : b / c = i := Nat.div_eq_of_lt_le h1 h2
    have hj : b / c = j := Nat.div_eq_of_lt_le h3 h4
    omega

/-- Witness of C22: a chunk size of 100000 and a Content-Length of 1000000
give 10 pieces. -/
theorem chunk_part_count_witness :
    (chunkMetalink { cfgWorker false false false 0 0 with chunk_size := 100000 } (jobExample 0 0)
      { respCode 200 with content_length := 1000000 }).pieces.length = 10 := by
  have h := chunk_part_count { cfgWorker false false false 0 0 with chunk_size := 100000 }
    (jobExample 0 0) { respCode 200 with content_length := 1000000 } 100000 1000000 rfl rfl
    (by norm_num) (by norm_num) (by norm_num) (by norm_num)
  exact h.1

/-! ### The local file name -/

/-- C23, as stated, fails: in spider mode with `--continue` (and without
`--delete-after`) `get_local_filename` returns a file name. -/
theorem local_filename_spider_continue :
    (cfgName false true true 0).spider = true ∧
    get_local_filename iriLibExample true (cfgName false true true 0)
      (iriExample "a/b/c.txt".toList) = some "c.txt".toList := by
  decide

/-- C23, amended (`get_local_filename`): the result is `NULL` whenever
`config.delete_after` is set, and whenever `config.spider` is set and
`config.continue_download` is not; with `config.continue_download` set and
`config.delete_after` not, a file name is returned, also in spider mode. This
holds for every IRI, every further option and all that the functions of iri.c
may return. -/
theorem local_filename_null (lib : IriLib) (signed_char : Bool) (config : NameConfig)
    (iri : Iri) :
    (config.delete_after = true ∨ (config.spider = true ∧ config.continue_download = false) →
      get_local_filename lib signed_char config iri = none) ∧
    (config.continue_download = true → config.delete_after = false →
      (get_local_filename lib signed_char config iri).isSome = true) := by
  constructor
  · intro h
    unfold get_local_filename
    split
    · rfl
    · rcases h with h | ⟨h1, h2⟩
      · simp [h]
      · rename_i hc
        simp [h1, h2] at hc
  · intro h1 h2
    simp [get_local_filename, h1, h2]

/-- Witness of C23: spider mode without `--continue`, and `--delete-after`
together with `--continue`. -/
theorem local_filename_null_witness :
    get_local_filename iriLibExample true (cfgName false true false 0)
      (iriExample "a/b/c.txt".toList) = none ∧
    get_local_filename iriLibExample true
      { cfgName false false true 0 with delete_after := true }
      (iriExample "a/b/c.txt".toList) = none :=
  ⟨(local_filename_null iriLibExample true (cfgName false true false 0)
      (iriExample "a/b/c.txt".toList)).1 (Or.inr ⟨rfl, rfl⟩),
   (local_filename_null iriLibExample true { cfgName false false true 0 with delete_after := true }
      (iriExample "a/b/c.txt".toList)).1 (Or.inl rfl)⟩

theorem strrchr_isSome (c : Char) (s : List Char) (h : c ∈ s) : (strrchr c s).isSome = true := by
  induction s with
  | nil => cases h
  | cons d s ih =>
    unfold strrchr
    cases hs : strrchr c s with
    | some i => rfl
    | none =>
      rcases List.mem_cons.1 h with h | h
      · simp [h]
      · have := ih h
        rw [hs] at this
        cases this

/-- In the branch "cut directories" nothing is appended for a path that has
a `/`, however many directories are to be cut: the pointer `p` that the loop
and `strrchr` compute is not used. -/
theorem cutDirectories_slash (config : NameConfig) (path : List Char) (h : '/' ∈ path) :
    cutDirectories config path = [] := by
  unfold cutDirectories
  split
  · rfl
  · have := strrchr_isSome '/' path h
    split
    · rfl
    · rename_i h2
      rw [h2] at this
      cases this

/-- C24, evaluated (`get_local_filename`, directories and host directories
on, host `example.com`): without `--cut-dirs` the path `a/b/c.txt` is appended
behind the host; with `--cut-dirs=1` nothing of the path is appended, neither
`/b/c.txt` nor the file name; with `--cut-dirs=5` and the path `a/c.txt`, which
has fewer directories, nothing is appended either. A path without any `/` is
appended whole. -/
theorem cut_dirs_path_lost :
    get_local_filename iriLibExample true (cfgName true false false 0)
      (iriExample "a/b/c.txt".toList) = some "example.com/a/b/c.txt".toList ∧
    get_local_filename iriLibExample true (cfgName true false false 1)
      (iriExample "a/b/c.txt".toList) = some "example.com".toList ∧
    get_local_filename iriLibExample true (cfgName true false false 5)
      (iriExample "a/c.txt".toList) = some "example.com".toList ∧
    get_local_filename iriLibExample true (cfgName true false false 1)
      (iriExample "c.txt".toList) = some "example.com/c.txt".toList := by
  decide

/-! ### The restriction of file names -/

theorem escapeLoop_eq (mode : RestrictNames) (signed_char : Bool) (f : List Char) :
    (escapeLoop mode signed_char f).1 =
      f.flatMap (fun c => if escapedIn mode signed_char c then escapeBytes c else [c]) ∧
    ((escapeLoop mode signed_char f).2 = false ↔ ∀ c ∈ f, escapedIn mode signed_char c = false) := by
  induction f with
  | nil => exact ⟨rfl, by simp [escapeLoop]⟩
  | cons c s ih =>
    unfold escapeLoop
    by_cases h : escapedIn mode signed_char c = true
    · simp only [h, if_true, List.flatMap_cons]
      refine ⟨by rw [ih.1], ?_⟩
      simp [h]
    · simp only [h, if_false, List.flatMap_cons, Bool.false_eq_true]
      refine ⟨by rw [ih.1]; rfl, ?_⟩
      rw [ih.2]
      simp [h]

theorem escapeLoop_self (mode : RestrictNames) (signed_char : Bool) (f : List Char)
    (h : (escapeLoop mode signed_char f).2 = false) : (escapeLoop mode signed_char f).1 = f := by
  induction f with
  | nil => rfl
  | cons c s ih =>
    unfold escapeLoop at h ⊢
    by_cases hc : escapedIn mode signed_char c = true
    · simp [hc] at h
    · simp only [hc, if_false, Bool.false_eq_true] at h ⊢
      rw [ih h]

theorem upperHex_digit (x : Nat) (h : x < 16) :
    upperHex x = "0123456789ABCDEF".toList.getD x '0' ∧ 32 ≤ (upperHex x).toNat := by
  interval_cases x <;> decide

theorem charValue_ascii (signed_char : Bool) (c : Char) (h : c.toNat < 128) :
    charValue signed_char c = c.toNat := by
  unfold charValue
  have : c.toNat % 256 = c.toNat := Nat.mod_eq_of_lt (by omega)
  rw [this, if_neg (by omega)]

theorem escapedIn_range (mode : RestrictNames) (signed_char : Bool) (c : Char)
    (hm : mode = RestrictNames.unix ∨ mode = RestrictNames.ascii) :
    (1 ≤ c.toNat ∧ c.toNat ≤ 31 → escapedIn mode signed_char c = true) ∧
    (32 ≤ c.toNat ∧ c.toNat ≤ 127 → escapedIn mode signed_char c = false) ∧
    (escapedIn mode signed_char c = false → ¬ (1 ≤ c.toNat ∧ c.toNat ≤ 31)) := by
  have key : ∀ h : c.toNat < 128, charValue signed_char c = c.toNat :=
    charValue_ascii signed_char c
  have e : ∀ m, m = RestrictNames.unix ∨ m = RestrictNames.ascii →
      (1 ≤ c.toNat ∧ c.toNat ≤ 31 → escapedIn m signed_char c = true) ∧
      (32 ≤ c.toNat ∧ c.toNat ≤ 127 → escapedIn m signed_char c = false) := by
    intro m hm
    rcases hm with rfl | rfl
    · refine ⟨fun h => ?_, fun h => ?_⟩
      · simp only [escapedIn, key (by omega), decide_eq_true_eq]; omega
      · simp only [escapedIn, key (by omega), decide_eq_false_iff_not]; omega
    · refine ⟨fun h => ?_, fun h => ?_⟩
      · simp only [escapedIn, key (by omega), decide_eq_true_eq]; omega
      · simp only [escapedIn, key (by omega), decide_eq_false_iff_not]; omega
  refine ⟨(e mode hm).1, (e mode hm).2, fun h hc => ?_⟩
  rw [(e mode hm).1 hc] at h
  cases h

/-- C25 (`restrict_file_name`, Unix mode and ASCII mode, plain `char` signed or
not): the returned name is the file name `f` with each byte either copied or
replaced by its escape, in order; a control byte `b` (1 to 31) is replaced by
`%` and the two upper case hexadecimal digits of `b`, a byte from 32 to 126 is
copied, the returned name has no control byte, and when no byte of `f` is
escaped the function returns `fname` itself, unchanged. -/
theorem restrict_names_escaping (mode : RestrictNames) (signed_char : Bool) (f : List Char)
    (hm : mode = RestrictNames.unix ∨ mode = RestrictNames.ascii) :
    (restrict_file_name mode signed_char f).1 =
      f.flatMap (fun c => if escapedIn mode signed_char c then escapeBytes c else [c]) ∧
    (∀ c : Char, 1 ≤ c.toNat ∧ c.toNat ≤ 31 →
      escapedIn mode signed_char c = true ∧
      escapeBytes c = ['%', "0123456789ABCDEF".toList.getD (c.toNat / 16) '0',
        "0123456789ABCDEF".toList.getD (c.toNat % 16) '0']) ∧
    (∀ c : Char, 32 ≤ c.toNat ∧ c.toNat ≤ 126 → escapedIn mode signed_char c = false) ∧
    (∀ c ∈ (restrict_file_name mode signed_char f).1, ¬ (1 ≤ c.toNat ∧ c.toNat ≤ 31)) ∧
    ((∀ c ∈ f, escapedIn mode signed_char c = false) →
      restrict_file_name mode signed_char f = (f, false)) := by
  have hl := escapeLoop_eq mode signed_char f
  have hr : restrict_file_name mode signed_char f =
      if (escapeLoop mode signed_char f).2 then ((escapeLoop mode signed_char f).1, true)
      else (f, false) := by
    rcases hm with rfl | rfl <;> rfl
  have h1 : (restrict_file_name mode signed_char f).1 = (escapeLoop mode signed_char f).1 := by
    rw [hr]
    by_cases h : (escapeLoop mode signed_char f).2 = true
    · rw [if_pos h]
    · rw [if_neg h]
      exact (escapeLoop_self mode signed_char f (by simpa using h)).symm
  refine ⟨h1.trans hl.1, ?_, ?_, ?_, ?_⟩
  · intro c hc
    refine ⟨(escapedIn_range mode signed_char c hm).1 hc, ?_⟩
    have e1 : c.toNat % 256 = c.toNat := Nat.mod_eq_of_lt (by omega)
    simp only [escapeBytes, e1]
    rw [(upperHex_digit (c.toNat / 16) (by omega)).1, (upperHex_digit (c.toNat % 16) (by omega)).1]
  · intro c hc
    exact (escapedIn_range mode signed_char c hm).2.1 ⟨hc.1, by omega⟩
  · intro c hc
    rw [h1, hl.1, List.mem_flatMap] at hc
    obtain ⟨b, _, hcb⟩ := hc
    by_cases hb : escapedIn mode signed_char b = true
    · rw [if_pos hb] at hcb
      simp only [escapeBytes, List.mem_cons, List.mem_singleton, List.not_mem_nil,
        or_false] at hcb
      rcases hcb with rfl | rfl | rfl
      · decide
      · have := (upperHex_digit (b.toNat % 256 / 16) (by omega)).2
        omega
      · have := (upperHex_digit (b.toNat % 16) (by omega)).2
        omega
    · rw [if_neg hb] at hcb
      rw [List.mem_singleton] at hcb
      rw [hcb]
      exact (escapedIn_range mode signed_char b hm).2.2 (by simpa using hb)
  · intro h
    rw [hr, if_neg]
    rw [hl.2.2 h]
    simp

/-- Witness of C25: in the Unix mode the bytes 1 and 31 of a name are
escaped, the other bytes are copied. -/
theorem restrict_names_escaping_witness :
    (restrict_file_name RestrictNames.unix true ['a', Char.ofNat 1, ' ', Char.ofNat 31, '~']).1 =
      "a%01 %1F~".toList := by
  have h := (restrict_names_escaping RestrictNames.unix true
    ['a', Char.ofNat 1, ' ', Char.ofNat 31, '~'] (Or.inl rfl)).1
  rw [h]
  decide

/-- C26, as stated, fails: in the Windows mode a name with the control byte 1
and with `:`, `?` and `*` is returned as it is. -/
theorem restrict_names_windows_kept :
    restrict_file_name RestrictNames.windows true ['a', Char.ofNat 1, ':', '?', '*', 'b'] =
      (['a', Char.ofNat 1, ':', '?', '*', 'b'], false) ∧
    Char.ofNat 1 ∈ (restrict_file_name RestrictNames.windows true
      ['a', Char.ofNat 1, ':', '?', '*', 'b']).1 ∧
    (Char.ofNat 1).toNat ≤ 31 := by
  decide

/-- C26, amended (`restrict_file_name`, `case RESTRICT_NAMES_WINDOWS: break;`):
in the Windows mode the function returns `fname` itself with every byte as it
was; nothing is escaped. -/
theorem restrict_names_windows (signed_char : Bool) (f : List Char) :
    restrict_file_name RestrictNames.windows signed_char f = (f, false) :=
  rfl

/-! ### The three date forms -/

theorem parse_full_date_eq (s : List Char) :
    wget_http_parse_full_date s =
      match dateFields s with
      | none => 0
      | some f => dateOfFields f := by
  unfold wget_http_parse_full_date dateFields
  cases (sscanf_rfc1123 s <|> sscanf_rfc850 s <|> sscanf_asctime s) with
  | none => rfl
  | some f => rfl

theorem length_fmt_year4 (y : Int) (h0 : 1970 ≤ y) (h1 : y ≤ 2069) : (fmt_d y).length = 4 := by
  interval_cases y <;> rfl

theorem scan_fmt_year4 (y : Int) (h0 : 1970 ≤ y) (h1 : y ≤ 2069) (rest : List Char) :
    skipSpace (fmt_d y ++ rest) = fmt_d y ++ rest ∧
    scanInt 4 (fmt_d y ++ rest) = some (y, rest) := by
  interval_cases y <;> exact ⟨rfl, rfl⟩

theorem scan_fmt_year2 (n : Int) (h0 : 0 ≤ n) (h1 : n < 100) (rest : List Char) :
    scanInt 4 (fmt_02d n ++ ' ' :: rest) = some (n, ' ' :: rest) := by
  interval_cases n <;> rfl

theorem scan_weekday (wd : Int) (h0 : 0 ≤ wd) (h1 : wd < 7) (rest : List Char) :
    skipSpace (weekdays.getD wd.toNat [] ++ ',' :: rest)
      = weekdays.getD wd.toNat [] ++ ',' :: rest ∧
    scanSet c_isalpha (weekdays.getD wd.toNat [] ++ ',' :: rest).length
        (weekdays.getD wd.toNat [] ++ ',' :: rest)
      = some (weekdays.getD wd.toNat [], ',' :: rest) := by
  interval_cases wd <;> exact ⟨rfl, rfl⟩

theorem scan_dname_blank (wd : Int) (h0 : 0 ≤ wd) (h1 : wd < 7) (rest : List Char) :
    skipSpace (dnames.getD wd.toNat [] ++ ' ' :: rest) = dnames.getD wd.toNat [] ++ ' ' :: rest ∧
    scanSet c_isalpha (dnames.getD wd.toNat [] ++ ' ' :: rest).length
        (dnames.getD wd.toNat [] ++ ' ' :: rest)
      = some (dnames.getD wd.toNat [], ' ' :: rest) := by
  interval_cases wd <;> exact ⟨rfl, rfl⟩

/-- The first format reads `-` and two letters of the month of an
`rfc850-date` as the month name and then finds no year. -/
theorem scan_dash_mname (m : Int) (h0 : 0 ≤ m) (h1 : m < 12) (rest : List Char) :
    (scanStr 3 (skipSpace ('-' :: (mnames.getD m.toNat [] ++ '-' :: rest)))).bind
      (fun r => scanInt 4 (skipSpace r.2)) = none := by
  interval_cases m <;> rfl

theorem scan_asctime_day (d : Int) (h0 : 1 ≤ d) (h1 : d ≤ 31) (rest : List Char) :
    scanInt 2 (skipSpace
      ((if d < 10 then ' ' :: fmt_d d else fmt_d d) ++ ' ' :: rest)) = some (d, ' ' :: rest) := by
  interval_cases d <;> rfl

theorem sscanf_rfc1123_form (tm : Tm) (h : tm.inRange) :
    sscanf_rfc1123 (rfc1123_date tm)
      = some (tm.tm_mday, mnames.getD tm.tm_mon.toNat [], tm.tm_year + 1900, tm.tm_hour,
          tm.tm_min, tm.tm_sec) := by
  obtain ⟨hwd, hmd, hmon, hy, hh, hmi, hs⟩ := h
  have e1 : ", ".toList = [',', ' '] := rfl
  have e2 : " ".toList = [' '] := rfl
  have e3 : ":".toList = [':'] := rfl
  unfold rfc1123_date timeOfDay
  simp only [e1, e2, e3, List.append_assoc, List.cons_append, List.nil_append]
  unfold sscanf_rfc1123
  simp only [(scan_dname _ hwd.1 hwd.2 _).1, (scan_dname _ hwd.1 hwd.2 _).2,
    Option.bind_eq_bind, Option.some_bind, matchChar, if_true, skipSpace_blank,
    (scan_fmt_02d _ (by omega : (0 : Int) ≤ tm.tm_mday) (by omega) _).1,
    (scan_fmt_02d _ (by omega : (0 : Int) ≤ tm.tm_mday) (by omega) _).2,
    (scan_mname _ hmon.1 hmon.2 _).1, (scan_mname _ hmon.1 hmon.2 _).2.1,
    (scan_fmt_year4 _ hy.1 hy.2 _).1, (scan_fmt_year4 _ hy.1 hy.2 _).2,
    (scan_fmt_02d _ hh.1 hh.2 _).1, (scan_fmt_02d _ hh.1 hh.2 _).2,
    (scan_fmt_02d _ hmi.1 hmi.2 _).1, (scan_fmt_02d _ hmi.1 hmi.2 _).2,
    (scan_fmt_02d _ hs.1 hs.2 _).1, (scan_fmt_02d _ hs.1 hs.2 _).2, Option.pure_def]

theorem sscanf_rfc850_form (tm : Tm) (h : tm.inRange) :
    sscanf_rfc1123 (rfc850_date tm) = none ∧
    sscanf_rfc850 (rfc850_date tm)
      = some (tm.tm_mday, mnames.getD tm.tm_mon.toNat [], (tm.tm_year + 1900) % 100, tm.tm_hour,
          tm.tm_min, tm.tm_sec) := by
  obtain ⟨hwd, hmd, hmon, hy, hh, hmi, hs⟩ := h
  have e1 : ", ".toList = [',', ' '] := rfl
  have e2 : " ".toList = [' '] := rfl
  have e3 : ":".toList = [':'] := rfl
  have e4 : "-".toList = ['-'] := rfl
  have hy2 : 0 ≤ (tm.tm_year + 1900) % 100 ∧ (tm.tm_year + 1900) % 100 < 100 := by omega
  unfold rfc850_date timeOfDay
  simp only [e1, e2, e3, e4, List.append_assoc, List.cons_append, List.nil_append]
  constructor
  · unfold sscanf_rfc1123
    have hfail := scan_dash_mname tm.tm_mon hmon.1 hmon.2
    simp only [(scan_weekday _ hwd.1 hwd.2 _).1, (scan_weekday _ hwd.1 hwd.2 _).2,
      Option.bind_eq_bind, Option.some_bind, matchChar, if_true, skipSpace_blank,
      (scan_fmt_02d _ (by omega : (0 : Int) ≤ tm.tm_mday) (by omega) _).1,
      (scan_fmt_02d _ (by omega : (0 : Int) ≤ tm.tm_mday) (by omega) _).2]
    generalize (fmt_02d ((tm.tm_year + 1900) % 100) ++ ' ' :: (fmt_02d tm.tm_hour ++ ':' ::
      (fmt_02d tm.tm_min ++ ':' :: (fmt_02d tm.tm_sec ++ " GMT".toList)))) = rest
    have := hfail rest
    cases hs1 : scanStr 3 (skipSpace ('-' :: (mnames.getD tm.tm_mon.toNat [] ++ '-' :: rest))) with
    | none => rfl
    | some r =>
      rw [hs1] at this
      simp only [Option.some_bind] at this ⊢
      obtain ⟨a, b⟩ := r
      simp only at this ⊢
      rw [this]
      rfl
  · unfold sscanf_rfc850
    simp only [(scan_weekday _ hwd.1 hwd.2 _).1, (scan_weekday _ hwd.1 hwd.2 _).2,
      Option.bind_eq_bind, Option.some_bind, matchChar, if_true, skipSpace_blank,
      (scan_fmt_02d _ (by omega : (0 : Int) ≤ tm.tm_mday) (by omega) _).1,
      (scan_fmt_02d _ (by omega : (0 : Int) ≤ tm.tm_mday) (by omega) _).2,
      (scan_mname _ hmon.1 hmon.2 _).1, (scan_mname _ hmon.1 hmon.2 _).2.1,
      scan_fmt_year2 _ hy2.1 hy2.2 _,
      (scan_fmt_02d _ hh.1 hh.2 _).1, (scan_fmt_02d _ hh.1 hh.2 _).2,
      (scan_fmt_02d _ hmi.1 hmi.2 _).1, (scan_fmt_02d _ hmi.1 hmi.2 _).2,
      (scan_fmt_02d _ hs.1 hs.2 _).1, (scan_fmt_02d _ hs.1 hs.2 _).2, Option.pure_def]

theorem sscanf_asctime_form (tm : Tm) (h : tm.inRange) :
    sscanf_rfc1123 (asctime_date tm) = none ∧
    sscanf_rfc850 (asctime_date tm) = none ∧
    sscanf_asctime (asctime_date tm)
      = some (tm.tm_mday, mnames.getD tm.tm_mon.toNat [], tm.tm_year + 1900, tm.tm_hour,
          tm.tm_min, tm.tm_sec) := by
  obtain ⟨hwd, hmd, hmon, hy, hh, hmi, hs⟩ := h
  have e2 : " ".toList = [' '] := rfl
  have e3 : ":".toList = [':'] := rfl
  unfold asctime_date timeOfDay
  simp only [e2, e3, List.append_assoc, List.cons_append, List.nil_append]
  refine ⟨?_, ?_, ?_⟩
  · unfold sscanf_rfc1123
    simp only [(scan_dname_blank _ hwd.1 hwd.2 _).1, (scan_dname_blank _ hwd.1 hwd.2 _).2,
      Option.bind_eq_bind, Option.some_bind, matchChar]
    rfl
  · unfold sscanf_rfc850
    simp only [(scan_dname_blank _ hwd.1 hwd.2 _).1, (scan_dname_blank _ hwd.1 hwd.2 _).2,
      Option.bind_eq_bind, Option.some_bind, matchChar]
    rfl
  · unfold sscanf_asctime
    have hyear := scan_fmt_year4 _ hy.1 hy.2 []
    rw [List.append_nil] at hyear
    simp only [(scan_dname_blank _ hwd.1 hwd.2 _).1, (scan_dname_blank _ hwd.1 hwd.2 _).2,
      Option.bind_eq_bind, Option.some_bind, matchChar, if_true, skipSpace_blank,
      (scan_mname _ hmon.1 hmon.2 _).1, (scan_mname _ hmon.1 hmon.2 _).2.1,
      scan_asctime_day _ hmd.1 hmd.2 _,
      (scan_fmt_02d _ hh.1 hh.2 _).1, (scan_fmt_02d _ hh.1 hh.2 _).2,
      (scan_fmt_02d _ hmi.1 hmi.2 _).1, (scan_fmt_02d _ hmi.1 hmi.2 _).2,
      (scan_fmt_02d _ hs.1 hs.2 _).1, (scan_fmt_02d _ hs.1 hs.2 _).2,
      hyear.1, hyear.2, Option.pure_def]

theorem gmtime_r_century (t : Int) (h0 : 0 ≤ t) (h1 : t < 3155760000) :
    ∃ (y m md : Nat), 1970 ≤ y ∧ y ≤ 2069 ∧ m < 12 ∧
      gmtime_r t = some
        { tm_sec := t % 86400 % 60, tm_min := t % 86400 / 60 % 60, tm_hour := t % 86400 / 3600,
          tm_mday := (md : Int) + 1, tm_mon := (m : Int), tm_year := (y : Int) - 1900,
          tm_wday := (t / 86400 + 4) % 7 } ∧
      daysBefore y + (sum_of_days.getD m 0
          + (if (2 : Int) < (m : Int) + 1 ∧ isLeapYear y = true then 1 else 0)) + (md : Int)
        = t / 86400 ∧
      ¬ ((md : Int) + 1 > days_per_month.getD m 0
        + (if ((m : Int) + 1 = 2 ∧ isLeapYear y = true) then 1 else 0)) := by
  have hd0 : 0 ≤ t / 86400 := Int.ediv_nonneg h0 (by norm_num)
  have hd1 : t / 86400 < 36525 := by omega
  obtain ⟨d, hd⟩ : ∃ d : Nat, t / 86400 = (d : Int) := ⟨(t / 86400).toNat, by omega⟩
  obtain ⟨hy1, hy2, hy3⟩ := yearOfDays_spec d 1970 d (le_refl d) (le_refl 1970)
  have hb0 : daysBefore 1970 = 0 := by rw [daysBefore_eq 1970 (le_refl _)]; norm_num
  have hyle : (yearOfDays d 1970 d).1 ≤ 2069 := by
    have hdb := daysBefore_eq (yearOfDays d 1970 d).1 hy2
    have hy4 := hy3
    rw [hb0] at hy4
    clear hy1 hy3
    omega
  have hyd : (yearOfDays d 1970 d).2 < 366 := by
    have : yearLength (yearOfDays d 1970 d).1 ≤ 366 := by unfold yearLength; split <;> omega
    omega
  have hyd' : (yearOfDays d 1970 d).2 <
      (if isLeapYear (yearOfDays d 1970 d).1 = true then 366 else 365) := by
    unfold yearLength at hy1; exact hy1
  obtain ⟨hm1, hm2, hm3⟩ := monthOfDays_spec (isLeapYear (yearOfDays d 1970 d).1) _ hyd hyd'
  refine ⟨(yearOfDays d 1970 d).1, (monthOfDays (isLeapYear (yearOfDays d 1970 d).1) 12 0
    (yearOfDays d 1970 d).2).1, (monthOfDays (isLeapYear (yearOfDays d 1970 d).1) 12 0
    (yearOfDays d 1970 d).2).2, hy2, hyle, hm1, ?_, ?_, hm3⟩
  · unfold gmtime_r
    have hneg : ¬ (t / 86400 < 0) := by omega
    simp only [hneg, if_false, zero_mul, add_zero, mul_zero, sub_zero]
    have hdn : (t / 86400).toNat = d := by omega
    rw [hdn]
    have hrange : ¬ (((yearOfDays d 1970 d).1 : Int) - 1900 < - 2 ^ 31 ∨
        ((yearOfDays d 1970 d).1 : Int) - 1900 ≥ 2 ^ 31) := by
      norm_num; omega
    simp only [hrange, if_false]
  · rw [hd]
    rw [hb0] at hy3
    linarith

theorem year_normalised (z : Int) :
    (if (if z < 70 ∧ z ≥ 0 then z + 2000 else if z ≥ 70 ∧ z ≤ 99 then z + 1900 else z) < 1970
      then 1970
      else (if z < 70 ∧ z ≥ 0 then z + 2000 else if z ≥ 70 ∧ z ≤ 99 then z + 1900 else z))
      = normalisedYear z := by
  unfold normalisedYear
  dsimp only
  split_ifs <;> omega

theorem normalisedYear_ge (z : Int) : 1970 ≤ normalisedYear z := by
  unfold normalisedYear
  dsimp only
  split_ifs <;> omega

theorem normalisedYear_of_ge (z : Int) (h : 1970 ≤ z) : normalisedYear z = z := by
  unfold normalisedYear
  dsimp only
  split_ifs <;> omega

/-- The value of `wget_http_parse_full_date` for the six values of the
`sscanf` call, written with the normalised year. -/
theorem dateOfFields_eq (day : Int) (mname : List Char) (year hour min sec : Int) :
    dateOfFields (day, mname, year, hour, min, sec) =
      (let mon : Int := if mname ≠ [] then monthLookup mname mnames 0 else 0
       let y := normalisedYear year
       let leap_year : Bool := y.tmod 4 = 0 ∧ (y.tmod 100 ≠ 0 ∨ y.tmod 400 = 0)
       if mon < 1 ∨ mon > 12 ∨ day < 1 ∨
           day > days_per_month.getD (mon - 1).toNat 0
             + (if ((mon = 2 ∧ leap_year : Bool) = true) then 1 else 0) ∨
           hour < 0 ∨ hour > 23 ∨ min < 0 ∨ min > 60 ∨ sec < 0 ∨ sec > 60 then 0
       else
         ((((365 * (y - 1970) + leap_days 1970 y + (sum_of_days.getD (mon - 1).toNat 0
           + (if mon > 2 ∧ leap_year then 1 else 0)) + (day - 1)) * 24 + hour) * 60 + min) * 60
           + sec)) := by
  unfold dateOfFields
  simp only [year_normalised]

/-- The calculation of `wget_http_parse_full_date` for the fields of a day
within 1970 to 2069, the year given with four digits or with its last two. -/
theorem dateOfFields_civil (t : Int) (y m md : Nat) (yy : Int)
    (hy0 : 1970 ≤ y) (hy1 : y ≤ 2069) (hm : m < 12)
    (hyy : yy = (y : Int) ∨ yy = (y : Int) % 100)
    (hdays : daysBefore y + (sum_of_days.getD m 0
          + (if (2 : Int) < (m : Int) + 1 ∧ isLeapYear y = true then 1 else 0)) + (md : Int)
        = t / 86400)
    (hvalid : ¬ ((md : Int) + 1 > days_per_month.getD m 0
        + (if ((m : Int) + 1 = 2 ∧ isLeapYear y = true) then 1 else 0))) :
    dateOfFields ((md : Int) + 1, mnames.getD (m : Int).toNat [], yy, t % 86400 / 3600,
      t % 86400 / 60 % 60, t % 86400 % 60) = t := by
  have hrem0 : 0 ≤ t % 86400 := Int.emod_nonneg _ (by norm_num)
  have hrem1 : t % 86400 < 86400 := Int.emod_lt_of_pos _ (by norm_num)
  obtain ⟨_, _, hne, hlook⟩ := scan_mname (m : Int) (by omega) (by omega) []
  have hidx : ((m : Int) + 1 - 1).toNat = m := by omega
  have hnorm : normalisedYear yy = (y : Int) := by
    unfold normalisedYear
    dsimp only
    rcases hyy with h | h <;> split_ifs <;> omega
  rw [dateOfFields_eq]
  simp only [hne, hlook, hidx, ne_eq, not_false_eq_true, if_true, hnorm]
  simp only [isLeapYear_tmod, decide_eq_true_eq, gt_iff_lt] at hvalid ⊢
  rw [if_neg (by rintro (h | h | h | h | h | h | h | h | h | h) <;> omega)]
  have hd : daysBefore y + (sum_of_days.getD m 0
      + if 2 < (m : Int) + 1 ∧ isLeapYear y = true then 1 else 0) + ((md : Int) + 1 - 1)
      = t / 86400 := by rw [← hdays]; ring
  unfold daysBefore at hd
  rw [hd]
  omega

theorem yearOfDays_bounds (d : Nat) :
    1970 ≤ (yearOfDays d 1970 d).1 ∧
    daysBefore (yearOfDays d 1970 d).1 ≤ d ∧ (d : Int) < daysBefore ((yearOfDays d 1970 d).1 + 1) := by
  obtain ⟨hy1, hy2, hy3⟩ := yearOfDays_spec d 1970 d (le_refl d) (le_refl 1970)
  have hb0 : daysBefore 1970 = 0 := by rw [daysBefore_eq 1970 (le_refl _)]; norm_num
  have hsucc := daysBefore_succ (yearOfDays d 1970 d).1 hy2
  rw [hb0] at hy3
  refine ⟨hy2, by omega, by omega⟩

/-- The instants whose year lies within 1970 to 2069 are those from 0 to
3155759999. -/
theorem gmtime_r_year_range (t : Int) (tm : Tm) (htm : gmtime_r t = some tm)
    (hy : 1970 ≤ tm.tm_year + 1900 ∧ tm.tm_year + 1900 ≤ 2069) :
    0 ≤ t ∧ t < 3155760000 := by
  by_cases hneg : t / 86400 < 0
  · exfalso
    simp only [gmtime_r, hneg, if_true] at htm
    generalize hd : (t / 86400 + (146096 - t / 86400) / 146097 * 146097).toNat = d at htm
    obtain ⟨h1, h2, h3⟩ := yearOfDays_bounds d
    have hdb := daysBefore_eq (yearOfDays d 1970 d).1 h1
    split at htm
    · cases htm
    · have htm2 := (Option.some.inj htm).symm
      have hyear : tm.tm_year = ((yearOfDays d 1970 d).1 : Int)
          - 400 * ((146096 - t / 86400) / 146097) - 1900 := by rw [htm2]
      omega
  · simp only [gmtime_r, hneg, if_false, zero_mul, add_zero, mul_zero, sub_zero] at htm
    generalize hd : (t / 86400).toNat = d at htm
    obtain ⟨h1, h2, h3⟩ := yearOfDays_bounds d
    have hdb2 := daysBefore_eq ((yearOfDays d 1970 d).1 + 1) (by omega)
    push_cast at hdb2
    split at htm
    · cases htm
    · have htm2 := (Option.some.inj htm).symm
      have hyear : tm.tm_year = ((yearOfDays d 1970 d).1 : Int) - 1900 := by rw [htm2]
      omega

/-- C27 (`wget_http_parse_full_date`): for every instant `t` whose UTC year
lies within 1970 to 2069, the IMF-fixdate form, the RFC 850 form with the last
two digits of the year and the asctime form of its broken-down time all give
`t`, the number of seconds since 1970-01-01T00:00:00Z. -/
theorem date_forms_agree (t : Int) (tm : Tm) (htm : gmtime_r t = some tm)
    (hy : 1970 ≤ tm.tm_year + 1900 ∧ tm.tm_year + 1900 ≤ 2069) :
    wget_http_parse_full_date (rfc1123_date tm) = t ∧
    wget_http_parse_full_date (rfc850_date tm) = t ∧
    wget_http_parse_full_date (asctime_date tm) = t := by
  obtain ⟨h0, h1⟩ := gmtime_r_year_range t tm htm hy
  obtain ⟨y, m, md, hy0, hy1, hm, htm2, hdays, hvalid⟩ := gmtime_r_century t h0 h1
  rw [htm] at htm2
  have htm3 := Option.some.inj htm2
  have hrem0 : 0 ≤ t % 86400 := Int.emod_nonneg _ (by norm_num)
  have hrem1 : t % 86400 < 86400 := Int.emod_lt_of_pos _ (by norm_num)
  have hmd : md < 31 := by
    have : days_per_month.getD m 0 ≤ 31 := by
      interval_cases m <;> decide
    have h28 : (m : Int) + 1 = 2 → days_per_month.getD m 0 = 28 := by
      intro h
      have : m = 1 := by omega
      subst this
      rfl
    split at hvalid
    · rename_i hc
      have := h28 hc.1
      omega
    · omega
  have hr : tm.inRange := by
    rw [htm3]
    refine ⟨⟨?_, ?_⟩, ⟨?_, ?_⟩, ⟨?_, ?_⟩, ⟨?_, ?_⟩, ⟨?_, ?_⟩, ⟨?_, ?_⟩, ⟨?_, ?_⟩⟩ <;>
      dsimp only <;> omega
  have h1123 := sscanf_rfc1123_form tm hr
  have h850 := sscanf_rfc850_form tm hr
  have hasc := sscanf_asctime_form tm hr
  have hA := dateOfFields_civil t y m md (y : Int) hy0 hy1 hm (Or.inl rfl) hdays hvalid
  have hB := dateOfFields_civil t y m md ((y : Int) % 100) hy0 hy1 hm (Or.inr rfl) hdays hvalid
  have e1 : tm.tm_mday = (md : Int) + 1 := by rw [htm3]
  have e2 : tm.tm_mon = (m : Int) := by rw [htm3]
  have e3 : tm.tm_year + 1900 = (y : Int) := by rw [htm3]; dsimp only; ring
  have e4 : tm.tm_hour = t % 86400 / 3600 := by rw [htm3]
  have e5 : tm.tm_min = t % 86400 / 60 % 60 := by rw [htm3]
  have e6 : tm.tm_sec = t % 86400 % 60 := by rw [htm3]
  rw [e1, e2, e3, e4, e5, e6] at h1123 h850 hasc
  refine ⟨?_, ?_, ?_⟩
  · rw [parse_full_date_eq, dateFields, h1123]
    exact hA
  · rw [parse_full_date_eq, dateFields, h850.1, h850.2]
    exact hB
  · rw [parse_full_date_eq, dateFields, hasc.1, hasc.2.1, hasc.2.2]
    exact hA

/-- Witness of C27: the instant 784111777 is 6 November 1994, 08:49:37 UTC,
a Sunday; the three forms of the claim give 784111777. -/
theorem date_forms_agree_witness :
    wget_http_parse_full_date "Sun, 06 Nov 1994 08:49:37 GMT".toList = 784111777 ∧
    wget_http_parse_full_date "Sunday, 06-Nov-94 08:49:37 GMT".toList = 784111777 ∧
    wget_http_parse_full_date "Sun Nov  6 08:49:37 1994".toList = 784111777 :=
  date_forms_agree 784111777
    { tm_sec := 37, tm_min := 49, tm_hour := 8, tm_mday := 6, tm_mon := 10, tm_year := 94,
      tm_wday := 0 } (by decide) (by decide)

/-! ### The year of a date and the dates that fail -/

/-- C28 (`wget_http_parse_full_date`): the result for the values that
`sscanf` converts depends on the year field through the normalised year only
(0 to 69 read as 2000 to 2069, 70 to 99 as 1970 to 1999, everything below 1970
as 1970): it is the result for the same day, month and time with the normalised
year in place of the year field, and so equals the result for every date with
these values. The normalised year is never below 1970 and is the year field
itself from 1970 on. -/
theorem year_normalisation (s : List Char) (day : Int) (mname : List Char)
    (year hour min sec : Int)
    (hs : dateFields s = some (day, mname, year, hour, min, sec)) :
    wget_http_parse_full_date s =
      dateOfFields (day, mname, normalisedYear year, hour, min, sec) ∧
    (∀ s2, dateFields s2 = some (day, mname, normalisedYear year, hour, min, sec) →
      wget_http_parse_full_date s2 = wget_http_parse_full_date s) ∧
    (0 ≤ year ∧ year ≤ 69 → normalisedYear year = 2000 + year) ∧
    (70 ≤ year ∧ year ≤ 99 → normalisedYear year = 1900 + year) ∧
    (year < 0 ∨ (100 ≤ year ∧ year < 1970) → normalisedYear year = 1970) ∧
    (1970 ≤ year → normalisedYear year = year) := by
  have e : dateOfFields (day, mname, year, hour, min, sec) =
      dateOfFields (day, mname, normalisedYear year, hour, min, sec) := by
    rw [dateOfFields_eq, dateOfFields_eq,
      normalisedYear_of_ge (normalisedYear year) (normalisedYear_ge year)]
  refine ⟨?_, ?_, ?_, ?_, ?_, ?_⟩
  · rw [parse_full_date_eq, hs]
    exact e
  · intro s2 hs2
    rw [parse_full_date_eq, parse_full_date_eq, hs, hs2]
    exact e.symm
  · intro h
    unfold normalisedYear
    dsimp only
    split_ifs <;> omega
  · intro h
    unfold normalisedYear
    dsimp only
    split_ifs <;> omega
  · intro h
    unfold normalisedYear
    dsimp only
    split_ifs <;> omega
  · exact normalisedYear_of_ge year

/-- Witness of C28: the year field 94 is read as 1994, the year 1950 as
1970. -/
theorem year_normalisation_witness :
    wget_http_parse_full_date "Sun, 06 Nov 1994 08:49:37 GMT".toList =
      wget_http_parse_full_date "Sunday, 06-Nov-94 08:49:37 GMT".toList ∧
    wget_http_parse_full_date "Sun, 06 Nov 1970 08:49:37 GMT".toList =
      wget_http_parse_full_date "Sun, 06 Nov 1950 08:49:37 GMT".toList :=
  ⟨(year_normalisation "Sunday, 06-Nov-94 08:49:37 GMT".toList 6 "Nov".toList 94 8 49 37
      (by decide)).2.1 "Sun, 06 Nov 1994 08:49:37 GMT".toList (by decide),
   (year_normalisation "Sun, 06 Nov 1950 08:49:37 GMT".toList 6 "Nov".toList 1950 8 49 37
      (by decide)).2.1 "Sun, 06 Nov 1970 08:49:37 GMT".toList (by decide)⟩

theorem monthLookup_none (mname : List Char) (hn : NUL ∉ mname) :
    ∀ (ms : List (List Char)) (it : Int), (∀ m ∈ ms, NUL ∉ m) →
      (∀ m ∈ ms, mname.map c_tolower ≠ m.map c_tolower) → monthLookup mname ms it = 0 := by
  intro ms
  induction ms with
  | nil => intro it _ _; rfl
  | cons m ms ih =>
    intro it h1 h2
    unfold monthLookup
    have hne : ¬ wget_strcasecmp_ascii (some mname) (some m) = 0 := by
      intro h
      exact h2 m (List.mem_cons_self _ _)
        ((c_strcasecmp_eq_zero_iff mname m hn (h1 m (List.mem_cons_self _ _))).1 h)
    rw [if_neg hne]
    exact ih (it + 1) (fun x hx => h1 x (List.mem_cons_of_mem _ hx))
      (fun x hx => h2 x (List.mem_cons_of_mem _ hx))

theorem monthLookup_first (mname : List Char) (hn : NUL ∉ mname) :
    ∀ (pre : List (List Char)) (m : List Char) (post : List (List Char)) (it : Int),
      (∀ x ∈ pre, NUL ∉ x) → NUL ∉ m →
      (∀ x ∈ pre, mname.map c_tolower ≠ x.map c_tolower) →
      mname.map c_tolower = m.map c_tolower →
      monthLookup mname (pre ++ m :: post) it = it + pre.length + 1 := by
  intro pre
  induction pre with
  | nil =>
    intro m post it _ hm _ heq
    have hz : wget_strcasecmp_ascii (some mname) (some m) = 0 :=
      (c_strcasecmp_eq_zero_iff mname m hn hm).2 heq
    rw [List.nil_append, monthLookup, if_pos hz]
    simp
  | cons p pre ih =>
    intro m post it h1 hm h2 heq
    have hne : ¬ wget_strcasecmp_ascii (some mname) (some p) = 0 := by
      intro h
      exact h2 p (List.mem_cons_self _ _)
        ((c_strcasecmp_eq_zero_iff mname p hn (h1 p (List.mem_cons_self _ _))).1 h)
    rw [List.cons_append, monthLookup, if_neg hne, ih m post (it + 1) (fun x hx => h1 x (List.mem_cons_of_mem _ hx)) hm
      (fun x hx => h2 x (List.mem_cons_of_mem _ hx)) heq]
    simp only [List.length_cons]
    push_cast
    ring

theorem monthLookup_mnames (mname : List Char) (hn : NUL ∉ mname) (m : Nat) (hm : m < 12)
    (heq : mname.map c_tolower = (mnames.getD m []).map c_tolower) :
    monthLookup mname mnames 0 = (m : Int) + 1 := by
  have hsplit : mnames = mnames.take m ++ mnames.getD m [] :: mnames.drop (m + 1) ∧
      (mnames.take m).length = m ∧ (∀ x ∈ mnames.take m, NUL ∉ x) ∧ NUL ∉ mnames.getD m [] ∧
      (∀ x ∈ mnames.take m, (mnames.getD m []).map c_tolower ≠ x.map c_tolower) := by
    interval_cases m <;> decide
  obtain ⟨h1, h2, h3, h4, h5⟩ := hsplit
  have := monthLookup_first mname hn (mnames.take m) (mnames.getD m []) (mnames.drop (m + 1)) 0
    h3 h4 (fun x hx => by rw [heq]; exact h5 x hx) heq
  rw [← h1, h2] at this
  rw [this]
  ring

theorem month_days (m : Nat) (hm : m < 12) (leap : Bool) :
    days_per_month.getD m 0 + (if ((((m : Int) + 1 = 2 ∧ leap = true : Bool)) = true) then 1 else 0)
      = (monthLength leap m : Int) := by
  interval_cases m <;> cases leap <;> decide

/-- C29 (`wget_http_parse_full_date`): the result is 0 when none of the three
`sscanf` calls converts its six values; when the month name that was read is
none of `Jan` to `Dec`, compared without regard to ASCII case; and when the
day is below 1 or above the number of days of the month in the normalised
year, 29 for February in a leap year and 28 otherwise. -/
theorem date_parse_failure (s : List Char) :
    (dateFields s = none → wget_http_parse_full_date s = 0) ∧
    (∀ (day : Int) (mname : List Char) (year hour min sec : Int),
      dateFields s = some (day, mname, year, hour, min, sec) → NUL ∉ mname →
      ((∀ m ∈ mnames, mname.map c_tolower ≠ m.map c_tolower) →
        wget_http_parse_full_date s = 0) ∧
      (∀ m : Nat, m < 12 → mname.map c_tolower = (mnames.getD m []).map c_tolower →
        day < 1 ∨ day > (monthLength (isLeapYear (normalisedYear year).toNat) m : Int) →
        wget_http_parse_full_date s = 0)) := by
  constructor
  · intro h
    rw [parse_full_date_eq, h]
  · intro day mname year hour min sec hs hn
    constructor
    · intro hno
      rw [parse_full_date_eq, hs]
      simp only [dateOfFields_eq]
      have hl : monthLookup mname mnames 0 = 0 :=
        monthLookup_none mname hn mnames 0 (by decide) hno
      have hmon : (if mname ≠ [] then monthLookup mname mnames 0 else 0) = 0 := by
        split
        · exact hl
        · rfl
      rw [hmon]
      rw [if_pos (Or.inl (by decide))]
    · intro m hm heq hday
      rw [parse_full_date_eq, hs]
      simp only [dateOfFields_eq]
      have hne : mname ≠ [] := by
        intro h
        rw [h] at heq
        have : (mnames.getD m []).map c_tolower ≠ [] := by
          interval_cases m <;> decide
        exact this heq.symm
      have hl := monthLookup_mnames mname hn m hm heq
      rw [if_pos hne, hl]
      have hidx : ((m : Int) + 1 - 1).toNat = m := by omega
      have hge := normalisedYear_ge year
      have hcast : normalisedYear year = (((normalisedYear year).toNat : Nat) : Int) := by omega
      have hleap := isLeapYear_tmod (normalisedYear year).toNat
      rw [← hcast] at hleap
      rw [hidx, hleap]
      have hd := month_days m hm (isLeapYear (normalisedYear year).toNat)
      simp only [Bool.decide_and, Bool.decide_eq_true, Bool.and_eq_true, decide_eq_true_eq] at hd ⊢
      rw [hd]
      rw [if_pos]
      rcases hday with h | h
      · exact Or.inr (Or.inr (Or.inl h))
      · exact Or.inr (Or.inr (Or.inr (Or.inl h)))

/-- Witness of C29: a text that is no date, a month name that is no month,
30 February of a leap year and 29 February of another year give 0. -/
theorem date_parse_failure_witness :
    wget_http_parse_full_date "tomorrow".toList = 0 ∧
    wget_http_parse_full_date "Sun, 06 Foo 1994 08:49:37 GMT".toList = 0 ∧
    wget_http_parse_full_date "Wed, 30 Feb 2000 08:49:37 GMT".toList = 0 ∧
    wget_http_parse_full_date "Thu, 29 Feb 2001 08:49:37 GMT".toList = 0 ∧
    wget_http_parse_full_date "Tue, 29 Feb 2000 08:49:37 GMT".toList = 951814177 :=
  ⟨(date_parse_failure "tomorrow".toList).1 (by decide),
   ((date_parse_failure "Sun, 06 Foo 1994 08:49:37 GMT".toList).2 6 "Foo".toList 1994 8 49 37
      (by decide) (by decide)).1 (by decide),
   ((date_parse_failure "Wed, 30 Feb 2000 08:49:37 GMT".toList).2 30 "Feb".toList 2000 8 49 37
      (by decide) (by decide)).2 1 (by decide) (by decide) (by decide),
   ((date_parse_failure "Thu, 29 Feb 2001 08:49:37 GMT".toList).2 29 "Feb".toList 2001 8 49 37
      (by decide) (by decide)).2 1 (by decide) (by decide) (by decide),
   by decide⟩

/-! ### The Domain attribute of a cookie -/

theorem spanWhile_mem (p : Char → Bool) : ∀ (s : List Char) (c : Char),
    c ∈ (spanWhile p s).1 → p c = true := by
  intro s
  induction s with
  | nil => intro c h; cases h
  | cons d s ih =>
    intro c h
    unfold spanWhile at h
    by_cases hd : p d = true
    · rw [if_pos hd] at h
      rcases List.mem_cons.1 h with h | h
      · rw [h]; exact hd
      · exact ih c h
    · rw [if_neg hd] at h
      cases h

theorem spanWhile_snd (p : Char → Bool) : ∀ s : List Char,
    (spanWhile p s).2 = s.dropWhile p ∧ (spanWhile p s).1 = s.takeWhile p := by
  intro s
  induction s with
  | nil => exact ⟨rfl, rfl⟩
  | cons d s ih =>
    unfold spanWhile
    by_cases hd : p d = true
    · rw [if_pos hd, List.dropWhile_cons_of_pos hd, List.takeWhile_cons_of_pos hd]
      exact ⟨ih.1, by rw [ih.2]⟩
    · rw [if_neg hd, List.dropWhile_cons_of_neg hd, List.takeWhile_cons_of_neg hd]
      exact ⟨rfl, rfl⟩

theorem token_no_nul (s : List Char) : NUL ∉ (spanWhile wget_http_istoken s).1 := by
  intro h
  have := spanWhile_mem wget_http_istoken s NUL h
  revert this
  decide

/-- A name that is `domain` up to ASCII case is none of the other attribute
names. -/
theorem domain_name_tests (name : List Char) (hn : NUL ∉ name) :
    (wget_strcasecmp_ascii (some name) (some "domain".toList) = 0 ↔
      name.map c_tolower = "domain".toList) ∧
    (name.map c_tolower = "domain".toList →
      ¬ wget_strcasecmp_ascii (some name) (some "expires".toList) = 0 ∧
      ¬ wget_strcasecmp_ascii (some name) (some "max-age".toList) = 0) := by
  have e1 := c_strcasecmp_eq_zero_iff name "domain".toList hn (by decide)
  have e2 := c_strcasecmp_eq_zero_iff name "expires".toList hn (by decide)
  have e3 := c_strcasecmp_eq_zero_iff name "max-age".toList hn (by decide)
  refine ⟨e1, fun h => ⟨fun h2 => ?_, fun h3 => ?_⟩⟩
  · have := e2.1 h2
    rw [h] at this
    revert this
    decide
  · have := e3.1 h3
    rw [h] at this
    revert this
    decide

theorem spanWhile_head (p : Char → Bool) (s : List Char) (h : (spanWhile p s).1 ≠ []) :
    (spanWhile p s).1.head? = some (cur s) := by
  cases s with
  | nil => exact absurd rfl h
  | cons d s =>
    unfold spanWhile at h ⊢
    by_cases hd : p d = true
    · rw [if_pos hd]
      rfl
    · rw [if_neg hd] at h
      exact absurd rfl h

theorem dropWhile_dot (v : List Char) :
    (v.head? ≠ some '.' → v.dropWhile (fun c => c == '.') = v) ∧
    (v.dropWhile (fun c => c == '.')).head? ≠ some '.' := by
  cases v with
  | nil => exact ⟨fun _ => rfl, by simp⟩
  | cons d v =>
    constructor
    · intro h
      have hd : ¬ ((d == '.') = true) := by
        intro hd
        apply h
        rw [beq_iff_eq] at hd
        rw [hd]
        rfl
      simp only [List.dropWhile_cons, hd, if_false, Bool.false_eq_true]
    · intro h
      have := List.head?_dropWhile_not (fun c => c == '.') (d :: v)
      rw [h] at this
      simp at this

/-- One attribute with a value: what the code does to the domain and the
domain-dot flag is what `domainStep` says. -/
theorem domain_branch (name v1 : List Char) (p : List Char) (cookie : Cookie)
    (hn : NUL ∉ name) (hhead : v1 ≠ [] → v1.head? = some (cur p)) :
    (if decide (wget_strcasecmp_ascii (some name) (some "domain".toList) = 0) = true then
        if v1 ≠ [] then
          if cur p = '.' then
            (some (spanWhile (fun c => c == '.') v1).2, true)
          else (some v1, false)
        else (cookie.domain, cookie.domain_dot)
      else (cookie.domain, cookie.domain_dot)) =
      domainStep (cookie.domain, cookie.domain_dot) (name, some v1) := by
  obtain ⟨hd1, _⟩ := domain_name_tests name hn
  have hav : isDomainAv (name, some v1) =
      (decide (name.map c_tolower = "domain".toList) && !v1.isEmpty) := rfl
  unfold domainStep
  rw [hav]
  by_cases hdom : name.map c_tolower = "domain".toList
  · rw [if_pos (decide_eq_true (hd1.2 hdom)), decide_eq_true hdom, Bool.true_and]
    by_cases hv : v1 = []
    · rw [if_neg (not_not.2 hv), hv]
      rfl
    · have hemp : (!v1.isEmpty) = true := by
        cases v1 with
        | nil => exact absurd rfl hv
        | cons _ _ => rfl
      have hh := hhead hv
      rw [if_pos hv, if_pos hemp]
      by_cases hdot : cur p = '.'
      · rw [hdot] at hh
        rw [if_pos hdot, (spanWhile_snd (fun c => c == '.') v1).1]
        show _ = (some (v1.dropWhile fun c => c == '.'), v1.head? == some '.')
        rw [hh]
        rfl
      · have hne : v1.head? ≠ some '.' := by
          rw [hh]
          intro h
          exact hdot (Option.some.inj h)
        have hb : (v1.head? == some '.') = false := by
          rw [beq_eq_false_iff_ne]
          exact hne
        rw [if_neg hdot]
        show _ = (some (v1.dropWhile fun c => c == '.'), v1.head? == some '.')
        rw [(dropWhile_dot v1).1 hne, hb]
  · have h0 : ¬ decide (wget_strcasecmp_ascii (some name) (some "domain".toList) = 0) = true :=
      fun h => hdom (hd1.1 (of_decide_eq_true h))
    rw [if_neg h0, decide_eq_false hdom, Bool.false_and]
    rfl

/-- The loop of `wget_http_parse_setcookie` changes the domain and the
domain-dot flag of the cookie as the attributes that it finds say, one after
the other. -/
theorem cookieAttrs_domain (env : Env) : ∀ (fuel : Nat) (s : List Char) (cookie : Cookie),
    ((cookieAttrs env fuel s cookie).2.domain, (cookieAttrs env fuel s cookie).2.domain_dot) =
      (cookieAvs fuel s).foldl domainStep (cookie.domain, cookie.domain_dot) := by
  intro fuel
  induction fuel with
  | zero => intro s cookie; rfl
  | succ fuel ih =>
    intro s cookie
    unfold cookieAttrs cookieAvs
    cases hs : (spanWhile (fun c => c != ';') s).2 with
    | nil => rfl
    | cons c s1 =>
      dsimp only
      have hn := token_no_nul (skipSpace s1)
      obtain ⟨hd1, hd2⟩ := domain_name_tests _ hn
      generalize (spanWhile wget_http_istoken (skipSpace s1)).1 = name at hn hd1 hd2 ⊢
      generalize (spanWhile (fun c => c != '=' && c != ';')
        (spanWhile wget_http_istoken (skipSpace s1)).2).2 = s2
      by_cases heq : cur s2 = '='
      · simp only [heq, if_true]
        have hhead := spanWhile_head isCookieAvByte (adv s2)
        generalize spanWhile isCookieAvByte (adv s2) = v at hhead
        have hb := domain_branch name v.1 (adv s2) cookie hn hhead
        have key : ∀ ck : Cookie,
            (ck.domain, ck.domain_dot) =
              domainStep (cookie.domain, cookie.domain_dot) (name, some v.1) →
            (((if v.2 = [] then ([], ck) else cookieAttrs env fuel v.2 ck).2.domain,
              (if v.2 = [] then ([], ck) else cookieAttrs env fuel v.2 ck).2.domain_dot) =
              List.foldl domainStep (cookie.domain, cookie.domain_dot)
                ((name, some v.1) :: if v.2 = [] then [] else cookieAvs fuel v.2)) := by
          intro ck h2
          rw [List.foldl_cons, ← h2]
          by_cases he : v.2 = []
          · rw [if_pos he, if_pos he]
            rfl
          · rw [if_neg he, if_neg he]
            exact ih v.2 ck
        have hother : ¬ decide (wget_strcasecmp_ascii (some name) (some "domain".toList) = 0)
            = true → (cookie.domain, cookie.domain_dot) =
              domainStep (cookie.domain, cookie.domain_dot) (name, some v.1) := by
          intro h
          rw [← hb, if_neg h]
        by_cases h1 : decide (wget_strcasecmp_ascii (some name) (some "expires".toList) = 0) = true
        · simp only [h1, if_true]
          apply key
          refine hother ?_
          intro h
          exact (hd2 (hd1.1 (of_decide_eq_true h))).1 (of_decide_eq_true h1)
        · simp only [h1, if_false]
          by_cases h2 : decide (wget_strcasecmp_ascii (some name) (some "max-age".toList) = 0)
              = true
          · simp only [h2, if_true]
            apply key
            refine hother ?_
            intro h
            exact (hd2 (hd1.1 (of_decide_eq_true h))).2 (of_decide_eq_true h2)
          · simp only [h2, if_false]
            by_cases h3 : decide (wget_strcasecmp_ascii (some name) (some "domain".toList) = 0)
                = true
            · rw [if_pos h3] at hb
              simp only [h3, if_true]
              by_cases h4 : v.1 ≠ []
              · rw [if_pos h4] at hb
                simp only [h4, if_true, ne_eq, not_false_eq_true, not_true_eq_false]
                by_cases h5 : cur (adv s2) = '.'
                · rw [if_pos h5] at hb
                  simp only [h5, if_true]
                  apply key
                  · exact hb
                · rw [if_neg h5] at hb
                  simp only [h5, if_false]
                  apply key
                  · exact hb
              · rw [if_neg h4] at hb
                simp only [h4, if_false, ne_eq, not_false_eq_true, not_true_eq_false]
                apply key
                · exact hb
            · simp only [h3, if_false]
              by_cases h6 : decide (wget_strcasecmp_ascii (some name) (some "path".toList) = 0)
                  = true
              · simp only [h6, if_true]
                apply key
                · exact hother h3
              · simp only [h6, if_false]
                apply key
                · exact hother h3
      · simp only [heq, if_false]
        have hstep : domainStep (cookie.domain, cookie.domain_dot) (name, none) =
            (cookie.domain, cookie.domain_dot) := by
          simp [domainStep, isDomainAv]
        rw [List.foldl_cons, hstep]
        have key : ∀ ck : Cookie,
            (ck.domain, ck.domain_dot) = (cookie.domain, cookie.domain_dot) →
            (((if s2 = [] then ([], ck) else cookieAttrs env fuel s2 ck).2.domain,
              (if s2 = [] then ([], ck) else cookieAttrs env fuel s2 ck).2.domain_dot) =
              List.foldl domainStep (cookie.domain, cookie.domain_dot)
                (if s2 = [] then [] else cookieAvs fuel s2)) := by
          intro ck h2
          rw [← h2]
          by_cases he : s2 = []
          · rw [if_pos he, if_pos he]
            rfl
          · rw [if_neg he, if_neg he]
            exact ih s2 ck
        by_cases h1 : decide (wget_strcasecmp_ascii (some name) (some "secure".toList) = 0) = true
        · simp only [h1, if_true]
          apply key
          · exact rfl
        · simp only [h1, if_false]
          by_cases h2 : decide (wget_strcasecmp_ascii (some name) (some "httponly".toList) = 0)
              = true
          · simp only [h2, if_true]
            apply key
            · exact rfl
          · simp only [h2, if_false]
            apply key
            · exact rfl

theorem spanWhile_length (p : Char → Bool) : ∀ s : List Char,
    (spanWhile p s).2.length ≤ s.length := by
  intro s
  induction s with
  | nil => exact Nat.le_refl _
  | cons d s ih =>
    unfold spanWhile
    by_cases hd : p d = true
    · rw [if_pos hd]
      exact Nat.le_succ_of_le ih
    · rw [if_neg hd]

theorem skipSpace_length : ∀ s : List Char, (skipSpace s).length ≤ s.length := by
  intro s
  induction s with
  | nil => exact Nat.le_refl _
  | cons d s ih =>
    unfold skipSpace
    by_cases hd : c_isspace d = true
    · rw [if_pos hd]
      exact Nat.le_succ_of_le ih
    · rw [if_neg hd]

theorem adv_length (s : List Char) : (adv s).length ≤ s.length := by
  cases s with
  | nil => exact Nat.le_refl _
  | cons _ s => exact Nat.le_succ _

/-- The attributes found do not depend on the bound of the loop, once it is
above the length of the text: every round takes the `;` at least. -/
theorem cookieAvs_fuel : ∀ (f1 f2 : Nat) (s : List Char), s.length < f1 → s.length < f2 →
    cookieAvs f1 s = cookieAvs f2 s := by
  intro f1
  induction f1 with
  | zero => intro f2 s h; cases h
  | succ f1 ih =>
    intro f2 s h1 h2
    cases f2 with
    | zero => cases h2
    | succ f2 =>
      unfold cookieAvs
      have hlen := spanWhile_length (fun c => c != ';') s
      cases hs : (spanWhile (fun c => c != ';') s).2 with
      | nil => rfl
      | cons c s1 =>
        rw [hs] at hlen
        have hl1 : s1.length < s.length := hlen
        have hl2 := skipSpace_length s1
        have hl3 := spanWhile_length wget_http_istoken (skipSpace s1)
        have hl4 := spanWhile_length (fun c => c != '=' && c != ';')
          (spanWhile wget_http_istoken (skipSpace s1)).2
        have hl5 := adv_length (spanWhile (fun c => c != '=' && c != ';')
          (spanWhile wget_http_istoken (skipSpace s1)).2).2
        have hl6 := spanWhile_length isCookieAvByte (adv (spanWhile (fun c => c != '=' && c != ';')
          (spanWhile wget_http_istoken (skipSpace s1)).2).2)
        dsimp only
        rw [ih f2 _ (by omega) (by omega), ih f2 _ (by omega) (by omega)]

theorem foldl_domainStep_none : ∀ (l : List (List Char × Option (List Char)))
    (d : Option (List Char) × Bool), (∀ a ∈ l, isDomainAv a = false) →
    l.foldl domainStep d = d := by
  intro l
  induction l with
  | nil => intro d _; rfl
  | cons a l ih =>
    intro d h
    have ha : domainStep d a = d := by
      unfold domainStep
      rw [h a (List.mem_cons_self _ _)]
      rfl
    rw [List.foldl_cons, ha]
    exact ih d (fun x hx => h x (List.mem_cons_of_mem _ hx))

/-- C30 (`wget_http_parse_setcookie`): when among the attributes of a
Set-Cookie header there is one Domain attribute with a value `v` that is not
empty, and no other, the cookie gets `v` without its leading dots as domain,
which so does not start with a dot, and the domain-dot flag is set exactly
when `v` starts with a dot. -/
theorem setcookie_domain (env : Env) (s : List Char)
    (front back : List (List Char × Option (List Char))) (name v : List Char)
    (havs : setcookieAvs s = front ++ (name, some v) :: back)
    (hname : name.map c_tolower = "domain".toList) (hv : v ≠ [])
    (hone : ∀ a ∈ front ++ back, isDomainAv a = false) :
    (wget_http_parse_setcookie env s).2.domain = some (v.dropWhile fun c => c == '.') ∧
    (wget_http_parse_setcookie env s).2.domain_dot = (v.head? == some '.') ∧
    (v.dropWhile fun c => c == '.').head? ≠ some '.' := by
  have hfold : (front ++ (name, some v) :: back).foldl domainStep (none, false) =
      (some (v.dropWhile fun c => c == '.'), v.head? == some '.') := by
    rw [List.foldl_append, List.foldl_cons,
      foldl_domainStep_none front _ (fun a ha => hone a (List.mem_append_left _ ha))]
    have hd : isDomainAv (name, some v) = true := by
      unfold isDomainAv
      rw [decide_eq_true hname]
      cases v with
      | nil => exact absurd rfl hv
      | cons _ _ => rfl
    have hstep : domainStep (none, false) (name, some v) =
        (some (v.dropWhile fun c => c == '.'), v.head? == some '.') := by
      unfold domainStep
      rw [if_pos hd]
      rfl
    rw [hstep]
    exact foldl_domainStep_none back _ (fun a ha => hone a (List.mem_append_right _ ha))
  have hmain : ((wget_http_parse_setcookie env s).2.domain,
      (wget_http_parse_setcookie env s).2.domain_dot) =
      (some (v.dropWhile fun c => c == '.'), v.head? == some '.') := by
    unfold setcookieAvs at havs
    unfold wget_http_parse_setcookie
    dsimp only at havs ⊢
    split at havs
    · rename_i hc
      rw [if_pos hc, cookieAttrs_domain, havs]
      exact hfold
    · cases front <;> cases havs
  refine ⟨congrArg Prod.fst hmain, congrArg Prod.snd hmain, (dropWhile_dot v).2⟩

/-- Witness of C30: a header with the attributes Path, Domain and Secure,
the domain with two leading dots. -/
theorem setcookie_domain_witness :
    (wget_http_parse_setcookie envExample
        "a=b; Path=/; Domain=..example.com; Secure".toList).2.domain
      = some "example.com".toList ∧
    (wget_http_parse_setcookie envExample
        "a=b; Path=/; Domain=..example.com; Secure".toList).2.domain_dot = true := by
  have h := setcookie_domain envExample "a=b; Path=/; Domain=..example.com; Secure".toList
    [("Path".toList, some "/".toList)] [("Secure".toList, none)] "Domain".toList
    "..example.com".toList (by decide) (by decide) (by decide) (by decide)
  exact ⟨h.1, h.2.1⟩

/-! ### The abort flags and the header of a response -/

theorem readsAtLeast_mono (n m : Nat) (p : HeaderPhase) (h : n ≤ m)
    (hp : p.readsAtLeast m) : p.readsAtLeast n := by
  cases p with
  | undefined => trivial
  | no_header _ _ r => exact Nat.le_trans h hp
  | found _ _ _ _ r => exact Nat.le_trans h hp

/-- The header loop of `wget_http_get_response_cb`, which does not look at
the abort flags, calls `wget_tcp_read` once at least. -/
theorem headerLoop_reads : ∀ (fuel : Nat) (buf : List Char) (bufsize : Nat)
    (tcp : List (List Char)) (reads : Nat),
    (headerLoop (fuel + 1) buf bufsize tcp reads).readsAtLeast (reads + 1) := by
  intro fuel
  induction fuel with
  | zero =>
    intro buf bufsize tcp reads
    unfold headerLoop
    dsimp only
    by_cases h1 : (wget_tcp_read tcp (bufsize - buf.length)).1 = []
    · rw [if_pos h1]
      exact Nat.le_refl _
    · rw [if_neg h1]
      by_cases h2 : buf.length + (wget_tcp_read tcp (bufsize - buf.length)).1.length < 4
      · rw [if_pos h2]
        exact Nat.le_refl _
      · rw [if_neg h2]
        by_cases h3 : buf.length ≠ 0 ∧ buf.length < 3
        · rw [if_pos h3]
          trivial
        · rw [if_neg h3]
          split
          · exact Nat.le_refl _
          · exact Nat.le_refl _
  | succ fuel ih =>
    intro buf bufsize tcp reads
    have rec : ∀ b bs t, (headerLoop (fuel + 1) b bs t (reads + 1)).readsAtLeast (reads + 1) :=
      fun b bs t => readsAtLeast_mono _ _ _ (Nat.le_succ _) (ih b bs t (reads + 1))
    unfold headerLoop
    dsimp only
    by_cases h1 : (wget_tcp_read tcp (bufsize - buf.length)).1 = []
    · rw [if_pos h1]
      exact Nat.le_refl _
    · rw [if_neg h1]
      by_cases h2 : buf.length + (wget_tcp_read tcp (bufsize - buf.length)).1.length < 4
      · rw [if_pos h2]
        exact rec _ _ _
      · rw [if_neg h2]
        by_cases h3 : buf.length ≠ 0 ∧ buf.length < 3
        · rw [if_pos h3]
          trivial
        · rw [if_neg h3]
          split
          · exact Nat.le_refl _
          · exact rec _ _ _

/-- C31, evaluated (`wget_http_get_response_cb`): with the abort flag of the
connection set at entry, and likewise with the flag of the process, the
function reads the header from the transport (one call of `wget_tcp_read`,
which also brings the first two bytes of the body); only then, in the loop for
the body, the flag stops it, with three bytes left unread. With no flag set
the same transport is read twice. -/
theorem abort_not_checked_for_header :
    connAborted.abort_indicator = true ∧
    (wget_http_get_response_cb envExample false connAborted none false none).map
      (fun r => (r.reads, r.tcp)) = some (1, ["cde".toList]) ∧
    (wget_http_get_response_cb envExample true { connAborted with abort_indicator := false }
      none false none).map (fun r => (r.reads, r.tcp)) = some (1, ["cde".toList]) ∧
    (wget_http_get_response_cb envExample false { connAborted with abort_indicator := false }
      none false none).map (fun r => (r.reads, r.tcp)) = some (2, []) := by
  decide

/-! ### The time of day of a date -/

/-- C36, evaluated (`wget_http_parse_full_date`): the minute 60 and the second
60 are accepted, `08:60:00` gives the value of `09:00:00`; the tests are
`min > 60` and `sec > 60`. The hour 24 and the minute 61 give 0. -/
theorem minute_sixty_accepted :
    wget_http_parse_full_date "Sun, 06 Nov 1994 08:60:00 GMT".toList = 784112400 ∧
    wget_http_parse_full_date "Sun, 06 Nov 1994 09:00:00 GMT".toList = 784112400 ∧
    wget_http_parse_full_date "Sun, 06 Nov 1994 08:49:60 GMT".toList = 784111800 ∧
    wget_http_parse_full_date "Sun, 06 Nov 1994 24:00:00 GMT".toList = 0 ∧
    wget_http_parse_full_date "Sun, 06 Nov 1994 08:61:00 GMT".toList = 0 := by
  decide

/-! ### The loop over the challenges -/

theorem challenges_comma_loops : ∀ (fuel : Nat) (challenges : List Challenge),
    wget_http_parse_challenges fuel ",".toList challenges = none := by
  intro fuel
  induction fuel with
  | zero => intro challenges; rfl
  | succ fuel ih =>
    intro challenges
    have h : wget_http_parse_challenges (fuel + 1) ",".toList challenges =
        wget_http_parse_challenges fuel ",".toList challenges := rfl
    rw [h]
    exact ih challenges

/-- C37, evaluated (`wget_http_parse_challenge`, `wget_http_parse_challenges`):
for the input `,` and for `Basic,` the call of `wget_http_parse_challenge`
returns the position of the comma, for `,` that is the start of the input; the
loop of `wget_http_parse_challenges` then calls it at this position again and
again, so however many rounds it is given, it has not ended. -/
theorem challenge_no_progress :
    (wget_http_parse_challenge ",".toList).1 = ",".toList ∧
    (wget_http_parse_challenge "Basic,".toList).1 = ",".toList ∧
    (∀ fuel, wget_http_parse_challenges fuel ",".toList [] = none) ∧
    (∀ fuel, wget_http_parse_challenges fuel "Basic,".toList [] = none) ∧
    wget_http_parse_challenges 2 "Basic realm=\"x\"".toList [] =
      some ([], [{ auth_scheme := some "Basic".toList,
                   params := [("realm".toList, "x".toList)] }]) := by
  refine ⟨by decide, by decide, fun fuel => challenges_comma_loops fuel [], fun fuel => ?_,
    by decide⟩
  cases fuel with
  | zero => rfl
  | succ fuel =>
    have h : wget_http_parse_challenges (fuel + 1) "Basic,".toList [] =
        wget_http_parse_challenges fuel ",".toList [] := rfl
    rw [h]
    exact challenges_comma_loops fuel []

/-! ### Host patterns -/

/-- C38, evaluated (`in_host_pattern_list`): the pattern `example.com` does
not accept the host `www.example.com`, which `in_pattern_list` accepts for the
same strings; it accepts the host itself, and the pattern `www.example.com`
accepts the hosts `example.com` and `com`: the call is
`wget_match_tail(pattern, hostname)`, which asks for the host name at the end of
the pattern. -/
theorem host_pattern_arguments_swapped :
    in_host_pattern_list (fun _ _ _ => false) ["example.com".toList] "www.example.com".toList
      = false ∧
    in_pattern_list (fun _ _ _ => false) (cfgWorker false false false 0 0).toConfig
      ["example.com".toList] "www.example.com".toList = true ∧
    in_host_pattern_list (fun _ _ _ => false) ["example.com".toList] "example.com".toList
      = true ∧
    in_host_pattern_list (fun _ _ _ => false) ["www.example.com".toList] "example.com".toList
      = true ∧
    in_host_pattern_list (fun _ _ _ => false) ["www.example.com".toList] "com".toList = true := by
  decide

/-! ### Percent decoding -/

theorem unhex_hex (c : Char) (h : c_isxdigit c = true) :
    _unhex c = hexDigitValue c ∧ hexDigitValue c < 16 := by
  unfold c_isxdigit c_isdigit at h
  unfold _unhex hexDigitValue
  simp only [Bool.or_eq_true, decide_eq_true_eq] at h
  have e0 : '0'.toNat = 48 := rfl
  have e9 : '9'.toNat = 57 := rfl
  have ea : 'a'.toNat = 97 := rfl
  have ef : 'f'.toNat = 102 := rfl
  have eA : 'A'.toNat = 65 := rfl
  have eF : 'F'.toNat = 70 := rfl
  simp only [e0, e9, ea, ef, eA, eF] at h ⊢
  generalize c.toNat = n at h ⊢
  split_ifs <;> omega

theorem nibbles_or (h l : Nat) (hh : h < 16) (hl : l < 16) :
    (h * 16 % 256) ||| l = 16 * h + l := by
  interval_cases h <;> interval_cases l <;> rfl

theorem escape_cond (c : Char) (s : List Char) :
    (c = '%' ∧ c_isxdigit (cur s) = true ∧ c_isxdigit (cur (adv s)) = true) ↔
      startsWithEscape (c :: s) = true := by
  have hnul : c_isxdigit NUL = false := by decide
  cases s with
  | nil =>
    constructor
    · rintro ⟨_, h, _⟩
      rw [show cur ([] : List Char) = NUL from rfl, hnul] at h
      cases h
    · intro h
      unfold startsWithEscape at h
      split at h <;> first | cases h | (rename_i heq; cases heq)
  | cons a t =>
    cases t with
    | nil =>
      constructor
      · rintro ⟨_, _, h⟩
        rw [show cur (adv [a]) = NUL from rfl, hnul] at h
        cases h
      · intro h
        unfold startsWithEscape at h
        split at h <;> first | cases h | (rename_i heq; cases heq)
    | cons b t =>
      constructor
      · rintro ⟨rfl, h1, h2⟩
        show (c_isxdigit a && c_isxdigit b) = true
        rw [show cur (a :: b :: t) = a from rfl] at h1
        rw [show cur (adv (a :: b :: t)) = b from rfl] at h2
        rw [h1, h2]
        rfl
      · intro h
        by_cases hc : c = '%'
        · subst hc
          have h' : (c_isxdigit a && c_isxdigit b) = true := h
          rw [Bool.and_eq_true] at h'
          exact ⟨rfl, h'.1, h'.2⟩
        · unfold startsWithEscape at h
          split at h
          · rename_i heq
            exact absurd (List.cons.inj heq).1 hc
          · cases h

theorem cstr_length_le : ∀ s : List Char, (cstr s).length ≤ s.length := by
  intro s
  induction s with
  | nil => exact Nat.le_refl _
  | cons c s ih =>
    unfold cstr
    split
    · exact Nat.zero_le _
    · exact Nat.succ_le_succ ih

theorem cstr_no_nul : ∀ s : List Char, NUL ∉ s → cstr s = s := by
  intro s
  induction s with
  | nil => intro _; rfl
  | cons c s ih =>
    intro h
    unfold cstr
    rw [if_neg (fun hc => h (by rw [hc]; exact List.mem_cons_self _ _)),
      ih (fun hm => h (List.mem_cons_of_mem _ hm))]

theorem percentLoop_cons (fuel : Nat) (c : Char) (s : List Char) :
    percentLoop (fuel + 1) (c :: s) =
      if c = '%' ∧ c_isxdigit (cur s) ∧ c_isxdigit (cur (adv s)) then
        (Char.ofNat (((_unhex (cur s)) * 16 % 256) ||| (_unhex (cur (adv s))))
          :: (percentLoop fuel (adv (adv s))).1, true)
      else (c :: (percentLoop fuel s).1, (percentLoop fuel s).2) := rfl

theorem percentLoop_spec : ∀ (fuel : Nat) (s : List Char), s.length ≤ fuel →
    PercentDecoded s (percentLoop fuel s).1 ∧
    (percentLoop fuel s).2 = hasEscape s ∧
    (percentLoop fuel s).1.length ≤ s.length ∧
    (hasEscape s = true → (percentLoop fuel s).1.length < s.length) ∧
    (hasEscape s = false → (percentLoop fuel s).1 = s) := by
  intro fuel
  induction fuel with
  | zero =>
    intro s hs
    have : s = [] := List.length_eq_zero.1 (Nat.le_zero.1 hs)
    subst this
    exact ⟨PercentDecoded.done, rfl, Nat.le_refl _, fun h => (by cases h), fun _ => rfl⟩
  | succ fuel ih =>
    intro s hs
    cases s with
    | nil => exact ⟨PercentDecoded.done, rfl, Nat.le_refl _, fun h => (by cases h), fun _ => rfl⟩
    | cons c t =>
      by_cases hesc : startsWithEscape (c :: t) = true
      · have hcond := (escape_cond c t).2 hesc
        obtain ⟨hc, ha, hb⟩ := hcond
        subst hc
        cases t with
        | nil => cases hesc
        | cons a t =>
          cases t with
          | nil => cases hesc
          | cons b t =>
            have hlen : t.length ≤ fuel := by
              simp only [List.length_cons] at hs
              omega
            obtain ⟨h1, h2, h3, h4, h5⟩ := ih t hlen
            have ha' : c_isxdigit a = true := ha
            have hb' : c_isxdigit b = true := hb
            have hstep : percentLoop (fuel + 1) ('%' :: a :: b :: t) =
                (Char.ofNat (16 * hexDigitValue a + hexDigitValue b) :: (percentLoop fuel t).1,
                  true) := by
              rw [percentLoop_cons, if_pos ⟨rfl, ha, hb⟩]
              show (Char.ofNat ((_unhex a * 16 % 256) ||| _unhex b) :: (percentLoop fuel t).1,
                true) = _
              rw [(unhex_hex a ha').1, (unhex_hex b hb').1,
                nibbles_or _ _ (unhex_hex a ha').2 (unhex_hex b hb').2]
            have hhas : hasEscape ('%' :: a :: b :: t) = true := by
              show (startsWithEscape ('%' :: a :: b :: t) || hasEscape (a :: b :: t)) = true
              rw [hesc]
              rfl
            rw [hstep, hhas]
            refine ⟨PercentDecoded.escape a b t _ ha' hb' h1, rfl, ?_, fun _ => ?_, fun h => (by cases h)⟩
            · simp only [List.length_cons]
              omega
            · simp only [List.length_cons]
              omega
      · have hesc' : startsWithEscape (c :: t) = false := by
          cases h : startsWithEscape (c :: t)
          · rfl
          · exact absurd h hesc
        have hcond : ¬ (c = '%' ∧ c_isxdigit (cur t) = true ∧ c_isxdigit (cur (adv t)) = true) :=
          fun h => hesc ((escape_cond c t).1 h)
        have hlen : t.length ≤ fuel := by
          simp only [List.length_cons] at hs
          omega
        obtain ⟨h1, h2, h3, h4, h5⟩ := ih t hlen
        have hstep : percentLoop (fuel + 1) (c :: t) =
            (c :: (percentLoop fuel t).1, (percentLoop fuel t).2) := by
          rw [percentLoop_cons, if_neg hcond]
        have hhas : hasEscape (c :: t) = hasEscape t := by
          show (startsWithEscape (c :: t) || hasEscape t) = hasEscape t
          rw [hesc']
          rfl
        rw [hstep, hhas]
        refine ⟨PercentDecoded.copy c t _ hesc' h1, h2, ?_, fun h => ?_, fun h => ?_⟩
        · simp only [List.length_cons]
          omega
        · have := h4 h
          simp only [List.length_cons]
          omega
        · show c :: (percentLoop fuel t).1 = c :: t
          rw [h5 h]

/-- The decoding of a text is one string. -/
theorem percentDecoded_unique : ∀ (s o1 o2 : List Char),
    PercentDecoded s o1 → PercentDecoded s o2 → o1 = o2 := by
  intro s o1 o2 h1
  induction h1 generalizing o2 with
  | done =>
    intro h2
    cases h2
    rfl
  | escape a b s out ha hb _ ih =>
    intro h2
    cases h2 with
    | escape _ _ _ out2 _ _ h3 => rw [ih out2 h3]
    | copy _ _ out2 hno _ =>
      have : startsWithEscape ('%' :: a :: b :: s) = true := by
        show (c_isxdigit a && c_isxdigit b) = true
        rw [ha, hb]
        rfl
      rw [this] at hno
      cases hno
  | copy c s out hno _ ih =>
    intro h2
    cases h2 with
    | escape a b s2 out2 ha hb _ =>
      have : startsWithEscape ('%' :: a :: b :: s2) = true := by
        show (c_isxdigit a && c_isxdigit b) = true
        rw [ha, hb]
        rfl
      rw [this] at hno
      cases hno
    | copy _ _ out2 _ h3 => rw [ih out2 h3]

/-- C33 (`wget_percent_unescape`, `_unhex`): for a C string `s`, the bytes
written are the decoding of `s`, in which from left to right each `%` with two
hexadecimal digits is replaced by the byte of that value and every other byte
is copied; the string left in the buffer is these bytes (up to a NUL, should
`%00` have been decoded). The return value is 1 or 0; it is 1 exactly when the
string left differs from `s`, exactly when `s` has such an escape, and exactly
when the string left is shorter than `s`; it is 0 exactly when the string is
unchanged. -/
theorem percent_unescape_return (s : List Char) (hs : NUL ∉ s) :
    (∃ out, PercentDecoded s out ∧ (∀ o, PercentDecoded s o → o = out) ∧
      (wget_percent_unescape s).2 = cstr out) ∧
    ((wget_percent_unescape s).1 = 1 ∨ (wget_percent_unescape s).1 = 0) ∧
    ((wget_percent_unescape s).1 = 1 ↔ (wget_percent_unescape s).2 ≠ s) ∧
    ((wget_percent_unescape s).1 = 1 ↔ hasEscape s = true) ∧
    ((wget_percent_unescape s).1 = 1 ↔ (wget_percent_unescape s).2.length < s.length) ∧
    ((wget_percent_unescape s).1 = 0 ↔ (wget_percent_unescape s).2 = s) := by
  obtain ⟨h1, h2, h3, h4, h5⟩ := percentLoop_spec s.length s (Nat.le_refl _)
  have hc := cstr_length_le (percentLoop s.length s).1
  have e1 : (wget_percent_unescape s).1 = if hasEscape s = true then 1 else 0 := by
    unfold wget_percent_unescape
    rw [h2]
  have e2 : (wget_percent_unescape s).2 = cstr (percentLoop s.length s).1 := rfl
  by_cases he : hasEscape s = true
  · have hlt : (wget_percent_unescape s).2.length < s.length := by
      rw [e2]
      exact Nat.lt_of_le_of_lt hc (h4 he)
    have hne : (wget_percent_unescape s).2 ≠ s := by
      intro h
      rw [h] at hlt
      exact Nat.lt_irrefl _ hlt
    rw [e1, if_pos he]
    refine ⟨⟨_, h1, fun o ho => percentDecoded_unique s o _ ho h1, e2⟩, Or.inl rfl,
      ⟨fun _ => hne, fun _ => rfl⟩, ⟨fun _ => he, fun _ => rfl⟩, ⟨fun _ => hlt, fun _ => rfl⟩,
      ⟨fun h => (by cases h), fun h => absurd h hne⟩⟩
  · have he' : hasEscape s = false := by
      cases h : hasEscape s
      · rfl
      · exact absurd h he
    have heq : (wget_percent_unescape s).2 = s := by
      rw [e2, h5 he', cstr_no_nul s hs]
    rw [e1, if_neg he]
    refine ⟨⟨_, h1, fun o ho => percentDecoded_unique s o _ ho h1, e2⟩, Or.inr rfl,
      ⟨fun h => (by cases h), fun h => absurd heq h⟩, ⟨fun h => (by cases h), fun h => absurd h he⟩,
      ⟨fun h => (by cases h), fun h => ?_⟩, ⟨fun _ => heq, fun _ => rfl⟩⟩
    rw [heq] at h
    exact absurd h (Nat.lt_irrefl _)

/-- Witness of C33: `a%41%4` becomes `aA%4` and the return value is 1; `abc`
stays and the return value is 0. -/
theorem percent_unescape_return_witness :
    wget_percent_unescape "a%41%4".toList = (1, "aA%4".toList) ∧
    hasEscape "a%41%4".toList = true ∧
    wget_percent_unescape "abc".toList = (0, "abc".toList) := by
  have h := percent_unescape_return "a%41%4".toList (by decide)
  exact ⟨by decide, h.2.2.2.1.1 (by decide), by decide⟩

/-! ### Escaping and decoding a file name -/

theorem restrict_file_name_fst (mode : RestrictNames) (signed_char : Bool) (f : List Char)
    (hm : mode = RestrictNames.unix ∨ mode = RestrictNames.ascii) :
    (restrict_file_name mode signed_char f).1 =
      f.flatMap (fun c => if escapedIn mode signed_char c then escapeBytes c else [c]) := by
  have hr : restrict_file_name mode signed_char f =
      if (escapeLoop mode signed_char f).2 then ((escapeLoop mode signed_char f).1, true)
      else (f, false) := by
    rcases hm with rfl | rfl <;> rfl
  rw [hr, ← (escapeLoop_eq mode signed_char f).1]
  by_cases h : (escapeLoop mode signed_char f).2 = true
  · rw [if_pos h]
  · rw [if_neg h]
    exact (escapeLoop_self mode signed_char f (by simpa using h)).symm

theorem upperHex_unhex (x : Nat) (h : x < 16) :
    c_isxdigit (upperHex x) = true ∧ _unhex (upperHex x) = x := by
  interval_cases x <;> decide

/-- When the escaped form of a text begins with two hexadecimal digits, the
text does. -/
theorem escaped_two_digits (g : Char → List Char)
    (hg : ∀ c, g c = [c] ∨ ∃ r, g c = '%' :: r) : ∀ t : List Char,
    c_isxdigit (cur (t.flatMap g)) = true → c_isxdigit (cur (adv (t.flatMap g))) = true →
    c_isxdigit (cur t) = true ∧ c_isxdigit (cur (adv t)) = true := by
  have hpct : c_isxdigit '%' = false := by decide
  have hnul : c_isxdigit NUL = false := by decide
  intro t h1 h2
  cases t with
  | nil =>
    rw [show cur (([] : List Char).flatMap g) = NUL from rfl, hnul] at h1
    cases h1
  | cons a t =>
    rw [List.flatMap_cons] at h1 h2
    rcases hg a with ha | ⟨r, ha⟩
    · rw [ha] at h1 h2
      have h1' : c_isxdigit a = true := h1
      have h2' : c_isxdigit (cur (t.flatMap g)) = true := h2
      refine ⟨h1', ?_⟩
      cases t with
      | nil =>
        rw [show cur (([] : List Char).flatMap g) = NUL from rfl, hnul] at h2'
        cases h2'
      | cons b t =>
        rw [List.flatMap_cons] at h2'
        rcases hg b with hb | ⟨r, hb⟩
        · rw [hb] at h2'
          exact h2'
        · rw [hb] at h2'
          have : c_isxdigit '%' = true := h2'
          rw [hpct] at this
          cases this
    · rw [ha] at h1
      have : c_isxdigit '%' = true := h1
      rw [hpct] at this
      cases this

theorem percentLoop_escaped (mode : RestrictNames) (signed_char : Bool) :
    ∀ (s : List Char) (fuel : Nat),
    (∀ c ∈ s, c.toNat < 256) → hasEscape s = false →
    (s.flatMap (fun c => if escapedIn mode signed_char c then escapeBytes c else [c])).length
      ≤ fuel →
    (percentLoop fuel
      (s.flatMap (fun c => if escapedIn mode signed_char c then escapeBytes c else [c]))).1 = s := by
  have hg : ∀ c : Char, (if escapedIn mode signed_char c then escapeBytes c else [c]) = [c] ∨
      ∃ r, (if escapedIn mode signed_char c then escapeBytes c else [c]) = '%' :: r := by
    intro c
    by_cases h : escapedIn mode signed_char c = true
    · rw [if_pos h]
      exact Or.inr ⟨_, rfl⟩
    · rw [if_neg h]
      exact Or.inl rfl
  intro s
  induction s with
  | nil =>
    intro fuel _ _ _
    cases fuel <;> rfl
  | cons c t ih =>
    intro fuel hb hno hlen
    have hno2 : startsWithEscape (c :: t) = false ∧ hasEscape t = false := by
      have : (startsWithEscape (c :: t) || hasEscape t) = false := hno
      rw [Bool.or_eq_false_iff] at this
      exact this
    have hbt : ∀ x ∈ t, x.toNat < 256 := fun x hx => hb x (List.mem_cons_of_mem _ hx)
    rw [List.flatMap_cons] at hlen ⊢
    by_cases hesc : escapedIn mode signed_char c = true
    · rw [if_pos hesc] at hlen ⊢
      have hc := hb c (List.mem_cons_self _ _)
      have hhi := upperHex_unhex (c.toNat % 256 / 16) (by omega)
      have hlo := upperHex_unhex (c.toNat % 16) (by omega)
      cases fuel with
      | zero =>
        rw [List.length_append, show (escapeBytes c).length = 3 from rfl] at hlen
        omega
      | succ fuel =>
        have hl : (t.flatMap (fun c => if escapedIn mode signed_char c then escapeBytes c
            else [c])).length ≤ fuel := by
          rw [List.length_append, show (escapeBytes c).length = 3 from rfl] at hlen
          omega
        show (percentLoop (fuel + 1) ('%' :: upperHex (c.toNat % 256 / 16) ::
          upperHex (c.toNat % 16) :: t.flatMap _)).1 = c :: t
        rw [percentLoop_cons, if_pos ⟨rfl, hhi.1, hlo.1⟩]
        show Char.ofNat ((_unhex (upperHex (c.toNat % 256 / 16)) * 16 % 256) |||
          _unhex (upperHex (c.toNat % 16))) :: (percentLoop fuel (t.flatMap _)).1 = c :: t
        rw [hhi.2, hlo.2, nibbles_or _ _ (by omega) (by omega), ih fuel hbt hno2.2 hl]
        have : 16 * (c.toNat % 256 / 16) + c.toNat % 16 = c.toNat := by omega
        rw [this, Char.ofNat_toNat]
    · rw [if_neg hesc] at hlen ⊢
      cases fuel with
      | zero => simp at hlen
      | succ fuel =>
        have hl : (t.flatMap (fun c => if escapedIn mode signed_char c then escapeBytes c
            else [c])).length ≤ fuel := by
          simp only [List.cons_append, List.nil_append, List.length_cons] at hlen
          omega
        show (percentLoop (fuel + 1) (c :: t.flatMap _)).1 = c :: t
        have hcond : ¬ (c = '%' ∧ c_isxdigit (cur (t.flatMap (fun c =>
            if escapedIn mode signed_char c then escapeBytes c else [c]))) = true ∧
            c_isxdigit (cur (adv (t.flatMap (fun c =>
            if escapedIn mode signed_char c then escapeBytes c else [c])))) = true) := by
          rintro ⟨h0, h1, h2⟩
          have := escaped_two_digits _ hg t h1 h2
          have hs := (escape_cond c t).1 ⟨h0, this.1, this.2⟩
          rw [hno2.1] at hs
          cases hs
        rw [percentLoop_cons, if_neg hcond]
        show c :: (percentLoop fuel (t.flatMap _)).1 = c :: t
        rw [ih fuel hbt hno2.2 hl]

/-- C32, as stated, fails: the name `%41` has no byte that `restrict_file_name`
escapes, so its escaped form is `%41`, and `wget_percent_unescape` makes `A` of
it. -/
theorem percent_round_trip_lost :
    (restrict_file_name RestrictNames.unix true "%41".toList).1 = "%41".toList ∧
    (wget_percent_unescape (restrict_file_name RestrictNames.unix true "%41".toList).1).2
      = "A".toList ∧
    (wget_percent_unescape (restrict_file_name RestrictNames.ascii true "%41".toList).1).2
      = "A".toList := by
  decide

/-- C32, amended (`wget_percent_unescape` after `restrict_file_name` in the
Unix or the ASCII mode): for every string of bytes without NUL in which no `%`
is followed by two hexadecimal digits, decoding the escaped form gives the
string back. -/
theorem percent_round_trip (mode : RestrictNames) (signed_char : Bool) (s : List Char)
    (hm : mode = RestrictNames.unix ∨ mode = RestrictNames.ascii)
    (hs : NUL ∉ s) (hb : ∀ c ∈ s, c.toNat < 256) (hno : hasEscape s = false) :
    (wget_percent_unescape (restrict_file_name mode signed_char s).1).2 = s := by
  rw [restrict_file_name_fst mode signed_char s hm]
  unfold wget_percent_unescape
  dsimp only
  rw [percentLoop_escaped mode signed_char s _ hb hno (Nat.le_refl _), cstr_no_nul s hs]

/-- Witness of C32: a name with the control bytes 1 and 31 and with `%`
signs that start no escape. -/
theorem percent_round_trip_witness :
    (restrict_file_name RestrictNames.unix true ['%', 'a', Char.ofNat 1, '%', Char.ofNat 31, '4']).1
      = "%a%01%%1F4".toList ∧
    (wget_percent_unescape "%a%01%%1F4".toList).2 =
      ['%', 'a', Char.ofNat 1, '%', Char.ofNat 31, '4'] := by
  have h := percent_round_trip RestrictNames.unix true
    ['%', 'a', Char.ofNat 1, '%', Char.ofNat 31, '4'] (Or.inl rfl) (by decide) (by decide)
    (by decide)
  have e : (restrict_file_name RestrictNames.unix true
      ['%', 'a', Char.ofNat 1, '%', Char.ofNat 31, '4']).1 = "%a%01%%1F4".toList := by decide
  rw [e] at h
  exact ⟨e, h⟩

/-! ### `wget_memtohex` -/

theorem lowerHex_digit (x : Nat) (h : x < 16) :
    lowerHex x = "0123456789abcdef".toList.getD x '0' ∧ lowerHex x ≠ NUL := by
  interval_cases x <;> decide

theorem hexEncoding_length : ∀ src : List Nat, (hexEncoding src).length = 2 * src.length := by
  intro src
  induction src with
  | nil => rfl
  | cons b src ih =>
    show ([_, _] ++ hexEncoding src).length = 2 * (src.length + 1)
    rw [List.length_append, ih]
    simp only [List.length_cons, List.length_nil]
    omega

theorem hexEncoding_append (a b : List Nat) :
    hexEncoding (a ++ b) = hexEncoding a ++ hexEncoding b := by
  unfold hexEncoding
  rw [List.flatMap_append]

theorem hexEncoding_no_nul : ∀ src : List Nat, (∀ b ∈ src, b < 256) → NUL ∉ hexEncoding src := by
  intro src
  induction src with
  | nil => intro _ h; cases h
  | cons b src ih =>
    intro hb h
    have hb0 := hb b (List.mem_cons_self _ _)
    have h1 := lowerHex_digit (b / 16) (by omega)
    have h2 := lowerHex_digit (b % 16) (by omega)
    have hh : NUL ∈ ["0123456789abcdef".toList.getD (b / 16) '0',
        "0123456789abcdef".toList.getD (b % 16) '0'] ++ hexEncoding src := h
    rw [← h1.1, ← h2.1] at hh
    rcases List.mem_append.1 hh with hm | hm
    · rcases List.mem_cons.1 hm with hm | hm
      · exact h1.2 hm.symm
      · rcases List.mem_cons.1 hm with hm | hm
        · exact h2.2 hm.symm
        · cases hm
    · exact ih (fun x hx => hb x (List.mem_cons_of_mem _ hx)) hm

/-- The digits that the loop of `wget_memtohex` writes for bytes. -/
theorem memtohex_digits : ∀ src : List Nat, (∀ b ∈ src, b < 256) →
    (src.flatMap fun b => [lowerHex (b % 256 / 16), lowerHex (b % 16)]) = hexEncoding src := by
  intro src
  induction src with
  | nil => intro _; rfl
  | cons b src ih =>
    intro hb
    have hb0 := hb b (List.mem_cons_self _ _)
    have e : b % 256 = b := Nat.mod_eq_of_lt hb0
    rw [List.flatMap_cons, ih (fun x hx => hb x (List.mem_cons_of_mem _ hx)), e,
      (lowerHex_digit (b / 16) (by omega)).1, (lowerHex_digit (b % 16) (by omega)).1]
    rfl

/-- C34 (`wget_memtohex`): for `n` bytes (`n` below 2^63) and a `dst_size` of
1 at least, the function writes a string of exactly `min(2n, dst_size - 1)`
bytes, none of them NUL, and the NUL behind it, `dst_size` bytes at most; the
string is a prefix of the lower case hexadecimal encoding of the input. With
`dst_size` 0 nothing is written. -/
theorem memtohex_string (src : List Nat) (dst_size : Nat) (hb : ∀ b ∈ src, b < 256)
    (hn : src.length < 2 ^ 63) :
    (dst_size = 0 → wget_memtohex src dst_size = none) ∧
    (1 ≤ dst_size → ∃ str, wget_memtohex src dst_size = some str ∧
      str.length = min (2 * src.length) (dst_size - 1) ∧ str <+: hexEncoding src ∧
      NUL ∉ str ∧ str.length + 1 ≤ dst_size) := by
  constructor
  · intro h
    unfold wget_memtohex
    rw [if_pos h]
  · intro hd
    have hwrap : src.length * 2 % 2 ^ 64 = src.length * 2 := Nat.mod_eq_of_lt (by omega)
    have key : ∀ str, str <+: hexEncoding src →
        str.length = min (2 * src.length) (dst_size - 1) →
        str.length = min (2 * src.length) (dst_size - 1) ∧ str <+: hexEncoding src ∧
        NUL ∉ str ∧ str.length + 1 ≤ dst_size := by
      intro str hp hl
      refine ⟨hl, hp, fun h => hexEncoding_no_nul src hb (hp.subset h), ?_⟩
      omega
    unfold wget_memtohex
    rw [if_neg (by omega), hwrap]
    dsimp only
    by_cases hadj : src.length * 2 ≥ dst_size
    · have hk : (dst_size - 1) / 2 < src.length := by omega
      have hsplit : src = src.take ((dst_size - 1) / 2) ++
          src.getD ((dst_size - 1) / 2) 0 :: src.drop ((dst_size - 1) / 2 + 1) := by
        rw [List.getD_eq_getElem _ _ hk]
        conv_lhs => rw [← List.take_append_drop ((dst_size - 1) / 2) src]
        rw [List.drop_eq_getElem_cons hk]
      have hbt : ∀ b ∈ src.take ((dst_size - 1) / 2), b < 256 :=
        fun b h => hb b (List.mem_of_mem_take h)
      have hlt : (hexEncoding (src.take ((dst_size - 1) / 2))).length = 2 * ((dst_size - 1) / 2) := by
        rw [hexEncoding_length, List.length_take]
        omega
      have hbk : src.getD ((dst_size - 1) / 2) 0 < 256 := by
        rw [List.getD_eq_getElem _ _ hk]
        exact hb _ (List.getElem_mem _)
      simp only [decide_eq_true hadj, if_true, memtohex_digits _ hbt, true_and]
      by_cases hev : dst_size % 2 = 0
      · rw [if_pos hev]
        refine ⟨_, rfl, key _ ?_ ?_⟩
        · have e : hexEncoding src = (hexEncoding (src.take ((dst_size - 1) / 2)) ++
              [lowerHex (src.getD ((dst_size - 1) / 2) 0 % 256 / 16)]) ++
              ("0123456789abcdef".toList.getD (src.getD ((dst_size - 1) / 2) 0 % 16) '0' ::
                hexEncoding (src.drop ((dst_size - 1) / 2 + 1))) := by
            conv_lhs => rw [hsplit]
            rw [hexEncoding_append, Nat.mod_eq_of_lt hbk,
              (lowerHex_digit (src.getD ((dst_size - 1) / 2) 0 / 16) (by omega)).1,
              List.append_assoc]
            rfl
          rw [e]
          exact List.prefix_append _ _
        · rw [List.length_append, hlt]
          simp only [List.length_cons, List.length_nil]
          omega
      · rw [if_neg hev]
        refine ⟨_, rfl, key _ ?_ ?_⟩
        · conv_rhs => rw [← List.take_append_drop ((dst_size - 1) / 2) src]
          rw [hexEncoding_append]
          exact List.prefix_append _ _
        · rw [hlt]
          omega
    · have hf : decide (src.length * 2 ≥ dst_size) = false := decide_eq_false hadj
      simp only [hf, Bool.false_eq_true, if_false, false_and, List.take_length,
        memtohex_digits src hb]
      refine ⟨_, rfl, key _ (List.prefix_refl _) ?_⟩
      rw [hexEncoding_length]
      omega

/-- Witness of C34: four bytes into buffers of 9, 8, 7 and 1 bytes. -/
theorem memtohex_string_witness :
    wget_memtohex [0xde, 0xad, 0xbe, 0xef] 9 = some "deadbeef".toList ∧
    wget_memtohex [0xde, 0xad, 0xbe, 0xef] 8 = some "deadbee".toList ∧
    wget_memtohex [0xde, 0xad, 0xbe, 0xef] 7 = some "deadbe".toList ∧
    wget_memtohex [0xde, 0xad, 0xbe, 0xef] 1 = some [] ∧
    wget_memtohex [0xde, 0xad, 0xbe, 0xef] 0 = none :=
  ⟨by decide, by decide, by decide, by decide,
   (memtohex_string [0xde, 0xad, 0xbe, 0xef] 0 (by decide) (by norm_num)).1 rfl⟩

/-! ### Waiting for a descriptor -/

/-- `wget_ready_2_read` and `wget_ready_2_write` return 0 or 1, whatever
`poll` gives. -/
theorem ready_2_zero_or_one (k : IoFlags) (poll : Nat → Int → PollResult) (timeout : Int) :
    (wget_ready_2_read k poll timeout = 0 ∨ wget_ready_2_read k poll timeout = 1) ∧
    (wget_ready_2_write k poll timeout = 0 ∨ wget_ready_2_write k poll timeout = 1) := by
  unfold wget_ready_2_read wget_ready_2_write
  constructor <;> split <;> simp

/-- C35, evaluated (`wget_ready_2_read`, `wget_ready_2_write`): when `poll`
fails with -1, `wget_ready_2_transfer` returns -1, and the two functions
return 0, the value of the comparison `> 0`, as they do for a timeout; for a
descriptor that is ready they return 1. -/
theorem ready_2_error_is_zero :
    wget_ready_2_transfer ioFlagsLinux (fun _ _ => { rc := -1, revents := 0 }) 10 1 = -1 ∧
    wget_ready_2_read ioFlagsLinux (fun _ _ => { rc := -1, revents := 0 }) 10 = 0 ∧
    wget_ready_2_write ioFlagsLinux (fun _ _ => { rc := -1, revents := 0 }) 10 = 0 ∧
    wget_ready_2_read ioFlagsLinux (fun _ _ => { rc := 0, revents := 0 }) 10 = 0 ∧
    wget_ready_2_read ioFlagsLinux (fun _ _ => { rc := 1, revents := 1 }) 10 = 1 ∧
    wget_ready_2_write ioFlagsLinux (fun _ _ => { rc := 1, revents := 4 }) 10 = 1 := by
  decide

/-! ### The extension of a file name -/

/-- The name that `_save_file` opens is the name after the block of
`config.adjust_extension`. -/
theorem save_file_open_name (fnmatch : List Char → List Char → Bool → Bool) (config : Config)
    (quota : Int) (resp : SavedResponse) (f : List Char) (oflag : OFlag)
    (renames : List (List Char × List Char)) (name : List Char) (flag : OFlag) (multiple : Bool)
    (hopen : (_save_file fnmatch config quota resp (FileArg.path f) oflag).2
      = SaveAction.open_file renames name flag multiple) :
    name = adjustedName config resp f := by
  unfold _save_file at hopen
  simp only [] at hopen
  split at hopen
  · simp at hopen
  · split at hopen
    · simp at hopen
    · split at hopen
      · simp at hopen
      · split at hopen
        · simp at hopen
        · split at hopen
          · simp at hopen
          · split at hopen
            · simp at hopen
            · split at hopen
              · simp at hopen
              · simp only [SaveAction.open_file.injEq] at hopen
                exact hopen.2.1.symm

theorem adjustExt_cases (ct ext : List Char) (h : adjustExt ct = some ext) :
    ext = ".html".toList ∨ ext = ".css".toList ∨ ext = ".atom".toList ∨ ext = ".rss".toList := by
  unfold adjustExt at h
  split_ifs at h
  · exact Or.inl (Option.some.inj h).symm
  · exact Or.inr (Or.inl (Option.some.inj h).symm)
  · exact Or.inr (Or.inr (Or.inl (Option.some.inj h).symm))
  · exact Or.inr (Or.inr (Or.inr (Option.some.inj h).symm))

/-- The extension that belongs to a content type. -/
theorem adjustExt_type (ct : List Char) (hc : NUL ∉ ct) :
    ((ct.map c_tolower = "text/html".toList ∨
        ct.map c_tolower = "application/xhtml+xml".toList) →
      adjustExt ct = some ".html".toList) ∧
    (ct.map c_tolower = "text/css".toList → adjustExt ct = some ".css".toList) ∧
    (ct.map c_tolower = "application/atom+xml".toList → adjustExt ct = some ".atom".toList) ∧
    (ct.map c_tolower = "application/rss+xml".toList → adjustExt ct = some ".rss".toList) := by
  have e1 := strcasecmp_ascii_iff ct "text/html" hc (by decide)
  have e2 := strcasecmp_ascii_iff ct "application/xhtml+xml" hc (by decide)
  have e3 := strcasecmp_ascii_iff ct "text/css" hc (by decide)
  have e4 := strcasecmp_ascii_iff ct "application/atom+xml" hc (by decide)
  have e5 := strcasecmp_ascii_iff ct "application/rss+xml" hc (by decide)
  have l1 : "text/html".toList.map c_tolower = "text/html".toList := by decide
  have l2 : "application/xhtml+xml".toList.map c_tolower = "application/xhtml+xml".toList := by
    decide
  have l3 : "text/css".toList.map c_tolower = "text/css".toList := by decide
  have l4 : "application/atom+xml".toList.map c_tolower = "application/atom+xml".toList := by
    decide
  have l5 : "application/rss+xml".toList.map c_tolower = "application/rss+xml".toList := by
    decide
  rw [l1] at e1
  rw [l2] at e2
  rw [l3] at e3
  rw [l4] at e4
  rw [l5] at e5
  unfold adjustExt
  refine ⟨fun h => ?_, fun h => ?_, fun h => ?_, fun h => ?_⟩
  · rw [if_pos (h.imp e1.2 e2.2)]
  · have n1 : ¬ (wget_strcasecmp_ascii (some ct) (some "text/html".toList) = 0 ∨
        wget_strcasecmp_ascii (some ct) (some "application/xhtml+xml".toList) = 0) := by
      rintro (h1 | h1)
      · have := e1.1 h1
        rw [h] at this
        revert this
        decide
      · have := e2.1 h1
        rw [h] at this
        revert this
        decide
    rw [if_neg n1, if_pos (e3.2 h)]
  · have n1 : ¬ (wget_strcasecmp_ascii (some ct) (some "text/html".toList) = 0 ∨
        wget_strcasecmp_ascii (some ct) (some "application/xhtml+xml".toList) = 0) := by
      rintro (h1 | h1)
      · have := e1.1 h1
        rw [h] at this
        revert this
        decide
      · have := e2.1 h1
        rw [h] at this
        revert this
        decide
    have n3 : ¬ wget_strcasecmp_ascii (some ct) (some "text/css".toList) = 0 := by
      intro h1
      have := e3.1 h1
      rw [h] at this
      revert this
      decide
    rw [if_neg n1, if_neg n3, if_pos (e4.2 h)]
  · have n1 : ¬ (wget_strcasecmp_ascii (some ct) (some "text/html".toList) = 0 ∨
        wget_strcasecmp_ascii (some ct) (some "application/xhtml+xml".toList) = 0) := by
      rintro (h1 | h1)
      · have := e1.1 h1
        rw [h] at this
        revert this
        decide
      · have := e2.1 h1
        rw [h] at this
        revert this
        decide
    have n3 : ¬ wget_strcasecmp_ascii (some ct) (some "text/css".toList) = 0 := by
      intro h1
      have := e3.1 h1
      rw [h] at this
      revert this
      decide
    have n4 : ¬ wget_strcasecmp_ascii (some ct) (some "application/atom+xml".toList) = 0 := by
      intro h1
      have := e4.1 h1
      rw [h] at this
      revert this
      decide
    rw [if_neg n1, if_neg n3, if_neg n4, if_pos (e5.2 h)]

/-- C39, as stated, fails: with `--adjust-extension` and the content type
`text/html`, `_save_file` opens the name `a` as `a`, without `.html`, and with
`text/css` the name `abc` as `abc`; the names `index` and `abcd`, which are as
long as the extension at least, get it. -/
theorem adjust_extension_short_name :
    cfgAdjust.adjust_extension = true ∧
    (_save_file (fun _ _ _ => false) cfgAdjust 0 (savedOfType "text/html")
      (FileArg.path "a".toList) OFlag.O_TRUNC).2
      = SaveAction.open_file [] "a".toList OFlag.O_EXCL true ∧
    (_save_file (fun _ _ _ => false) cfgAdjust 0 (savedOfType "text/css")
      (FileArg.path "abc".toList) OFlag.O_TRUNC).2
      = SaveAction.open_file [] "abc".toList OFlag.O_EXCL true ∧
    (_save_file (fun _ _ _ => false) cfgAdjust 0 (savedOfType "text/html")
      (FileArg.path "index".toList) OFlag.O_TRUNC).2
      = SaveAction.open_file [] "index.html".toList OFlag.O_EXCL true ∧
    (_save_file (fun _ _ _ => false) cfgAdjust 0 (savedOfType "text/css")
      (FileArg.path "abcd".toList) OFlag.O_TRUNC).2
      = SaveAction.open_file [] "abcd.css".toList OFlag.O_EXCL true := by
  decide

/-- C39, amended (`_save_file`, the block of `config.adjust_extension`): with
adjust_extension set and a content type that is, without regard to ASCII case,
`text/html` or `application/xhtml+xml` (resp. `text/css`,
`application/atom+xml`, `application/rss+xml`), the extension is `.html` (resp.
`.css`, `.atom`, `.rss`); for a file name `f` that is as long as the extension
at least, the name used from there on ends with the extension up to ASCII case:
it is `f` when `f` ends so, and `f` with the extension appended otherwise. A
name shorter than the extension is used as it is. -/
theorem adjust_extension_name (config : Config) (resp : SavedResponse) (f ct : List Char)
    (hadj : config.adjust_extension = true) (hct : resp.content_type = some ct)
    (hf : NUL ∉ f) (hc : NUL ∉ ct) :
    (((ct.map c_tolower = "text/html".toList ∨
        ct.map c_tolower = "application/xhtml+xml".toList) →
      adjustExt ct = some ".html".toList) ∧
    (ct.map c_tolower = "text/css".toList → adjustExt ct = some ".css".toList) ∧
    (ct.map c_tolower = "application/atom+xml".toList → adjustExt ct = some ".atom".toList) ∧
    (ct.map c_tolower = "application/rss+xml".toList → adjustExt ct = some ".rss".toList)) ∧
    (∀ ext, adjustExt ct = some ext →
      (ext.length ≤ f.length →
        suffixMatch true ext (adjustedName config resp f) ∧
        (suffixMatch true ext f → adjustedName config resp f = f) ∧
        (¬ suffixMatch true ext f → adjustedName config resp f = f ++ ext)) ∧
      (f.length < ext.length → adjustedName config resp f = f)) := by
  refine ⟨adjustExt_type ct hc, ?_⟩
  intro ext hext
  have hne : NUL ∉ ext := by
    rcases adjustExt_cases ct ext hext with h | h | h | h <;> rw [h] <;> decide
  have hname : adjustedName config resp f =
      if ext.length ≤ f.length ∧
          wget_strcasecmp_ascii (some (f.drop (f.length - ext.length))) (some ext) ≠ 0
      then f ++ ext else f := by
    unfold adjustedName
    rw [if_pos hadj, hct]
    dsimp only
    rw [hext]
  have hiff := wget_match_tail_nocase_iff f ext hf hne
  have hsm : ∀ name : List Char, suffixMatch true ext name ↔
      ∃ pre suf, name = pre ++ suf ∧ suf.map c_tolower = ext.map c_tolower := by
    intro name
    unfold suffixMatch
    rw [if_pos rfl]
  constructor
  · intro hlen
    have hcmp : wget_strcasecmp_ascii (some (f.drop (f.length - ext.length))) (some ext) = 0 ↔
        suffixMatch true ext f := by
      rw [hsm, ← hiff]
      unfold wget_match_tail_nocase
      rw [decide_eq_true hlen, Bool.true_and, decide_eq_true_eq]
    by_cases hends : suffixMatch true ext f
    · have h0 := hcmp.2 hends
      have e : adjustedName config resp f = f := by
        rw [hname, if_neg (fun h => h.2 h0)]
      rw [e]
      exact ⟨hends, fun _ => rfl, fun h => absurd hends h⟩
    · have h0 : wget_strcasecmp_ascii (some (f.drop (f.length - ext.length))) (some ext) ≠ 0 :=
        fun h => hends (hcmp.1 h)
      have e : adjustedName config resp f = f ++ ext := by
        rw [hname, if_pos ⟨hlen, h0⟩]
      rw [e]
      exact ⟨(hsm _).2 ⟨f, ext, rfl, rfl⟩, fun h => absurd h hends, fun _ => rfl⟩
  · intro hlen
    rw [hname, if_neg (fun h => by omega)]

/-- Witness of C39: the names `index` and `page.HTML` with `text/html`. -/
theorem adjust_extension_name_witness :
    adjustedName cfgAdjust (savedOfType "text/html") "index".toList = "index.html".toList ∧
    adjustedName cfgAdjust (savedOfType "text/html") "page.HTML".toList = "page.HTML".toList ∧
    adjustedName cfgAdjust (savedOfType "text/html") "a".toList = "a".toList := by
  have h := (adjust_extension_name cfgAdjust (savedOfType "text/html") "a".toList
    "text/html".toList rfl rfl (by decide) (by decide)).2 ".html".toList (by decide)
  exact ⟨by decide, by decide, h.2 (by decide)⟩

/-! ### The parameters of a header -/

theorem spanWhile_suffix (p : Char → Bool) : ∀ s : List Char, (spanWhile p s).2 <:+ s := by
  intro s
  induction s with
  | nil => exact List.suffix_refl _
  | cons d s ih =>
    unfold spanWhile
    by_cases hd : p d = true
    · rw [if_pos hd]
      exact ih.trans (List.suffix_cons _ _)
    · rw [if_neg hd]

theorem skipBlank_suffix : ∀ s : List Char, skipBlank s <:+ s := by
  intro s
  induction s with
  | nil => exact List.suffix_refl _
  | cons d s ih =>
    unfold skipBlank
    by_cases hd : c_isblank d = true
    · rw [if_pos hd]
      exact ih.trans (List.suffix_cons _ _)
    · rw [if_neg hd]

theorem adv_suffix (s : List Char) : adv s <:+ s := by
  cases s with
  | nil => exact List.suffix_refl _
  | cons c s => exact List.suffix_cons _ _

theorem quotedBody_suffix : ∀ (n : Nat) (s : List Char), s.length ≤ n → (quotedBody s).2 <:+ s := by
  intro n
  induction n with
  | zero =>
    intro s h
    have : s = [] := List.length_eq_zero.1 (Nat.le_zero.1 h)
    subst this
    exact List.suffix_refl _
  | succ n ih =>
    intro s h
    cases s with
    | nil => exact List.suffix_refl _
    | cons c s =>
      unfold quotedBody
      by_cases h1 : c = '"'
      · rw [if_pos h1]
      · rw [if_neg h1]
        simp only [List.length_cons] at h
        by_cases h2 : c = '\\'
        · rw [if_pos h2]
          cases s with
          | nil => exact List.nil_suffix
          | cons d s2 =>
            simp only [List.length_cons] at h
            exact (ih s2 (by omega)).trans ((List.suffix_cons _ _).trans (List.suffix_cons _ _))
        · rw [if_neg h2]
          exact (ih s (by omega)).trans (List.suffix_cons _ _)

theorem parse_quoted_string_suffix (s : List Char) :
    (wget_http_parse_quoted_string s).1 <:+ s := by
  unfold wget_http_parse_quoted_string
  split
  · rename_i t
    dsimp only
    have h := quotedBody_suffix t.length t (Nat.le_refl _)
    split
    · exact ((adv_suffix _).trans h).trans (List.suffix_cons _ _)
    · exact h.trans (List.suffix_cons _ _)
  · exact List.suffix_refl _

theorem suffix_cons_lt (r t s : List Char) (c : Char) (h1 : r <:+ t) (h2 : c :: t <:+ s) :
    r <:+ s ∧ r.length < s.length := by
  refine ⟨(h1.trans (List.suffix_cons _ _)).trans h2, ?_⟩
  have a := h1.length_le
  have b := h2.length_le
  simp only [List.length_cons] at b
  omega

/-- `wget_http_parse_param` returns a position within the string and, for a
string that is not empty, behind its start. -/
theorem parse_param_progress (s : List Char) (hs : s ≠ []) :
    (wget_http_parse_param s).1 <:+ s ∧ (wget_http_parse_param s).1.length < s.length := by
  have hnil : ([] : List Char) <:+ s ∧ ([] : List Char).length < s.length := by
    refine ⟨List.nil_suffix, ?_⟩
    cases s with
    | nil => exact absurd rfl hs
    | cons _ _ => exact Nat.succ_pos _
  have h1 : (if cur (skipBlank s) = ';' then skipBlank (adv (skipBlank s)) else skipBlank s)
      <:+ s := by
    split
    · exact ((skipBlank_suffix _).trans (adv_suffix _)).trans (skipBlank_suffix s)
    · exact skipBlank_suffix s
  unfold wget_http_parse_param
  dsimp only
  generalize (if cur (skipBlank s) = ';' then skipBlank (adv (skipBlank s)) else skipBlank s)
    = s1 at h1
  cases s1 with
  | nil => exact hnil
  | cons c1 t1 =>
    dsimp only
    have h2 : skipBlank (spanWhile wget_http_istoken (c1 :: t1)).2 <:+ s :=
      ((skipBlank_suffix _).trans (spanWhile_suffix _ _)).trans h1
    generalize skipBlank (spanWhile wget_http_istoken (c1 :: t1)).2 = s2 at h2
    cases s2 with
    | nil => exact hnil
    | cons c t =>
      dsimp only
      by_cases heq : c = '='
      · rw [if_pos heq]
        by_cases hq : cur (skipBlank t) = '"'
        · rw [if_pos hq]
          exact suffix_cons_lt _ t s c
            ((parse_quoted_string_suffix _).trans (skipBlank_suffix t)) h2
        · rw [if_neg hq]
          exact suffix_cons_lt _ t s c
            ((spanWhile_suffix _ _).trans (skipBlank_suffix t)) h2
      · rw [if_neg heq]
        exact suffix_cons_lt _ t s c (List.suffix_refl _) h2

/-- The loops over the parameters end within as many rounds as the string
has bytes, plus the round that sees its end. -/
theorem paramLoop_terminates (stop : Option (List Char) → Option (List Char) → Bool) :
    ∀ (fuel : Nat) (s : List Char), s.length < fuel →
      ∃ r, paramLoop stop fuel s = some r ∧ r <:+ s := by
  intro fuel
  induction fuel with
  | zero => intro s h; cases h
  | succ fuel ih =>
    intro s h
    cases s with
    | nil => exact ⟨[], rfl, List.suffix_refl _⟩
    | cons c t =>
      have hp := parse_param_progress (c :: t) (List.cons_ne_nil _ _)
      unfold paramLoop
      dsimp only
      by_cases hst : stop (wget_http_parse_param (c :: t)).2.1 (wget_http_parse_param (c :: t)).2.2
          = true
      · rw [if_pos hst]
        exact ⟨_, rfl, hp.1⟩
      · rw [if_neg hst]
        obtain ⟨r, hr1, hr2⟩ := ih (wget_http_parse_param (c :: t)).1 (by omega)
        exact ⟨r, hr1, hr2.trans hp.1⟩

theorem paramLoop_end : ∀ (fuel : Nat) (s r : List Char),
    paramLoop (fun _ _ => false) fuel s = some r → r = [] := by
  intro fuel
  induction fuel with
  | zero => intro s r h; cases h
  | succ fuel ih =>
    intro s r h
    cases s with
    | nil => exact (Option.some.inj h).symm
    | cons c t =>
      unfold paramLoop at h
      dsimp only at h
      rw [if_neg (by decide)] at h
      exact ih _ r h

theorem hstsLoop_paramLoop (env : Env) : ∀ (fuel : Nat) (s : List Char) (maxage : Int)
    (inc : Bool) (r : List Char), paramLoop (fun _ _ => false) fuel s = some r →
    (hstsLoop env fuel s maxage inc).1 = r := by
  intro fuel
  induction fuel with
  | zero => intro s maxage inc r h; cases h
  | succ fuel ih =>
    intro s maxage inc r h
    cases s with
    | nil => exact Option.some.inj h
    | cons c t =>
      unfold paramLoop at h
      dsimp only at h
      rw [if_neg (by decide)] at h
      unfold hstsLoop
      dsimp only
      split
      · split
        · exact ih _ _ _ r h
        · exact ih _ _ _ r h
      · split
        · exact ih _ _ _ r h
        · exact ih _ _ _ r h

theorem contentTypeCharset_paramLoop : ∀ (fuel : Nat) (s r : List Char),
    paramLoop stopsAtCharset fuel s = some r → (contentTypeCharset fuel s).1 = r := by
  intro fuel
  induction fuel with
  | zero => intro s r h; cases h
  | succ fuel ih =>
    intro s r h
    cases s with
    | nil => exact Option.some.inj h
    | cons c t =>
      unfold paramLoop at h
      dsimp only at h
      unfold contentTypeCharset
      dsimp only
      by_cases hc : wget_strcasecmp_ascii (some "charset".toList)
          (wget_http_parse_param (c :: t)).2.1 = 0
      · rw [if_pos hc]
        have hst : stopsAtCharset (wget_http_parse_param (c :: t)).2.1
            (wget_http_parse_param (c :: t)).2.2 = true := decide_eq_true hc
        rw [if_pos hst] at h
        exact Option.some.inj h
      · rw [if_neg hc]
        have hst : ¬ stopsAtCharset (wget_http_parse_param (c :: t)).2.1
            (wget_http_parse_param (c :: t)).2.2 = true := fun h => hc (of_decide_eq_true h)
        rw [if_neg hst] at h
        exact ih _ r h

theorem contentDispositionLoop_paramLoop (env : Env) : ∀ (fuel : Nat) (s : List Char)
    (filename : Option (List Char)) (r : List Char),
    paramLoop stopsAtFilenameStar fuel s = some r →
    (contentDispositionLoop env fuel s filename).1 = r := by
  intro fuel
  induction fuel with
  | zero => intro s filename r h; cases h
  | succ fuel ih =>
    intro s filename r h
    cases s with
    | nil => exact Option.some.inj h
    | cons c t =>
      unfold paramLoop at h
      dsimp only at h
      unfold contentDispositionLoop
      dsimp only
      unfold stopsAtFilenameStar at h
      cases hv : (wget_http_parse_param (c :: t)).2.2 with
      | none =>
        rw [hv] at h
        dsimp only at h
        rw [if_neg (by decide)] at h
        exact ih _ _ r h
      | some value =>
        rw [hv] at h
        dsimp only at h ⊢
        by_cases h1 : wget_strcasecmp_ascii (some "filename".toList)
            (wget_http_parse_param (c :: t)).2.1 = 0
        · rw [if_pos h1] at h ⊢
          rw [if_neg (by decide)] at h
          split
          · exact ih _ _ r h
          · exact ih _ _ r h
        · rw [if_neg h1] at h ⊢
          by_cases h2 : wget_strcasecmp_ascii (some "filename*".toList)
              (wget_http_parse_param (c :: t)).2.1 = 0
          · rw [if_pos h2] at h ⊢
            cases hq : strchr '\'' value with
            | none =>
              rw [hq] at h
              dsimp only at h ⊢
              rw [if_neg (by decide)] at h
              exact ih _ _ r h
            | some q =>
              rw [hq] at h
              dsimp only at h ⊢
              cases hq2 : strchr '\'' (adv q) with
              | none =>
                rw [hq2] at h
                dsimp only at h ⊢
                rw [if_neg (by decide)] at h
                exact ih _ _ r h
              | some q2 =>
                rw [hq2] at h
                dsimp only at h ⊢
                cases hp : adv q2 with
                | nil =>
                  rw [hp] at h
                  rw [if_neg (by decide)] at h
                  exact ih _ _ r h
                | cons p0 ps =>
                  rw [hp] at h
                  rw [if_pos (by rfl)] at h
                  exact Option.some.inj h
          · rw [if_neg h2] at h ⊢
            rw [if_neg (by decide)] at h
            exact ih _ _ r h

/-- C40 (`wget_http_parse_param` and the loops that call it): for a string
that is not empty, `wget_http_parse_param` returns a position behind the start
of the string and not behind its end. The loops of
`wget_http_parse_strict_transport_security`, `wget_http_parse_content_type` and
`wget_http_parse_content_disposition` therefore end within `length + 1` rounds,
and the functions return the position at which the loop is left, which for
`wget_http_parse_strict_transport_security` is the end of the string. -/
theorem param_progress (env : Env) (s : List Char) :
    (s ≠ [] → (wget_http_parse_param s).1 <:+ s ∧
      (wget_http_parse_param s).1.length < s.length) ∧
    (paramLoop (fun _ _ => false) (s.length + 1) s = some [] ∧
      (wget_http_parse_strict_transport_security env s).1 = []) ∧
    (∃ r, paramLoop stopsAtCharset
        ((spanWhile (fun c => wget_http_istoken c || c == '/') (skipBlank s)).2.length + 1)
        (spanWhile (fun c => wget_http_istoken c || c == '/') (skipBlank s)).2 = some r ∧
      (wget_http_parse_content_type s).1 = r ∧ r <:+ s) ∧
    (∃ r, paramLoop stopsAtFilenameStar (s.length + 1) s = some r ∧
      (wget_http_parse_content_disposition env s).1 = r ∧ r <:+ s) := by
  refine ⟨parse_param_progress s, ?_, ?_, ?_⟩
  · obtain ⟨r, hr, _⟩ := paramLoop_terminates (fun _ _ => false) (s.length + 1) s
      (Nat.lt_succ_self _)
    have := paramLoop_end _ _ _ hr
    subst this
    exact ⟨hr, hstsLoop_paramLoop env _ _ _ _ _ hr⟩
  · obtain ⟨r, hr, hsuf⟩ := paramLoop_terminates stopsAtCharset _
      (spanWhile (fun c => wget_http_istoken c || c == '/') (skipBlank s)).2 (Nat.lt_succ_self _)
    exact ⟨r, hr, contentTypeCharset_paramLoop _ _ _ hr,
      hsuf.trans ((spanWhile_suffix _ _).trans (skipBlank_suffix s))⟩
  · obtain ⟨r, hr, hsuf⟩ := paramLoop_terminates stopsAtFilenameStar (s.length + 1) s
      (Nat.lt_succ_self _)
    exact ⟨r, hr, contentDispositionLoop_paramLoop env _ _ _ _ hr, hsuf⟩

/-- Witness of C40: the parameters of `; charset=utf-8; x`. -/
theorem param_progress_witness :
    (wget_http_parse_param "; charset=utf-8; x".toList).1 = "; x".toList ∧
    "; x".toList.length < "; charset=utf-8; x".toList.length ∧
    (wget_http_parse_strict_transport_security envExample "max-age=1; x,".toList).1 = [] := by
  have h := param_progress envExample "; charset=utf-8; x".toList
  have h2 := h.1 (by decide)
  have e : (wget_http_parse_param "; charset=utf-8; x".toList).1 = "; x".toList := by decide
  rw [e] at h2
  exact ⟨e, h2.2, (param_progress envExample "max-age=1; x,".toList).2.1.2⟩

end Wget2
